import Mathlib

/-!
# Beacon stateful-instruction pipeline of incognito-chain

Shallow embedding of `blockchain/beaconstatefulinsts.go`,
`blockchain/beaconrelayingproducer.go` and `blockchain/beaconbridgeprocess.go`,
and of the functions of `blockchain/committeestate/swap_rule_v3.go`,
`consensus_v2/blsbft/validation.go`, `database/lvdb/portal.go`,
`portal/metadata/withdrawrewardresponse.go` and
`portalv4/portalprocess/shield.go` that the later sections are about.

Conventions of the embedding.

* A Go `[]string` instruction is a `List String`; `action[1]` on a slice that is
  too short panics in Go, which is the `none` result of the functions below.
* A Go `map[K]V` is an association list; a lookup takes the first binding of a
  key and `range` over the map visits every bound key once. Where the code
  sorts the keys before it visits them the order of `range` plays no part;
  where it does not, in the bridge state applier, that order is a parameter.
* `uint64` values are natural numbers, `int64(x)` is the explicit two's
  complement reinterpretation `int64`.
* A Go `string` used as a pool-pair key is the list of its bytes, compared
  lexicographically as Go compares strings.
* Functions of other packages that are not part of the sources at hand (the
  JSON and base64 codecs, the per-protocol processors, `sort.Slice`) are
  parameters of the definitions that call them.
* A state passed by pointer is threaded through the calls that may change it.
  The pointer is taken to be non-nil, except the relaying chain state, whose
  nil case the code tests.
* A function that returns a pointer with an error returns an `Option`, `none`
  being the nil pointer; dereferencing it is a panic like any other.
* `uint64` additions are taken modulo `2 ^ 64`, and so are the `uint64`
  products of the rate conversion.
* A slice whose backing array is shared between values that the code reads
  after a write, in the swap rule, is a `GoSlice`: the array with the length of
  the slice. A slice expression out of range is a panic.
-/

namespace Incognito

/-! ## Data model -/

/-- An instruction or action as it travels between shards and beacon. -/
abbrev Inst := List String

/-- The bytes of a Go string used as a map key. -/
abbrev Key := List Nat

/-- The Go conversion `int64(x)` of a `uint64` value `x`. -/
def int64 (x : Nat) : Int :=
  if x % 2 ^ 64 < 2 ^ 63 then ((x % 2 ^ 64 : Nat) : Int) else ((x % 2 ^ 64 : Nat) : Int) - 2 ^ 64

/-- The metadata of a trade request, `metadata.PDETradeRequest`. -/
structure PDETradeRequest where
  TokenIDToBuyStr : String
  TokenIDToSellStr : String
  SellAmount : Nat
  MinAcceptableAmount : Nat
  TradingFee : Nat
  TraderAddressStr : String
deriving DecidableEq

/-- A queued trade, `metadata.PDETradeRequestAction`. -/
structure PDETradeRequestAction where
  Meta : PDETradeRequest
  TxReqID : String
  ShardID : Nat
deriving DecidableEq

/-- A reserve pair of the AMM, `lvdb.PDEPoolPair`. -/
structure PDEPoolPair where
  Token1IDStr : String
  Token1PoolValue : Nat
  Token2IDStr : String
  Token2PoolValue : Nat
deriving DecidableEq

/-- The working copy of the AMM state, `CurrentPDEState`. `PDEPoolPairs` is the
map from pool-pair key to a pointer to the pair (`none` is the nil pointer);
`others` stands for the fields this file never reads. -/
structure CurrentPDEState (ρ : Type) where
  PDEPoolPairs : List (Key × Option PDEPoolPair)
  others : ρ
deriving DecidableEq

/-! ## Go maps as association lists -/

/-- The keys bound in a map, each once: what `for k := range m` collects. -/
def mapKeys {κ β : Type} [DecidableEq κ] (m : List (κ × β)) : List κ :=
  (m.map Prod.fst).dedup

/-- Lookup `m[k]` with its `found` flag. -/
def mapFind {κ β : Type} [DecidableEq κ] (m : List (κ × β)) (k : κ) : Option β :=
  match m with
  | [] => none
  | (k', v) :: rest => if k' = k then some v else mapFind rest k

/-- Lookup `m[k]` of a map of slices: the nil slice when the key is absent. -/
def mapGet {κ β : Type} [DecidableEq κ] (m : List (κ × List β)) (k : κ) : List β :=
  (mapFind m k).getD []

/-- The update `m[k] = append(m[k], v)`, creating the one-element slice when the
key is absent: `groupPDEActionsByShardID`, `groupPortalActionsByShardID` and the
grouping by pool pair all have this shape. -/
def mapAppend {κ β : Type} [DecidableEq κ] (m : List (κ × List β)) (k : κ) (v : β) :
    List (κ × List β) :=
  match m with
  | [] => [(k, [v])]
  | (k', vs) :: rest =>
    if k' = k then (k', vs ++ [v]) :: rest else (k', vs) :: mapAppend rest k v

/-- The result of `sort.Ints` on a slice of keys. -/
def sort_Ints (keys : List Nat) : List Nat :=
  keys.insertionSort (· ≤ ·)

/-- The result of `sort.Strings` on a slice of keys. -/
def sort_Strings (keys : List Key) : List Key :=
  keys.insertionSort (· ≤ ·)

/-- The shard IDs of a per-shard map in the order the code visits them. -/
def shardKeys {β : Type} (m : List (Nat × List β)) : List Nat :=
  sort_Ints (mapKeys m)

/-- The entries of a per-shard map in discovery order: shards ascending, then
position within the shard. -/
def inShardOrder {β : Type} (m : List (Nat × List β)) : List β :=
  (shardKeys m).flatMap (mapGet m)

/-! ## The sort behind `sort.Slice` (package `sort` up to Go 1.18)

The slice is a list, `data.Less(i, j)` and `data.Swap(i, j)` act on positions of
its current contents. Counted loops are folds over their index range; the
scanning loops carry their own bound, so none of them can stop early. -/

/-- The call `data.Less(i, j)`. -/
def lessAt {α : Type} (less : α → α → Bool) (data : List α) (i j : Nat) : Bool :=
  match data[i]?, data[j]? with
  | some x, some y => less x y
  | _, _ => false

/-- The call `data.Swap(i, j)`. -/
def swapAt {α : Type} (data : List α) (i j : Nat) : List α :=
  match data[i]?, data[j]? with
  | some x, some y => (data.set i y).set j x
  | _, _ => data

/-- Inner loop of `insertionSort_func`:
`for j := i; j > a && data.Less(j, j-1); j-- { data.Swap(j, j-1) }`. -/
def insertionShift {α : Type} (less : α → α → Bool) (a : Nat) : Nat → List α → List α
  | 0, data => data
  | j + 1, data =>
    if a < j + 1 ∧ lessAt less data (j + 1) j = true then
      insertionShift less a j (swapAt data (j + 1) j)
    else data

/-- The function `insertionSort_func(data, a, b)`. -/
def insertionSort_func {α : Type} (less : α → α → Bool) (data : List α) (a b : Nat) : List α :=
  (List.range' (a + 1) (b - (a + 1))).foldl (fun d i => insertionShift less a i d) data

/-- The function `siftDown_func(data, lo, hi, first)`; the first argument bounds
the number of rounds, and `hi` rounds are never used up because `root` grows in
each of them and stays below `hi`. -/
def siftDown_func {α : Type} (less : α → α → Bool) (hi first : Nat) :
    Nat → Nat → List α → List α
  | 0, _, data => data
  | fuel + 1, root, data =>
    let child := 2 * root + 1
    if hi ≤ child then data
    else
      let child :=
        if child + 1 < hi ∧ lessAt less data (first + child) (first + child + 1) = true then
          child + 1
        else child
      if lessAt less data (first + root) (first + child) = false then data
      else siftDown_func less hi first fuel child (swapAt data (first + root) (first + child))

/-- The function `heapSort_func(data, a, b)`. -/
def heapSort_func {α : Type} (less : α → α → Bool) (data : List α) (a b : Nat) : List α :=
  let first := a
  let lo := 0
  let hi := b - a
  let built := (List.range ((hi - 1) / 2 + 1)).reverse.foldl
    (fun d i => siftDown_func less hi first hi i d) data
  (List.range hi).reverse.foldl
    (fun d i => siftDown_func less i first i lo (swapAt d first (first + i))) built

/-- The function `medianOfThree_func(data, m1, m0, m2)`. -/
def medianOfThree_func {α : Type} (less : α → α → Bool) (data : List α) (m1 m0 m2 : Nat) :
    List α :=
  let data := if lessAt less data m1 m0 = true then swapAt data m1 m0 else data
  if lessAt less data m2 m1 = true then
    let data := swapAt data m2 m1
    if lessAt less data m1 m0 = true then swapAt data m1 m0 else data
  else data

/-- A loop `for ; cond(i); i++ {}`; every use has a condition that fails from an
upper bound on, and passes the distance to that bound as first argument. -/
def scanUp (cond : Nat → Bool) : Nat → Nat → Nat
  | 0, i => i
  | fuel + 1, i => if cond i = true then scanUp cond fuel (i + 1) else i

/-- A loop `for ; cond(c); c-- {}`; every use has a condition that fails at 0. -/
def scanDown (cond : Nat → Bool) : Nat → Nat
  | 0 => 0
  | c + 1 => if cond (c + 1) = true then scanDown cond c else c + 1

/-- The first partition loop of `doPivot_func`, from `b := a` to its `break`;
each round that goes on moves `b` and `c` towards each other. -/
def pivotLoop {α : Type} (less : α → α → Bool) (pivot : Nat) :
    Nat → List α → Nat → Nat → List α × Nat × Nat
  | 0, data, b, c => (data, b, c)
  | fuel + 1, data, b, c =>
    let b := scanUp (fun i => decide (i < c) && !lessAt less data pivot i) (c - b) b
    let c := scanDown (fun k => decide (b < k) && lessAt less data pivot (k - 1)) c
    if c ≤ b then (data, b, c)
    else pivotLoop less pivot fuel (swapAt data b (c - 1)) (b + 1) (c - 1)

/-- The second partition loop of `doPivot_func`, run when `protect` is set. -/
def protectLoop {α : Type} (less : α → α → Bool) (pivot : Nat) :
    Nat → List α → Nat → Nat → List α × Nat × Nat
  | 0, data, a, b => (data, a, b)
  | fuel + 1, data, a, b =>
    let b := scanDown (fun k => decide (a < k) && !lessAt less data (k - 1) pivot) b
    let a := scanUp (fun i => decide (i < b) && lessAt less data i pivot) (b - a) a
    if b ≤ a then (data, a, b)
    else protectLoop less pivot fuel (swapAt data a (b - 1)) (a + 1) (b - 1)

/-- The medians `doPivot_func` takes before it partitions: the pivot moves to
position `lo`. -/
def pivotMedians {α : Type} (less : α → α → Bool) (data : List α) (lo hi : Nat) : List α :=
  let m := (lo + hi) / 2
  let data :=
    if 40 < hi - lo then
      let s := (hi - lo) / 8
      let data := medianOfThree_func less data lo (lo + s) (lo + 2 * s)
      let data := medianOfThree_func less data m (m - s) (m + s)
      medianOfThree_func less data (hi - 1) (hi - 1 - s) (hi - 1 - 2 * s)
    else data
  medianOfThree_func less data lo m (hi - 1)

/-- The block of `doPivot_func` guarded by `!protect && hi-c < (hi-lo)/4`: it
returns the slice, `b`, `c` and `dups`. -/
def pivotDups {α : Type} (less : α → α → Bool) (data : List α) (pivot m hi b c : Nat) :
    List α × Nat × Nat × Nat :=
  let s1 : List α × Nat × Nat :=
    if lessAt less data pivot (hi - 1) = false then (swapAt data c (hi - 1), c + 1, 1)
    else (data, c, 0)
  let s2 : Nat × Nat :=
    if lessAt less s1.1 (b - 1) pivot = false then (b - 1, s1.2.2 + 1) else (b, s1.2.2)
  if lessAt less s1.1 m pivot = false then
    (swapAt s1.1 m (s2.1 - 1), s2.1 - 1, s1.2.1, s2.2 + 1)
  else (s1.1, s2.1, s1.2.1, s2.2)

/-- The function `doPivot_func(data, lo, hi)`, returning the slice with
`(midlo, midhi)`. -/
def doPivot_func {α : Type} (less : α → α → Bool) (data : List α) (lo hi : Nat) :
    List α × Nat × Nat :=
  let m := (lo + hi) / 2
  let data1 := pivotMedians less data lo hi
  let pivot := lo
  let a := scanUp (fun i => decide (i < hi - 1) && lessAt less data1 i pivot)
    (hi - 1 - (lo + 1)) (lo + 1)
  let s1 := pivotLoop less pivot (hi - 1 - a + 1) data1 a (hi - 1)
  let protect := decide (hi - s1.2.2 < 5)
  let s2 : List α × Nat × Nat × Bool :=
    if protect = false ∧ hi - s1.2.2 < (hi - lo) / 4 then
      let d := pivotDups less s1.1 pivot m hi s1.2.1 s1.2.2
      (d.1, d.2.1, d.2.2.1, decide (1 < d.2.2.2))
    else (s1.1, s1.2.1, s1.2.2, protect)
  let s3 : List α × Nat :=
    if s2.2.2.2 = true then
      let r := protectLoop less pivot (s2.2.1 - a + 1) s2.1 a s2.2.1
      (r.1, r.2.2)
    else (s2.1, s2.2.1)
  (swapAt s3.1 pivot (s3.2 - 1), s3.2 - 1, s2.2.2.1)

/-- The pass with gap 6 that `quickSort_func` runs before its insertion sort. -/
def shellPass {α : Type} (less : α → α → Bool) (data : List α) (a b : Nat) : List α :=
  (List.range' (a + 6) (b - (a + 6))).foldl
    (fun d i => if lessAt less d i (i - 6) = true then swapAt d i (i - 6) else d) data

/-- The end of `quickSort_func`, reached when at most 12 elements are left:
the pass with gap 6 and the insertion sort, skipped below two elements. -/
def quickSortTail {α : Type} (less : α → α → Bool) (data : List α) (a b : Nat) : List α :=
  if 1 < b - a then insertionSort_func less (shellPass less data a b) a b else data

/-- The function `quickSort_func(data, a, b, maxDepth)`, with `maxDepth` as
first argument. A further round of its loop is the recursive call on the
remaining range: `maxDepth` has been decremented by then, so the recursion is on
`maxDepth`. -/
def quickSort_func {α : Type} (less : α → α → Bool) : Nat → List α → Nat → Nat → List α
  | 0, data, a, b =>
    if 12 < b - a then heapSort_func less data a b else quickSortTail less data a b
  | depth + 1, data, a, b =>
    if 12 < b - a then
      let pivoted := doPivot_func less data a b
      let mlo := pivoted.2.1
      let mhi := pivoted.2.2
      if mlo - a < b - mhi then
        quickSort_func less depth (quickSort_func less depth pivoted.1 a mlo) mhi b
      else
        quickSort_func less depth (quickSort_func less depth pivoted.1 mhi b) a mlo
    else quickSortTail less data a b

/-- The loop of `maxDepth`: `for i := n; i > 0; i >>= 1 { depth++ }`; `i` is
halved in every round, so `n` rounds are never used up. -/
def maxDepthLoop : Nat → Nat → Nat → Nat
  | 0, _, depth => depth
  | fuel + 1, i, depth => if 0 < i then maxDepthLoop fuel (i / 2) (depth + 1) else depth

/-- The function `maxDepth(n)`. -/
def maxDepth (n : Nat) : Nat :=
  maxDepthLoop n n 0 * 2

/-- The function `sort.Slice(slice, less)`, with the comparator reading the
elements at the two positions. -/
def sort_Slice {α : Type} (less : α → α → Bool) (data : List α) : List α :=
  quickSort_func less (maxDepth data.length) data 0 data.length

/-- What the inner loop of `insertionSort_func` computes, on the sorted prefix
read backwards: `x` passes every element it is less than and stops at the first
one it is not less than. -/
def shiftInto {α : Type} (less : α → α → Bool) (x : α) : List α → List α
  | [] => [x]
  | y :: rp => if less x y = true then y :: shiftInto less x rp else x :: y :: rp

/-! ## Trade ordering -/

/-- The comparator handed to `sort.Slice` in `sortPDETradeInstsByFee`: the two
products are taken over `big.Int` values built with `big.NewInt(int64(...))`. -/
def tradeLess (i j : PDETradeRequestAction) : Bool :=
  decide (int64 j.Meta.TradingFee * int64 i.Meta.SellAmount
    < int64 i.Meta.TradingFee * int64 j.Meta.SellAmount)

/-- Inner loop of the grouping by pool pair, over the actions of one shard. -/
def groupTradeActions (decodeTrade : String → Option PDETradeRequestAction)
    (poolKey : PDETradeRequestAction → Key) :
    List Inst → List (Key × List PDETradeRequestAction) →
      Option (List (Key × List PDETradeRequestAction))
  | [], tradesByPairs => some tradesByPairs
  | action :: rest, tradesByPairs =>
    match action[1]? with
    | none => none
    | some contentStr =>
      match decodeTrade contentStr with
      | none => groupTradeActions decodeTrade poolKey rest tradesByPairs
      | some pdeTradeReqAction =>
        groupTradeActions decodeTrade poolKey rest
          (mapAppend tradesByPairs (poolKey pdeTradeReqAction) pdeTradeReqAction)

/-- Outer loop of the grouping by pool pair, over the sorted shard IDs. -/
def groupTradeShards (decodeTrade : String → Option PDETradeRequestAction)
    (poolKey : PDETradeRequestAction → Key) (pdeTradeActionsByShardID : List (Nat × List Inst)) :
    List Nat → List (Key × List PDETradeRequestAction) →
      Option (List (Key × List PDETradeRequestAction))
  | [], tradesByPairs => some tradesByPairs
  | shardID :: rest, tradesByPairs =>
    match groupTradeActions decodeTrade poolKey (mapGet pdeTradeActionsByShardID shardID)
        tradesByPairs with
    | none => none
    | some grouped => groupTradeShards decodeTrade poolKey pdeTradeActionsByShardID rest grouped

/-- The test that sends a pool's trades around the sort: the pool is absent from
the state, bound to a nil pointer, or has a zero reserve. -/
def poolBypassed (pools : List (Key × Option PDEPoolPair)) (poolPairKey : Key) : Bool :=
  match mapFind pools poolPairKey with
  | none => true
  | some none => true
  | some (some poolPair) =>
    decide (poolPair.Token1PoolValue = 0 ∨ poolPair.Token2PoolValue = 0)

/-- The loop over the sorted pool-pair keys; the accumulator is the pair
`(sortedExistingPairTradeActions, notExistingPairTradeActions)`. -/
def splitTradesByPool
    (sortSlice : (PDETradeRequestAction → PDETradeRequestAction → Bool) →
      List PDETradeRequestAction → List PDETradeRequestAction)
    (pools : List (Key × Option PDEPoolPair))
    (tradesByPairs : List (Key × List PDETradeRequestAction)) :
    List Key → List PDETradeRequestAction × List PDETradeRequestAction →
      List PDETradeRequestAction × List PDETradeRequestAction
  | [], acc => acc
  | poolPairKey :: rest, (sortedExisting, notExisting) =>
    let tradeActions := mapGet tradesByPairs poolPairKey
    if poolBypassed pools poolPairKey then
      splitTradesByPool sortSlice pools tradesByPairs rest
        (sortedExisting, notExisting ++ tradeActions)
    else
      splitTradesByPool sortSlice pools tradesByPairs rest
        (sortedExisting ++ sortSlice tradeLess tradeActions, notExisting)

/-- The function `sortPDETradeInstsByFee`. `poolKey` is
`lvdb.BuildPDEPoolForPairKey` applied to the beacon height and the two token
IDs of the trade, `decodeTrade` is base64 decoding followed by
`json.Unmarshal`, `sortSlice` is `sort.Slice`. -/
def sortPDETradeInstsByFee {ρ : Type}
    (sortSlice : (PDETradeRequestAction → PDETradeRequestAction → Bool) →
      List PDETradeRequestAction → List PDETradeRequestAction)
    (decodeTrade : String → Option PDETradeRequestAction)
    (poolKey : PDETradeRequestAction → Key)
    (currentPDEState : CurrentPDEState ρ)
    (pdeTradeActionsByShardID : List (Nat × List Inst)) :
    Option (List PDETradeRequestAction) :=
  match groupTradeShards decodeTrade poolKey pdeTradeActionsByShardID
      (shardKeys pdeTradeActionsByShardID) [] with
  | none => none
  | some tradesByPairs =>
    let ppKeys := sort_Strings (mapKeys tradesByPairs)
    let split := splitTradesByPool sortSlice currentPDEState.PDEPoolPairs tradesByPairs ppKeys
      ([], [])
    some (split.1 ++ split.2)

/-! ## Collaborators

The functions and constants of other files that the pipeline calls. Each
processor returns its instructions (`none` when it returns an error) and the
state it leaves behind, the state being passed by pointer in the source. -/

/-- The metadata of a relayed header, `metadata.RelayingHeader`; `Type_` is the
field `Type` of the embedded `MetadataBase`. -/
structure RelayingHeader where
  Type_ : Int
  IncogAddressStr : String
  Header : String
  BlockHeight : Nat
deriving DecidableEq

/-- A queued relaying submission, `metadata.RelayingHeaderAction`. -/
structure RelayingHeaderAction where
  Meta : RelayingHeader
  TxReqID : String
  ShardID : Nat
deriving DecidableEq

/-- The content of a relaying instruction, `metadata.RelayingHeaderContent`. -/
structure RelayingHeaderContent where
  IncogAddressStr : String
  Header : String
  TxReqID : String
  BlockHeight : Nat
deriving DecidableEq

/-- A decoded external header with its last commit, `lvdb.BNBHeader`: the
`int64` field `Header.Height`, and everything else as `body`. -/
structure BNBHeader (η : Type) where
  Height : Int
  body : η
deriving DecidableEq

/-- The ten metadata types the sequencer dispatches on, constants of package
`metadata`. -/
structure MetaTypes where
  IssuingRequestMeta : Int
  IssuingETHRequestMeta : Int
  PDEContributionMeta : Int
  PDETradeRequestMeta : Int
  PDEWithdrawalRequestMeta : Int
  PortalCustodianDepositMeta : Int
  PortalUserRegisterMeta : Int
  PortalUserRequestPTokenMeta : Int
  PortalExchangeRatesMeta : Int
  RelayingHeaderMeta : Int

/-- A processor `buildInstructionsFor...(contentStr, shardID, metaType, state,
beaconHeight)`. -/
abbrev Processor (σ : Type) := String → Nat → Int → σ → Nat → Option (List Inst) × σ

/-- The collaborators of the sequencer: `acc` is `metadata.AccumulatedValues`,
`ρ` the unread part of the AMM state, `ψ` the portal state, `χ` the external
header chain `BNBHeaderChain`, `η` the unread part of an external header.
`decodeTrade`, `decodeRelayingAction` and `decodeBNBHeader` are base64 decoding
followed by `json.Unmarshal`, the two `encode` functions are `json.Marshal`
followed by base64 encoding. `ReceiveNewHeader` returns `isValid`, whether its
error is non-nil, and the chain it leaves behind; `LatestHeaderHeight` reads
`LatestHeader.Height`. `SliceExists` is the helper of package `common`. -/
structure Env (acc ρ ψ χ η : Type) where
  types : MetaTypes
  Atoi : String → Option Int
  Itoa : Int → String
  buildInstructionsForIssuingReq : String → Nat → Int → acc → Option (List Inst) × acc
  buildInstructionsForIssuingETHReq : String → Nat → Int → acc → Option (List Inst) × acc
  buildInstructionsForPDETrade : Processor (CurrentPDEState ρ)
  buildInstructionsForPDEWithdrawal : Processor (CurrentPDEState ρ)
  buildInstructionsForPDEContribution : Processor (CurrentPDEState ρ)
  buildInstructionsForCustodianDeposit : Processor ψ
  buildInstructionsForPortingRequest : Processor ψ
  buildInstructionsForReqPTokens : Processor ψ
  buildInstructionsForExchangeRates : Processor ψ
  decodeTrade : String → Option PDETradeRequestAction
  encodeTrade : PDETradeRequestAction → String
  BuildPDEPoolForPairKey : Nat → String → String → Key
  decodeRelayingAction : String → Option RelayingHeaderAction
  encodeRelayingAction : RelayingHeaderAction → String
  decodeBNBHeader : String → Option (BNBHeader η)
  marshalRelayingContent : RelayingHeaderContent → String
  LatestHeaderHeight : χ → Int
  ReceiveNewHeader : χ → BNBHeader η → Bool × Bool × χ
  SliceExists : List Nat → Nat → Bool
  RelayingHeaderRejectedChainStatus : String
  RelayingHeaderConfirmedAcceptedChainStatus : String
  RelayingHeaderUnconfirmedAcceptedChainStatus : String

/-! ## The per-shard loops -/

/-- The loop over the actions of one shard in a stage of `handlePDEInsts` or
`handlePortalInsts`: the payload is `action[1]`, an error of the processor skips
the action, its instructions are appended otherwise. -/
def stageActions {σ : Type} (proc : String → Nat → σ → Option (List Inst) × σ) (shardID : Nat) :
    List Inst → σ × List Inst → Option (σ × List Inst)
  | [], acc => some acc
  | action :: rest, (state, instructions) =>
    match action[1]? with
    | none => none
    | some contentStr =>
      match proc contentStr shardID state with
      | (none, state') => stageActions proc shardID rest (state', instructions)
      | (some newInst, state') =>
        stageActions proc shardID rest (state', instructions ++ newInst)

/-- The loop over the sorted shard IDs of a stage. -/
def stageShards {σ : Type} (proc : String → Nat → σ → Option (List Inst) × σ)
    (actionsByShardID : List (Nat × List Inst)) :
    List Nat → σ × List Inst → Option (σ × List Inst)
  | [], acc => some acc
  | shardID :: rest, acc =>
    match stageActions proc shardID (mapGet actionsByShardID shardID) acc with
    | none => none
    | some acc' => stageShards proc actionsByShardID rest acc'

/-- A whole stage: the keys of the map are collected and sorted, then visited. -/
def runStage {σ : Type} (proc : String → Nat → σ → Option (List Inst) × σ)
    (actionsByShardID : List (Nat × List Inst)) (acc : σ × List Inst) :
    Option (σ × List Inst) :=
  stageShards proc actionsByShardID (shardKeys actionsByShardID) acc

/-! ## AMM instructions -/

/-- The loop of `handlePDEInsts` over the sorted trades: each trade is encoded
again and handed to `buildInstructionsForPDETrade` with its own shard ID. -/
def tradeLoop {σ : Type} (proc : String → Nat → σ → Option (List Inst) × σ)
    (encodeTrade : PDETradeRequestAction → String) :
    List PDETradeRequestAction → σ × List Inst → σ × List Inst
  | [], acc => acc
  | tradeAction :: rest, (state, instructions) =>
    match proc (encodeTrade tradeAction) tradeAction.ShardID state with
    | (none, state') => tradeLoop proc encodeTrade rest (state', instructions)
    | (some newInst, state') =>
      tradeLoop proc encodeTrade rest (state', instructions ++ newInst)

/-- The function `handlePDEInsts`; the result is the instruction list, the
error and the working state left behind. -/
def handlePDEInsts {acc ρ ψ χ η : Type} (E : Env acc ρ ψ χ η)
    (sortSlice : (PDETradeRequestAction → PDETradeRequestAction → Bool) →
      List PDETradeRequestAction → List PDETradeRequestAction)
    (beaconHeight : Nat) (currentPDEState : CurrentPDEState ρ)
    (pdeContributionActionsByShardID pdeTradeActionsByShardID
      pdeWithdrawalActionsByShardID : List (Nat × List Inst)) :
    Option (List Inst × Option String × CurrentPDEState ρ) :=
  match sortPDETradeInstsByFee sortSlice E.decodeTrade
      (fun t => E.BuildPDEPoolForPairKey beaconHeight t.Meta.TokenIDToBuyStr
        t.Meta.TokenIDToSellStr)
      currentPDEState pdeTradeActionsByShardID with
  | none => none
  | some sortedTradesActions =>
    let afterTrades := tradeLoop
      (fun c s st => E.buildInstructionsForPDETrade c s E.types.PDETradeRequestMeta st
        beaconHeight)
      E.encodeTrade sortedTradesActions (currentPDEState, [])
    match runStage
        (fun c s st => E.buildInstructionsForPDEWithdrawal c s
          E.types.PDEWithdrawalRequestMeta st beaconHeight)
        pdeWithdrawalActionsByShardID afterTrades with
    | none => none
    | some afterWithdrawals =>
      match runStage
          (fun c s st => E.buildInstructionsForPDEContribution c s
            E.types.PDEContributionMeta st beaconHeight)
          pdeContributionActionsByShardID afterWithdrawals with
      | none => none
      | some done => some (done.2, none, done.1)

/-! ## Portal instructions -/

/-- The function `handlePortalInsts`; the result is the instruction list, the
error and the portal state left behind. -/
def handlePortalInsts {acc ρ ψ χ η : Type} (E : Env acc ρ ψ χ η)
    (beaconHeight : Nat) (currentPortalState : ψ)
    (portalCustodianDepositActionsByShardID portalUserRequestPortingActionsByShardID
      portalUserRequestPTokenActionsByShardID
      portalExchangeRatesActionsByShardID : List (Nat × List Inst)) :
    Option (List Inst × Option String × ψ) :=
  match runStage
      (fun c s st => E.buildInstructionsForCustodianDeposit c s
        E.types.PortalCustodianDepositMeta st beaconHeight)
      portalCustodianDepositActionsByShardID (currentPortalState, []) with
  | none => none
  | some afterDeposits =>
    match runStage
        (fun c s st => E.buildInstructionsForPortingRequest c s
          E.types.PortalUserRegisterMeta st beaconHeight)
        portalUserRequestPortingActionsByShardID afterDeposits with
    | none => none
    | some afterPorting =>
      match runStage
          (fun c s st => E.buildInstructionsForReqPTokens c s
            E.types.PortalUserRequestPTokenMeta st beaconHeight)
          portalUserRequestPTokenActionsByShardID afterPorting with
      | none => none
      | some afterPTokens =>
        match runStage
            (fun c s st => E.buildInstructionsForExchangeRates c s
              E.types.PortalExchangeRatesMeta st beaconHeight)
            portalExchangeRatesActionsByShardID afterPTokens with
        | none => none
        | some done => some (done.2, none, done.1)

/-! ## Header relaying -/

/-- The result of an `int64` operation whose exact value is `z`. -/
def int64Wrap (z : Int) : Int :=
  (z + 2 ^ 63) % 2 ^ 64 - 2 ^ 63

/-- The function `buildHeaderRelayingInst`. -/
def buildHeaderRelayingInst {acc ρ ψ χ η : Type} (E : Env acc ρ ψ χ η)
    (senderAddressStr header : String) (blockHeight : Nat) (metaType : Int) (shardID : Nat)
    (txReqID : String) (status : String) : Inst :=
  [E.Itoa metaType, E.Itoa (shardID : Int), status,
   E.marshalRelayingContent
     { IncogAddressStr := senderAddressStr, Header := header, TxReqID := txReqID,
       BlockHeight := blockHeight }]

/-- The instruction `buildInstructionsForHeaderRelaying` builds for a decoded
action, with the given status. -/
def relayingInst {acc ρ ψ χ η : Type} (E : Env acc ρ ψ χ η)
    (actionData : RelayingHeaderAction) (shardID : Nat) (status : String) : Inst :=
  buildHeaderRelayingInst E actionData.Meta.IncogAddressStr actionData.Meta.Header
    actionData.Meta.BlockHeight actionData.Meta.Type_ shardID actionData.TxReqID status

/-- The function `buildInstructionsForHeaderRelaying`; `relayingHeaderChain` is
`none` for the nil pointer. The result is the instruction list, the error and
the chain state left behind. -/
def buildInstructionsForHeaderRelaying {acc ρ ψ χ η : Type} (E : Env acc ρ ψ χ η)
    (contentStr : String) (shardID : Nat) (_metaType : Int)
    (relayingHeaderChain : Option χ) (_beaconHeight : Nat) :
    List Inst × Option String × Option χ :=
  match E.decodeRelayingAction contentStr with
  | none => ([], none, relayingHeaderChain)
  | some actionData =>
    match relayingHeaderChain with
    | none =>
      ([relayingInst E actionData shardID E.RelayingHeaderRejectedChainStatus], none, none)
    | some chain =>
      match E.decodeBNBHeader actionData.Meta.Header with
      | none =>
        ([relayingInst E actionData shardID E.RelayingHeaderRejectedChainStatus], none,
          some chain)
      | some newHeader =>
        if newHeader.Height ≠ int64 actionData.Meta.BlockHeight then
          ([relayingInst E actionData shardID E.RelayingHeaderRejectedChainStatus], none,
            some chain)
        else
          let latestHeight := E.LatestHeaderHeight chain
          let received := E.ReceiveNewHeader chain newHeader
          if received.2.1 = true ∨ received.1 = false then
            ([relayingInst E actionData shardID E.RelayingHeaderRejectedChainStatus], none,
              some received.2.2)
          else if E.LatestHeaderHeight received.2.2 = int64Wrap (latestHeight + 1) then
            ([relayingInst E actionData shardID E.RelayingHeaderConfirmedAcceptedChainStatus],
              none, some received.2.2)
          else
            ([relayingInst E actionData shardID E.RelayingHeaderUnconfirmedAcceptedChainStatus],
              none, some received.2.2)

/-- The result of `sort.Slice` with the comparator `<` on a slice of `uint64`
values: the order is total, so every sort leaves the same slice. -/
def sort_Heights (blockHeightArr : List Nat) : List Nat :=
  blockHeightArr.insertionSort (· ≤ ·)

/-- The loop of `sortRelayingInstsByBlockHeight`; the accumulator is the pair
`(actionsGroupByBlockHeight, blockHeightArr)`. The group of a height is created
with the action when the lookup gives nil and extended otherwise, which is
`mapAppend`. -/
def groupRelayingActions {acc ρ ψ χ η : Type} (E : Env acc ρ ψ χ η) :
    List Inst → List (Nat × List RelayingHeaderAction) × List Nat →
      Option (List (Nat × List RelayingHeaderAction) × List Nat)
  | [], grouped => some grouped
  | inst :: rest, (actionsGroupByBlockHeight, blockHeightArr) =>
    match inst[1]? with
    | none => none
    | some contentStr =>
      match E.decodeRelayingAction contentStr with
      | none => groupRelayingActions E rest (actionsGroupByBlockHeight, blockHeightArr)
      | some action =>
        let blockHeight := action.Meta.BlockHeight
        let blockHeightArr :=
          if E.SliceExists blockHeightArr blockHeight = true then blockHeightArr
          else blockHeightArr ++ [blockHeight]
        groupRelayingActions E rest
          (mapAppend actionsGroupByBlockHeight blockHeight action, blockHeightArr)

/-- The function `sortRelayingInstsByBlockHeight`: the groups, the sorted
heights and the error. -/
def sortRelayingInstsByBlockHeight {acc ρ ψ χ η : Type} (E : Env acc ρ ψ χ η)
    (portalPushHeaderRelayingActions : List Inst) :
    Option (List (Nat × List RelayingHeaderAction) × List Nat × Option String) :=
  match groupRelayingActions E portalPushHeaderRelayingActions ([], []) with
  | none => none
  | some grouped => some (grouped.1, sort_Heights grouped.2, none)

/-- The loop of `handleRelayingInsts` over the actions of one height. -/
def relayActions {acc ρ ψ χ η : Type} (E : Env acc ρ ψ χ η) (beaconHeight : Nat) :
    List RelayingHeaderAction → Option χ × List Inst → Option χ × List Inst
  | [], done => done
  | action :: rest, (headerChain, instructions) =>
    match buildInstructionsForHeaderRelaying E (E.encodeRelayingAction action) action.ShardID
        E.types.RelayingHeaderMeta headerChain beaconHeight with
    | (_, some _, headerChain') => relayActions E beaconHeight rest (headerChain', instructions)
    | (newInst, none, headerChain') =>
      relayActions E beaconHeight rest (headerChain', instructions ++ newInst)

/-- The loop of `handleRelayingInsts` over the sorted heights. -/
def relayHeights {acc ρ ψ χ η : Type} (E : Env acc ρ ψ χ η) (beaconHeight : Nat)
    (actionsGroupByBlockHeight : List (Nat × List RelayingHeaderAction)) :
    List Nat → Option χ × List Inst → Option χ × List Inst
  | [], done => done
  | blockHeight :: rest, done =>
    relayHeights E beaconHeight actionsGroupByBlockHeight rest
      (relayActions E beaconHeight (mapGet actionsGroupByBlockHeight blockHeight) done)

/-- The function `handleRelayingInsts`; the result is the instruction list, the
error and the chain state left behind. -/
def handleRelayingInsts {acc ρ ψ χ η : Type} (E : Env acc ρ ψ χ η)
    (beaconHeight : Nat) (headerChain : Option χ) (relayingHeaderActions : List Inst) :
    Option (List Inst × Option String × Option χ) :=
  match sortRelayingInstsByBlockHeight E relayingHeaderActions with
  | none => none
  | some (actionsGroupByBlockHeight, sortedBlockHeights, _) =>
    let done := relayHeights E beaconHeight actionsGroupByBlockHeight sortedBlockHeights
      (headerChain, [])
    some (done.2, none, done.1)

/-! ## The sequencer -/

/-- The local variables of `buildStatefulInstructions` that its first loop
fills. -/
structure Collected (acc : Type) where
  instructions : List Inst
  accumulatedValues : acc
  pdeContributionActionsByShardID : List (Nat × List Inst)
  pdeTradeActionsByShardID : List (Nat × List Inst)
  pdeWithdrawalActionsByShardID : List (Nat × List Inst)
  portalCustodianDepositActionsByShardID : List (Nat × List Inst)
  portalUserReqPortingActionsByShardID : List (Nat × List Inst)
  portalUserReqPTokenActionsByShardID : List (Nat × List Inst)
  portalExchangeRatesActionsByShardID : List (Nat × List Inst)
  relayingActions : List Inst

/-- The body of the first loop of `buildStatefulInstructions`, for one action
of shard `shardID`. -/
def collectAction {acc ρ ψ χ η : Type} (E : Env acc ρ ψ χ η) (shardID : Nat) (action : Inst)
    (c : Collected acc) : Option (Collected acc) :=
  match action[0]? with
  | none => none
  | some first =>
    match E.Atoi first with
    | none => some c
    | some metaType =>
      match action[1]? with
      | none => none
      | some contentStr =>
        if metaType = E.types.IssuingRequestMeta then
          match E.buildInstructionsForIssuingReq contentStr shardID metaType
              c.accumulatedValues with
          | (none, values) => some { c with accumulatedValues := values }
          | (some newInst, values) =>
            some { c with accumulatedValues := values,
                          instructions := c.instructions ++ newInst }
        else if metaType = E.types.IssuingETHRequestMeta then
          match E.buildInstructionsForIssuingETHReq contentStr shardID metaType
              c.accumulatedValues with
          | (none, values) => some { c with accumulatedValues := values }
          | (some newInst, values) =>
            some { c with accumulatedValues := values,
                          instructions := c.instructions ++ newInst }
        else if metaType = E.types.PDEContributionMeta then
          some { c with
            pdeContributionActionsByShardID := mapAppend c.pdeContributionActionsByShardID shardID action }
        else if metaType = E.types.PDETradeRequestMeta then
          some { c with
            pdeTradeActionsByShardID := mapAppend c.pdeTradeActionsByShardID shardID action }
        else if metaType = E.types.PDEWithdrawalRequestMeta then
          some { c with
            pdeWithdrawalActionsByShardID := mapAppend c.pdeWithdrawalActionsByShardID shardID action }
        else if metaType = E.types.PortalCustodianDepositMeta then
          some { c with
            portalCustodianDepositActionsByShardID := mapAppend c.portalCustodianDepositActionsByShardID shardID action }
        else if metaType = E.types.PortalUserRegisterMeta then
          some { c with
            portalUserReqPortingActionsByShardID := mapAppend c.portalUserReqPortingActionsByShardID shardID action }
        else if metaType = E.types.PortalUserRequestPTokenMeta then
          some { c with
            portalUserReqPTokenActionsByShardID := mapAppend c.portalUserReqPTokenActionsByShardID shardID action }
        else if metaType = E.types.PortalExchangeRatesMeta then
          some { c with
            portalExchangeRatesActionsByShardID := mapAppend c.portalExchangeRatesActionsByShardID shardID action }
        else if metaType = E.types.RelayingHeaderMeta then
          some { c with relayingActions := c.relayingActions ++ [action] }
        else some c

/-- The first loop of `buildStatefulInstructions` over the actions of a shard. -/
def collectActions {acc ρ ψ χ η : Type} (E : Env acc ρ ψ χ η) (shardID : Nat) :
    List Inst → Collected acc → Option (Collected acc)
  | [], c => some c
  | action :: rest, c =>
    match collectAction E shardID action c with
    | none => none
    | some c' => collectActions E shardID rest c'

/-- The first loop of `buildStatefulInstructions` over the sorted shard IDs. -/
def collectShards {acc ρ ψ χ η : Type} (E : Env acc ρ ψ χ η)
    (statefulActionsByShardID : List (Nat × List Inst)) :
    List Nat → Collected acc → Option (Collected acc)
  | [], c => some c
  | shardID :: rest, c =>
    match collectActions E shardID (mapGet statefulActionsByShardID shardID) c with
    | none => none
    | some c' => collectShards E statefulActionsByShardID rest c'

/-- The local variables of `buildStatefulInstructions` at the start of its
first loop. -/
def emptyCollected {acc : Type} (accumulatedValues : acc) : Collected acc :=
  { instructions := [], accumulatedValues := accumulatedValues,
    pdeContributionActionsByShardID := [], pdeTradeActionsByShardID := [],
    pdeWithdrawalActionsByShardID := [], portalCustodianDepositActionsByShardID := [],
    portalUserReqPortingActionsByShardID := [], portalUserReqPTokenActionsByShardID := [],
    portalExchangeRatesActionsByShardID := [], relayingActions := [] }

/-- The `uint64` value `beaconHeight - 1`. -/
def previousHeight (beaconHeight : Nat) : Nat :=
  (beaconHeight + (2 ^ 64 - 1)) % 2 ^ 64

/-- The function `buildStatefulInstructions`. The three states are what
`InitCurrentPDEStateFromDB`, `InitCurrentPortalStateFromDB` and
`InitRelayingHeaderChainStateFromDB` return for `beaconHeight - 1`;
`accumulatedValues` is the freshly allocated empty record. -/
def buildStatefulInstructions {acc ρ ψ χ η : Type} (E : Env acc ρ ψ χ η)
    (sortSlice : (PDETradeRequestAction → PDETradeRequestAction → Bool) →
      List PDETradeRequestAction → List PDETradeRequestAction)
    (statefulActionsByShardID : List (Nat × List Inst)) (beaconHeight : Nat)
    (currentPDEState : CurrentPDEState ρ) (currentPortalState : ψ)
    (relayingHeaderState : Option χ) (accumulatedValues : acc) : Option (List Inst) :=
  match collectShards E statefulActionsByShardID (shardKeys statefulActionsByShardID)
      (emptyCollected accumulatedValues) with
  | none => none
  | some c =>
    match handlePDEInsts E sortSlice (previousHeight beaconHeight) currentPDEState
        c.pdeContributionActionsByShardID c.pdeTradeActionsByShardID
        c.pdeWithdrawalActionsByShardID with
    | none => none
    | some (_, some _, _) => some c.instructions
    | some (pdeInsts, none, _) =>
      match handlePortalInsts E (previousHeight beaconHeight) currentPortalState
          c.portalCustodianDepositActionsByShardID c.portalUserReqPortingActionsByShardID
          c.portalUserReqPTokenActionsByShardID c.portalExchangeRatesActionsByShardID with
      | none => none
      | some (_, some _, _) => some (c.instructions ++ pdeInsts)
      | some (portalInsts, none, _) =>
        match handleRelayingInsts E (previousHeight beaconHeight) relayingHeaderState
            c.relayingActions with
        | none => none
        | some (_, some _, _) => some (c.instructions ++ pdeInsts ++ portalInsts)
        | some (relayingInsts, none, _) =>
          some (c.instructions ++ pdeInsts ++ portalInsts ++ relayingInsts)

/-! ## Vocabulary of the statements -/

/-- The trades a list of actions decodes to, in the order of the actions;
an action without payload field or with a payload that does not decode yields
none. -/
def decodedTrades (decodeTrade : String → Option PDETradeRequestAction)
    (actions : List Inst) : List PDETradeRequestAction :=
  actions.filterMap (fun action => (action[1]?).bind decodeTrade)

/-- The decodable trades of a batch in discovery order: shards ascending, then
position within the shard. -/
def discoveredTrades (decodeTrade : String → Option PDETradeRequestAction)
    (pdeTradeActionsByShardID : List (Nat × List Inst)) : List PDETradeRequestAction :=
  decodedTrades decodeTrade (inShardOrder pdeTradeActionsByShardID)

/-- Running a processor over a sequence of calls, each a shard ID with a
payload, from left to right: the state is threaded through the calls, a call
that returns an error adds nothing, the instructions of the others are
appended in the order of the calls. -/
def runCalls {σ : Type} (proc : String → Nat → σ → Option (List Inst) × σ) :
    List (Nat × String) → σ × List Inst → σ × List Inst
  | [], acc => acc
  | call :: rest, (state, instructions) =>
    match proc call.2 call.1 state with
    | (none, state') => runCalls proc rest (state', instructions)
    | (some newInst, state') => runCalls proc rest (state', instructions ++ newInst)

/-- The calls of a stage in the order the contract fixes: shards ascending,
then position within the shard; the payload is field 1 of the action. -/
def stageCalls (actionsByShardID : List (Nat × List Inst)) : List (Nat × String) :=
  (shardKeys actionsByShardID).flatMap
    (fun shardID => (mapGet actionsByShardID shardID).filterMap
      (fun action => (action[1]?).map (fun contentStr => (shardID, contentStr))))

/-- Every action of every shard of the map has at least two fields. -/
def WellFormed (actionsByShardID : List (Nat × List Inst)) : Prop :=
  ∀ shardID ∈ shardKeys actionsByShardID, ∀ action ∈ mapGet actionsByShardID shardID,
    2 ≤ action.length

/-- The relaying actions a list of instructions decodes to, in the order of the
list; an entry without payload field or with a payload that does not decode
yields none. -/
def decodedRelaying {acc ρ ψ χ η : Type} (E : Env acc ρ ψ χ η) (actions : List Inst) :
    List RelayingHeaderAction :=
  actions.filterMap (fun action => (action[1]?).bind E.decodeRelayingAction)

/-- The status the header-relaying verifier is specified to give a decoded
action, with heights compared as exact integers: rejected when the chain state
is nil, the header does not decode, the declared height differs from the height
in the header, or `ReceiveNewHeader` returns an error or false; confirmed when
the `LatestHeader` height after verification is the height before it plus 1;
unconfirmed in every other verified case. -/
def specRelayingStatus {acc ρ ψ χ η : Type} (E : Env acc ρ ψ χ η)
    (relayingHeaderChain : Option χ) (actionData : RelayingHeaderAction) : String :=
  match relayingHeaderChain with
  | none => E.RelayingHeaderRejectedChainStatus
  | some chain =>
    match E.decodeBNBHeader actionData.Meta.Header with
    | none => E.RelayingHeaderRejectedChainStatus
    | some newHeader =>
      if newHeader.Height ≠ (actionData.Meta.BlockHeight : Int) then
        E.RelayingHeaderRejectedChainStatus
      else if (E.ReceiveNewHeader chain newHeader).2.1 = true ∨
          (E.ReceiveNewHeader chain newHeader).1 = false then
        E.RelayingHeaderRejectedChainStatus
      else if E.LatestHeaderHeight (E.ReceiveNewHeader chain newHeader).2.2
          = E.LatestHeaderHeight chain + 1 then
        E.RelayingHeaderConfirmedAcceptedChainStatus
      else E.RelayingHeaderUnconfirmedAcceptedChainStatus

/-- The cases of the switch of `buildStatefulInstructions`. -/
inductive Family where
  | issuing
  | issuingETH
  | pdeContribution
  | pdeTrade
  | pdeWithdrawal
  | custodianDeposit
  | porting
  | ptoken
  | exchangeRates
  | relaying
  | unlisted
deriving DecidableEq

/-- The case a metadata type selects. -/
def familyOfType (types : MetaTypes) (metaType : Int) : Family :=
  if metaType = types.IssuingRequestMeta then Family.issuing
  else if metaType = types.IssuingETHRequestMeta then Family.issuingETH
  else if metaType = types.PDEContributionMeta then Family.pdeContribution
  else if metaType = types.PDETradeRequestMeta then Family.pdeTrade
  else if metaType = types.PDEWithdrawalRequestMeta then Family.pdeWithdrawal
  else if metaType = types.PortalCustodianDepositMeta then Family.custodianDeposit
  else if metaType = types.PortalUserRegisterMeta then Family.porting
  else if metaType = types.PortalUserRequestPTokenMeta then Family.ptoken
  else if metaType = types.PortalExchangeRatesMeta then Family.exchangeRates
  else if metaType = types.RelayingHeaderMeta then Family.relaying
  else Family.unlisted

/-- The case an action selects: none of the listed ones when its first field is
not an integer. -/
def familyOf {acc ρ ψ χ η : Type} (E : Env acc ρ ψ χ η) (action : Inst) : Family :=
  match (action[0]?).bind E.Atoi with
  | none => Family.unlisted
  | some metaType => familyOfType E.types metaType

/-- The actions of a per-shard map in discovery order, each with its shard. -/
def taggedInShardOrder (actionsByShardID : List (Nat × List Inst)) : List (Nat × Inst) :=
  (shardKeys actionsByShardID).flatMap
    (fun shardID => (mapGet actionsByShardID shardID).map (fun action => (shardID, action)))

/-- What one action adds to the bridge-issuance instructions: the instructions
of its issuance processor when it is an issuance action and the processor
returns no error, nothing otherwise. The accumulated values are threaded. -/
def issuingStep {acc ρ ψ χ η : Type} (E : Env acc ρ ψ χ η) (s : acc × List Inst)
    (call : Nat × Inst) : acc × List Inst :=
  match (call.2[0]?).bind E.Atoi, call.2[1]? with
  | some metaType, some contentStr =>
    if metaType = E.types.IssuingRequestMeta then
      match E.buildInstructionsForIssuingReq contentStr call.1 metaType s.1 with
      | (none, values) => (values, s.2)
      | (some newInst, values) => (values, s.2 ++ newInst)
    else if metaType = E.types.IssuingETHRequestMeta then
      match E.buildInstructionsForIssuingETHReq contentStr call.1 metaType s.1 with
      | (none, values) => (values, s.2)
      | (some newInst, values) => (values, s.2 ++ newInst)
    else s
  | _, _ => s

/-- The bridge-issuance instructions of a batch: the issuance actions are taken
by ascending shard ID and in input order within a shard. -/
def bridgeInstructions {acc ρ ψ χ η : Type} (E : Env acc ρ ψ χ η)
    (statefulActionsByShardID : List (Nat × List Inst)) (accumulatedValues : acc) :
    List Inst :=
  ((taggedInShardOrder statefulActionsByShardID).foldl (issuingStep E)
    (accumulatedValues, [])).2

/-- The actions of shard `shardID` that select the case `family`, in input
order. -/
def familyActions {acc ρ ψ χ η : Type} (E : Env acc ρ ψ χ η)
    (statefulActionsByShardID : List (Nat × List Inst)) (family : Family) (shardID : Nat) :
    List Inst :=
  (mapGet statefulActionsByShardID shardID).filter (fun action => familyOf E action = family)

/-- The actions of shard `shardID` and case `family` among a sequence of
actions tagged with their shard. -/
def groupedOf {acc ρ ψ χ η : Type} (E : Env acc ρ ψ χ η) (calls : List (Nat × Inst))
    (family : Family) (shardID : Nat) : List Inst :=
  (calls.filter (fun call => decide (call.1 = shardID ∧ familyOf E call.2 = family))).map
    Prod.snd

/-- What the first loop of `buildStatefulInstructions` has collected once it has
gone through the tagged actions `calls`. -/
structure CollectedOf {acc ρ ψ χ η : Type} (E : Env acc ρ ψ χ η) (accumulatedValues : acc)
    (calls : List (Nat × Inst)) (c : Collected acc) : Prop where
  issuing : (c.accumulatedValues, c.instructions)
    = calls.foldl (issuingStep E) (accumulatedValues, [])
  contribution : ∀ k, mapGet c.pdeContributionActionsByShardID k
    = groupedOf E calls Family.pdeContribution k
  trade : ∀ k, mapGet c.pdeTradeActionsByShardID k = groupedOf E calls Family.pdeTrade k
  withdrawal : ∀ k, mapGet c.pdeWithdrawalActionsByShardID k
    = groupedOf E calls Family.pdeWithdrawal k
  deposit : ∀ k, mapGet c.portalCustodianDepositActionsByShardID k
    = groupedOf E calls Family.custodianDeposit k
  porting : ∀ k, mapGet c.portalUserReqPortingActionsByShardID k
    = groupedOf E calls Family.porting k
  ptoken : ∀ k, mapGet c.portalUserReqPTokenActionsByShardID k
    = groupedOf E calls Family.ptoken k
  rates : ∀ k, mapGet c.portalExchangeRatesActionsByShardID k
    = groupedOf E calls Family.exchangeRates k
  relaying : c.relayingActions
    = (calls.filter (fun call => decide (familyOf E call.2 = Family.relaying))).map Prod.snd

/-- The pool-pair keys of a list of trades, each once, in ascending order. -/
def poolKeysOf (poolKey : PDETradeRequestAction → Key)
    (trades : List PDETradeRequestAction) : List Key :=
  sort_Strings ((trades.map poolKey).dedup)

/-- The contract of `sort.Slice`, as the package documents it: the slice is
rearranged in place, and it ends up sorted when `less` is a transitive ordering
on its elements (if `less x y` and `less y z` then `less x z`; if neither
`less x y` nor `less y z` then not `less x z`), no element being less than
itself. Sorted means that no element is less than an earlier one. -/
structure SortSliceSpec {α : Type} (sortSlice : (α → α → Bool) → List α → List α) : Prop where
  perm : ∀ less data, (sortSlice less data).Perm data
  sorted : ∀ less data,
    (∀ x ∈ data, less x x = false) →
    (∀ x ∈ data, ∀ y ∈ data, ∀ z ∈ data, less x y = true → less y z = true → less x z = true) →
    (∀ x ∈ data, ∀ y ∈ data, ∀ z ∈ data,
      less x y = false → less y z = false → less x z = false) →
    (sortSlice less data).Pairwise (fun x y => less y x = false)

/-- The insertion sort of a whole slice: what `sort.Slice` runs on a short
slice, and a sort that meets the contract on every slice. -/
def insertionSlice {α : Type} (less : α → α → Bool) (data : List α) : List α :=
  insertionSort_func less data 0 data.length

/-! ## Sample data -/

/-- A trade of `sell` units of token `X` for token `buy` with fee `fee`; the
request ID tells the samples apart. -/
def sampleTrade (buy : String) (fee sell : Nat) (txReqID : String) : PDETradeRequestAction :=
  { Meta := { TokenIDToBuyStr := buy, TokenIDToSellStr := "X", SellAmount := sell,
              MinAcceptableAmount := 0, TradingFee := fee, TraderAddressStr := "" },
    TxReqID := txReqID, ShardID := 0 }

/-- A sample codec: the payloads it knows, with the trades they decode to. -/
def sampleTrades : List (String × PDETradeRequestAction) :=
  [("A", sampleTrade "Y" 1 1 "A"), ("Z", sampleTrade "Y" 0 0 "Z"),
   ("B", sampleTrade "Y" 2 1 "B"), ("C", sampleTrade "Y" 10 100 "C"),
   ("D", sampleTrade "Y" 3 10 "D"), ("H", sampleTrade "Y" (2 ^ 63) 1 "H"),
   ("M", sampleTrade "M" 5 1 "M"), ("N", sampleTrade "N" 7 1 "N"),
   ("O", sampleTrade "N" 9 1 "O"), ("L", sampleTrade "Y" 0 1 "L"),
   ("T00", sampleTrade "Y" 1 1 "T00"), ("T01", sampleTrade "Y" 1 1 "T01"),
   ("T02", sampleTrade "Y" 1 1 "T02"), ("T03", sampleTrade "Y" 1 1 "T03"),
   ("T04", sampleTrade "Y" 1 1 "T04"), ("T05", sampleTrade "Y" 1 1 "T05"),
   ("T06", sampleTrade "Y" 1 1 "T06"), ("T07", sampleTrade "Y" 1 1 "T07"),
   ("T08", sampleTrade "Y" 1 1 "T08"), ("T10", sampleTrade "Y" 1 1 "T10"),
   ("T11", sampleTrade "Y" 1 1 "T11"), ("T12", sampleTrade "Y" 1 1 "T12")]

/-- Decoding with the sample codec. -/
def sampleDecode (contentStr : String) : Option PDETradeRequestAction :=
  mapFind sampleTrades contentStr

/-- A sample key builder: the bytes of the two token IDs, bought token first. -/
def samplePoolKey (trade : PDETradeRequestAction) : Key :=
  (trade.Meta.TokenIDToBuyStr.data ++ trade.Meta.TokenIDToSellStr.data).map Char.toNat

/-- A sample state with one funded pool, for the pair of `Y` and `X`; the pair
of `N` and `X` has an empty reserve and the pair of `M` and `X` is absent. -/
def sampleState : CurrentPDEState Unit :=
  { PDEPoolPairs :=
      [([89, 88], some { Token1IDStr := "X", Token1PoolValue := 1000,
                         Token2IDStr := "Y", Token2PoolValue := 2000 }),
       ([78, 88], some { Token1IDStr := "X", Token1PoolValue := 0,
                         Token2IDStr := "N", Token2PoolValue := 50 })],
    others := () }

/-- A sample relaying action declaring `blockHeight`, with header payload
`header`. -/
def sampleRelaying (header : String) (blockHeight : Nat) (shardID : Nat) :
    RelayingHeaderAction :=
  { Meta := { Type_ := 200, IncogAddressStr := "addr", Header := header,
              BlockHeight := blockHeight },
    TxReqID := header, ShardID := shardID }

/-- The payloads of relaying actions the sample codec knows. -/
def sampleRelayingActions : List (String × RelayingHeaderAction) :=
  [("R6", sampleRelaying "H6" 6 0), ("R10", sampleRelaying "H10" 10 1),
   ("R6b", sampleRelaying "H6b" 6 2), ("R3", sampleRelaying "H3" 3 1),
   ("Rmax", sampleRelaying "Hneg" (2 ^ 64 - 1) 0), ("R7", sampleRelaying "Hmin" 7 0),
   ("Rx", sampleRelaying "??" 6 0)]

/-- The headers the sample codec knows. The body of a sample header scripts the
sample verifier: whether it accepts the header, and the `LatestHeader` height it
leaves behind when it does. -/
def sampleHeaders : List (String × BNBHeader (Bool × Int)) :=
  [("H6", { Height := 6, body := (true, 6) }), ("H10", { Height := 10, body := (true, 6) }),
   ("H6b", { Height := 6, body := (false, 0) }), ("H3", { Height := 4, body := (true, 4) }),
   ("Hneg", { Height := -1, body := (true, 6) }),
   ("Hmin", { Height := 7, body := (true, -(2 ^ 63)) })]

/-- The sample metadata types. -/
def sampleTypes : MetaTypes :=
  { IssuingRequestMeta := 24, IssuingETHRequestMeta := 80, PDEContributionMeta := 90,
    PDETradeRequestMeta := 91, PDEWithdrawalRequestMeta := 93,
    PortalCustodianDepositMeta := 100, PortalUserRegisterMeta := 101,
    PortalUserRequestPTokenMeta := 102, PortalExchangeRatesMeta := 103,
    RelayingHeaderMeta := 200 }

/-- A sample processor: the payload `bad` is an error, any other payload yields
one instruction that carries the tag of the processor and the payload, and is
logged in the state. -/
def sampleProcessor (tag : String) (contentStr : String) (_shardID : Nat) (_metaType : Int)
    (log : List String) : Option (List Inst) × List String :=
  if contentStr = "bad" then (none, log) else (some [[tag, contentStr]], log ++ [contentStr])

/-- A sample set of collaborators. The accumulated values and the portal state
are logs of the payloads processed, the external chain is its `LatestHeader`
height. -/
def sampleEnv : Env (List String) Unit (List String) Int (Bool × Int) :=
  { types := sampleTypes,
    Atoi := fun s => mapFind [("24", 24), ("80", 80), ("90", 90), ("91", 91), ("93", 93),
      ("100", 100), ("101", 101), ("102", 102), ("103", 103), ("200", 200), ("7", 7)] s,
    Itoa := fun z => if z = 200 then "200" else if z = 0 then "0" else if z = 1 then "1"
      else if z = 2 then "2" else "n",
    buildInstructionsForIssuingReq := sampleProcessor "issuing",
    buildInstructionsForIssuingETHReq := sampleProcessor "issuingETH",
    buildInstructionsForPDETrade := fun c s t st _ => ((sampleProcessor "trade" c s t []).1, st),
    buildInstructionsForPDEWithdrawal :=
      fun c s t st _ => ((sampleProcessor "withdrawal" c s t []).1, st),
    buildInstructionsForPDEContribution :=
      fun c s t st _ => ((sampleProcessor "contribution" c s t []).1, st),
    buildInstructionsForCustodianDeposit := fun c s t st _ => sampleProcessor "deposit" c s t st,
    buildInstructionsForPortingRequest := fun c s t st _ => sampleProcessor "porting" c s t st,
    buildInstructionsForReqPTokens := fun c s t st _ => sampleProcessor "ptoken" c s t st,
    buildInstructionsForExchangeRates := fun c s t st _ => sampleProcessor "rates" c s t st,
    decodeTrade := sampleDecode,
    encodeTrade := fun t => t.TxReqID,
    BuildPDEPoolForPairKey := fun _ buy sell => (buy.data ++ sell.data).map Char.toNat,
    decodeRelayingAction := mapFind sampleRelayingActions,
    encodeRelayingAction := fun a =>
      if a.Meta.Header = "H6" then "R6" else if a.Meta.Header = "H10" then "R10"
      else if a.Meta.Header = "H6b" then "R6b" else if a.Meta.Header = "H3" then "R3"
      else if a.Meta.Header = "Hneg" then "Rmax" else if a.Meta.Header = "Hmin" then "R7"
      else "Rx",
    decodeBNBHeader := mapFind sampleHeaders,
    marshalRelayingContent := fun c => c.Header,
    LatestHeaderHeight := fun chain => chain,
    ReceiveNewHeader := fun chain newHeader =>
      (newHeader.body.1, false, if newHeader.body.1 = true then newHeader.body.2 else chain),
    SliceExists := fun slice item => decide (item ∈ slice),
    RelayingHeaderRejectedChainStatus := "rejected",
    RelayingHeaderConfirmedAcceptedChainStatus := "confirmed",
    RelayingHeaderUnconfirmedAcceptedChainStatus := "unconfirmed" }

/-- A sample batch of stateful actions over two shards. The action with first
field `7` has a type outside the list, the one with first field `x` has no
integer there, and the issuance payload `bad` makes its processor fail. -/
def sampleBatch : List (Nat × List Inst) :=
  [(1, [["24", "i1"], ["91", "C"], ["100", "d1"], ["200", "R10"], ["93", "w1"],
        ["7", "zzz"], ["x", "y"]]),
   (0, [["91", "D"], ["103", "r0"], ["90", "c0"], ["80", "e0"], ["200", "R6"],
        ["101", "p0"], ["102", "t0"], ["24", "bad"], ["100", "d0"]])]

/-- Sample relaying actions, as `handleRelayingInsts` receives them. -/
def sampleRelayingBatch : List Inst :=
  [["200", "R10"], ["200", "R6"], ["200", "zz"], ["200", "R3"], ["200", "R6b"]]

/-- A sample batch of thirteen trades of the funded pool, from one shard:
twelve with fee 1 for 1 sold, and at the tenth place one with fee 0. -/
def sampleTies : List (Nat × List Inst) :=
  [(0, [["90", "T00"], ["90", "T01"], ["90", "T02"], ["90", "T03"], ["90", "T04"],
        ["90", "T05"], ["90", "T06"], ["90", "T07"], ["90", "T08"], ["90", "L"],
        ["90", "T10"], ["90", "T11"], ["90", "T12"]])]

/-- The test `poolBypassed` on the pool of a trade. -/
def tradeBypassed (poolKey : PDETradeRequestAction → Key)
    (pools : List (Key × Option PDEPoolPair)) (trade : PDETradeRequestAction) : Bool :=
  poolBypassed pools (poolKey trade)

/-! ## The action collector -/

/-- The names of the committee actions, constants of package `blockchain`. -/
structure CommitteeActions where
  SetAction : String
  StakeAction : String
  SwapAction : String
  RandomAction : String
  AssignAction : String

/-- The body of the loop of `collectStatefulActions`. -/
def collectStatefulAction {acc ρ ψ χ η : Type} (E : Env acc ρ ψ χ η) (K : CommitteeActions)
    (statefulInsts : List Inst) (inst : Inst) : List Inst :=
  match inst with
  | first :: _ :: _ =>
    if first = K.SetAction ∨ first = K.StakeAction ∨ first = K.SwapAction
        ∨ first = K.RandomAction ∨ first = K.AssignAction then statefulInsts
    else
      match E.Atoi first with
      | none => statefulInsts
      | some metaType =>
        if metaType = E.types.IssuingRequestMeta ∨ metaType = E.types.IssuingETHRequestMeta
            ∨ metaType = E.types.PDEContributionMeta ∨ metaType = E.types.PDETradeRequestMeta
            ∨ metaType = E.types.PDEWithdrawalRequestMeta
            ∨ metaType = E.types.PortalCustodianDepositMeta
            ∨ metaType = E.types.PortalUserRegisterMeta
            ∨ metaType = E.types.PortalUserRequestPTokenMeta
            ∨ metaType = E.types.PortalExchangeRatesMeta
            ∨ metaType = E.types.RelayingHeaderMeta then statefulInsts ++ [inst]
        else statefulInsts
  | _ => statefulInsts

/-- The function `collectStatefulActions`. -/
def collectStatefulActions {acc ρ ψ χ η : Type} (E : Env acc ρ ψ χ η) (K : CommitteeActions)
    (shardBlockInstructions : List Inst) : List Inst :=
  shardBlockInstructions.foldl (collectStatefulAction E K) []

/-- The allow-list of the collector: the ten metadata types it keeps. -/
def allowList (types : MetaTypes) : List Int :=
  [types.IssuingRequestMeta, types.IssuingETHRequestMeta, types.PDEContributionMeta,
   types.PDETradeRequestMeta, types.PDEWithdrawalRequestMeta, types.PortalCustodianDepositMeta,
   types.PortalUserRegisterMeta, types.PortalUserRequestPTokenMeta,
   types.PortalExchangeRatesMeta, types.RelayingHeaderMeta]

/-- An entry with at least two fields whose first field parses as an integer of
the allow-list. -/
def isStatefulAction {acc ρ ψ χ η : Type} (E : Env acc ρ ψ χ η) (inst : Inst) : Bool :=
  decide (2 ≤ inst.length) &&
    match (inst[0]?).bind E.Atoi with
    | some metaType => decide (metaType ∈ allowList E.types)
    | none => false

/-- The names of the committee actions as a list. -/
def committeeNames (K : CommitteeActions) : List String :=
  [K.SetAction, K.StakeAction, K.SwapAction, K.RandomAction, K.AssignAction]

/-- The committee action names of the repository. -/
def sampleCommittee : CommitteeActions :=
  { SetAction := "set", StakeAction := "stake", SwapAction := "swap",
    RandomAction := "random", AssignAction := "assign" }

/-- A sample bag of shard instructions: two committee actions, an entry of one
field, an entry whose first field is no integer, one of a type outside the
allow-list, and three stateful actions. -/
def sampleBag : List Inst :=
  [["swap", "a", "b"], ["24", "i1"], ["24"], ["x", "y"], ["7", "zzz"], ["200", "R6"],
   ["stake", "k"], [], ["91", "C", "extra"]]

/-! ## The bridge state applier

Shallow embedding of `blockchain/beaconbridgeprocess.go`. The bridge state
database is passed by pointer in the source; here it is threaded through the
functions of package `statedb`, each of which returns its error (`none` is nil)
and the database it leaves behind. An aggregate `map[common.Hash]UpdatingInfo`
is an association list. A run that panics has the result `none`. -/

/-- A `common.Hash`, as the list of its bytes. -/
abbrev Hash := List Nat

/-- The per-token aggregate `UpdatingInfo`. -/
structure UpdatingInfo where
  countUpAmt : Nat
  deductAmt : Nat
  tokenID : Hash
  externalTokenID : List Nat
  isCentralized : Bool
deriving DecidableEq

/-- The aggregates of a block, `map[common.Hash]UpdatingInfo`. -/
abbrev Aggregate := List (Hash × UpdatingInfo)

/-- The fields of `metadata.IssuingETHAcceptedInst` the applier reads. -/
structure IssuingETHAcceptedInst where
  IssuingAmount : Nat
  IncTokenID : Hash
  UniqETHTx : List Nat
  ExternalTokenID : List Nat
deriving DecidableEq

/-- The fields of `metadata.IssuingAcceptedInst` the applier reads. -/
structure IssuingAcceptedInst where
  DepositedAmount : Nat
  IncTokenID : Hash
deriving DecidableEq

/-- The fields of `metadata.ContractingRequest` the applier reads. -/
structure ContractingRequest where
  BurnedAmount : Nat
  TokenID : Hash
deriving DecidableEq

/-- The fields of `metadata.ContractingReqAction` the applier reads. -/
structure ContractingReqAction where
  Meta : ContractingRequest
  TxReqID : Hash
deriving DecidableEq

/-- The `uint64` sum `x + y`. -/
def uint64Add (x y : Nat) : Nat :=
  (x + y) % 2 ^ 64

/-- The value of `big.NewInt(0).SetBytes(bytes)`: the bytes read as an unsigned
big-endian integer. -/
def bigSetBytes (bytes : List Nat) : Nat :=
  bytes.foldl (fun value byte => value * 256 + byte) 0

/-- The result of `Uint64()` on a non-negative `big.Int`: the value itself when
it fits, its low 64 bits otherwise. -/
def bigUint64 (x : Nat) : Nat :=
  x % 2 ^ 64

/-- The assignment `m[k] = v`. -/
def mapSet {κ β : Type} [DecidableEq κ] (m : List (κ × β)) (k : κ) (v : β) : List (κ × β) :=
  match m with
  | [] => [(k, v)]
  | (k', v') :: rest => if k' = k then (k', v) :: rest else (k', v') :: mapSet rest k v

/-- The values of a map, one for each bound key. -/
def mapValues {κ β : Type} [DecidableEq κ] (m : List (κ × β)) : List β :=
  (mapKeys m).filterMap (mapFind m)

/-- The collaborators of the bridge state applier, `δ` being the bridge state
database. The seven metadata types and `BridgeRequestRejectedStatus` are
constants of packages `metadata` and `common`; `EthAddr` is
`rCommon.HexToAddress(common.EthAddrStr).Bytes()`. `NewHashFromStr` and
`NewHash` return a pointer, `none` being the nil pointer they return with an
error. `Base58CheckDecode` is `base58.Base58Check{}.Decode`, `none` when it
returns an error. The three `decode` functions are base64 decoding followed by
`json.Unmarshal`. The functions of package `statedb` return their error and the
database they leave behind, `IsBridgeTokenExistedByType` its answer as well. -/
structure BridgeEnv (δ : Type) where
  Itoa : Int → String
  IssuingETHRequestMeta : Int
  IssuingRequestMeta : Int
  ContractingRequestMeta : Int
  BurningConfirmMeta : Int
  BurningConfirmForDepositToSCMeta : Int
  BurningConfirmMetaV2 : Int
  BurningConfirmForDepositToSCMetaV2 : Int
  BridgeRequestRejectedStatus : Nat
  EthAddr : List Nat
  NewHashFromStr : String → Option Hash
  NewHash : List Nat → Option Hash
  Base58CheckDecode : String → Option (List Nat)
  decodeIssuingETHAcceptedInst : String → Option IssuingETHAcceptedInst
  decodeIssuingAcceptedInst : String → Option IssuingAcceptedInst
  decodeContractingReqAction : String → Option ContractingReqAction
  TrackBridgeReqWithStatus : δ → Hash → Nat → Option String × δ
  InsertETHTxHashIssued : δ → List Nat → Option String × δ
  IsBridgeTokenExistedByType : δ → Hash → Bool → Bool × Option String × δ
  UpdateBridgeTokenInfo : δ → Hash → List Nat → Bool → Nat → String → Option String × δ
  StoreBurningConfirm : δ → Hash → Nat → Option String × δ

/-- The last step shared by `processIssuingETHReq` and `processIssuingReq`: the
amount is added to the `countUpAmt` of the token, whose aggregate is created
when the token has none. -/
def addIssuance (updatingInfoByTokenID : Aggregate) (tokenID : Hash)
    (externalTokenID : List Nat) (isCentralized : Bool) (amount : Nat) : Aggregate :=
  let updatingInfo : UpdatingInfo :=
    match mapFind updatingInfoByTokenID tokenID with
    | some found => { found with countUpAmt := uint64Add found.countUpAmt amount }
    | none =>
      { countUpAmt := amount, deductAmt := 0, tokenID := tokenID,
        externalTokenID := externalTokenID, isCentralized := isCentralized }
  mapSet updatingInfoByTokenID tokenID updatingInfo

/-- The rejected branch shared by `processIssuingETHReq` and
`processIssuingReq`: the request ID is parsed and, when it parses, tracked with
the rejected status; an error of the tracking write is logged and dropped. -/
def trackRejected {δ : Type} (B : BridgeEnv δ) (bridgeStateDB : δ) (content : String) : δ :=
  match B.NewHashFromStr content with
  | none => bridgeStateDB
  | some txReqID =>
    (B.TrackBridgeReqWithStatus bridgeStateDB txReqID B.BridgeRequestRejectedStatus).2

/-- The function `processIssuingETHReq`: the aggregates, the error and the
database left behind. -/
def processIssuingETHReq {δ : Type} (B : BridgeEnv δ) (bridgeStateDB : δ) (instruction : Inst)
    (updatingInfoByTokenID : Aggregate) : Aggregate × Option String × δ :=
  match instruction with
  | [_, _, status, content] =>
    if status = "rejected" then
      (updatingInfoByTokenID, none, trackRejected B bridgeStateDB content)
    else
      match B.decodeIssuingETHAcceptedInst content with
      | none => (updatingInfoByTokenID, none, bridgeStateDB)
      | some issuingETHAcceptedInst =>
        match B.InsertETHTxHashIssued bridgeStateDB issuingETHAcceptedInst.UniqETHTx with
        | (some _, db) => (updatingInfoByTokenID, none, db)
        | (none, db) =>
          (addIssuance updatingInfoByTokenID issuingETHAcceptedInst.IncTokenID
            issuingETHAcceptedInst.ExternalTokenID false issuingETHAcceptedInst.IssuingAmount,
            none, db)
  | _ => (updatingInfoByTokenID, none, bridgeStateDB)

/-- The function `processIssuingReq`. -/
def processIssuingReq {δ : Type} (B : BridgeEnv δ) (bridgeStateDB : δ) (instruction : Inst)
    (updatingInfoByTokenID : Aggregate) : Aggregate × Option String × δ :=
  match instruction with
  | [_, _, status, content] =>
    if status = "rejected" then
      (updatingInfoByTokenID, none, trackRejected B bridgeStateDB content)
    else
      match B.decodeIssuingAcceptedInst content with
      | none => (updatingInfoByTokenID, none, bridgeStateDB)
      | some issuingAcceptedInst =>
        (addIssuance updatingInfoByTokenID issuingAcceptedInst.IncTokenID [] true
          issuingAcceptedInst.DepositedAmount, none, bridgeStateDB)
  | _ => (updatingInfoByTokenID, none, bridgeStateDB)

/-- The last step shared by `processContractingReq` and `processBurningReq`:
the amount is added to the `deductAmt` of the token, whose aggregate is created
when the token has none. -/
def addDeduction (updatingInfoByTokenID : Aggregate) (tokenID : Hash)
    (externalTokenID : List Nat) (isCentralized : Bool) (amount : Nat) : Aggregate :=
  let updatingInfo : UpdatingInfo :=
    match mapFind updatingInfoByTokenID tokenID with
    | some found => { found with deductAmt := uint64Add found.deductAmt amount }
    | none =>
      { countUpAmt := 0, deductAmt := amount, tokenID := tokenID,
        externalTokenID := externalTokenID, isCentralized := isCentralized }
  mapSet updatingInfoByTokenID tokenID updatingInfo

/-- The function `processContractingReq`. -/
def processContractingReq {δ : Type} (B : BridgeEnv δ) (bridgeStateDB : δ) (instruction : Inst)
    (updatingInfoByTokenID : Aggregate) : Aggregate × Option String × δ :=
  match instruction with
  | [_, _, status, content] =>
    if status = "rejected" then (updatingInfoByTokenID, none, bridgeStateDB)
    else
      match B.decodeContractingReqAction content with
      | none => (updatingInfoByTokenID, none, bridgeStateDB)
      | some contractingReqAction =>
        let md := contractingReqAction.Meta
        match B.IsBridgeTokenExistedByType bridgeStateDB md.TokenID true with
        | (_, some _, db) => (updatingInfoByTokenID, none, db)
        | (false, none, db) => (updatingInfoByTokenID, none, db)
        | (true, none, db) =>
          (addDeduction updatingInfoByTokenID md.TokenID [] true md.BurnedAmount, none, db)
  | _ => (updatingInfoByTokenID, none, bridgeStateDB)

/-- The amount `processBurningReq` computes from the decoded external token ID
and amount bytes. -/
def burnedAmount {δ : Type} (B : BridgeEnv δ) (externalTokenID amountBytes : List Nat) : Nat :=
  if externalTokenID = B.EthAddr then bigUint64 (bigSetBytes amountBytes / 1000000000)
  else bigUint64 (bigSetBytes amountBytes)

/-- The function `processBurningReq`. The error of `NewHash` is dropped in the
source and the pointer it returns is dereferenced: the nil pointer is a panic. -/
def processBurningReq {δ : Type} (B : BridgeEnv δ) (bridgeStateDB : δ) (instruction : Inst)
    (updatingInfoByTokenID : Aggregate) : Option (Aggregate × Option String × δ) :=
  if instruction.length < 8 then some (updatingInfoByTokenID, none, bridgeStateDB)
  else
    match instruction[2]?, instruction[6]?, instruction[4]? with
    | some field2, some field6, some field4 =>
      match B.Base58CheckDecode field2, B.Base58CheckDecode field6,
          B.Base58CheckDecode field4 with
      | some externalTokenID, some incTokenIDBytes, some amountBytes =>
        let amount := burnedAmount B externalTokenID amountBytes
        match B.NewHash incTokenIDBytes with
        | none => none
        | some incTokenID =>
          match B.IsBridgeTokenExistedByType bridgeStateDB incTokenID false with
          | (_, some _, db) => some (updatingInfoByTokenID, none, db)
          | (false, none, db) => some (updatingInfoByTokenID, none, db)
          | (true, none, db) =>
            some (addDeduction updatingInfoByTokenID incTokenID externalTokenID false amount,
              none, db)
      | _, _, _ => some (updatingInfoByTokenID, none, bridgeStateDB)
    | _, _, _ => none

/-- The cases of the switch of `processBridgeInstructions`. -/
inductive BridgeKind where
  | issuingETH
  | issuing
  | contracting
  | burning
  | other
deriving DecidableEq

/-- The case the first field of an instruction selects, the cases being tried
from top to bottom. -/
def bridgeKind {δ : Type} (B : BridgeEnv δ) (first : String) : BridgeKind :=
  if first = B.Itoa B.IssuingETHRequestMeta then BridgeKind.issuingETH
  else if first = B.Itoa B.IssuingRequestMeta then BridgeKind.issuing
  else if first = B.Itoa B.ContractingRequestMeta then BridgeKind.contracting
  else if first = B.Itoa B.BurningConfirmMeta ∨ first = B.Itoa B.BurningConfirmForDepositToSCMeta
      ∨ first = B.Itoa B.BurningConfirmMetaV2
      ∨ first = B.Itoa B.BurningConfirmForDepositToSCMetaV2 then BridgeKind.burning
  else BridgeKind.other

/-- The body of the first loop of `processBridgeInstructions`, for one
instruction. -/
def bridgeStep {δ : Type} (B : BridgeEnv δ) (updatingInfoByTokenID : Aggregate)
    (bridgeStateDB : δ) (inst : Inst) : Option (Aggregate × Option String × δ) :=
  match inst with
  | first :: _ :: _ =>
    match bridgeKind B first with
    | BridgeKind.issuingETH =>
      some (processIssuingETHReq B bridgeStateDB inst updatingInfoByTokenID)
    | BridgeKind.issuing => some (processIssuingReq B bridgeStateDB inst updatingInfoByTokenID)
    | BridgeKind.contracting =>
      some (processContractingReq B bridgeStateDB inst updatingInfoByTokenID)
    | BridgeKind.burning => processBurningReq B bridgeStateDB inst updatingInfoByTokenID
    | BridgeKind.other => some (updatingInfoByTokenID, none, bridgeStateDB)
  | _ => some (updatingInfoByTokenID, none, bridgeStateDB)

/-- The first loop of `processBridgeInstructions`: it stops at the first error
a processor returns. -/
def bridgeScan {δ : Type} (B : BridgeEnv δ) :
    List Inst → Aggregate → δ → Option (Aggregate × Option String × δ)
  | [], updatingInfoByTokenID, bridgeStateDB => some (updatingInfoByTokenID, none, bridgeStateDB)
  | inst :: rest, updatingInfoByTokenID, bridgeStateDB =>
    match bridgeStep B updatingInfoByTokenID bridgeStateDB inst with
    | none => none
    | some (updated, some err, db) => some (updated, some err, db)
    | some (updated, none, db) => bridgeScan B rest updated db

/-- The arguments of a call of `statedb.UpdateBridgeTokenInfo`. -/
structure UpdateCall where
  tokenID : Hash
  externalTokenID : List Nat
  isCentralized : Bool
  updatingAmt : Nat
  updatingType : String
deriving DecidableEq

/-- The arguments the second loop of `processBridgeInstructions` computes for
an aggregate: amount and direction start as `0` and the empty string, and each
of the two tests may set them. -/
def updatingCall (updatingInfo : UpdatingInfo) : UpdateCall :=
  let start : Nat × String := (0, "")
  let afterUp : Nat × String :=
    if updatingInfo.countUpAmt > updatingInfo.deductAmt then
      (updatingInfo.countUpAmt - updatingInfo.deductAmt, "+")
    else start
  let afterDown : Nat × String :=
    if updatingInfo.countUpAmt < updatingInfo.deductAmt then
      (updatingInfo.deductAmt - updatingInfo.countUpAmt, "-")
    else afterUp
  { tokenID := updatingInfo.tokenID, externalTokenID := updatingInfo.externalTokenID,
    isCentralized := updatingInfo.isCentralized, updatingAmt := afterDown.1,
    updatingType := afterDown.2 }

/-- The second loop of `processBridgeInstructions` over the aggregates in the
order `range` yields them: one call of `UpdateBridgeTokenInfo` each, the first
error being returned. -/
def updateLoop {δ : Type} (B : BridgeEnv δ) : List UpdatingInfo → δ → Option String × δ
  | [], bridgeStateDB => (none, bridgeStateDB)
  | updatingInfo :: rest, bridgeStateDB =>
    let call := updatingCall updatingInfo
    match B.UpdateBridgeTokenInfo bridgeStateDB call.tokenID call.externalTokenID
        call.isCentralized call.updatingAmt call.updatingType with
    | (some err, db) => (some err, db)
    | (none, db) => updateLoop B rest db

/-- The function `processBridgeInstructions` on the instructions of a block:
the error and the database left behind. `mapRange` gives the aggregates of the
map in the order the `range` loop visits them, which Go leaves open. -/
def processBridgeInstructions {δ : Type} (B : BridgeEnv δ)
    (mapRange : Aggregate → List UpdatingInfo) (bridgeStateDB : δ) (instructions : List Inst) :
    Option (Option String × δ) :=
  match bridgeScan B instructions [] bridgeStateDB with
  | none => none
  | some (_, some err, db) => some (some err, db)
  | some (updatingInfoByTokenID, none, db) =>
    some (updateLoop B (mapRange updatingInfoByTokenID) db)

/-- The function `storeBurningConfirm`: the error and the database left behind.
The inner loop compares `inst[0]` with each entry of `metas`; `inst[5]` is read
once a match is found. The two errors are wrapped, with the messages
`txid invalid` and `store failed`. -/
def storeBurningConfirm {δ : Type} (B : BridgeEnv δ) (blockHeight : Nat) (metas : List String) :
    List Inst → δ → Option (Option String × δ)
  | [], stateDB => some (none, stateDB)
  | inst :: rest, stateDB =>
    match metas, inst[0]? with
    | [], _ => storeBurningConfirm B blockHeight metas rest stateDB
    | _ :: _, none => none
    | _ :: _, some first =>
      if first ∈ metas then
        match inst[5]? with
        | none => none
        | some field5 =>
          match B.NewHashFromStr field5 with
          | none => some (some "txid invalid", stateDB)
          | some txID =>
            match B.StoreBurningConfirm stateDB txID blockHeight with
            | (some _, db) => some (some "store failed", db)
            | (none, db) => storeBurningConfirm B blockHeight metas rest db
      else storeBurningConfirm B blockHeight metas rest stateDB

/-! ## Vocabulary of the bridge statements -/

/-- The `countUpAmt` an aggregate map keeps for a token, `0` when it keeps no
aggregate for it. -/
def countUpOf (m : Aggregate) (t : Hash) : Nat :=
  ((mapFind m t).map (fun info => info.countUpAmt)).getD 0

/-- The `deductAmt` an aggregate map keeps for a token, `0` when it keeps no
aggregate for it. -/
def deductOf (m : Aggregate) (t : Hash) : Nat :=
  ((mapFind m t).map (fun info => info.deductAmt)).getD 0

/-- An accepted ETH issuance instruction: four fields, a status other than
`rejected`, a payload that decodes and an ETH transaction hash that is inserted
without error. -/
def acceptedIssuingETH {δ : Type} (B : BridgeEnv δ) (db : δ) (inst : Inst) :
    Option IssuingETHAcceptedInst :=
  match inst with
  | [_, _, status, content] =>
    if status = "rejected" then none
    else
      match B.decodeIssuingETHAcceptedInst content with
      | none => none
      | some x => if (B.InsertETHTxHashIssued db x.UniqETHTx).1 = none then some x else none
  | _ => none

/-- An accepted issuance instruction: four fields, a status other than
`rejected` and a payload that decodes. -/
def acceptedIssuing {δ : Type} (B : BridgeEnv δ) (inst : Inst) : Option IssuingAcceptedInst :=
  match inst with
  | [_, _, status, content] =>
    if status = "rejected" then none else B.decodeIssuingAcceptedInst content
  | _ => none

/-- An accepted contracting instruction: four fields, a status other than
`rejected`, a payload that decodes and a token of the centralized registry. -/
def acceptedContracting {δ : Type} (B : BridgeEnv δ) (db : δ) (inst : Inst) :
    Option ContractingRequest :=
  match inst with
  | [_, _, status, content] =>
    if status = "rejected" then none
    else
      match B.decodeContractingReqAction content with
      | none => none
      | some action =>
        match B.IsBridgeTokenExistedByType db action.Meta.TokenID true with
        | (true, none, _) => some action.Meta
        | _ => none
  | _ => none

/-- An accepted burning instruction: at least eight fields, of which the
external token, the internal token and the amount decode, and an internal token
of the decentralized registry. The result is the internal token, the external
token and the bytes of the amount. -/
def acceptedBurning {δ : Type} (B : BridgeEnv δ) (db : δ) (inst : Inst) :
    Option (Hash × List Nat × List Nat) :=
  if inst.length < 8 then none
  else
    match (inst[2]?).bind B.Base58CheckDecode, (inst[6]?).bind B.Base58CheckDecode,
        (inst[4]?).bind B.Base58CheckDecode with
    | some externalTokenID, some incTokenIDBytes, some amountBytes =>
      match B.NewHash incTokenIDBytes with
      | none => none
      | some incTokenID =>
        match B.IsBridgeTokenExistedByType db incTokenID false with
        | (true, none, _) => some (incTokenID, externalTokenID, amountBytes)
        | _ => none
    | _, _, _ => none

/-- The token and amount of an instruction that is an accepted issuance. -/
def acceptedIssuance {δ : Type} (B : BridgeEnv δ) (db : δ) (inst : Inst) : Option (Hash × Nat) :=
  match inst with
  | first :: _ :: _ =>
    match bridgeKind B first with
    | BridgeKind.issuingETH =>
      (acceptedIssuingETH B db inst).map (fun x => (x.IncTokenID, x.IssuingAmount))
    | BridgeKind.issuing =>
      (acceptedIssuing B inst).map (fun x => (x.IncTokenID, x.DepositedAmount))
    | _ => none
  | _ => none

/-- The token and amount of an instruction that is an accepted contracting or
burning; the amount of a burning is the one `burnedAmount` computes. -/
def acceptedDeduction {δ : Type} (B : BridgeEnv δ) (db : δ) (inst : Inst) : Option (Hash × Nat) :=
  match inst with
  | first :: _ :: _ =>
    match bridgeKind B first with
    | BridgeKind.contracting =>
      (acceptedContracting B db inst).map (fun md => (md.TokenID, md.BurnedAmount))
    | BridgeKind.burning =>
      (acceptedBurning B db inst).map (fun b => (b.1, burnedAmount B b.2.1 b.2.2))
    | _ => none
  | _ => none

/-- The amount of an entry for token `t`: `0` when there is no entry or it is
for another token. -/
def amountFor (t : Hash) (entry : Option (Hash × Nat)) : Nat :=
  match entry with
  | some (token, amount) => if token = t then amount else 0
  | none => 0

/-- The database an instruction leaves behind when the applier processes it. -/
def stateAfter {δ : Type} (B : BridgeEnv δ) (db : δ) (inst : Inst) : δ :=
  match bridgeStep B [] db inst with
  | some r => r.2.2
  | none => db

/-- The exact sum of the amounts of the accepted issuance instructions of a
list for token `t`, the database being the one each instruction finds. -/
def issuedSum {δ : Type} (B : BridgeEnv δ) (t : Hash) : List Inst → δ → Nat
  | [], _ => 0
  | inst :: rest, db =>
    amountFor t (acceptedIssuance B db inst) + issuedSum B t rest (stateAfter B db inst)

/-- The exact sum of the amounts of the accepted contracting and burning
instructions of a list for token `t`. -/
def deductedSum {δ : Type} (B : BridgeEnv δ) (t : Hash) : List Inst → δ → Nat
  | [], _ => 0
  | inst :: rest, db =>
    amountFor t (acceptedDeduction B db inst) + deductedSum B t rest (stateAfter B db inst)

/-- The payloads decode to amounts that are `uint64` values. -/
def AmountsInRange {δ : Type} (B : BridgeEnv δ) : Prop :=
  (∀ content x, B.decodeIssuingETHAcceptedInst content = some x → x.IssuingAmount < 2 ^ 64) ∧
  (∀ content x, B.decodeIssuingAcceptedInst content = some x → x.DepositedAmount < 2 ^ 64) ∧
  (∀ content x, B.decodeContractingReqAction content = some x → x.Meta.BurnedAmount < 2 ^ 64)

/-- The amounts of the aggregates of a map are `uint64` values. -/
def AmountsBounded (m : Aggregate) : Prop :=
  ∀ t info, mapFind m t = some info → info.countUpAmt < 2 ^ 64 ∧ info.deductAmt < 2 ^ 64

/-- Each aggregate of a map is kept under its own token. -/
def KeyedByToken (m : Aggregate) : Prop :=
  ∀ t info, mapFind m t = some info → info.tokenID = t

/-- No burning instruction of the list makes `NewHash` return the nil pointer:
the bytes its internal token field decodes to are a hash. -/
def HashesValid {δ : Type} (B : BridgeEnv δ) (instructions : List Inst) : Prop :=
  ∀ inst ∈ instructions, ∀ bytes, (inst[6]?).bind B.Base58CheckDecode = some bytes →
    (B.NewHash bytes).isSome = true

/-- Whether an entry names token `t`. -/
def namesToken (t : Hash) (entry : Option (Hash × Nat)) : Bool :=
  match entry with
  | some (token, _) => decide (token = t)
  | none => false

/-- Whether some instruction of the list is accepted with token `t`, as an
issuance, a contracting or a burning. -/
def acceptedFor {δ : Type} (B : BridgeEnv δ) (t : Hash) : List Inst → δ → Bool
  | [], _ => false
  | inst :: rest, db =>
    namesToken t (acceptedIssuance B db inst) || namesToken t (acceptedDeduction B db inst)
      || acceptedFor B t rest (stateAfter B db inst)

/-- What a step of the scan does to the aggregates when it adds an amount for
one token: `up` goes to the `countUpAmt` and `down` to the `deductAmt` of token
`tok`, in `uint64` arithmetic, and the other tokens are left alone. -/
structure AddsTo (m m' : Aggregate) (tok : Hash) (up down : Nat) : Prop where
  countUp : ∀ t, countUpOf m' t = (countUpOf m t + if tok = t then up else 0) % 2 ^ 64
  deduct : ∀ t, deductOf m' t = (deductOf m t + if tok = t then down else 0) % 2 ^ 64
  bound : AmountsBounded m'
  keyed : KeyedByToken m'
  keys : ∀ t, (mapFind m' t).isSome = (decide (tok = t) || (mapFind m t).isSome)

/-- What a step of the scan does to the aggregates, `up` and `down` being the
issuance and the deduction the instruction is accepted as. -/
structure StepAdds (m m' : Aggregate) (up down : Option (Hash × Nat)) : Prop where
  countUp : ∀ t, countUpOf m' t = (countUpOf m t + amountFor t up) % 2 ^ 64
  deduct : ∀ t, deductOf m' t = (deductOf m t + amountFor t down) % 2 ^ 64
  bound : AmountsBounded m'
  keyed : KeyedByToken m'
  keys : ∀ t, (mapFind m' t).isSome = ((mapFind m t).isSome || namesToken t up || namesToken t down)

/-- What the scan of a block keeps for token `t`: its `countUpAmt`, its
`deductAmt`, and the error of the scan. -/
def scanAmounts {δ : Type} (B : BridgeEnv δ) (instructions : List Inst) (db : δ) (t : Hash) :
    Option (Nat × Nat × Option String) :=
  (bridgeScan B instructions [] db).map (fun r => (countUpOf r.1 t, deductOf r.1 t, r.2.1))

/-! ## Sample data of the bridge -/

/-- A write to the sample bridge database. -/
inductive BridgeWrite where
  | track (txReqID : Hash) (status : Nat)
  | ethTx (uniqETHTx : List Nat)
  | update (call : UpdateCall)
  | burningConfirm (txID : Hash) (blockHeight : Nat)
deriving DecidableEq

/-- A sample hash: 31 zero bytes and a last byte. -/
def sampleHash (n : Nat) : Hash :=
  List.replicate 31 0 ++ [n]

/-- The sample collaborators of the bridge. The database is the log of the
writes made to it, and every write succeeds, except that an ETH transaction
hash cannot be inserted twice. `NewHash` returns the nil pointer for bytes that
are not 32 long. Token 1 is in the centralized registry, tokens 2 and 3 are in
the decentralized one. -/
def sampleBridge : BridgeEnv (List BridgeWrite) :=
  { Itoa := fun z => if z = 80 then "80" else if z = 24 then "24" else if z = 26 then "26"
      else if z = 72 then "72" else if z = 97 then "97" else if z = 240 then "240"
      else if z = 242 then "242" else "n",
    IssuingETHRequestMeta := 80,
    IssuingRequestMeta := 24,
    ContractingRequestMeta := 26,
    BurningConfirmMeta := 72,
    BurningConfirmForDepositToSCMeta := 97,
    BurningConfirmMetaV2 := 240,
    BurningConfirmForDepositToSCMetaV2 := 242,
    BridgeRequestRejectedStatus := 1,
    EthAddr := List.replicate 20 0,
    NewHashFromStr := mapFind [("tx1", sampleHash 17), ("tx2", sampleHash 18)],
    NewHash := fun bytes => if bytes.length = 32 then some bytes else none,
    Base58CheckDecode := mapFind
      [("eth", List.replicate 20 0), ("erc", List.replicate 19 0 ++ [1]),
       ("T2", sampleHash 2), ("T3", sampleHash 3), ("T4", sampleHash 4), ("short", [1, 2, 3]),
       ("a1", [1]), ("a5", [5]), ("a7e9", [1, 161, 59, 134, 123]),
       ("aMax", List.replicate 8 255), ("a64", [1, 0, 0, 0, 0, 0, 0, 0, 0])],
    decodeIssuingETHAcceptedInst := mapFind
      [("e5", { IssuingAmount := 5, IncTokenID := sampleHash 2, UniqETHTx := [1],
                ExternalTokenID := List.replicate 19 0 ++ [1] }),
       ("e9", { IssuingAmount := 9, IncTokenID := sampleHash 2, UniqETHTx := [4],
                ExternalTokenID := List.replicate 19 0 ++ [1] }),
       ("eHalf", { IssuingAmount := 2 ^ 63, IncTokenID := sampleHash 3, UniqETHTx := [2],
                   ExternalTokenID := List.replicate 20 0 }),
       ("eHalf2", { IssuingAmount := 2 ^ 63, IncTokenID := sampleHash 3, UniqETHTx := [3],
                    ExternalTokenID := List.replicate 20 0 })],
    decodeIssuingAcceptedInst := mapFind
      [("i7", { DepositedAmount := 7, IncTokenID := sampleHash 1 })],
    decodeContractingReqAction := mapFind
      [("c3", { Meta := { BurnedAmount := 3, TokenID := sampleHash 1 }, TxReqID := sampleHash 9 }),
       ("c4", { Meta := { BurnedAmount := 4, TokenID := sampleHash 4 }, TxReqID := sampleHash 9 })],
    TrackBridgeReqWithStatus := fun db txReqID status =>
      (none, db ++ [BridgeWrite.track txReqID status]),
    InsertETHTxHashIssued := fun db uniqETHTx =>
      if BridgeWrite.ethTx uniqETHTx ∈ db then (some "issued", db)
      else (none, db ++ [BridgeWrite.ethTx uniqETHTx]),
    IsBridgeTokenExistedByType := fun db tokenID isCentralized =>
      (decide ((tokenID, isCentralized)
        ∈ [(sampleHash 1, true), (sampleHash 2, false), (sampleHash 3, false)]), none, db),
    UpdateBridgeTokenInfo := fun db tokenID externalTokenID isCentralized amount updateType =>
      (none, db ++ [BridgeWrite.update
        { tokenID := tokenID, externalTokenID := externalTokenID,
          isCentralized := isCentralized, updatingAmt := amount, updatingType := updateType }]),
    StoreBurningConfirm := fun db txID blockHeight =>
      (none, db ++ [BridgeWrite.burningConfirm txID blockHeight]) }

/-- A sample burning-confirm instruction of eight fields: the external token,
the amount and the internal token sit in fields 2, 4 and 6, the transaction ID
in field 5. -/
def sampleBurning (externalToken amount txID incToken : String) : Inst :=
  ["72", "1", externalToken, "receiver", amount, txID, incToken, "height"]

/-- A sample block: an accepted and a rejected ETH issuance, an entry of one
field, a centralized issuance and contracting, a burning of `7 * 10 ^ 9 + 123`
units of ETH and one of 5 units of another token, a contracting of a token that
is not registered, and an instruction of another type. -/
def sampleBlock : List Inst :=
  [["80", "0", "accepted", "e5"], ["80", "0", "rejected", "tx1"], ["80"],
   ["24", "0", "accepted", "i7"], ["26", "0", "accepted", "c3"],
   sampleBurning "eth" "a7e9" "tx1" "T3", sampleBurning "erc" "a5" "tx2" "T2",
   ["26", "0", "accepted", "c4"], ["80", "0", "accepted", "e9"], ["37", "x"]]

/-- The aggregates the scan of the sample block leaves. -/
def sampleAggregate : Aggregate :=
  [(sampleHash 2, { countUpAmt := 14, deductAmt := 5, tokenID := sampleHash 2,
                    externalTokenID := List.replicate 19 0 ++ [1], isCentralized := false }),
   (sampleHash 1, { countUpAmt := 7, deductAmt := 3, tokenID := sampleHash 1,
                    externalTokenID := [], isCentralized := true }),
   (sampleHash 3, { countUpAmt := 0, deductAmt := 7, tokenID := sampleHash 3,
                    externalTokenID := List.replicate 20 0, isCentralized := false })]

/-- The batch without the trade actions whose payload does not decode. -/
def deleteMalformed (decodeTrade : String → Option PDETradeRequestAction)
    (pdeTradeActionsByShardID : List (Nat × List Inst)) : List (Nat × List Inst) :=
  pdeTradeActionsByShardID.map (fun entry =>
    (entry.1, entry.2.filter (fun action => ((action[1]?).bind decodeTrade).isSome)))

/-! ## The swap rule of version 3 (`committeestate/swap_rule_v3.go`)

Go values of type `int` are integers; a length is a natural number. A slice
whose backing array matters is a `GoSlice`; a slice that is only read is the
list of its elements. The result `none` is a panic: a slice expression out of
range or a division by zero. -/

/-- A Go slice of strings with its backing array: `array` holds the array from
the first element of the slice up to the capacity of the slice, and the slice
is the first `len` entries of it. -/
structure GoSlice where
  array : List String
  len : Nat
deriving DecidableEq, Repr

/-- The elements of a slice. -/
def GoSlice.elems (s : GoSlice) : List String :=
  s.array.take s.len

/-- The array `array` with the values `xs` written from the position `i` on. -/
def writeAt (array : List String) (i : Nat) (xs : List String) : List String :=
  array.take i ++ xs ++ array.drop (i + xs.length)

/-- The Go built-in `append(s, xs...)`. While the capacity suffices the values
are written into the backing array of `s`, behind its elements; otherwise a new
array is allocated, of a capacity that the runtime picks, and that is at least
the needed length: `growCap` given the old capacity and the needed length. The
values `xs` are read before any is written. -/
def goAppend (growCap : Nat → Nat → Nat) (s : GoSlice) (xs : List String) : GoSlice :=
  if s.len + xs.length ≤ s.array.length then
    { array := writeAt s.array s.len xs, len := s.len + xs.length }
  else
    { array := s.elems ++ xs ++
        List.replicate (max (s.len + xs.length) (growCap s.array.length (s.len + xs.length))
          - (s.len + xs.length)) "",
      len := s.len + xs.length }

/-- Whether `append(s, xs...)` writes into the backing array of `s`. -/
def appendsInPlace (s : GoSlice) (xs : List String) : Bool :=
  decide (s.len + xs.length ≤ s.array.length)

/-- The Go division of two values of type `int`: it truncates toward zero, and a
division by zero panics. -/
def goDiv (a b : Int) : Option Int :=
  if b = 0 then none else some (a.tdiv b)

/-- The percent constants of the package `committeestate` that the swap rule
names. -/
structure SwapRuleConstants where
  MAX_SLASH_PERCENT : Int
  MAX_SWAP_OUT_PERCENT : Int
  MAX_SWAP_IN_PERCENT : Int
deriving DecidableEq, Repr

/-- The Go method `swapRuleV3.getSlashingOffset`. -/
def getSlashingOffset (lenCommittees minCommitteeSize numberOfFixedValidators
    maxSlashOutPercent : Int) : Option Int :=
  if lenCommittees = minCommitteeSize then some 0
  else if lenCommittees = numberOfFixedValidators then some 0
  else
    match goDiv lenCommittees maxSlashOutPercent with
    | none => none
    | some offset =>
      if numberOfFixedValidators + offset > lenCommittees then
        some (lenCommittees - numberOfFixedValidators)
      else some offset

/-- The loop of `slashingSwapOut` over the flexible members, with the value of
`slashingOffset` at its start: the pair of `flexAfterSlashingCommittees` and
`slashingCommittees` that it builds. -/
def slashingLoop {π : Type} (penalty : List (String × π)) :
    List String → Int → List String × List String
  | [], _ => ([], [])
  | flexCommittee :: rest, slashingOffset =>
    if (mapFind penalty flexCommittee).isSome ∧ slashingOffset > 0 then
      ((slashingLoop penalty rest (slashingOffset - 1)).1,
        flexCommittee :: (slashingLoop penalty rest (slashingOffset - 1)).2)
    else
      (flexCommittee :: (slashingLoop penalty rest slashingOffset).1,
        (slashingLoop penalty rest slashingOffset).2)

/-- The Go method `swapRuleV3.slashingSwapOut`: the new committee, with the
array that `append` leaves behind it, and the slashed members. The two slice
expressions on `committees` panic unless `numberOfFixedValidators` lies between
0 and the length; `fixedCommittees` is made with a capacity equal to its
length. -/
def slashingSwapOut {π : Type} (growCap : Nat → Nat → Nat) (committees : List String)
    (penalty : List (String × π))
    (minCommitteeSize numberOfFixedValidators maxSlashOutPercent : Int) :
    Option (GoSlice × List String) :=
  if 0 ≤ numberOfFixedValidators ∧ numberOfFixedValidators ≤ committees.length then
    let fixedCommittees : GoSlice :=
      { array := committees.take numberOfFixedValidators.toNat,
        len := (committees.take numberOfFixedValidators.toNat).length }
    let flexCommittees := committees.drop numberOfFixedValidators.toNat
    match getSlashingOffset committees.length minCommitteeSize numberOfFixedValidators
        maxSlashOutPercent with
    | none => none
    | some slashingOffset =>
      let looped := slashingLoop penalty flexCommittees slashingOffset
      some (goAppend growCap fixedCommittees looped.1, looped.2)
  else none

/-- The Go method `swapRuleV3.getNormalSwapOutOffset`. -/
def getNormalSwapOutOffset (lenCommitteesBeforeSlash lenSubstitutes lenSlashedCommittees
    maxSwapOutPercent _numberOfFixedValidators minCommitteeSize : Int) : Option Int :=
  match goDiv lenCommitteesBeforeSlash maxSwapOutPercent with
  | none => none
  | some offset =>
    if lenSlashedCommittees ≥ offset then some 0
    else if lenCommitteesBeforeSlash < minCommitteeSize then some 0
    else if lenSubstitutes = 0 then some 0
    else if offset - lenSlashedCommittees > lenSubstitutes then some lenSubstitutes
    else some (offset - lenSlashedCommittees)

/-- The Go method `swapRuleV3.normalSwapOut`. The result is the slice
`resCommittees` and the bounds of `resNormalSwapOut`, which is a window
`committees[lo:hi]` of the same backing array. The upper bound of a slice
expression may reach the capacity; the lower bound of `committees[lo:]` may
reach the length. When the three slice expressions are in range the appended
members fit the array of `committees`, so `append` writes them into it, and the
window is read from the array so written. -/
def normalSwapOut (growCap : Nat → Nat → Nat) (committees : GoSlice)
    (substitutes : List String)
    (lenBeforeSlashedCommittees lenSlashedCommittees maxSwapOutPercent
      numberOfFixedValidators minCommitteeSize : Int) :
    Option (GoSlice × Nat × Nat) :=
  match getNormalSwapOutOffset lenBeforeSlashedCommittees substitutes.length
      lenSlashedCommittees maxSwapOutPercent numberOfFixedValidators minCommitteeSize with
  | none => none
  | some normalSwapOutOffset =>
    if 0 ≤ numberOfFixedValidators ∧ numberOfFixedValidators ≤ committees.array.length ∧
        0 ≤ numberOfFixedValidators + normalSwapOutOffset ∧
        numberOfFixedValidators + normalSwapOutOffset ≤ committees.len ∧
        numberOfFixedValidators ≤ numberOfFixedValidators + normalSwapOutOffset ∧
        numberOfFixedValidators + normalSwapOutOffset ≤ committees.array.length then
      let resCommittees := goAppend growCap
        { array := committees.array, len := numberOfFixedValidators.toNat }
        (committees.elems.drop (numberOfFixedValidators + normalSwapOutOffset).toNat)
      some (resCommittees, numberOfFixedValidators.toNat,
        (numberOfFixedValidators + normalSwapOutOffset).toNat)
    else none

/-- The window `array[lo:hi]` of a backing array. -/
def window (array : List String) (lo hi : Nat) : List String :=
  (array.take hi).drop lo

/-- The Go method `swapRuleV3.getSwapInOffset`. -/
def getSwapInOffset (lenCommitteesAfterSwapOut lenSubstitutes maxSwapInPercent
    maxCommitteeSize : Int) : Option Int :=
  match goDiv lenCommitteesAfterSwapOut maxSwapInPercent with
  | none => none
  | some offset =>
    if lenSubstitutes < offset then some lenSubstitutes
    else if lenCommitteesAfterSwapOut + offset > maxCommitteeSize then
      some (maxCommitteeSize - lenCommitteesAfterSwapOut)
    else some offset

/-- The Go method `swapRuleV3.swapInAfterSwapOut`, with its parameters in the
order of its signature: `numberOfFixedValidators` before `maxCommitteeSize`.
The result is `resCommittees`, `resSubstitutes` and `resSwapInCommittees`. The
slice expression `resSubstitutes[swapInOffset:]` panics unless the offset lies
between 0 and the number of substitutes. -/
def swapInAfterSwapOut (growCap : Nat → Nat → Nat) (committees : GoSlice)
    (substitutes : List String)
    (maxSwapInPercent _numberOfFixedValidators maxCommitteeSize : Int) :
    Option (GoSlice × List String × List String) :=
  match getSwapInOffset committees.len substitutes.length maxSwapInPercent
      maxCommitteeSize with
  | none => none
  | some swapInOffset =>
    if 0 ≤ swapInOffset ∧ swapInOffset ≤ substitutes.length then
      let resSwapInCommittees := substitutes.take swapInOffset.toNat
      let resSubstitutes := substitutes.drop swapInOffset.toNat
      some (goAppend growCap committees resSwapInCommittees, resSubstitutes,
        resSwapInCommittees)
    else none

/-- The five values that `GenInstructions` returns: the instruction, the new
committee, the new substitutes, the slashed members and the members reported
as normally swapped out, each slice as the list of its elements. -/
structure SwapResult (ι : Type) where
  swapShardInstruction : ι
  newCommittees : List String
  newSubstitutes : List String
  slashingCommittees : List String
  normalSwapOutCommittees : List String
deriving DecidableEq, Repr

/-- The Go method `swapRuleV3.GenInstructions`. The two constructors of the
package `instruction` are the parameters `NewSwapShardInstruction` and
`NewSwapShardInstructionWithValue`. The result holds each slice as the list of
its elements when the method returns: the reported members are read from the
array of the committee as the swap-in leaves it, which is the array they are a
window of when `append` wrote in place. The call of `swapInAfterSwapOut` passes
`maxCommitteeSize` before `numberOfFixedValidators`. -/
def GenInstructions {π ι : Type} (K : SwapRuleConstants) (growCap : Nat → Nat → Nat)
    (NewSwapShardInstruction : ι)
    (NewSwapShardInstructionWithValue : List String → List String → Int → Int → ι)
    (shardID : Nat) (committees substitutes : List String)
    (minCommitteeSize maxCommitteeSize typeIns numberOfFixedValidators : Int)
    (penalty : List (String × π)) :
    Option (SwapResult ι) :=
  match slashingSwapOut growCap committees penalty minCommitteeSize numberOfFixedValidators
      K.MAX_SLASH_PERCENT with
  | none => none
  | some (newCommittees, slashingCommittees) =>
    match normalSwapOut growCap newCommittees substitutes committees.length
        slashingCommittees.length K.MAX_SWAP_OUT_PERCENT numberOfFixedValidators
        minCommitteeSize with
    | none => none
    | some (committeesAfterSwapOut, lo, hi) =>
      let swappedOutCommittees :=
        slashingCommittees ++ window committeesAfterSwapOut.array lo hi
      match swapInAfterSwapOut growCap committeesAfterSwapOut substitutes
          K.MAX_SWAP_IN_PERCENT maxCommitteeSize numberOfFixedValidators with
      | none => none
      | some (committeesAfterSwapIn, newSubstitutes, swapInCommittees) =>
        let normalSwapOutCommittees :=
          if appendsInPlace committeesAfterSwapOut swapInCommittees then
            window committeesAfterSwapIn.array lo hi
          else window committeesAfterSwapOut.array lo hi
        if swapInCommittees.length = 0 ∧ swappedOutCommittees.length = 0 then
          some { swapShardInstruction := NewSwapShardInstruction,
                 newCommittees := committeesAfterSwapIn.elems,
                 newSubstitutes := newSubstitutes,
                 slashingCommittees := slashingCommittees,
                 normalSwapOutCommittees := normalSwapOutCommittees }
        else
          some { swapShardInstruction :=
                   NewSwapShardInstructionWithValue swapInCommittees swappedOutCommittees
                     shardID typeIns,
                 newCommittees := committeesAfterSwapIn.elems,
                 newSubstitutes := newSubstitutes,
                 slashingCommittees := slashingCommittees,
                 normalSwapOutCommittees := normalSwapOutCommittees }

/-- The swap instruction of the samples: the members swapped in, the members
swapped out, the chain and the type; the empty instruction has no member. -/
def sampleSwapInstruction (swapIn swappedOut : List String) (chainID typeIns : Int) :
    List String × List String × Int × Int :=
  (swapIn, swappedOut, chainID, typeIns)

/-- The percent constants of the samples. -/
def sampleSwapConstants : SwapRuleConstants :=
  { MAX_SLASH_PERCENT := 3, MAX_SWAP_OUT_PERCENT := 8, MAX_SWAP_IN_PERCENT := 8 }

/-- A sample committee of seventeen members. -/
def sampleCommittee17 : List String :=
  ["c0", "c1", "c2", "c3", "c4", "c5", "c6", "c7", "c8", "c9", "c10", "c11", "c12", "c13",
   "c14", "c15", "c16"]

/-- A sample growth of the capacity: the double of the old one. -/
def sampleGrowCap (oldCap _needed : Nat) : Nat :=
  2 * oldCap

/-! ## The check of validation data against a committee (`validation.go`) -/

/-- The Go struct `ValidationData`; byte slices are lists of numbers. -/
structure ValidationData where
  ProducerBLSSig : List Nat
  ProducerBriSig : List Nat
  ValidatiorsIdx : List Int
  AggSig : List Nat
  BridgeSig : List (List Nat)
deriving DecidableEq, Repr

/-- The loop of `CheckValidationDataWithCommittee` over the neighbouring pairs
of `ValidatiorsIdx`: false at the first pair whose left entry is not below the
right one, true when the pairs are exhausted. -/
def checkValidatorsIdxOrder : List Int → Bool
  | idx :: next :: rest =>
    if idx ≥ next then false else checkValidatorsIdxOrder (next :: rest)
  | _ => true

/-- The Go function `CheckValidationDataWithCommittee`, for a non-nil
`valData`. Of the committee only its length is read. -/
def CheckValidationDataWithCommittee {κ : Type} (valData : ValidationData)
    (committee : List κ) : Bool :=
  if committee.length < 1 then false
  else if valData.ValidatiorsIdx.length < committee.length * 2 / 3 + 1 then false
  else checkValidatorsIdxOrder valData.ValidatiorsIdx

/-! ## The conversion between exchange rates (`lvdb/portal.go`) -/

/-- The number of low bits of a value below `2 ^ 64` that a `float64`, with its
53 bits of precision, cannot keep: the number of the powers `2 ^ 53` to
`2 ^ 63` that are at most the value. -/
def float64DroppedBits (x : Nat) : Nat :=
  ((List.range 11).filter (fun k => decide (2 ^ (53 + k) ≤ x))).length

/-- The Go conversion `float64(x)` of a `uint64`, as the integer the resulting
float stands for: `x` rounded to the nearest multiple of `2 ^ e`, where `e` is
the number of bits that cannot be kept, a tie going to the even multiple. -/
def float64 (x : Nat) : Nat :=
  let e := float64DroppedBits x
  let q := x / 2 ^ e
  let r := x % 2 ^ e
  if 2 * r < 2 ^ e then q * 2 ^ e
  else if 2 * r > 2 ^ e then (q + 1) * 2 ^ e
  else if q % 2 = 0 then q * 2 ^ e
  else (q + 1) * 2 ^ e

/-- The Go conversion `uint64(f)` of a float that stands for a natural number.
A float that `uint64` cannot hold is converted to a value the language leaves to
the implementation, the parameter `outOfRange`. -/
def uint64OfFloat (outOfRange : Nat) (f : Nat) : Nat :=
  if f < 2 ^ 64 then f else outOfRange

/-- The Go method `FinalExchangeRates.convert`. The products are taken modulo
`2 ^ 64`; `math.Pow10(9)` is exactly `10 ^ 9`; `math.Round` of a float that
stands for an integer is that float. The result is the pair of the value and
the error. -/
def convert (outOfRange : Nat) (value ratesFrom RatesTo : Nat) : Nat × Option String :=
  let total := (value * ratesFrom % 2 ^ 64) / 10 ^ 9
  if RatesTo ≤ 0 then (0, some "Can not divide zero")
  else
    let result := (total * 10 ^ 9 % 2 ^ 64) / RatesTo
    let roundNumber := float64 result
    (uint64OfFloat outOfRange roundNumber, none)

/-- The Go struct `FinalExchangeRates`: the map `Rates`, each detail reduced to
its `Amount`. -/
structure FinalExchangeRates where
  Rates : List (String × Nat)
deriving DecidableEq, Repr

/-- The token identifiers of the package `common` that the exchange functions
name. -/
structure PortalTokenIDs where
  PortalBTCIDStr : String
  PortalBNBIDStr : String
  PRVIDStr : String
deriving DecidableEq, Repr

/-- The lookup `finalExchangeRates.Rates[id].Amount`: zero for a missing key. -/
def rateAmount (finalExchangeRates : FinalExchangeRates) (id : String) : Nat :=
  (mapFind finalExchangeRates.Rates id).getD 0

/-- The Go method `ExchangeBTC2PRV`. -/
def ExchangeBTC2PRV (C : PortalTokenIDs) (outOfRange : Nat)
    (finalExchangeRates : FinalExchangeRates) (value : Nat) : Nat × Option String :=
  let BTCRates := rateAmount finalExchangeRates C.PortalBTCIDStr
  let PRVRates := rateAmount finalExchangeRates C.PRVIDStr
  match convert outOfRange value BTCRates PRVRates with
  | (_, some err) => (0, some err)
  | (valueExchange, none) => (valueExchange, none)

/-- The Go method `ExchangeBNB2PRV`. -/
def ExchangeBNB2PRV (C : PortalTokenIDs) (outOfRange : Nat)
    (finalExchangeRates : FinalExchangeRates) (value : Nat) : Nat × Option String :=
  let BNBRates := rateAmount finalExchangeRates C.PortalBNBIDStr
  let PRVRates := rateAmount finalExchangeRates C.PRVIDStr
  match convert outOfRange value BNBRates PRVRates with
  | (_, some err) => (0, some err)
  | (valueExchange, none) => (valueExchange, none)

/-- The Go method `ExchangePRV2BTC`. -/
def ExchangePRV2BTC (C : PortalTokenIDs) (outOfRange : Nat)
    (finalExchangeRates : FinalExchangeRates) (value : Nat) : Nat × Option String :=
  let BTCRates := rateAmount finalExchangeRates C.PortalBTCIDStr
  let PRVRates := rateAmount finalExchangeRates C.PRVIDStr
  match convert outOfRange value PRVRates BTCRates with
  | (_, some err) => (0, some err)
  | (valueExchange, none) => (valueExchange, none)

/-- The Go method `ExchangePRV2BNB`. -/
def ExchangePRV2BNB (C : PortalTokenIDs) (outOfRange : Nat)
    (finalExchangeRates : FinalExchangeRates) (value : Nat) : Nat × Option String :=
  let BNBRates := rateAmount finalExchangeRates C.PortalBNBIDStr
  let PRVRates := rateAmount finalExchangeRates C.PRVIDStr
  match convert outOfRange value PRVRates BNBRates with
  | (_, some err) => (0, some err)
  | (valueExchange, none) => (valueExchange, none)

/-- The Go method `ExchangePToken2PRVByTokenId`. The first case of the
`switch` that equals `pTokenId` is taken. -/
def ExchangePToken2PRVByTokenId (C : PortalTokenIDs) (outOfRange : Nat)
    (finalExchangeRates : FinalExchangeRates) (pTokenId : String) (value : Nat) :
    Nat × Option String :=
  if pTokenId = C.PortalBTCIDStr then ExchangeBTC2PRV C outOfRange finalExchangeRates value
  else if pTokenId = C.PortalBNBIDStr then
    ExchangeBNB2PRV C outOfRange finalExchangeRates value
  else (0, some "Ptoken is not support")

/-- The Go method `ExchangePRV2PTokenByTokenId`, for a non-nil receiver. -/
def ExchangePRV2PTokenByTokenId (C : PortalTokenIDs) (outOfRange : Nat)
    (finalExchangeRates : FinalExchangeRates) (pTokenId : String) (value : Nat) :
    Nat × Option String :=
  if pTokenId = C.PortalBTCIDStr then ExchangePRV2BTC C outOfRange finalExchangeRates value
  else if pTokenId = C.PortalBNBIDStr then
    ExchangePRV2BNB C outOfRange finalExchangeRates value
  else (0, some "Ptoken is not support")

/-- Sample identifiers of the portal tokens. -/
def sampleTokenIDs : PortalTokenIDs :=
  { PortalBTCIDStr := "btc", PortalBNBIDStr := "bnb", PRVIDStr := "prv" }

/-- Sample final rates: the three tokens are priced. -/
def sampleRates : FinalExchangeRates :=
  { Rates := [("btc", 8000000000000), ("bnb", 20000000000), ("prv", 500000000)] }

/-! ## The response to a withdrawal of rewards (`withdrawrewardresponse.go`) -/

/-- The fields of the Go struct `PortalWithdrawRewardResponse` that the
verification reads. -/
structure PortalWithdrawRewardResponse where
  CustodianAddressStr : String
  TokenID : Hash
  RewardAmount : Nat
  TxReqID : Hash
deriving DecidableEq, Repr

/-- The Go struct `PortalRequestWithdrawRewardContent`, the content of a
withdraw-reward instruction. -/
structure PortalRequestWithdrawRewardContent where
  CustodianAddressStr : String
  TokenID : Hash
  RewardAmount : Nat
  TxReqID : Hash
  ShardID : Nat
deriving DecidableEq, Repr

/-- What the verification reads of the transaction: the receiver key, the paid
amount and the asset that `tx.GetTransferData()` returns, and `tx.Hash()`. -/
structure TransferTx where
  pk : List Nat
  paidAmount : Nat
  assetID : Hash
  hash : Hash
deriving DecidableEq, Repr

/-- The collaborators of the verification: the constants of `basemeta` and of
the portal package, `strconv.Itoa`, `json.Unmarshal` into the content struct,
`wallet.Base58CheckDeserialize` reduced to the public key of the payment
address (`none` for an error) and `Hash.String`. -/
structure WithdrawRewardEnv where
  Itoa : Int → String
  PortalRequestWithdrawRewardMeta : Int
  PortalRequestAcceptedChainStatus : String
  unmarshalContent : String → Option PortalRequestWithdrawRewardContent
  Base58CheckDeserialize : String → Option (List Nat)
  hashString : Hash → String

/-- The body of the loop of `VerifyMinerCreatedTxBeforeGettingInBlock` from the
test of the use mark on, for an instruction with the fields `instMetaType`,
`instDepositStatus` and `content` and the use mark `used`: true when the body
reaches `idx = i`, false when it reaches a `continue`. -/
def withdrawRewardInstMatches (E : WithdrawRewardEnv) (iRes : PortalWithdrawRewardResponse)
    (shardID : Nat) (tx : TransferTx) (used : Int)
    (instMetaType instDepositStatus content : String) : Bool :=
  if used > 0 ∨ instMetaType ≠ E.Itoa E.PortalRequestWithdrawRewardMeta then false
  else if instDepositStatus ≠ E.PortalRequestAcceptedChainStatus then false
  else
    match E.unmarshalContent content with
    | none => false
    | some reqWithdrawRewardContent =>
      if ¬ (iRes.TxReqID = reqWithdrawRewardContent.TxReqID) ∨
          shardID ≠ reqWithdrawRewardContent.ShardID then false
      else
        match E.Base58CheckDeserialize reqWithdrawRewardContent.CustodianAddressStr with
        | none => false
        | some key =>
          if ¬ (key = tx.pk) ∨ reqWithdrawRewardContent.RewardAmount ≠ tx.paidAmount ∨
              E.hashString reqWithdrawRewardContent.TokenID ≠ E.hashString tx.assetID then
            false
          else true

/-- The loop of `VerifyMinerCreatedTxBeforeGettingInBlock` from the index `i`
on: the value of `idx` after the loop, `none` standing for `-1`. An
instruction of fewer than four fields is passed over before its use mark is
read; the outer `none` is the panic of `instUsed[i]` beyond the array. -/
def findWithdrawRewardInst (E : WithdrawRewardEnv) (iRes : PortalWithdrawRewardResponse)
    (shardID : Nat) (tx : TransferTx) (instUsed : List Int) :
    Nat → List Inst → Option (Option Nat)
  | _, [] => some none
  | i, inst :: rest =>
    match inst with
    | instMetaType :: _ :: instDepositStatus :: content :: _ =>
      match instUsed[i]? with
      | none => none
      | some used =>
        if withdrawRewardInstMatches E iRes shardID tx used instMetaType instDepositStatus
            content then some (some i)
        else findWithdrawRewardInst E iRes shardID tx instUsed (i + 1) rest
    | _ => findWithdrawRewardInst E iRes shardID tx instUsed (i + 1) rest

/-- The Go method `PortalWithdrawRewardResponse.VerifyMinerCreatedTxBeforeGettingInBlock`.
The result holds the boolean, the error and the array `instUsed` as the call
leaves it; `none` is a panic. The arguments the method does not read are left
out. -/
def VerifyMinerCreatedTxBeforeGettingInBlock (E : WithdrawRewardEnv)
    (iRes : PortalWithdrawRewardResponse) (insts : List Inst) (instUsed : List Int)
    (shardID : Nat) (tx : TransferTx) : Option (Bool × Option String × List Int) :=
  match findWithdrawRewardInst E iRes shardID tx instUsed 0 insts with
  | none => none
  | some none =>
    some (false,
      some ("no PortalWithdrawReward instruction found for PortalWithdrawRewardResponse tx "
        ++ E.hashString tx.hash), instUsed)
  | some (some idx) => some (true, none, instUsed.set idx 1)

/-- The instruction at the index `i` justifies the response: it has at least
four fields, its use mark is not above 0, its type is the withdraw-reward
request type, its status is the accepted one, its content decodes and names the
request ID of the response and the shard, the custodian address of the content
deserialises to the receiver key of the transaction, and the reward amount and
the token of the content are the paid amount and the asset of the
transaction. -/
def Justifies (E : WithdrawRewardEnv) (iRes : PortalWithdrawRewardResponse)
    (shardID : Nat) (tx : TransferTx) (insts : List Inst) (instUsed : List Int)
    (i : Nat) : Prop :=
  ∃ instMetaType second instDepositStatus content rest used reqContent,
    insts[i]? = some (instMetaType :: second :: instDepositStatus :: content :: rest) ∧
    instUsed[i]? = some used ∧ used ≤ 0 ∧
    instMetaType = E.Itoa E.PortalRequestWithdrawRewardMeta ∧
    instDepositStatus = E.PortalRequestAcceptedChainStatus ∧
    E.unmarshalContent content = some reqContent ∧
    reqContent.TxReqID = iRes.TxReqID ∧ reqContent.ShardID = shardID ∧
    E.Base58CheckDeserialize reqContent.CustodianAddressStr = some tx.pk ∧
    reqContent.RewardAmount = tx.paidAmount ∧
    E.hashString reqContent.TokenID = E.hashString tx.assetID

/-- A sample content codec: the content is named by its request ID. -/
def sampleWithdrawContents : List (String × PortalRequestWithdrawRewardContent) :=
  [("w1", { CustodianAddressStr := "addrA", TokenID := [1], RewardAmount := 50,
            TxReqID := [11], ShardID := 0 }),
   ("w2", { CustodianAddressStr := "addrA", TokenID := [1], RewardAmount := 50,
            TxReqID := [12], ShardID := 0 }),
   ("w3", { CustodianAddressStr := "addrB", TokenID := [1], RewardAmount := 70,
            TxReqID := [11], ShardID := 0 })]

/-- A sample environment of the verification. -/
def sampleWithdrawEnv : WithdrawRewardEnv :=
  { Itoa := fun z => if z = 126 then "126" else "n",
    PortalRequestWithdrawRewardMeta := 126,
    PortalRequestAcceptedChainStatus := "accepted",
    unmarshalContent := mapFind sampleWithdrawContents,
    Base58CheckDeserialize := mapFind [("addrA", [7, 7]), ("addrB", [8, 8])],
    hashString := fun h => String.mk (h.map Char.ofNat) }

/-- A sample response to the request `[11]`. -/
def sampleResponse : PortalWithdrawRewardResponse :=
  { CustodianAddressStr := "addrA", TokenID := [1], RewardAmount := 50, TxReqID := [11] }

/-- A sample transaction that pays 50 of the token `[1]` to the key `[7, 7]`. -/
def sampleTransferTx : TransferTx :=
  { pk := [7, 7], paidAmount := 50, assetID := [1], hash := [99] }

/-- Sample instructions: a short one, a rejected one, one for another request,
and two that justify the sample response. -/
def sampleWithdrawInsts : List Inst :=
  [["126", "0", "accepted"], ["126", "0", "rejected", "w1"], ["126", "0", "accepted", "w2"],
   ["126", "0", "accepted", "w1"], ["126", "0", "accepted", "w1"]]

/-! ## The shielding request processor (`portalv4/portalprocess/shield.go`)

The types `statedb.UTXO`, `CurrentPortalV4State`, `statedb.StateDB` and the
chain retriever are the parameters `υ`, `σ`, `δ` and `β`; the functions on them
that the processor calls are fields of `ShieldEnv`. A nil portal state is
`none`. The result `none` of a method is a panic. -/

/-- The Go struct `PortalShieldingRequest`, with the `Type` of its metadata
base. -/
structure PortalShieldingRequest where
  Type_ : Int
  TokenID : String
  IncogAddressStr : String
  ShieldingProof : String
deriving DecidableEq, Repr

/-- The Go struct `PortalShieldingRequestAction`. -/
structure PortalShieldingRequestAction where
  Meta : PortalShieldingRequest
  TxReqID : Hash
  ShardID : Nat
deriving DecidableEq, Repr

/-- The Go struct `PortalShieldingRequestContent`. -/
structure PortalShieldingRequestContent (υ : Type) where
  TokenID : String
  IncogAddressStr : String
  ProofHash : String
  ShieldingUTXO : List υ
  MintingAmount : Nat
  TxReqID : Hash
  ShardID : Nat
deriving DecidableEq, Repr

/-- The Go struct `PortalShieldingRequestStatus`. -/
structure PortalShieldingRequestStatus (υ : Type) where
  Status : Nat
  TokenID : String
  IncogAddressStr : String
  ProofHash : String
  ShieldingUTXO : List υ
  MintingAmount : Nat
  TxReqID : Hash
deriving DecidableEq, Repr

/-- The Go struct `bMeta.UpdatingInfo`; the nil `ExternalTokenID` is the empty
list. -/
structure PortalUpdatingInfo where
  CountUpAmt : Nat
  DeductAmt : Nat
  TokenID : Hash
  ExternalTokenID : List Nat
  IsCentralized : Bool
deriving DecidableEq, Repr

/-- A value of the Go type `interface{}` as far as the type assertion `.(bool)`
tells values apart: a boolean, or a value of another type. -/
inductive OptionalValue where
  | boolean (b : Bool)
  | other (description : String)
deriving DecidableEq, Repr

/-- The methods of the Go interface `PortalTokenProcessor` that the shielding
processor calls. `ParseAndVerifyProof` returns the validity, the UTXOs and the
error. -/
structure PortalTokenProcessor (β υ : Type) where
  GetExpectedMemoForShielding : String → String
  ParseAndVerifyProof : String → β → String → String → Bool × List υ × Option String
  ConvertExternalToIncAmount : Nat → Nat

/-- The fields of `portalv4.PortalParams` that the shielding processor reads:
the lookup in the map `PortalTokens`, `none` for a nil processor, and the
lookup in the map `MultiSigAddresses`. -/
structure PortalParams (β υ : Type) where
  PortalTokens : String → Option (PortalTokenProcessor β υ)
  MultiSigAddresses : String → String

/-- The collaborators of the shielding processor: the codecs of the action
(base64 and JSON) and of the content, `json.Marshal`, `strconv.Itoa`,
`hashProof`, the status constants, the accessors of a UTXO, the functions on
the portal state, the status store of the state DB, `Hash.String` and
`NewHashFromStr` (`none` for an error). -/
structure ShieldEnv (υ σ δ : Type) where
  decodeAction : String → Option PortalShieldingRequestAction
  unmarshalContent : String → Option (PortalShieldingRequestContent υ)
  marshalContent : PortalShieldingRequestContent υ → String
  marshalStatus : PortalShieldingRequestStatus υ → String
  Itoa : Int → String
  hashProof : String → String
  PortalRequestRejectedChainStatus : String
  PortalRequestAcceptedChainStatus : String
  PortalRequestAcceptedStatus : Nat
  PortalRequestRejectedStatus : Nat
  GetOutputAmount : υ → Nat
  GetTxHash : υ → String
  IsExistsProofInPortalState : σ → String → String → Bool
  UpdatePortalStateUTXOs : σ → String → List υ → σ
  UpdatePortalStateShieldingExternalTx : σ → String → String → String → String → Nat → σ
  StoreShieldingRequestStatus : δ → String → String → Option String × δ
  hashString : Hash → String
  NewHashFromStr : String → Option Hash

/-- The loop `shieldingAmount += utxo.GetOutputAmount()` from
`shieldingAmount := uint64(0)`. -/
def shieldingAmountOf {υ σ δ : Type} (E : ShieldEnv υ σ δ) (listUTXO : List υ) : Nat :=
  listUTXO.foldl (fun shieldingAmount utxo => uint64Add shieldingAmount (E.GetOutputAmount utxo))
    0

/-- The Go function `buildReqPTokensInstV4`. -/
def buildReqPTokensInstV4 {υ σ δ : Type} (E : ShieldEnv υ σ δ) (tokenID incogAddressStr
    proofHash : String) (shieldingUTXO : List υ) (mintingAmt : Nat) (metaType : Int)
    (shardID : Nat) (txReqID : Hash) (status : String) : Inst :=
  [E.Itoa metaType, E.Itoa shardID, status,
    E.marshalContent
      { TokenID := tokenID, IncogAddressStr := incogAddressStr, ProofHash := proofHash,
        ShieldingUTXO := shieldingUTXO, MintingAmount := mintingAmt, TxReqID := txReqID,
        ShardID := shardID }]

/-- The instruction `rejectInst` of `BuildNewInsts`. -/
def rejectInst {υ σ δ : Type} (E : ShieldEnv υ σ δ) (actionData : PortalShieldingRequestAction)
    (shardID : Nat) : Inst :=
  buildReqPTokensInstV4 E actionData.Meta.TokenID actionData.Meta.IncogAddressStr "" [] 0
    actionData.Meta.Type_ shardID actionData.TxReqID E.PortalRequestRejectedChainStatus

/-- The Go method `portalShieldingRequestProcessor.BuildNewInsts`. The result
holds the instructions, the error and the portal state as the call leaves it.
The expression `listUTXO[0]` panics on the empty list. The arguments the method
does not read are left out. -/
def BuildNewInsts {β υ σ δ : Type} (E : ShieldEnv υ σ δ) (bc : β) (contentStr : String)
    (shardID : Nat) (currentPortalState : Option σ) (portalParams : PortalParams β υ)
    (optionalData : Option (List (String × OptionalValue))) :
    Option (List Inst × Option String × Option σ) :=
  match E.decodeAction contentStr with
  | none => some ([], none, currentPortalState)
  | some actionData =>
    match currentPortalState with
    | none => some ([rejectInst E actionData shardID], none, none)
    | some state =>
      match portalParams.PortalTokens actionData.Meta.TokenID with
      | none => some ([rejectInst E actionData shardID], none, some state)
      | some portalTokenProcessor =>
        match optionalData with
        | none => some ([rejectInst E actionData shardID], none, some state)
        | some data =>
          match mapFind data "isExistProofTxHash" with
          | some (OptionalValue.boolean isExistInStateDB) =>
            let proofHash := E.hashProof actionData.Meta.ShieldingProof
            if E.IsExistsProofInPortalState state actionData.Meta.TokenID proofHash = true ∨
                isExistInStateDB = true then
              some ([rejectInst E actionData shardID], none, some state)
            else
              let expectedMemo :=
                portalTokenProcessor.GetExpectedMemoForShielding actionData.Meta.IncogAddressStr
              let expectedMultisigAddress :=
                portalParams.MultiSigAddresses actionData.Meta.TokenID
              let verified := portalTokenProcessor.ParseAndVerifyProof
                actionData.Meta.ShieldingProof bc expectedMemo expectedMultisigAddress
              if verified.1 = false ∨ verified.2.2 ≠ none then
                some ([rejectInst E actionData shardID], none, some state)
              else
                match verified.2.1 with
                | [] => none
                | first :: _ =>
                  let listUTXO := verified.2.1
                  let state1 := E.UpdatePortalStateUTXOs state actionData.Meta.TokenID listUTXO
                  let shieldingAmount := shieldingAmountOf E listUTXO
                  let state2 := E.UpdatePortalStateShieldingExternalTx state1
                    actionData.Meta.TokenID proofHash (E.GetTxHash first)
                    actionData.Meta.IncogAddressStr shieldingAmount
                  let mintingAmount :=
                    portalTokenProcessor.ConvertExternalToIncAmount shieldingAmount
                  some ([buildReqPTokensInstV4 E actionData.Meta.TokenID
                      actionData.Meta.IncogAddressStr proofHash listUTXO mintingAmount
                      actionData.Meta.Type_ shardID actionData.TxReqID
                      E.PortalRequestAcceptedChainStatus], none, some state2)
          | _ => some ([rejectInst E actionData shardID], none, some state)

/-- The value `shieldingReqTrackDataBytes` of `ProcessInsts` for a status. -/
def shieldingReqTrackData {υ σ δ : Type} (E : ShieldEnv υ σ δ) (status : Nat)
    (actionData : PortalShieldingRequestContent υ) : String :=
  E.marshalStatus
    { Status := status, TokenID := actionData.TokenID,
      IncogAddressStr := actionData.IncogAddressStr, ProofHash := actionData.ProofHash,
      ShieldingUTXO := actionData.ShieldingUTXO, MintingAmount := actionData.MintingAmount,
      TxReqID := actionData.TxReqID }

/-- The entry that `ProcessInsts` writes for the token `incTokenID`: the found
entry with its `CountUpAmt` increased, the sum taken modulo `2 ^ 64`, or a new
entry. -/
def countedUp (updatingInfoByTokenID : List (Hash × PortalUpdatingInfo)) (incTokenID : Hash)
    (shieldingAmount : Nat) : PortalUpdatingInfo :=
  match mapFind updatingInfoByTokenID incTokenID with
  | some updatingInfo =>
    { updatingInfo with CountUpAmt := uint64Add updatingInfo.CountUpAmt shieldingAmount }
  | none =>
    { CountUpAmt := shieldingAmount, DeductAmt := 0, TokenID := incTokenID,
      ExternalTokenID := [], IsCentralized := false }

/-- The Go method `portalShieldingRequestProcessor.ProcessInsts`. The result
holds the error, the state DB, the portal state and the map
`updatingInfoByTokenID` as the call leaves them. The expression
`actionData.ShieldingUTXO[0]` panics on the empty list. The arguments the
method does not read are left out. -/
def ProcessInsts {υ σ δ : Type} (E : ShieldEnv υ σ δ) (stateDB : δ)
    (instructions : List String) (currentPortalState : Option σ)
    (updatingInfoByTokenID : List (Hash × PortalUpdatingInfo)) :
    Option (Option String × δ × Option σ × List (Hash × PortalUpdatingInfo)) :=
  match currentPortalState with
  | none => some (none, stateDB, none, updatingInfoByTokenID)
  | some state =>
    match instructions with
    | [_, _, reqStatus, content] =>
      match E.unmarshalContent content with
      | none => some (none, stateDB, some state, updatingInfoByTokenID)
      | some actionData =>
        if reqStatus = E.PortalRequestAcceptedChainStatus then
          match actionData.ShieldingUTXO with
          | [] => none
          | first :: _ =>
            let state1 := E.UpdatePortalStateUTXOs state actionData.TokenID
              actionData.ShieldingUTXO
            let shieldingAmount := shieldingAmountOf E actionData.ShieldingUTXO
            let state2 := E.UpdatePortalStateShieldingExternalTx state1 actionData.TokenID
              actionData.ProofHash (E.GetTxHash first) actionData.IncogAddressStr
              shieldingAmount
            let stored := E.StoreShieldingRequestStatus stateDB
              (E.hashString actionData.TxReqID)
              (shieldingReqTrackData E E.PortalRequestAcceptedStatus actionData)
            match stored.1 with
            | some _ => some (none, stored.2, some state2, updatingInfoByTokenID)
            | none =>
              match E.NewHashFromStr actionData.TokenID with
              | none => some (none, stored.2, some state2, updatingInfoByTokenID)
              | some incTokenID =>
                some (none, stored.2, some state2,
                  mapSet updatingInfoByTokenID incTokenID
                    (countedUp updatingInfoByTokenID incTokenID shieldingAmount))
        else if reqStatus = E.PortalRequestRejectedChainStatus then
          let stored := E.StoreShieldingRequestStatus stateDB
            (E.hashString actionData.TxReqID)
            (shieldingReqTrackData E E.PortalRequestRejectedStatus actionData)
          some (none, stored.2, some state, updatingInfoByTokenID)
        else some (none, stateDB, some state, updatingInfoByTokenID)
    | _ => some (none, stateDB, some state, updatingInfoByTokenID)

/-- The sample actions of a shielding: the payload names the proof. -/
def sampleShieldingActions : List (String × PortalShieldingRequestAction) :=
  [("good", { Meta := { Type_ := 260, TokenID := "btc", IncogAddressStr := "addr",
                        ShieldingProof := "good" }, TxReqID := [21], ShardID := 0 }),
   ("forged", { Meta := { Type_ := 260, TokenID := "btc", IncogAddressStr := "addr",
                          ShieldingProof := "forged" }, TxReqID := [22], ShardID := 0 }),
   ("seen", { Meta := { Type_ := 260, TokenID := "btc", IncogAddressStr := "addr",
                        ShieldingProof := "seen" }, TxReqID := [23], ShardID := 0 }),
   ("doge", { Meta := { Type_ := 260, TokenID := "doge", IncogAddressStr := "addr",
                        ShieldingProof := "good" }, TxReqID := [24], ShardID := 0 }),
   ("hollow", { Meta := { Type_ := 260, TokenID := "btc", IncogAddressStr := "addr",
                          ShieldingProof := "hollow" }, TxReqID := [27], ShardID := 0 })]

/-- The sample contents of a shielding instruction. A sample UTXO is the pair of
its transaction hash and its output amount. -/
def sampleShieldingContents : List (String × PortalShieldingRequestContent (String × Nat)) :=
  [("c-good", { TokenID := "btc", IncogAddressStr := "addr", ProofHash := "#good",
                ShieldingUTXO := [("tx1", 30), ("tx2", 12)], MintingAmount := 42,
                TxReqID := [21], ShardID := 0 }),
   ("c-odd", { TokenID := "not a hash", IncogAddressStr := "addr", ProofHash := "#good",
               ShieldingUTXO := [("tx1", 30)], MintingAmount := 30, TxReqID := [25],
               ShardID := 0 }),
   ("c-fail", { TokenID := "btc", IncogAddressStr := "addr", ProofHash := "#good",
                ShieldingUTXO := [("tx1", 30)], MintingAmount := 30, TxReqID := [],
                ShardID := 0 }),
   ("c-huge", { TokenID := "btc", IncogAddressStr := "addr", ProofHash := "#good",
                ShieldingUTXO := [("tx1", 18446744073709551615), ("tx2", 2)],
                MintingAmount := 1, TxReqID := [26], ShardID := 0 })]

/-- A sample environment of the shielding processor. The portal state is the
log of its updates, the state DB is the list of the stored statuses; the store
fails for the request with the empty ID; only `btc` parses as a token hash. -/
def sampleShieldEnv : ShieldEnv (String × Nat) (List String) (List (String × String)) :=
  { decodeAction := mapFind sampleShieldingActions,
    unmarshalContent := mapFind sampleShieldingContents,
    marshalContent := fun c => c.ProofHash ++ "/" ++ c.TokenID,
    marshalStatus := fun s => s.ProofHash ++ "/" ++ s.TokenID,
    Itoa := fun z => if z = 260 then "260" else if z = 0 then "0" else "n",
    hashProof := fun proof => "#" ++ proof,
    PortalRequestRejectedChainStatus := "rejected",
    PortalRequestAcceptedChainStatus := "accepted",
    PortalRequestAcceptedStatus := 1,
    PortalRequestRejectedStatus := 2,
    GetOutputAmount := fun utxo => utxo.2,
    GetTxHash := fun utxo => utxo.1,
    IsExistsProofInPortalState := fun state _ proofHash => decide (proofHash ∈ state),
    UpdatePortalStateUTXOs := fun state _ listUTXO => state ++ listUTXO.map (fun u => u.1),
    UpdatePortalStateShieldingExternalTx := fun state _ proofHash _ _ _ => state ++ [proofHash],
    StoreShieldingRequestStatus := fun db txReqID data =>
      if txReqID = "" then (some "db error", db) else (none, db ++ [(txReqID, data)]),
    hashString := fun h => String.mk (h.map Char.ofNat),
    NewHashFromStr := fun s => if s = "btc" then some [98, 116, 99] else none }

/-- The sample processor of the token `btc`: the proof `good` is valid and
carries two UTXOs, the proof `hollow` is valid and carries none, any other
proof is refused. -/
def sampleProcessor_btc : PortalTokenProcessor Unit (String × Nat) :=
  { GetExpectedMemoForShielding := fun addr => "memo:" ++ addr,
    ParseAndVerifyProof := fun proof _ _ _ =>
      if proof = "good" then (true, [("tx1", 30), ("tx2", 12)], none)
      else if proof = "hollow" then (true, [], none)
      else (false, [], some "invalid proof"),
    ConvertExternalToIncAmount := fun amount => amount * 10 }

/-- The sample portal parameters: only `btc` is supported. -/
def samplePortalParams : PortalParams Unit (String × Nat) :=
  { PortalTokens := fun tokenID => if tokenID = "btc" then some sampleProcessor_btc else none,
    MultiSigAddresses := fun tokenID => if tokenID = "btc" then "multisig" else "" }

/-- The conditions under which `BuildNewInsts` refuses a decoded shielding
action: the portal state is nil, the token is unsupported, `optionalData` is
missing or lacks a boolean `isExistProofTxHash`, the proof hash is recorded in
the portal state or, by `optionalData`, in the state DB, or the verification of
the proof fails. -/
def ShieldingRefused {β υ σ δ : Type} (E : ShieldEnv υ σ δ) (bc : β)
    (currentPortalState : Option σ) (portalParams : PortalParams β υ)
    (optionalData : Option (List (String × OptionalValue)))
    (actionData : PortalShieldingRequestAction) : Prop :=
  currentPortalState = none ∨
  portalParams.PortalTokens actionData.Meta.TokenID = none ∨
  optionalData = none ∨
  (∃ data, optionalData = some data ∧
    ∀ b, mapFind data "isExistProofTxHash" ≠ some (OptionalValue.boolean b)) ∨
  (∃ state, currentPortalState = some state ∧
    E.IsExistsProofInPortalState state actionData.Meta.TokenID
      (E.hashProof actionData.Meta.ShieldingProof) = true) ∨
  (∃ data, optionalData = some data ∧
    mapFind data "isExistProofTxHash" = some (OptionalValue.boolean true)) ∨
  (∃ portalTokenProcessor,
    portalParams.PortalTokens actionData.Meta.TokenID = some portalTokenProcessor ∧
    ((portalTokenProcessor.ParseAndVerifyProof actionData.Meta.ShieldingProof bc
        (portalTokenProcessor.GetExpectedMemoForShielding actionData.Meta.IncogAddressStr)
        (portalParams.MultiSigAddresses actionData.Meta.TokenID)).1 = false ∨
     (portalTokenProcessor.ParseAndVerifyProof actionData.Meta.ShieldingProof bc
        (portalTokenProcessor.GetExpectedMemoForShielding actionData.Meta.IncogAddressStr)
        (portalParams.MultiSigAddresses actionData.Meta.TokenID)).2.2 ≠ none))

/-- The conditions under which `ProcessInsts` counts a shielding instruction
for the token `incTokenID`: the portal state is not nil, the instruction has
four fields and the accepted status, its content decodes to `actionData`, the
write of the status succeeds, and the token ID of the content parses as the
hash `incTokenID`. -/
def ShieldingCounted {υ σ δ : Type} (E : ShieldEnv υ σ δ) (stateDB : δ)
    (instructions : List String) (currentPortalState : Option σ)
    (actionData : PortalShieldingRequestContent υ) (incTokenID : Hash) : Prop :=
  currentPortalState ≠ none ∧
  (∃ first second content,
    instructions = [first, second, E.PortalRequestAcceptedChainStatus, content] ∧
    E.unmarshalContent content = some actionData) ∧
  (E.StoreShieldingRequestStatus stateDB (E.hashString actionData.TxReqID)
    (shieldingReqTrackData E E.PortalRequestAcceptedStatus actionData)).1 = none ∧
  E.NewHashFromStr actionData.TokenID = some incTokenID

/-! ## Lemmas on maps and on the grouping of trades -/

theorem mapFind_mapAppend {κ β : Type} [DecidableEq κ] (m : List (κ × List β)) (k : κ) (v : β) (k' : κ) :
    mapFind (mapAppend m k v) k' = if k' = k then some (mapGet m k ++ [v]) else mapFind m k' := by
  induction m with
  | nil =>
    by_cases h : k' = k
    · simp [mapAppend, mapFind, mapGet, h]
    · have h' : ¬ k = k' := fun e => h e.symm
      simp [mapAppend, mapFind, h, h']
  | cons p rest ih =>
    obtain ⟨k0, vs⟩ := p
    by_cases h0 : k0 = k
    · subst h0
      by_cases h : k' = k0
      · subst h; simp [mapAppend, mapFind, mapGet]
      · have h' : ¬ k0 = k' := fun e => h e.symm
        simp [mapAppend, mapFind, h, h']
    · by_cases h : k' = k
      · subst h
        simp [mapAppend, mapFind, mapGet, h0, ih]
      · by_cases h1 : k0 = k'
        · simp [mapAppend, mapFind, h0, h, h1]
        · simp [mapAppend, mapFind, h0, h, h1, ih]

theorem mapGet_mapAppend {κ β : Type} [DecidableEq κ] (m : List (κ × List β)) (k : κ) (v : β) (k' : κ) :
    mapGet (mapAppend m k v) k' = if k' = k then mapGet m k ++ [v] else mapGet m k' := by
  unfold mapGet
  rw [mapFind_mapAppend]
  by_cases h : k' = k <;> simp [h, mapGet]

theorem mem_mapKeys {κ β : Type} [DecidableEq κ] (m : List (κ × β)) (k : κ) :
    k ∈ mapKeys m ↔ (mapFind m k).isSome = true := by
  unfold mapKeys
  rw [List.mem_dedup]
  induction m with
  | nil => simp [mapFind]
  | cons p rest ih =>
    obtain ⟨k0, v⟩ := p
    by_cases h : k0 = k
    · simp [mapFind, h]
    · have h' : ¬ k = k0 := fun e => h e.symm
      simp [mapFind, h, h', ih]

theorem nodup_mapKeys {κ β : Type} [DecidableEq κ] (m : List (κ × β)) : (mapKeys m).Nodup := List.nodup_dedup _

theorem mapGet_foldl_mapAppend {κ β : Type} [DecidableEq κ] (key : β → κ) (ts : List β) (m : List (κ × List β)) (k : κ) :
    mapGet (ts.foldl (fun acc t => mapAppend acc (key t) t) m) k
      = mapGet m k ++ ts.filter (fun t => decide (key t = k)) := by
  induction ts generalizing m with
  | nil => simp
  | cons t rest ih =>
    rw [List.foldl_cons, ih, mapGet_mapAppend]
    by_cases h : key t = k
    · have h' : k = key t := h.symm
      simp [h, List.filter_cons]
    · have h' : ¬ k = key t := fun e => h e.symm
      simp [h, h', List.filter_cons]

theorem mem_mapKeys_foldl_mapAppend {κ β : Type} [DecidableEq κ] (key : β → κ) (ts : List β) (m : List (κ × List β)) (k : κ) :
    k ∈ mapKeys (ts.foldl (fun acc t => mapAppend acc (key t) t) m)
      ↔ k ∈ mapKeys m ∨ ∃ t ∈ ts, key t = k := by
  induction ts generalizing m with
  | nil => simp
  | cons t rest ih =>
    rw [List.foldl_cons, ih, mem_mapKeys, mem_mapKeys, mapFind_mapAppend]
    by_cases h : k = key t
    · subst h; simp
    · have h' : ¬ key t = k := fun e => h e.symm
      simp [h, h']

theorem groupTradeActions_eq (dec : String → Option PDETradeRequestAction)
    (key : PDETradeRequestAction → Key) (actions : List Inst)
    (tb tb' : List (Key × List PDETradeRequestAction))
    (h : groupTradeActions dec key actions tb = some tb') :
    tb' = (decodedTrades dec actions).foldl (fun acc t => mapAppend acc (key t) t) tb := by
  induction actions generalizing tb with
  | nil => simp [groupTradeActions] at h; simp [decodedTrades, h]
  | cons a rest ih =>
    unfold groupTradeActions at h
    cases h1 : a[1]? with
    | none => simp [h1] at h
    | some c =>
      cases h2 : dec c with
      | none =>
        simp only [h1, h2] at h
        have := ih tb h
        simpa [decodedTrades, List.filterMap_cons, h1, h2] using this
      | some t =>
        simp only [h1, h2] at h
        have := ih _ h
        simpa [decodedTrades, List.filterMap_cons, h1, h2] using this

theorem groupTradeActions_isSome (dec : String → Option PDETradeRequestAction)
    (key : PDETradeRequestAction → Key) (actions : List Inst)
    (tb : List (Key × List PDETradeRequestAction))
    (h : ∀ a ∈ actions, 2 ≤ a.length) :
    ∃ tb', groupTradeActions dec key actions tb = some tb' := by
  induction actions generalizing tb with
  | nil => exact ⟨tb, rfl⟩
  | cons a rest ih =>
    have ha : 2 ≤ a.length := h a (List.mem_cons_self _ _)
    have hrest : ∀ a ∈ rest, 2 ≤ a.length := fun x hx => h x (List.mem_cons_of_mem _ hx)
    have h1 : a[1]? = some a[1] := List.getElem?_eq_getElem (by omega)
    unfold groupTradeActions
    rw [h1]
    cases h2 : dec a[1] with
    | none => simpa [h2] using ih tb hrest
    | some t => simpa [h2] using ih _ hrest

theorem groupTradeShards_eq (dec : String → Option PDETradeRequestAction)
    (key : PDETradeRequestAction → Key) (m : List (Nat × List Inst)) (keys : List Nat)
    (tb tb' : List (Key × List PDETradeRequestAction))
    (h : groupTradeShards dec key m keys tb = some tb') :
    tb' = (decodedTrades dec (keys.flatMap (mapGet m))).foldl
      (fun acc t => mapAppend acc (key t) t) tb := by
  induction keys generalizing tb with
  | nil => simp [groupTradeShards] at h; simp [decodedTrades, h]
  | cons k rest ih =>
    unfold groupTradeShards at h
    cases h1 : groupTradeActions dec key (mapGet m k) tb with
    | none => simp [h1] at h
    | some g =>
      simp only [h1] at h
      have e1 := groupTradeActions_eq dec key _ _ _ h1
      have e2 := ih _ h
      rw [e2, e1]
      simp [decodedTrades, List.flatMap_cons, List.filterMap_append, List.foldl_append]

theorem groupTradeShards_isSome (dec : String → Option PDETradeRequestAction)
    (key : PDETradeRequestAction → Key) (m : List (Nat × List Inst)) (keys : List Nat)
    (tb : List (Key × List PDETradeRequestAction))
    (h : ∀ k ∈ keys, ∀ a ∈ mapGet m k, 2 ≤ a.length) :
    ∃ tb', groupTradeShards dec key m keys tb = some tb' := by
  induction keys generalizing tb with
  | nil => exact ⟨tb, rfl⟩
  | cons k rest ih =>
    obtain ⟨g, hg⟩ := groupTradeActions_isSome dec key (mapGet m k) tb
      (h k (List.mem_cons_self _ _))
    unfold groupTradeShards
    rw [hg]
    exact ih g (fun k' hk' => h k' (List.mem_cons_of_mem _ hk'))

theorem sort_Strings_congr (l₁ l₂ : List Key) (h₁ : l₁.Nodup) (h₂ : l₂.Nodup)
    (h : ∀ k, k ∈ l₁ ↔ k ∈ l₂) : sort_Strings l₁ = sort_Strings l₂ := by
  unfold sort_Strings
  have hp : l₁.Perm l₂ := (List.perm_ext_iff_of_nodup h₁ h₂).mpr h
  apply List.eq_of_perm_of_sorted (r := (· ≤ ·))
  · exact ((List.perm_insertionSort _ l₁).trans hp).trans (List.perm_insertionSort _ l₂).symm
  · exact List.sorted_insertionSort _ _
  · exact List.sorted_insertionSort _ _

theorem mem_poolKeysOf (key : PDETradeRequestAction → Key) (ts : List PDETradeRequestAction)
    (k : Key) : k ∈ poolKeysOf key ts ↔ ∃ t ∈ ts, key t = k := by
  unfold poolKeysOf sort_Strings
  rw [(List.perm_insertionSort _ _).mem_iff, List.mem_dedup, List.mem_map]

theorem sorted_poolKeysOf (key : PDETradeRequestAction → Key) (ts : List PDETradeRequestAction) :
    (poolKeysOf key ts).Pairwise (· < ·) := by
  unfold poolKeysOf sort_Strings
  have hs : List.Sorted (· ≤ ·) (((ts.map key).dedup).insertionSort (· ≤ ·)) :=
    List.sorted_insertionSort _ _
  have hn : (((ts.map key).dedup).insertionSort (· ≤ ·)).Nodup :=
    (List.perm_insertionSort _ _).nodup_iff.mpr (List.nodup_dedup _)
  exact (List.Sorted.lt_of_le hs hn)

theorem splitTradesByPool_eq
    (sortSlice : (PDETradeRequestAction → PDETradeRequestAction → Bool) →
      List PDETradeRequestAction → List PDETradeRequestAction)
    (pools : List (Key × Option PDEPoolPair))
    (tb : List (Key × List PDETradeRequestAction)) (keys : List Key)
    (s n : List PDETradeRequestAction) :
    splitTradesByPool sortSlice pools tb keys (s, n) =
      (s ++ (keys.filter (fun k => !poolBypassed pools k)).flatMap
              (fun k => sortSlice tradeLess (mapGet tb k)),
       n ++ (keys.filter (fun k => poolBypassed pools k)).flatMap (fun k => mapGet tb k)) := by
  induction keys generalizing s n with
  | nil => simp [splitTradesByPool]
  | cons k rest ih =>
    unfold splitTradesByPool
    by_cases hb : poolBypassed pools k = true
    · simp [hb, ih, List.filter_cons]
    · simp [hb, ih, List.filter_cons]

theorem sortPDETradeInstsByFee_eq {ρ : Type}
    (sortSlice : (PDETradeRequestAction → PDETradeRequestAction → Bool) →
      List PDETradeRequestAction → List PDETradeRequestAction)
    (dec : String → Option PDETradeRequestAction) (key : PDETradeRequestAction → Key)
    (st : CurrentPDEState ρ) (m : List (Nat × List Inst)) (out : List PDETradeRequestAction)
    (h : sortPDETradeInstsByFee sortSlice dec key st m = some out) :
    out =
      ((poolKeysOf key (discoveredTrades dec m)).filter
          (fun k => !poolBypassed st.PDEPoolPairs k)).flatMap
        (fun k => sortSlice tradeLess
          ((discoveredTrades dec m).filter (fun t => decide (key t = k))))
      ++ ((poolKeysOf key (discoveredTrades dec m)).filter
          (fun k => poolBypassed st.PDEPoolPairs k)).flatMap
        (fun k => (discoveredTrades dec m).filter (fun t => decide (key t = k))) := by
  unfold sortPDETradeInstsByFee at h
  cases hg : groupTradeShards dec key m (shardKeys m) [] with
  | none => simp [hg] at h
  | some tb =>
    simp only [hg, Option.some.injEq] at h
    have htb := groupTradeShards_eq dec key m _ _ _ hg
    have hD : decodedTrades dec ((shardKeys m).flatMap (mapGet m)) = discoveredTrades dec m := rfl
    rw [hD] at htb
    have hget : ∀ k, mapGet tb k = (discoveredTrades dec m).filter (fun t => decide (key t = k)) := by
      intro k
      rw [htb, mapGet_foldl_mapAppend]
      simp [mapGet, mapFind]
    have hkeys : sort_Strings (mapKeys tb) = poolKeysOf key (discoveredTrades dec m) := by
      have hmem : ∀ k, k ∈ mapKeys tb ↔ k ∈ ((discoveredTrades dec m).map key).dedup := by
        intro k
        rw [htb, mem_mapKeys_foldl_mapAppend, List.mem_dedup, List.mem_map]
        simp [mapKeys]
      exact sort_Strings_congr _ _ (List.nodup_dedup _) (List.nodup_dedup _) hmem
    rw [← h, splitTradesByPool_eq, hkeys]
    simp [hget]

/-! ## The comparator on values below `2 ^ 63`, and two list lemmas -/

theorem int64_of_lt (x : Nat) (h : x < 2 ^ 63) : int64 x = (x : Int) := by
  unfold int64
  have h1 : x % 2 ^ 64 = x := Nat.mod_eq_of_lt (by omega)
  rw [h1, if_pos h]

theorem tradeLess_of_lt (x y : PDETradeRequestAction)
    (hx1 : x.Meta.TradingFee < 2 ^ 63) (hx2 : x.Meta.SellAmount < 2 ^ 63)
    (hy1 : y.Meta.TradingFee < 2 ^ 63) (hy2 : y.Meta.SellAmount < 2 ^ 63) :
    tradeLess x y = decide (y.Meta.TradingFee * x.Meta.SellAmount
      < x.Meta.TradingFee * y.Meta.SellAmount) := by
  unfold tradeLess
  rw [int64_of_lt _ hx1, int64_of_lt _ hx2, int64_of_lt _ hy1, int64_of_lt _ hy2]
  apply decide_eq_decide.mpr
  constructor
  · intro h; exact_mod_cast h
  · intro h; exact_mod_cast h

theorem cross_trans (fx sx fy sy fz sz : Nat)
    (h1 : fy * sx < fx * sy) (h2 : fz * sy < fy * sz) : fz * sx < fx * sz := by
  have hsy : 0 < sy := by
    rcases Nat.eq_zero_or_pos sy with h | h
    · subst h; simp at h1
    · exact h
  have hsz : 0 < sz := by
    rcases Nat.eq_zero_or_pos sz with h | h
    · subst h; simp at h2
    · exact h
  have a1 : fy * sx * sz < fx * sy * sz := Nat.mul_lt_mul_of_pos_right h1 hsz
  have a2 : fz * sy * sx ≤ fy * sz * sx := Nat.mul_le_mul_right _ (Nat.le_of_lt h2)
  have a3 : (fz * sx) * sy < (fx * sz) * sy := by nlinarith
  exact Nat.lt_of_mul_lt_mul_right a3

theorem cross_negtrans (fx sx fy sy fz sz : Nat) (hy : ¬ (fy = 0 ∧ sy = 0))
    (h1 : ¬ fy * sx < fx * sy) (h2 : ¬ fz * sy < fy * sz) : ¬ fz * sx < fx * sz := by
  have h1' : fx * sy ≤ fy * sx := Nat.le_of_not_lt h1
  have h2' : fy * sz ≤ fz * sy := Nat.le_of_not_lt h2
  apply Nat.not_lt.mpr
  rcases Nat.eq_zero_or_pos sy with h | h
  · subst h
    have hfy : 0 < fy := by
      rcases Nat.eq_zero_or_pos fy with h0 | h0
      · exact absurd ⟨h0, rfl⟩ hy
      · exact h0
    have hsz : sz = 0 := by
      rcases Nat.eq_zero_or_pos sz with h0 | h0
      · exact h0
      · have : 0 < fy * sz := Nat.mul_pos hfy h0
        omega
    subst hsz; simp
  · have a1 : fx * sy * sz ≤ fy * sx * sz := Nat.mul_le_mul_right _ h1'
    have a2 : fy * sz * sx ≤ fz * sy * sx := Nat.mul_le_mul_right _ h2'
    have a3 : (fx * sz) * sy ≤ (fz * sx) * sy := by nlinarith
    exact Nat.le_of_mul_le_mul_right a3 h

theorem filter_flatMap_key {τ : Type} (key : τ → Key) (l : List Key) (hn : l.Nodup)
    (f : Key → List τ) (hf : ∀ k', ∀ t ∈ f k', key t = k') (k : Key) :
    (l.flatMap f).filter (fun t => decide (key t = k)) = if k ∈ l then f k else [] := by
  induction l with
  | nil => simp
  | cons a rest ih =>
    rw [List.flatMap_cons, List.filter_append, ih (List.nodup_cons.mp hn).2]
    have hna : a ∉ rest := (List.nodup_cons.mp hn).1
    by_cases hak : k = a
    · subst hak
      have h1 : (f k).filter (fun t => decide (key t = k)) = f k := by
        rw [List.filter_eq_self]; intro t ht; simp [hf k t ht]
      simp [h1, hna]
    · have h1 : (f a).filter (fun t => decide (key t = k)) = [] := by
        rw [List.filter_eq_nil_iff]; intro t ht
        have := hf a t ht
        simp [this]; exact fun e => hak e.symm
      simp [h1, hak]

theorem rel_of_pairwise_filter {τ : Type} (R : τ → τ → Prop) (P : τ → Bool) (l : List τ)
    (h : (l.filter P).Pairwise R) (p q : Nat) (x y : τ) (hpq : p < q)
    (hx : l[p]? = some x) (hy : l[q]? = some y) (hPx : P x = true) (hPy : P y = true) :
    R x y := by
  have hsub : List.Sublist [x, y] l := by
    obtain ⟨hp, rfl⟩ := List.getElem?_eq_some_iff.mp hx
    obtain ⟨hq, rfl⟩ := List.getElem?_eq_some_iff.mp hy
    have hpw : l.Pairwise (fun a b => List.Sublist [a, b] l) := by
      rw [List.pairwise_iff_forall_sublist]
      intro a b hab; exact hab
    exact (List.pairwise_iff_getElem.mp hpw) p q hp hq hpq
  have hsub2 : List.Sublist ([x, y].filter P) (l.filter P) := hsub.filter P
  have e : [x, y].filter P = [x, y] := by simp [List.filter_cons, hPx, hPy]
  rw [e] at hsub2
  exact (List.pairwise_iff_forall_sublist.mp h) hsub2


/-! ## The output of `sortPDETradeInstsByFee`, pool by pool -/

theorem nodup_poolKeysOf (key : PDETradeRequestAction → Key) (ts : List PDETradeRequestAction) :
    (poolKeysOf key ts).Nodup :=
  (sorted_poolKeysOf key ts).imp (fun h => ne_of_lt h)

theorem filter_key_eq_nil_of_not_mem (key : PDETradeRequestAction → Key)
    (ts : List PDETradeRequestAction) (k : Key) (h : k ∉ poolKeysOf key ts) :
    ts.filter (fun t => decide (key t = k)) = [] := by
  rw [List.filter_eq_nil_iff]
  intro t ht
  have : ¬ key t = k := fun e => h ((mem_poolKeysOf key ts k).mpr ⟨t, ht, e⟩)
  simp [this]

theorem filter_key_sortPDETradeInstsByFee {ρ : Type}
    (sortSlice : (PDETradeRequestAction → PDETradeRequestAction → Bool) →
      List PDETradeRequestAction → List PDETradeRequestAction)
    (hperm : ∀ less data, (sortSlice less data).Perm data)
    (dec : String → Option PDETradeRequestAction) (key : PDETradeRequestAction → Key)
    (st : CurrentPDEState ρ) (m : List (Nat × List Inst)) (out : List PDETradeRequestAction)
    (h : sortPDETradeInstsByFee sortSlice dec key st m = some out) (k : Key) :
    out.filter (fun t => decide (key t = k)) =
      if poolBypassed st.PDEPoolPairs k = true then
        (discoveredTrades dec m).filter (fun t => decide (key t = k))
      else sortSlice tradeLess ((discoveredTrades dec m).filter (fun t => decide (key t = k))) := by
  have hout := sortPDETradeInstsByFee_eq sortSlice dec key st m out h
  have hnd := nodup_poolKeysOf key (discoveredTrades dec m)
  have hf1 : ∀ k', ∀ t ∈ sortSlice tradeLess
      ((discoveredTrades dec m).filter (fun t => decide (key t = k'))), key t = k' := by
    intro k' t ht
    have := (hperm _ _).mem_iff.mp ht
    simpa using (List.mem_filter.mp this).2
  have hf2 : ∀ k', ∀ t ∈ (discoveredTrades dec m).filter (fun t => decide (key t = k')),
      key t = k' := by
    intro k' t ht
    simpa using (List.mem_filter.mp ht).2
  rw [hout, List.filter_append,
    filter_flatMap_key key _ (hnd.filter _) _ hf1 k,
    filter_flatMap_key key _ (hnd.filter _) _ hf2 k]
  by_cases hmem : k ∈ poolKeysOf key (discoveredTrades dec m)
  · by_cases hb : poolBypassed st.PDEPoolPairs k = true
    · simp [List.mem_filter, hmem, hb]
    · simp [List.mem_filter, hmem, hb]
  · have hnil := filter_key_eq_nil_of_not_mem key _ k hmem
    have hs : sortSlice tradeLess [] = [] := List.Perm.eq_nil (hperm _ _)
    simp [List.mem_filter, hmem, hnil, hs]

theorem poolBypassed_eq_false_iff (pools : List (Key × Option PDEPoolPair)) (k : Key) :
    poolBypassed pools k = false ↔
      ∃ poolPair, mapFind pools k = some (some poolPair) ∧
        poolPair.Token1PoolValue ≠ 0 ∧ poolPair.Token2PoolValue ≠ 0 := by
  unfold poolBypassed
  cases h : mapFind pools k with
  | none => simp
  | some o =>
    cases o with
    | none => simp
    | some pp => simp


/-! ## Swaps rearrange -/

theorem set_of_getElem? {α : Type} (data : List α) (i : Nat) (x : α)
    (h : data[i]? = some x) : data.set i x = data := by
  induction data generalizing i with
  | nil => rfl
  | cons a rest ih =>
    cases i with
    | zero => simp at h; simp [h]
    | succ n => simp at h; simp [ih n h]

theorem swapAt_self {α : Type} (data : List α) (i : Nat) : swapAt data i i = data := by
  unfold swapAt
  cases h : data[i]? with
  | none => rfl
  | some x =>
    simp only
    rw [set_of_getElem? data i x h, set_of_getElem? data i x h]

theorem swapAt_comm {α : Type} (data : List α) (i j : Nat) : swapAt data i j = swapAt data j i := by
  by_cases hij : i = j
  · subst hij; rfl
  · unfold swapAt
    cases hi : data[i]? with
    | none => cases hj : data[j]? <;> simp
    | some x =>
      cases hj : data[j]? with
      | none => simp
      | some y => exact List.set_comm _ _ _ hij

theorem swapAt_append_lt {α : Type} (l1 l2 l3 : List α) (x y : α) :
    swapAt (l1 ++ x :: (l2 ++ y :: l3)) l1.length (l1.length + 1 + l2.length)
      = l1 ++ y :: (l2 ++ x :: l3) := by
  unfold swapAt
  have h1 : (l1 ++ x :: (l2 ++ y :: l3))[l1.length]? = some x := by
    rw [List.getElem?_append_right (Nat.le_refl _)]; simp
  have h2 : (l1 ++ x :: (l2 ++ y :: l3))[l1.length + 1 + l2.length]? = some y := by
    rw [List.getElem?_append_right (by omega)]
    have : l1.length + 1 + l2.length - l1.length = l2.length + 1 := by omega
    rw [this, List.getElem?_cons_succ, List.getElem?_append_right (Nat.le_refl _)]
    simp
  rw [h1, h2]
  simp only
  rw [List.set_append_right _ _ (by omega)]
  simp only [Nat.sub_self, List.set_cons_zero]
  rw [List.set_append_right _ _ (by omega)]
  have : l1.length + 1 + l2.length - l1.length = l2.length + 1 := by omega
  rw [this, List.set_cons_succ, List.set_append_right _ _ (by omega)]
  simp

theorem swapAt_length {α : Type} (data : List α) (i j : Nat) :
    (swapAt data i j).length = data.length := by
  unfold swapAt
  cases hi : data[i]? with
  | none => simp
  | some x => cases hj : data[j]? <;> simp

theorem swapAt_perm {α : Type} (data : List α) (i j : Nat) : (swapAt data i j).Perm data := by
  wlog hij : i ≤ j generalizing i j
  · rw [swapAt_comm]; exact this j i (by omega)
  rcases Nat.eq_or_lt_of_le hij with h | h
  · subst h; rw [swapAt_self]
  · by_cases hj : j < data.length
    · have hi : i < data.length := by omega
      have e : data = data.take i ++ data[i] :: ((data.drop (i + 1)).take (j - i - 1)
          ++ data[j] :: data.drop (j + 1)) := by
        conv_lhs => rw [← List.take_append_drop i data]
        congr 1
        rw [List.drop_eq_getElem_cons hi]
        congr 1
        conv_lhs => rw [← List.take_append_drop (j - i - 1) (data.drop (i + 1))]
        congr 1
        rw [List.drop_drop]
        have : i + 1 + (j - i - 1) = j := by omega
        rw [this, List.drop_eq_getElem_cons hj]
      have hl1 : (data.take i).length = i := by simp; omega
      have hl2 : ((data.drop (i + 1)).take (j - i - 1)).length = j - i - 1 := by simp; omega
      have hidx : j = (data.take i).length + 1 + ((data.drop (i + 1)).take (j - i - 1)).length := by
        rw [hl1, hl2]; omega
      have key := swapAt_append_lt (data.take i) ((data.drop (i + 1)).take (j - i - 1))
        (data.drop (j + 1)) data[i] data[j]
      rw [← hidx, hl1, ← e] at key
      rw [key]
      conv_rhs => rw [e]
      apply List.Perm.append_left
      -- y :: (l2 ++ x :: l3) ~ x :: (l2 ++ y :: l3)
      refine (List.Perm.cons _ List.perm_middle).trans ?_
      refine (List.Perm.swap _ _ _).trans ?_
      exact List.Perm.cons _ List.perm_middle.symm
    · have : data[j]? = none := List.getElem?_eq_none (by omega)
      unfold swapAt
      cases hi : data[i]? <;> simp [this]


theorem foldl_perm {α ι : Type} (f : List α → ι → List α) (hf : ∀ d i, (f d i).Perm d)
    (l : List ι) (data : List α) : (l.foldl f data).Perm data := by
  induction l generalizing data with
  | nil => exact List.Perm.refl _
  | cons i rest ih => exact (ih (f data i)).trans (hf data i)

theorem insertionShift_perm {α : Type} (less : α → α → Bool) (a j : Nat) (data : List α) :
    (insertionShift less a j data).Perm data := by
  induction j generalizing data with
  | zero => exact List.Perm.refl _
  | succ n ih =>
    unfold insertionShift
    split_ifs
    · exact (ih _).trans (swapAt_perm _ _ _)
    · exact List.Perm.refl _

theorem insertionSort_func_perm {α : Type} (less : α → α → Bool) (data : List α) (a b : Nat) :
    (insertionSort_func less data a b).Perm data :=
  foldl_perm _ (fun d i => insertionShift_perm less a i d) _ _

theorem shellPass_perm {α : Type} (less : α → α → Bool) (data : List α) (a b : Nat) :
    (shellPass less data a b).Perm data := by
  apply foldl_perm
  intro d i
  split_ifs
  · exact swapAt_perm _ _ _
  · exact List.Perm.refl _

theorem siftDown_func_perm {α : Type} (less : α → α → Bool) (hi first fuel root : Nat)
    (data : List α) : (siftDown_func less hi first fuel root data).Perm data := by
  induction fuel generalizing root data with
  | zero => exact List.Perm.refl _
  | succ n ih =>
    unfold siftDown_func
    simp only
    split_ifs <;>
      first
      | exact List.Perm.refl _
      | exact (ih _ _).trans (swapAt_perm _ _ _)

theorem heapSort_func_perm {α : Type} (less : α → α → Bool) (data : List α) (a b : Nat) :
    (heapSort_func less data a b).Perm data := by
  unfold heapSort_func
  simp only
  refine (foldl_perm _ ?_ _ _).trans (foldl_perm _ ?_ _ _)
  · intro d i; exact (siftDown_func_perm _ _ _ _ _ _).trans (swapAt_perm _ _ _)
  · intro d i; exact siftDown_func_perm _ _ _ _ _ _

theorem medianOfThree_func_perm {α : Type} (less : α → α → Bool) (data : List α)
    (m1 m0 m2 : Nat) : (medianOfThree_func less data m1 m0 m2).Perm data := by
  unfold medianOfThree_func
  simp only
  split_ifs <;>
    first
    | exact List.Perm.refl _
    | exact swapAt_perm _ _ _
    | exact (swapAt_perm _ _ _).trans (swapAt_perm _ _ _)
    | exact ((swapAt_perm _ _ _).trans (swapAt_perm _ _ _)).trans (swapAt_perm _ _ _)

theorem pivotLoop_perm {α : Type} (less : α → α → Bool) (pivot fuel : Nat) (data : List α)
    (b c : Nat) : (pivotLoop less pivot fuel data b c).1.Perm data := by
  induction fuel generalizing data b c with
  | zero => exact List.Perm.refl _
  | succ n ih =>
    unfold pivotLoop
    simp only
    split_ifs
    · exact List.Perm.refl _
    · exact (ih _ _ _).trans (swapAt_perm _ _ _)

theorem protectLoop_perm {α : Type} (less : α → α → Bool) (pivot fuel : Nat) (data : List α)
    (a b : Nat) : (protectLoop less pivot fuel data a b).1.Perm data := by
  induction fuel generalizing data a b with
  | zero => exact List.Perm.refl _
  | succ n ih =>
    unfold protectLoop
    simp only
    split_ifs
    · exact List.Perm.refl _
    · exact (ih _ _ _).trans (swapAt_perm _ _ _)

theorem pivotMedians_perm {α : Type} (less : α → α → Bool) (data : List α) (lo hi : Nat) :
    (pivotMedians less data lo hi).Perm data := by
  unfold pivotMedians
  simp only
  split_ifs
  · exact (medianOfThree_func_perm _ _ _ _ _).trans
      ((medianOfThree_func_perm _ _ _ _ _).trans
        ((medianOfThree_func_perm _ _ _ _ _).trans (medianOfThree_func_perm _ _ _ _ _)))
  · exact medianOfThree_func_perm _ _ _ _ _

theorem pivotDups_perm {α : Type} (less : α → α → Bool) (data : List α) (pivot m hi b c : Nat) :
    (pivotDups less data pivot m hi b c).1.Perm data := by
  unfold pivotDups
  simp only
  split_ifs <;>
    first
    | exact List.Perm.refl _
    | exact swapAt_perm _ _ _
    | exact (swapAt_perm _ _ _).trans (swapAt_perm _ _ _)

theorem doPivot_func_perm {α : Type} (less : α → α → Bool) (data : List α) (lo hi : Nat) :
    (doPivot_func less data lo hi).1.Perm data := by
  unfold doPivot_func
  simp only
  refine (swapAt_perm _ _ _).trans ?_
  have h1 := pivotMedians_perm less data lo hi
  split_ifs
  · exact (protectLoop_perm _ _ _ _ _ _).trans
      ((pivotDups_perm _ _ _ _ _ _ _).trans ((pivotLoop_perm _ _ _ _ _ _).trans h1))
  · exact (pivotDups_perm _ _ _ _ _ _ _).trans ((pivotLoop_perm _ _ _ _ _ _).trans h1)
  · exact (protectLoop_perm _ _ _ _ _ _).trans ((pivotLoop_perm _ _ _ _ _ _).trans h1)
  · exact (pivotLoop_perm _ _ _ _ _ _).trans h1

theorem quickSortTail_perm {α : Type} (less : α → α → Bool) (data : List α) (a b : Nat) :
    (quickSortTail less data a b).Perm data := by
  unfold quickSortTail
  split_ifs
  · exact (insertionSort_func_perm _ _ _ _).trans (shellPass_perm _ _ _ _)
  · exact List.Perm.refl _

theorem quickSort_func_perm {α : Type} (less : α → α → Bool) (depth : Nat) (data : List α)
    (a b : Nat) : (quickSort_func less depth data a b).Perm data := by
  induction depth generalizing data a b with
  | zero =>
    unfold quickSort_func
    split_ifs
    · exact heapSort_func_perm _ _ _ _
    · exact quickSortTail_perm _ _ _ _
  | succ n ih =>
    unfold quickSort_func
    simp only
    split_ifs
    · exact (ih _ _ _).trans ((ih _ _ _).trans (doPivot_func_perm _ _ _ _))
    · exact (ih _ _ _).trans ((ih _ _ _).trans (doPivot_func_perm _ _ _ _))
    · exact quickSortTail_perm _ _ _ _

theorem sort_Slice_perm {α : Type} (less : α → α → Bool) (data : List α) :
    (sort_Slice less data).Perm data :=
  quickSort_func_perm _ _ _ _ _


/-! ## The insertion sort, read on lists -/

theorem shiftInto_length {α : Type} (less : α → α → Bool) (x : α) (rp : List α) :
    (shiftInto less x rp).length = rp.length + 1 := by
  induction rp with
  | nil => rfl
  | cons y rest ih =>
    unfold shiftInto
    split_ifs <;> simp [ih]

theorem swapAt_adjacent {α : Type} (l1 l2 : List α) (x y : α) :
    swapAt (l1 ++ y :: x :: l2) (l1.length + 1) l1.length = l1 ++ x :: y :: l2 := by
  rw [swapAt_comm]
  have := swapAt_append_lt l1 [] l2 y x
  simpa using this

theorem insertionShift_eq {α : Type} (less : α → α → Bool) (front rp post : List α) (x : α) :
    insertionShift less front.length (front.length + rp.length)
        (front ++ (rp.reverse ++ x :: post))
      = front ++ ((shiftInto less x rp).reverse ++ post) := by
  induction rp generalizing post with
  | nil =>
    simp only [List.length_nil, Nat.add_zero, List.reverse_nil, List.nil_append, shiftInto,
      List.reverse_cons, List.singleton_append]
    cases h : front.length with
    | zero => rfl
    | succ n =>
      unfold insertionShift
      simp
  | cons y rest ih =>
    have hj : front.length + (y :: rest).length = (front.length + rest.length) + 1 := by
      simp; omega
    rw [hj]
    unfold insertionShift
    have hdata : front ++ ((y :: rest).reverse ++ x :: post)
        = (front ++ rest.reverse) ++ y :: x :: post := by simp
    have hlen : (front ++ rest.reverse).length = front.length + rest.length := by simp
    have hless : lessAt less (front ++ ((y :: rest).reverse ++ x :: post))
        (front.length + rest.length + 1) (front.length + rest.length) = less x y := by
      rw [hdata, ← hlen]
      unfold lessAt
      rw [List.getElem?_append_right (by omega), List.getElem?_append_right (by omega)]
      simp
    rw [hless]
    by_cases hxy : less x y = true
    · have hcond : front.length < front.length + rest.length + 1 ∧ less x y = true :=
        ⟨by omega, hxy⟩
      rw [if_pos hcond, hdata, ← hlen, swapAt_adjacent, hlen]
      have := ih (y :: post)
      rw [List.append_assoc, this]
      simp [shiftInto, hxy]
    · have hcond : ¬ (front.length < front.length + rest.length + 1 ∧ less x y = true) :=
        fun h => hxy h.2
      rw [if_neg hcond]
      simp [shiftInto, hxy]

theorem insertion_foldl_eq {α : Type} (less : α → α → Bool) (front rp rest back : List α) :
    (List.range' (front.length + rp.length) rest.length).foldl
        (fun d i => insertionShift less front.length i d)
        (front ++ (rp.reverse ++ (rest ++ back)))
      = front ++ ((rest.foldl (fun acc x => shiftInto less x acc) rp).reverse ++ back) := by
  induction rest generalizing rp with
  | nil => simp
  | cons x rest' ih =>
    simp only [List.length_cons, List.range'_succ, List.foldl_cons, List.cons_append]
    rw [insertionShift_eq]
    have := ih (shiftInto less x rp)
    rw [shiftInto_length] at this
    have e : front.length + (rp.length + 1) = front.length + rp.length + 1 := by omega
    rw [e] at this
    exact this

theorem insertionSort_func_eq {α : Type} (less : α → α → Bool) (front seg back : List α) :
    insertionSort_func less (front ++ (seg ++ back)) front.length (front.length + seg.length)
      = front ++ ((seg.foldl (fun acc x => shiftInto less x acc) []).reverse ++ back) := by
  unfold insertionSort_func
  cases seg with
  | nil => simp
  | cons x rest =>
    have e1 : front.length + (x :: rest).length - (front.length + 1) = rest.length := by
      simp; omega
    rw [e1]
    have := insertion_foldl_eq less front [x] rest back
    simpa [shiftInto] using this

theorem insertionSort_func_whole {α : Type} (less : α → α → Bool) (data : List α) :
    insertionSort_func less data 0 data.length
      = (data.foldl (fun acc x => shiftInto less x acc) []).reverse := by
  have := insertionSort_func_eq less [] data []
  simpa using this


theorem mem_shiftInto {α : Type} (less : α → α → Bool) (x : α) (rp : List α) (w : α) :
    w ∈ shiftInto less x rp ↔ w = x ∨ w ∈ rp := by
  induction rp with
  | nil => simp [shiftInto]
  | cons y rest ih =>
    unfold shiftInto
    split_ifs
    · simp only [List.mem_cons, ih]; tauto
    · simp only [List.mem_cons]

theorem mem_foldl_shiftInto {α : Type} (less : α → α → Bool) (seg rp : List α) (w : α) :
    w ∈ seg.foldl (fun acc x => shiftInto less x acc) rp ↔ w ∈ seg ∨ w ∈ rp := by
  induction seg generalizing rp with
  | nil => simp
  | cons x rest ih =>
    simp only [List.foldl_cons, ih, mem_shiftInto, List.mem_cons]; tauto

theorem shiftInto_sorted {α : Type} (less : α → α → Bool) (S : α → Prop)
    (hirr : ∀ x, S x → less x x = false)
    (htr : ∀ x y z, S x → S y → S z → less x y = true → less y z = true → less x z = true)
    (hneg : ∀ x y z, S x → S y → S z → less x y = false → less y z = false → less x z = false)
    (x : α) (rp : List α) (hx : S x) (hrp : ∀ y ∈ rp, S y)
    (hs : rp.Pairwise (fun u v => less u v = false)) :
    (shiftInto less x rp).Pairwise (fun u v => less u v = false) := by
  induction rp with
  | nil => simp [shiftInto]
  | cons y rest ih =>
    have hy : S y := hrp y (List.mem_cons_self _ _)
    have hrest : ∀ w ∈ rest, S w := fun w hw => hrp w (List.mem_cons_of_mem _ hw)
    have hs' := List.pairwise_cons.mp hs
    unfold shiftInto
    by_cases hxy : less x y = true
    · rw [if_pos hxy]
      refine List.pairwise_cons.mpr ⟨?_, ih hrest hs'.2⟩
      intro w hw
      rcases (mem_shiftInto less x rest w).mp hw with h | h
      · subst h
        cases hyx : less y w with
        | false => rfl
        | true =>
          have := htr w y w hx hy hx hxy hyx
          rw [hirr w hx] at this
          exact absurd this (by simp)
      · exact hs'.1 w h
    · rw [if_neg hxy]
      have hxy' : less x y = false := by simpa using hxy
      refine List.pairwise_cons.mpr ⟨?_, hs⟩
      intro w hw
      rcases List.mem_cons.mp hw with h | h
      · subst h; exact hxy'
      · exact hneg x y w hx hy (hrest w h) hxy' (hs'.1 w h)

theorem foldl_shiftInto_sorted {α : Type} (less : α → α → Bool) (S : α → Prop)
    (hirr : ∀ x, S x → less x x = false)
    (htr : ∀ x y z, S x → S y → S z → less x y = true → less y z = true → less x z = true)
    (hneg : ∀ x y z, S x → S y → S z → less x y = false → less y z = false → less x z = false)
    (seg rp : List α) (hseg : ∀ y ∈ seg, S y) (hrp : ∀ y ∈ rp, S y)
    (hs : rp.Pairwise (fun u v => less u v = false)) :
    (seg.foldl (fun acc x => shiftInto less x acc) rp).Pairwise (fun u v => less u v = false) := by
  induction seg generalizing rp with
  | nil => exact hs
  | cons x rest ih =>
    rw [List.foldl_cons]
    apply ih _ (fun y hy => hseg y (List.mem_cons_of_mem _ hy))
    · intro w hw
      rcases (mem_shiftInto less x rp w).mp hw with h | h
      · subst h; exact hseg w (List.mem_cons_self _ _)
      · exact hrp w h
    · exact shiftInto_sorted less S hirr htr hneg x rp (hseg x (List.mem_cons_self _ _)) hrp hs

theorem insertionSort_func_sorted {α : Type} (less : α → α → Bool) (data : List α)
    (hirr : ∀ x ∈ data, less x x = false)
    (htr : ∀ x ∈ data, ∀ y ∈ data, ∀ z ∈ data,
      less x y = true → less y z = true → less x z = true)
    (hneg : ∀ x ∈ data, ∀ y ∈ data, ∀ z ∈ data,
      less x y = false → less y z = false → less x z = false) :
    (insertionSort_func less data 0 data.length).Pairwise (fun x y => less y x = false) := by
  rw [insertionSort_func_whole, List.pairwise_reverse]
  exact foldl_shiftInto_sorted less (fun x => x ∈ data) hirr
    (fun x y z hx hy hz => htr x hx y hy z hz) (fun x y z hx hy hz => hneg x hx y hy z hz)
    data [] (fun y hy => hy) (by simp) List.Pairwise.nil

theorem shiftInto_filter {α : Type} (less : α → α → Bool) (P : α → Bool) (x : α)
    (rp : List α) (h : P x = true → ∀ y ∈ rp, P y = true → less x y = false) :
    (shiftInto less x rp).filter P = (x :: rp).filter P := by
  induction rp with
  | nil => simp [shiftInto]
  | cons y rest ih =>
    have ih' := ih (fun hx w hw hPw => h hx w (List.mem_cons_of_mem _ hw) hPw)
    unfold shiftInto
    by_cases hxy : less x y = true
    · rw [if_pos hxy, List.filter_cons, ih']
      by_cases hPx : P x = true
      · have hPy : ¬ P y = true := by
          intro hPy
          have := h hPx y (List.mem_cons_self _ _) hPy
          rw [this] at hxy; exact absurd hxy (by simp)
        simp [List.filter_cons, hPx, hPy]
      · simp [List.filter_cons, hPx]
    · rw [if_neg hxy]

theorem foldl_shiftInto_filter {α : Type} (less : α → α → Bool) (P : α → Bool)
    (seg rp : List α)
    (h : ∀ x ∈ seg ++ rp, ∀ y ∈ seg ++ rp, P x = true → P y = true → less x y = false) :
    (seg.foldl (fun acc x => shiftInto less x acc) rp).filter P
      = (seg.reverse ++ rp).filter P := by
  induction seg generalizing rp with
  | nil => simp
  | cons x rest ih =>
    rw [List.foldl_cons, ih]
    · rw [List.filter_append, shiftInto_filter, List.reverse_cons, List.append_assoc,
        List.filter_append]
      · rfl
      · intro hPx y hy hPy
        exact h x (by simp) y (by simp [hy]) hPx hPy
    · intro u hu v hv hPu hPv
      have hu' : u ∈ (x :: rest) ++ rp := by
        rcases List.mem_append.mp hu with h1 | h1
        · simp [h1]
        · rcases (mem_shiftInto less x rp u).mp h1 with h2 | h2
          · simp [h2]
          · simp [h2]
      have hv' : v ∈ (x :: rest) ++ rp := by
        rcases List.mem_append.mp hv with h1 | h1
        · simp [h1]
        · rcases (mem_shiftInto less x rp v).mp h1 with h2 | h2
          · simp [h2]
          · simp [h2]
      exact h u hu' v hv' hPu hPv

theorem insertionSort_func_stable {α : Type} (less : α → α → Bool) (P : α → Bool)
    (data : List α)
    (h : ∀ x ∈ data, ∀ y ∈ data, P x = true → P y = true → less x y = false) :
    (insertionSort_func less data 0 data.length).filter P = data.filter P := by
  rw [insertionSort_func_whole, List.filter_reverse, foldl_shiftInto_filter less P data []
    (by simpa using h)]
  simp [List.filter_reverse]

theorem sort_Slice_small {α : Type} (less : α → α → Bool) (data : List α)
    (h : data.length ≤ 6) : sort_Slice less data = insertionSort_func less data 0 data.length := by
  unfold sort_Slice
  have hq : ∀ d, quickSort_func less d data 0 data.length
      = quickSortTail less data 0 data.length := by
    intro d
    cases d with
    | zero => unfold quickSort_func; rw [if_neg (by omega)]
    | succ n => unfold quickSort_func; simp only; rw [if_neg (by omega)]
  rw [hq]
  unfold quickSortTail
  have hshell : shellPass less data 0 data.length = data := by
    unfold shellPass
    have : data.length - (0 + 6) = 0 := by omega
    rw [this]; rfl
  rw [hshell]
  split_ifs with h1
  · rfl
  · unfold insertionSort_func
    have : data.length - (0 + 1) = 0 := by omega
    rw [this]; rfl


/-! ## C1 and C2: the fee order and the comparator -/

theorem insertionSlice_spec {α : Type} :
    SortSliceSpec (insertionSlice : (α → α → Bool) → List α → List α) where
  perm := fun less data => insertionSort_func_perm less data 0 data.length
  sorted := fun less data hirr htr hneg => insertionSort_func_sorted less data hirr htr hneg

/-- C1 (as amended). In the output of `sortPDETradeInstsByFee`, the trades of a
pool that exists with both reserves non-zero are in non-increasing fee/sell-amount
order, `TradingFee_p * SellAmount_q ≥ TradingFee_q * SellAmount_p` for output
positions `p < q`, provided the fees and sell amounts of the trades of that pool
are below `2 ^ 63` and none of these trades has both a zero fee and a zero sell
amount; `sort.Slice` is any sort that meets its contract. -/
theorem sortPDETradeInstsByFee_fee_order {ρ : Type}
    (sortSlice : (PDETradeRequestAction → PDETradeRequestAction → Bool) →
      List PDETradeRequestAction → List PDETradeRequestAction)
    (hsort : SortSliceSpec sortSlice)
    (decodeTrade : String → Option PDETradeRequestAction)
    (poolKey : PDETradeRequestAction → Key)
    (currentPDEState : CurrentPDEState ρ)
    (pdeTradeActionsByShardID : List (Nat × List Inst))
    (out : List PDETradeRequestAction)
    (hout : sortPDETradeInstsByFee sortSlice decodeTrade poolKey currentPDEState
      pdeTradeActionsByShardID = some out)
    (poolPairKey : Key) (poolPair : PDEPoolPair)
    (hfound : mapFind currentPDEState.PDEPoolPairs poolPairKey = some (some poolPair))
    (hres1 : poolPair.Token1PoolValue ≠ 0) (hres2 : poolPair.Token2PoolValue ≠ 0)
    (hrange : ∀ t ∈ discoveredTrades decodeTrade pdeTradeActionsByShardID,
      poolKey t = poolPairKey →
        t.Meta.TradingFee < 2 ^ 63 ∧ t.Meta.SellAmount < 2 ^ 63 ∧
        ¬ (t.Meta.TradingFee = 0 ∧ t.Meta.SellAmount = 0))
    (p q : Nat) (x y : PDETradeRequestAction) (hpq : p < q)
    (hx : out[p]? = some x) (hy : out[q]? = some y)
    (hkx : poolKey x = poolPairKey) (hky : poolKey y = poolPairKey) :
    y.Meta.TradingFee * x.Meta.SellAmount ≤ x.Meta.TradingFee * y.Meta.SellAmount := by
  have hbyp : poolBypassed currentPDEState.PDEPoolPairs poolPairKey = false :=
    (poolBypassed_eq_false_iff _ _).mpr ⟨poolPair, hfound, hres1, hres2⟩
  have hfilter := filter_key_sortPDETradeInstsByFee sortSlice hsort.perm decodeTrade poolKey
    currentPDEState pdeTradeActionsByShardID out hout poolPairKey
  rw [hbyp] at hfilter
  simp only [Bool.false_eq_true, if_false] at hfilter
  -- the group of the pool and the comparator on it
  have hgrp : ∀ t ∈ (discoveredTrades decodeTrade pdeTradeActionsByShardID).filter
      (fun t => decide (poolKey t = poolPairKey)),
      t.Meta.TradingFee < 2 ^ 63 ∧ t.Meta.SellAmount < 2 ^ 63 ∧
        ¬ (t.Meta.TradingFee = 0 ∧ t.Meta.SellAmount = 0) := by
    intro t ht
    have := List.mem_filter.mp ht
    exact hrange t this.1 (by simpa using this.2)
  have hless : ∀ u ∈ (discoveredTrades decodeTrade pdeTradeActionsByShardID).filter
      (fun t => decide (poolKey t = poolPairKey)),
      ∀ v ∈ (discoveredTrades decodeTrade pdeTradeActionsByShardID).filter
      (fun t => decide (poolKey t = poolPairKey)),
      tradeLess u v = decide (v.Meta.TradingFee * u.Meta.SellAmount
        < u.Meta.TradingFee * v.Meta.SellAmount) :=
    fun u hu v hv => tradeLess_of_lt u v (hgrp u hu).1 (hgrp u hu).2.1 (hgrp v hv).1
      (hgrp v hv).2.1
  have hsorted := hsort.sorted tradeLess _
    (by
      intro u hu
      rw [hless u hu u hu]; simp)
    (by
      intro u hu v hv w hw h1 h2
      rw [hless u hu v hv] at h1
      rw [hless v hv w hw] at h2
      rw [hless u hu w hw]
      simp only [decide_eq_true_eq] at h1 h2 ⊢
      exact cross_trans _ _ _ _ _ _ h1 h2)
    (by
      intro u hu v hv w hw h1 h2
      rw [hless u hu v hv] at h1
      rw [hless v hv w hw] at h2
      rw [hless u hu w hw]
      simp only [decide_eq_false_iff_not] at h1 h2 ⊢
      exact cross_negtrans _ _ _ _ _ _ (hgrp v hv).2.2 h1 h2)
  rw [← hfilter] at hsorted
  have hrel := rel_of_pairwise_filter _ _ out hsorted p q x y hpq hx hy
    (by simpa using hkx) (by simpa using hky)
  -- back from the comparator to the products
  have hxm : x ∈ (discoveredTrades decodeTrade pdeTradeActionsByShardID).filter
      (fun t => decide (poolKey t = poolPairKey)) := by
    have : x ∈ out.filter (fun t => decide (poolKey t = poolPairKey)) :=
      List.mem_filter.mpr ⟨List.getElem?_mem hx, by simpa using hkx⟩
    rw [hfilter] at this
    exact (hsort.perm _ _).mem_iff.mp this
  have hym : y ∈ (discoveredTrades decodeTrade pdeTradeActionsByShardID).filter
      (fun t => decide (poolKey t = poolPairKey)) := by
    have : y ∈ out.filter (fun t => decide (poolKey t = poolPairKey)) :=
      List.mem_filter.mpr ⟨List.getElem?_mem hy, by simpa using hky⟩
    rw [hfilter] at this
    exact (hsort.perm _ _).mem_iff.mp this
  rw [hless y hym x hxm] at hrel
  simp only [decide_eq_false_iff_not] at hrel
  -- hrel : ¬ x.fee * y.sell < y.fee * x.sell
  omega

set_option maxRecDepth 100000 in
/-- Witness of C1 as amended: two trades of the funded sample pool, the one
with fee 3 for 10 sold ahead of the one with fee 10 for 100 sold. -/
theorem sortPDETradeInstsByFee_fee_order_witness :
    sortPDETradeInstsByFee insertionSlice sampleDecode samplePoolKey sampleState
        [(0, [["90", "C"], ["90", "D"]])]
      = some [sampleTrade "Y" 3 10 "D", sampleTrade "Y" 10 100 "C"] ∧
    (sampleTrade "Y" 10 100 "C").Meta.TradingFee * (sampleTrade "Y" 3 10 "D").Meta.SellAmount
      ≤ (sampleTrade "Y" 3 10 "D").Meta.TradingFee
          * (sampleTrade "Y" 10 100 "C").Meta.SellAmount :=
  ⟨by decide,
   sortPDETradeInstsByFee_fee_order insertionSlice insertionSlice_spec sampleDecode
     samplePoolKey sampleState [(0, [["90", "C"], ["90", "D"]])]
     [sampleTrade "Y" 3 10 "D", sampleTrade "Y" 10 100 "C"] (by decide) [89, 88]
     { Token1IDStr := "X", Token1PoolValue := 1000, Token2IDStr := "Y", Token2PoolValue := 2000 }
     (by decide) (by decide) (by decide) (by decide) 0 1 _ _ (by decide) (by decide) (by decide)
     (by decide) (by decide)⟩

set_option maxRecDepth 100000 in
/-- C1, counterexample. Three trades of the funded sample pool, with
(fee, sell amount) equal to (1, 1), (0, 0) and (2, 1), leave
`sortPDETradeInstsByFee` in this very order: the first stands before the third
although `1 * 1 < 2 * 1`. -/
theorem sortPDETradeInstsByFee_fee_order_counterexample :
    sortPDETradeInstsByFee sort_Slice sampleDecode samplePoolKey sampleState
        [(0, [["90", "A"], ["90", "Z"], ["90", "B"]])]
      = some [sampleTrade "Y" 1 1 "A", sampleTrade "Y" 0 0 "Z", sampleTrade "Y" 2 1 "B"] ∧
    samplePoolKey (sampleTrade "Y" 1 1 "A") = [89, 88] ∧
    samplePoolKey (sampleTrade "Y" 2 1 "B") = [89, 88] ∧
    poolBypassed sampleState.PDEPoolPairs [89, 88] = false ∧
    ¬ ((sampleTrade "Y" 1 1 "A").Meta.TradingFee * (sampleTrade "Y" 2 1 "B").Meta.SellAmount
        ≥ (sampleTrade "Y" 2 1 "B").Meta.TradingFee
            * (sampleTrade "Y" 1 1 "A").Meta.SellAmount) := by
  decide

/-- C2, the defect. With `TradingFee = 2 ^ 63` and `SellAmount = 1` for trade `i`
and `TradingFee = 1`, `SellAmount = 1` for trade `j`, the product
`fee_i * sellAmount_j` exceeds `fee_j * sellAmount_i` over the unsigned values,
yet the comparator does not order `i` before `j`: it orders `j` before `i`,
because `int64(2 ^ 63)` is negative. -/
theorem tradeLess_sign_change :
    (sampleTrade "Y" 1 1 "A").Meta.TradingFee * (sampleTrade "Y" (2 ^ 63) 1 "H").Meta.SellAmount
      < (sampleTrade "Y" (2 ^ 63) 1 "H").Meta.TradingFee
          * (sampleTrade "Y" 1 1 "A").Meta.SellAmount ∧
    (sampleTrade "Y" (2 ^ 63) 1 "H").Meta.TradingFee < 2 ^ 64 ∧
    tradeLess (sampleTrade "Y" (2 ^ 63) 1 "H") (sampleTrade "Y" 1 1 "A") = false ∧
    tradeLess (sampleTrade "Y" 1 1 "A") (sampleTrade "Y" (2 ^ 63) 1 "H") = true := by
  decide


/-! ## C3: ties -/

theorem sortPDETradeInstsByFee_isSome {ρ : Type}
    (sortSlice : (PDETradeRequestAction → PDETradeRequestAction → Bool) →
      List PDETradeRequestAction → List PDETradeRequestAction)
    (dec : String → Option PDETradeRequestAction) (key : PDETradeRequestAction → Key)
    (st : CurrentPDEState ρ) (m : List (Nat × List Inst))
    (h : ∀ k ∈ shardKeys m, ∀ a ∈ mapGet m k, 2 ≤ a.length) :
    ∃ out, sortPDETradeInstsByFee sortSlice dec key st m = some out := by
  obtain ⟨tb, htb⟩ := groupTradeShards_isSome dec key m (shardKeys m) [] h
  unfold sortPDETradeInstsByFee
  rw [htb]
  exact ⟨_, rfl⟩

/-- C3 (as amended). With the sort of package `sort` up to Go 1.18 behind
`sort.Slice`: when a pool that exists with both reserves non-zero has at most
six decodable trades in the batch, two of its trades whose fees and sell amounts
are below `2 ^ 63` and whose cross-products are equal appear in the output of
`sortPDETradeInstsByFee` in the same relative order as in the input (shards
ascending, then position within the shard). -/
theorem sortPDETradeInstsByFee_ties_short {ρ : Type}
    (decodeTrade : String → Option PDETradeRequestAction)
    (poolKey : PDETradeRequestAction → Key)
    (currentPDEState : CurrentPDEState ρ)
    (pdeTradeActionsByShardID : List (Nat × List Inst))
    (out : List PDETradeRequestAction)
    (hout : sortPDETradeInstsByFee sort_Slice decodeTrade poolKey currentPDEState
      pdeTradeActionsByShardID = some out)
    (poolPairKey : Key) (poolPair : PDEPoolPair)
    (hfound : mapFind currentPDEState.PDEPoolPairs poolPairKey = some (some poolPair))
    (hres1 : poolPair.Token1PoolValue ≠ 0) (hres2 : poolPair.Token2PoolValue ≠ 0)
    (hshort : ((discoveredTrades decodeTrade pdeTradeActionsByShardID).filter
      (fun t => decide (poolKey t = poolPairKey))).length ≤ 6)
    (x y : PDETradeRequestAction)
    (hkx : poolKey x = poolPairKey) (hky : poolKey y = poolPairKey)
    (hx1 : x.Meta.TradingFee < 2 ^ 63) (hx2 : x.Meta.SellAmount < 2 ^ 63)
    (hy1 : y.Meta.TradingFee < 2 ^ 63) (hy2 : y.Meta.SellAmount < 2 ^ 63)
    (htie : x.Meta.TradingFee * y.Meta.SellAmount = y.Meta.TradingFee * x.Meta.SellAmount) :
    out.filter (fun t => decide (t = x ∨ t = y))
      = (discoveredTrades decodeTrade pdeTradeActionsByShardID).filter
          (fun t => decide (t = x ∨ t = y)) := by
  have hbyp : poolBypassed currentPDEState.PDEPoolPairs poolPairKey = false :=
    (poolBypassed_eq_false_iff _ _).mpr ⟨poolPair, hfound, hres1, hres2⟩
  have hfilter := filter_key_sortPDETradeInstsByFee sort_Slice sort_Slice_perm decodeTrade
    poolKey currentPDEState pdeTradeActionsByShardID out hout poolPairKey
  rw [hbyp] at hfilter
  simp only [Bool.false_eq_true, if_false] at hfilter
  have hsub : ∀ l : List PDETradeRequestAction,
      l.filter (fun t => decide (t = x ∨ t = y))
        = (l.filter (fun t => decide (poolKey t = poolPairKey))).filter
            (fun t => decide (t = x ∨ t = y)) := by
    intro l
    rw [List.filter_filter]
    apply List.filter_congr
    intro t _
    by_cases ht : t = x ∨ t = y
    · have : poolKey t = poolPairKey := by
        rcases ht with h | h
        · rw [h]; exact hkx
        · rw [h]; exact hky
      simp [ht, this]
    · simp [ht]
  rw [hsub out, hsub (discoveredTrades decodeTrade pdeTradeActionsByShardID), hfilter,
    sort_Slice_small _ _ hshort]
  apply insertionSort_func_stable
  intro u _ v _ hPu hPv
  have hxx : ∀ w : PDETradeRequestAction, tradeLess w w = false := by
    intro w; unfold tradeLess; simp
  have hxy : tradeLess x y = false := by
    rw [tradeLess_of_lt x y hx1 hx2 hy1 hy2]; simp; omega
  have hyx : tradeLess y x = false := by
    rw [tradeLess_of_lt y x hy1 hy2 hx1 hx2]; simp; omega
  have hu : u = x ∨ u = y := by simpa using hPu
  have hv : v = x ∨ v = y := by simpa using hPv
  rcases hu with hu | hu <;> rcases hv with hv | hv <;> subst hu <;> subst hv <;>
    first | exact hxx _ | exact hxy | exact hyx

set_option maxRecDepth 100000 in
/-- Witness of C3 as amended: two tied trades of the funded sample pool, with
fee 1 for 1 sold, stay in input order behind a third trade. -/
theorem sortPDETradeInstsByFee_ties_short_witness :
    sortPDETradeInstsByFee sort_Slice sampleDecode samplePoolKey sampleState
        [(0, [["90", "T01"], ["90", "T00"], ["90", "B"]])]
      = some [sampleTrade "Y" 2 1 "B", sampleTrade "Y" 1 1 "T01", sampleTrade "Y" 1 1 "T00"] ∧
    [sampleTrade "Y" 2 1 "B", sampleTrade "Y" 1 1 "T01", sampleTrade "Y" 1 1 "T00"].filter
        (fun t => decide (t = sampleTrade "Y" 1 1 "T01" ∨ t = sampleTrade "Y" 1 1 "T00"))
      = (discoveredTrades sampleDecode [(0, [["90", "T01"], ["90", "T00"], ["90", "B"]])]).filter
          (fun t => decide (t = sampleTrade "Y" 1 1 "T01" ∨ t = sampleTrade "Y" 1 1 "T00")) :=
  ⟨by decide,
   sortPDETradeInstsByFee_ties_short sampleDecode samplePoolKey sampleState
     [(0, [["90", "T01"], ["90", "T00"], ["90", "B"]])]
     [sampleTrade "Y" 2 1 "B", sampleTrade "Y" 1 1 "T01", sampleTrade "Y" 1 1 "T00"]
     (by decide) [89, 88]
     { Token1IDStr := "X", Token1PoolValue := 1000, Token2IDStr := "Y", Token2PoolValue := 2000 }
     (by decide) (by decide) (by decide) (by decide)
     (sampleTrade "Y" 1 1 "T01") (sampleTrade "Y" 1 1 "T00")
     (by decide) (by decide) (by decide) (by decide) (by decide) (by decide) (by decide)⟩

set_option maxRecDepth 1000000 in
/-- C3, counterexample. In the sample batch of thirteen trades of the funded
pool, the trades `T10` and `T11` have equal cross-products and enter in this
order; `sortPDETradeInstsByFee` returns `T11` ahead of `T10`. -/
theorem sortPDETradeInstsByFee_ties_counterexample :
    sortPDETradeInstsByFee sort_Slice sampleDecode samplePoolKey sampleState sampleTies
      = some [sampleTrade "Y" 1 1 "T00", sampleTrade "Y" 1 1 "T01", sampleTrade "Y" 1 1 "T02",
          sampleTrade "Y" 1 1 "T03", sampleTrade "Y" 1 1 "T04", sampleTrade "Y" 1 1 "T05",
          sampleTrade "Y" 1 1 "T06", sampleTrade "Y" 1 1 "T07", sampleTrade "Y" 1 1 "T08",
          sampleTrade "Y" 1 1 "T11", sampleTrade "Y" 1 1 "T10", sampleTrade "Y" 1 1 "T12",
          sampleTrade "Y" 0 1 "L"] ∧
    (discoveredTrades sampleDecode sampleTies).filter
        (fun t => decide (t = sampleTrade "Y" 1 1 "T10" ∨ t = sampleTrade "Y" 1 1 "T11"))
      = [sampleTrade "Y" 1 1 "T10", sampleTrade "Y" 1 1 "T11"] ∧
    samplePoolKey (sampleTrade "Y" 1 1 "T10") = [89, 88] ∧
    samplePoolKey (sampleTrade "Y" 1 1 "T11") = [89, 88] ∧
    poolBypassed sampleState.PDEPoolPairs [89, 88] = false ∧
    (sampleTrade "Y" 1 1 "T10").Meta.TradingFee * (sampleTrade "Y" 1 1 "T11").Meta.SellAmount
      = (sampleTrade "Y" 1 1 "T11").Meta.TradingFee
          * (sampleTrade "Y" 1 1 "T10").Meta.SellAmount := by
  decide


/-! ## C4 and C5: the bypassed trades -/

/-- Once a bypassed trade has appeared in the output, every later trade is
bypassed too and its pool key is not smaller. -/
theorem sortPDETradeInstsByFee_pairwise {ρ : Type}
    (sortSlice : (PDETradeRequestAction → PDETradeRequestAction → Bool) →
      List PDETradeRequestAction → List PDETradeRequestAction)
    (hperm : ∀ less data, (sortSlice less data).Perm data)
    (dec : String → Option PDETradeRequestAction) (key : PDETradeRequestAction → Key)
    (st : CurrentPDEState ρ) (m : List (Nat × List Inst)) (out : List PDETradeRequestAction)
    (h : sortPDETradeInstsByFee sortSlice dec key st m = some out) :
    out.Pairwise (fun x y => tradeBypassed key st.PDEPoolPairs x = true →
      tradeBypassed key st.PDEPoolPairs y = true ∧ key x ≤ key y) := by
  have hout := sortPDETradeInstsByFee_eq sortSlice dec key st m out h
  have hS : ∀ x ∈ ((poolKeysOf key (discoveredTrades dec m)).filter
          (fun k => !poolBypassed st.PDEPoolPairs k)).flatMap
        (fun k => sortSlice tradeLess
          ((discoveredTrades dec m).filter (fun t => decide (key t = k)))),
      tradeBypassed key st.PDEPoolPairs x = false := by
    intro x hx
    obtain ⟨k, hk, hxk⟩ := List.mem_flatMap.mp hx
    have hk' := (List.mem_filter.mp hk).2
    have hxk' := (hperm _ _).mem_iff.mp hxk
    have : key x = k := by simpa using (List.mem_filter.mp hxk').2
    unfold tradeBypassed
    rw [this]; simpa using hk'
  rw [hout, List.pairwise_append]
  refine ⟨?_, ?_, ?_⟩
  · rw [List.pairwise_iff_forall_sublist]
    intro a b hab hba
    have : a ∈ _ := hab.subset (List.mem_cons_self _ _)
    rw [hS a this] at hba
    exact absurd hba (by simp)
  · rw [List.pairwise_flatMap]
    constructor
    · intro k hk
      have hk' := (List.mem_filter.mp hk).2
      rw [List.pairwise_iff_forall_sublist]
      intro a b hab _
      have ha : a ∈ _ := hab.subset (List.mem_cons_self _ _)
      have hb : b ∈ _ := hab.subset (List.mem_cons_of_mem _ (List.mem_cons_self _ _))
      have hka : key a = k := by simpa using (List.mem_filter.mp ha).2
      have hkb : key b = k := by simpa using (List.mem_filter.mp hb).2
      refine ⟨?_, by rw [hka, hkb]⟩
      unfold tradeBypassed; rw [hkb]; exact hk'
    · have hs := (sorted_poolKeysOf key (discoveredTrades dec m)).filter
        (fun k => poolBypassed st.PDEPoolPairs k)
      rw [List.pairwise_iff_forall_sublist] at hs ⊢
      intro k1 k2 hk12 a ha b hb _
      have hlt := hs hk12
      have hk2 : k2 ∈ _ := hk12.subset (List.mem_cons_of_mem _ (List.mem_cons_self _ _))
      have hka : key a = k1 := by simpa using (List.mem_filter.mp ha).2
      have hkb : key b = k2 := by simpa using (List.mem_filter.mp hb).2
      refine ⟨?_, by rw [hka, hkb]; exact le_of_lt hlt⟩
      unfold tradeBypassed; rw [hkb]; exact (List.mem_filter.mp hk2).2
  · intro a ha b _ hba
    rw [hS a ha] at hba
    exact absurd hba (by simp)

/-- C4. In the output of `sortPDETradeInstsByFee`, every trade whose pool is
missing, nil or has a zero reserve stands after every trade whose pool exists
with two non-zero reserves; the bypassed trades of one pool keep their discovery
order; and the pools of the bypassed trades appear in ascending pool-key order.
`sort.Slice` is any function that rearranges the slice it is given. -/
theorem sortPDETradeInstsByFee_bypassed_last {ρ : Type}
    (sortSlice : (PDETradeRequestAction → PDETradeRequestAction → Bool) →
      List PDETradeRequestAction → List PDETradeRequestAction)
    (hperm : ∀ less data, (sortSlice less data).Perm data)
    (decodeTrade : String → Option PDETradeRequestAction)
    (poolKey : PDETradeRequestAction → Key)
    (currentPDEState : CurrentPDEState ρ)
    (pdeTradeActionsByShardID : List (Nat × List Inst))
    (out : List PDETradeRequestAction)
    (hout : sortPDETradeInstsByFee sortSlice decodeTrade poolKey currentPDEState
      pdeTradeActionsByShardID = some out) :
    (∀ (p q : Nat) (x y : PDETradeRequestAction), out[p]? = some x → out[q]? = some y →
      poolBypassed currentPDEState.PDEPoolPairs (poolKey x) = true →
      poolBypassed currentPDEState.PDEPoolPairs (poolKey y) = false → q < p) ∧
    (∀ poolPairKey, poolBypassed currentPDEState.PDEPoolPairs poolPairKey = true →
      out.filter (fun t => decide (poolKey t = poolPairKey))
        = (discoveredTrades decodeTrade pdeTradeActionsByShardID).filter
            (fun t => decide (poolKey t = poolPairKey))) ∧
    (∀ (p q : Nat) (x y : PDETradeRequestAction), p < q → out[p]? = some x →
      out[q]? = some y →
      poolBypassed currentPDEState.PDEPoolPairs (poolKey x) = true →
      poolBypassed currentPDEState.PDEPoolPairs (poolKey y) = true →
      poolKey x ≤ poolKey y) := by
  have hpw := sortPDETradeInstsByFee_pairwise sortSlice hperm decodeTrade poolKey
    currentPDEState pdeTradeActionsByShardID out hout
  have hget := List.pairwise_iff_getElem.mp hpw
  refine ⟨?_, ?_, ?_⟩
  · intro p q x y hx hy hbx hby
    obtain ⟨hp, rfl⟩ := List.getElem?_eq_some_iff.mp hx
    obtain ⟨hq, rfl⟩ := List.getElem?_eq_some_iff.mp hy
    rcases Nat.lt_trichotomy p q with hlt | heq | hgt
    · have := (hget p q hp hq hlt hbx).1
      unfold tradeBypassed at this
      rw [hby] at this; exact absurd this (by simp)
    · subst heq; rw [hbx] at hby; exact absurd hby (by simp)
    · exact hgt
  · intro k hk
    have := filter_key_sortPDETradeInstsByFee sortSlice hperm decodeTrade poolKey
      currentPDEState pdeTradeActionsByShardID out hout k
    rw [hk] at this
    simpa using this
  · intro p q x y hpq hx hy hbx _
    obtain ⟨hp, rfl⟩ := List.getElem?_eq_some_iff.mp hx
    obtain ⟨hq, rfl⟩ := List.getElem?_eq_some_iff.mp hy
    exact (hget p q hp hq hpq hbx).2

set_option maxRecDepth 100000 in
/-- Witness of C4: a batch over two shards with two trades of the funded sample
pool and three bypassed ones; the two trades of the pool with an empty reserve
keep their discovery order. -/
theorem sortPDETradeInstsByFee_bypassed_last_witness :
    sortPDETradeInstsByFee sort_Slice sampleDecode samplePoolKey sampleState
        [(1, [["90", "N"], ["90", "M"], ["90", "C"]]), (0, [["90", "O"], ["90", "D"]])]
      = some [sampleTrade "Y" 3 10 "D", sampleTrade "Y" 10 100 "C", sampleTrade "M" 5 1 "M",
          sampleTrade "N" 9 1 "O", sampleTrade "N" 7 1 "N"] ∧
    poolBypassed sampleState.PDEPoolPairs [78, 88] = true ∧
    [sampleTrade "Y" 3 10 "D", sampleTrade "Y" 10 100 "C", sampleTrade "M" 5 1 "M",
        sampleTrade "N" 9 1 "O", sampleTrade "N" 7 1 "N"].filter
        (fun t => decide (samplePoolKey t = [78, 88]))
      = (discoveredTrades sampleDecode
          [(1, [["90", "N"], ["90", "M"], ["90", "C"]]), (0, [["90", "O"], ["90", "D"]])]).filter
          (fun t => decide (samplePoolKey t = [78, 88])) :=
  ⟨by decide, by decide,
   (sortPDETradeInstsByFee_bypassed_last sort_Slice sort_Slice_perm sampleDecode samplePoolKey
     sampleState
     [(1, [["90", "N"], ["90", "M"], ["90", "C"]]), (0, [["90", "O"], ["90", "D"]])]
     [sampleTrade "Y" 3 10 "D", sampleTrade "Y" 10 100 "C", sampleTrade "M" 5 1 "M",
        sampleTrade "N" 9 1 "O", sampleTrade "N" 7 1 "N"] (by decide)).2.1 [78, 88] (by decide)⟩


theorem filter_bypassed_sortPDETradeInstsByFee {ρ : Type}
    (sortSlice : (PDETradeRequestAction → PDETradeRequestAction → Bool) →
      List PDETradeRequestAction → List PDETradeRequestAction)
    (hperm : ∀ less data, (sortSlice less data).Perm data)
    (dec : String → Option PDETradeRequestAction) (key : PDETradeRequestAction → Key)
    (st : CurrentPDEState ρ) (m : List (Nat × List Inst)) (out : List PDETradeRequestAction)
    (h : sortPDETradeInstsByFee sortSlice dec key st m = some out) :
    out.filter (tradeBypassed key st.PDEPoolPairs) =
      ((poolKeysOf key (discoveredTrades dec m)).filter
          (fun k => poolBypassed st.PDEPoolPairs k)).flatMap
        (fun k => (discoveredTrades dec m).filter (fun t => decide (key t = k))) := by
  have hout := sortPDETradeInstsByFee_eq sortSlice dec key st m out h
  rw [hout, List.filter_append]
  have h1 : (((poolKeysOf key (discoveredTrades dec m)).filter
          (fun k => !poolBypassed st.PDEPoolPairs k)).flatMap
        (fun k => sortSlice tradeLess
          ((discoveredTrades dec m).filter (fun t => decide (key t = k))))).filter
        (tradeBypassed key st.PDEPoolPairs) = [] := by
    rw [List.filter_eq_nil_iff]
    intro x hx
    obtain ⟨k, hk, hxk⟩ := List.mem_flatMap.mp hx
    have hk' := (List.mem_filter.mp hk).2
    have hxk' := (hperm _ _).mem_iff.mp hxk
    have : key x = k := by simpa using (List.mem_filter.mp hxk').2
    unfold tradeBypassed
    rw [this]; simpa using hk'
  have h2 : (((poolKeysOf key (discoveredTrades dec m)).filter
          (fun k => poolBypassed st.PDEPoolPairs k)).flatMap
        (fun k => (discoveredTrades dec m).filter (fun t => decide (key t = k)))).filter
        (tradeBypassed key st.PDEPoolPairs)
      = ((poolKeysOf key (discoveredTrades dec m)).filter
          (fun k => poolBypassed st.PDEPoolPairs k)).flatMap
        (fun k => (discoveredTrades dec m).filter (fun t => decide (key t = k))) := by
    rw [List.filter_eq_self]
    intro x hx
    obtain ⟨k, hk, hxk⟩ := List.mem_flatMap.mp hx
    have hk' := (List.mem_filter.mp hk).2
    have : key x = k := by simpa using (List.mem_filter.mp hxk).2
    unfold tradeBypassed
    rw [this]; exact hk'
  rw [h1, h2, List.nil_append]

/-- C5 (as amended). The sub-sequence of the output of `sortPDETradeInstsByFee`
made of the trades against non-existent or zero-reserve pools lists these trades
pool by pool, the pool keys ascending, each pool's trades in discovery order; it
equals the sub-sequence of the input made of the same trades when they all
belong to one pool. `sort.Slice` is any function that rearranges the slice it is
given. -/
theorem sortPDETradeInstsByFee_bypassed_order {ρ : Type}
    (sortSlice : (PDETradeRequestAction → PDETradeRequestAction → Bool) →
      List PDETradeRequestAction → List PDETradeRequestAction)
    (hperm : ∀ less data, (sortSlice less data).Perm data)
    (decodeTrade : String → Option PDETradeRequestAction)
    (poolKey : PDETradeRequestAction → Key)
    (currentPDEState : CurrentPDEState ρ)
    (pdeTradeActionsByShardID : List (Nat × List Inst))
    (out : List PDETradeRequestAction)
    (hout : sortPDETradeInstsByFee sortSlice decodeTrade poolKey currentPDEState
      pdeTradeActionsByShardID = some out) :
    out.filter (tradeBypassed poolKey currentPDEState.PDEPoolPairs) =
      ((poolKeysOf poolKey (discoveredTrades decodeTrade pdeTradeActionsByShardID)).filter
          (fun k => poolBypassed currentPDEState.PDEPoolPairs k)).flatMap
        (fun k => (discoveredTrades decodeTrade pdeTradeActionsByShardID).filter
          (fun t => decide (poolKey t = k))) ∧
    ((∃ poolPairKey, ∀ t ∈ discoveredTrades decodeTrade pdeTradeActionsByShardID,
        tradeBypassed poolKey currentPDEState.PDEPoolPairs t = true →
          poolKey t = poolPairKey) →
      out.filter (tradeBypassed poolKey currentPDEState.PDEPoolPairs) =
        (discoveredTrades decodeTrade pdeTradeActionsByShardID).filter
          (tradeBypassed poolKey currentPDEState.PDEPoolPairs)) := by
  have hgrouped := filter_bypassed_sortPDETradeInstsByFee sortSlice hperm decodeTrade poolKey
    currentPDEState pdeTradeActionsByShardID out hout
  refine ⟨hgrouped, ?_⟩
  rintro ⟨k, hk⟩
  -- filter the output by the key `k`, then compare the two predicates
  have hkey := filter_key_sortPDETradeInstsByFee sortSlice hperm decodeTrade poolKey
    currentPDEState pdeTradeActionsByShardID out hout k
  have hmemD : ∀ t ∈ out, t ∈ discoveredTrades decodeTrade pdeTradeActionsByShardID := by
    intro t ht
    rw [sortPDETradeInstsByFee_eq sortSlice decodeTrade poolKey currentPDEState
      pdeTradeActionsByShardID out hout] at ht
    rcases List.mem_append.mp ht with h1 | h1
    · obtain ⟨k', _, hx⟩ := List.mem_flatMap.mp h1
      exact (List.mem_filter.mp ((hperm _ _).mem_iff.mp hx)).1
    · obtain ⟨k', _, hx⟩ := List.mem_flatMap.mp h1
      exact (List.mem_filter.mp hx).1
  by_cases hb : poolBypassed currentPDEState.PDEPoolPairs k = true
  · rw [if_pos hb] at hkey
    have e1 : out.filter (tradeBypassed poolKey currentPDEState.PDEPoolPairs)
        = out.filter (fun t => decide (poolKey t = k)) := by
      apply List.filter_congr
      intro t ht
      by_cases hbt : tradeBypassed poolKey currentPDEState.PDEPoolPairs t = true
      · simp [hbt, hk t (hmemD t ht) hbt]
      · by_cases hkt : poolKey t = k
        · exfalso; apply hbt; unfold tradeBypassed; rw [hkt]; exact hb
        · simp [hbt, hkt]
    have e2 : (discoveredTrades decodeTrade pdeTradeActionsByShardID).filter
          (tradeBypassed poolKey currentPDEState.PDEPoolPairs)
        = (discoveredTrades decodeTrade pdeTradeActionsByShardID).filter
          (fun t => decide (poolKey t = k)) := by
      apply List.filter_congr
      intro t ht
      by_cases hbt : tradeBypassed poolKey currentPDEState.PDEPoolPairs t = true
      · simp [hbt, hk t ht hbt]
      · by_cases hkt : poolKey t = k
        · exfalso; apply hbt; unfold tradeBypassed; rw [hkt]; exact hb
        · simp [hbt, hkt]
    rw [e1, e2, hkey]
  · -- no bypassed trade at all
    have hnone : ∀ t ∈ discoveredTrades decodeTrade pdeTradeActionsByShardID,
        tradeBypassed poolKey currentPDEState.PDEPoolPairs t = false := by
      intro t ht
      cases hbt : tradeBypassed poolKey currentPDEState.PDEPoolPairs t with
      | false => rfl
      | true =>
        exfalso; apply hb
        have := hk t ht hbt
        unfold tradeBypassed at hbt; rw [this] at hbt; exact hbt
    have e1 : out.filter (tradeBypassed poolKey currentPDEState.PDEPoolPairs) = [] := by
      rw [List.filter_eq_nil_iff]
      intro t ht; rw [hnone t (hmemD t ht)]; simp
    have e2 : (discoveredTrades decodeTrade pdeTradeActionsByShardID).filter
          (tradeBypassed poolKey currentPDEState.PDEPoolPairs) = [] := by
      rw [List.filter_eq_nil_iff]
      intro t ht; rw [hnone t ht]; simp
    rw [e1, e2]

set_option maxRecDepth 100000 in
/-- Witness of C5 as amended: the batch of the C4 witness, whose bypassed trades
`O`, `N`, `M` leave pool by pool as `M`, `O`, `N`. -/
theorem sortPDETradeInstsByFee_bypassed_order_witness :
    sortPDETradeInstsByFee sort_Slice sampleDecode samplePoolKey sampleState
        [(1, [["90", "N"], ["90", "M"], ["90", "C"]]), (0, [["90", "O"], ["90", "D"]])]
      = some [sampleTrade "Y" 3 10 "D", sampleTrade "Y" 10 100 "C", sampleTrade "M" 5 1 "M",
          sampleTrade "N" 9 1 "O", sampleTrade "N" 7 1 "N"] ∧
    [sampleTrade "Y" 3 10 "D", sampleTrade "Y" 10 100 "C", sampleTrade "M" 5 1 "M",
        sampleTrade "N" 9 1 "O", sampleTrade "N" 7 1 "N"].filter
        (tradeBypassed samplePoolKey sampleState.PDEPoolPairs)
      = ((poolKeysOf samplePoolKey (discoveredTrades sampleDecode
            [(1, [["90", "N"], ["90", "M"], ["90", "C"]]),
             (0, [["90", "O"], ["90", "D"]])])).filter
          (fun k => poolBypassed sampleState.PDEPoolPairs k)).flatMap
        (fun k => (discoveredTrades sampleDecode
            [(1, [["90", "N"], ["90", "M"], ["90", "C"]]),
             (0, [["90", "O"], ["90", "D"]])]).filter
          (fun t => decide (samplePoolKey t = k))) :=
  ⟨by decide,
   (sortPDETradeInstsByFee_bypassed_order sort_Slice sort_Slice_perm sampleDecode samplePoolKey
     sampleState
     [(1, [["90", "N"], ["90", "M"], ["90", "C"]]), (0, [["90", "O"], ["90", "D"]])]
     [sampleTrade "Y" 3 10 "D", sampleTrade "Y" 10 100 "C", sampleTrade "M" 5 1 "M",
        sampleTrade "N" 9 1 "O", sampleTrade "N" 7 1 "N"] (by decide)).1⟩

set_option maxRecDepth 100000 in
/-- C5, counterexample. Two trades against pools that are bypassed, the first
against the pool of `N` (empty reserve) and the second against the pool of `M`
(absent), leave `sortPDETradeInstsByFee` in the opposite order. -/
theorem sortPDETradeInstsByFee_bypassed_order_counterexample :
    sortPDETradeInstsByFee sort_Slice sampleDecode samplePoolKey sampleState
        [(0, [["90", "N"], ["90", "M"]])]
      = some [sampleTrade "M" 5 1 "M", sampleTrade "N" 7 1 "N"] ∧
    discoveredTrades sampleDecode [(0, [["90", "N"], ["90", "M"]])]
      = [sampleTrade "N" 7 1 "N", sampleTrade "M" 5 1 "M"] ∧
    tradeBypassed samplePoolKey sampleState.PDEPoolPairs (sampleTrade "N" 7 1 "N") = true ∧
    tradeBypassed samplePoolKey sampleState.PDEPoolPairs (sampleTrade "M" 5 1 "M") = true ∧
    [sampleTrade "M" 5 1 "M", sampleTrade "N" 7 1 "N"].filter
        (tradeBypassed samplePoolKey sampleState.PDEPoolPairs)
      ≠ (discoveredTrades sampleDecode [(0, [["90", "N"], ["90", "M"]])]).filter
        (tradeBypassed samplePoolKey sampleState.PDEPoolPairs) := by
  decide


/-! ## The stage loops -/

theorem stageActions_eq {σ : Type} (proc : String → Nat → σ → Option (List Inst) × σ)
    (shardID : Nat) (actions : List Inst) (acc r : σ × List Inst)
    (h : stageActions proc shardID actions acc = some r) :
    r = runCalls proc
      (actions.filterMap (fun action => (action[1]?).map (fun c => (shardID, c)))) acc := by
  induction actions generalizing acc with
  | nil => simp [stageActions] at h; simp [runCalls, h]
  | cons a rest ih =>
    obtain ⟨state, insts⟩ := acc
    unfold stageActions at h
    cases h1 : a[1]? with
    | none => simp [h1] at h
    | some c =>
      simp only [h1] at h
      simp only [List.filterMap_cons, h1, Option.map_some', runCalls]
      cases h2 : proc c shardID state with
      | mk o state' =>
        cases o with
        | none => simp only [h2] at h ⊢; exact ih _ h
        | some newInst => simp only [h2] at h ⊢; exact ih _ h

theorem stageActions_isSome {σ : Type} (proc : String → Nat → σ → Option (List Inst) × σ)
    (shardID : Nat) (actions : List Inst) (acc : σ × List Inst)
    (h : ∀ a ∈ actions, 2 ≤ a.length) :
    ∃ r, stageActions proc shardID actions acc = some r := by
  induction actions generalizing acc with
  | nil => exact ⟨acc, rfl⟩
  | cons a rest ih =>
    obtain ⟨state, insts⟩ := acc
    have ha : 2 ≤ a.length := h a (List.mem_cons_self _ _)
    have hrest : ∀ a ∈ rest, 2 ≤ a.length := fun x hx => h x (List.mem_cons_of_mem _ hx)
    have h1 : a[1]? = some a[1] := List.getElem?_eq_getElem (by omega)
    unfold stageActions
    rw [h1]
    simp only
    cases h2 : proc a[1] shardID state with
    | mk o state' =>
      cases o with
      | none => exact ih _ hrest
      | some newInst => exact ih _ hrest

theorem runCalls_append {σ : Type} (proc : String → Nat → σ → Option (List Inst) × σ)
    (c1 c2 : List (Nat × String)) (acc : σ × List Inst) :
    runCalls proc (c1 ++ c2) acc = runCalls proc c2 (runCalls proc c1 acc) := by
  induction c1 generalizing acc with
  | nil => rfl
  | cons c rest ih =>
    obtain ⟨state, insts⟩ := acc
    simp only [List.cons_append, runCalls]
    cases h2 : proc c.2 c.1 state with
    | mk o state' =>
      cases o with
      | none => exact ih _
      | some newInst => exact ih _

theorem stageShards_eq {σ : Type} (proc : String → Nat → σ → Option (List Inst) × σ)
    (m : List (Nat × List Inst)) (keys : List Nat) (acc r : σ × List Inst)
    (h : stageShards proc m keys acc = some r) :
    r = runCalls proc
      (keys.flatMap (fun k => (mapGet m k).filterMap
        (fun action => (action[1]?).map (fun c => (k, c))))) acc := by
  induction keys generalizing acc with
  | nil => simp [stageShards] at h; simp [runCalls, h]
  | cons k rest ih =>
    unfold stageShards at h
    cases h1 : stageActions proc k (mapGet m k) acc with
    | none => simp [h1] at h
    | some acc' =>
      simp only [h1] at h
      rw [List.flatMap_cons, runCalls_append, ← stageActions_eq proc k _ acc acc' h1]
      exact ih _ h

theorem stageShards_isSome {σ : Type} (proc : String → Nat → σ → Option (List Inst) × σ)
    (m : List (Nat × List Inst)) (keys : List Nat) (acc : σ × List Inst)
    (h : ∀ k ∈ keys, ∀ a ∈ mapGet m k, 2 ≤ a.length) :
    ∃ r, stageShards proc m keys acc = some r := by
  induction keys generalizing acc with
  | nil => exact ⟨acc, rfl⟩
  | cons k rest ih =>
    obtain ⟨acc', h1⟩ := stageActions_isSome proc k (mapGet m k) acc
      (h k (List.mem_cons_self _ _))
    unfold stageShards
    rw [h1]
    exact ih acc' (fun k' hk' => h k' (List.mem_cons_of_mem _ hk'))

theorem runStage_eq {σ : Type} (proc : String → Nat → σ → Option (List Inst) × σ)
    (m : List (Nat × List Inst)) (acc r : σ × List Inst)
    (h : runStage proc m acc = some r) : r = runCalls proc (stageCalls m) acc :=
  stageShards_eq proc m _ acc r h

theorem runStage_isSome {σ : Type} (proc : String → Nat → σ → Option (List Inst) × σ)
    (m : List (Nat × List Inst)) (acc : σ × List Inst) (h : WellFormed m) :
    ∃ r, runStage proc m acc = some r :=
  stageShards_isSome proc m _ acc h

theorem runCalls_acc {σ : Type} (proc : String → Nat → σ → Option (List Inst) × σ)
    (calls : List (Nat × String)) (state : σ) (insts : List Inst) :
    runCalls proc calls (state, insts)
      = ((runCalls proc calls (state, [])).1, insts ++ (runCalls proc calls (state, [])).2) := by
  induction calls generalizing state insts with
  | nil => simp [runCalls]
  | cons c rest ih =>
    simp only [runCalls]
    cases h2 : proc c.2 c.1 state with
    | mk o state' =>
      cases o with
      | none => exact ih _ _
      | some newInst =>
        simp only
        rw [ih state' (insts ++ newInst), ih state' ([] ++ newInst)]
        simp


/-! ## C7: the portal stages -/

/-- C7. Whenever `handlePortalInsts` returns, its error is nil and its
instructions are those of four runs, one after the other on the same portal
state: the custodian-deposit processor over the deposit actions, the
porting-request processor over the porting actions, the ptoken-request processor
over the ptoken actions and the exchange-rates processor over the exchange-rates
actions, each run taking the actions by ascending shard ID and in input order
within a shard; the instructions of the four runs are concatenated in this
order. It returns whenever every action has at least two fields. -/
theorem handlePortalInsts_stage_order {acc ρ ψ χ η : Type} (E : Env acc ρ ψ χ η)
    (beaconHeight : Nat) (currentPortalState : ψ)
    (deposits porting ptokens rates : List (Nat × List Inst)) :
    (∀ instructions err final,
      handlePortalInsts E beaconHeight currentPortalState deposits porting ptokens rates
        = some (instructions, err, final) →
      err = none ∧
      ∃ s1 s2 s3 i1 i2 i3 i4,
        runCalls (fun c s st => E.buildInstructionsForCustodianDeposit c s
            E.types.PortalCustodianDepositMeta st beaconHeight)
          (stageCalls deposits) (currentPortalState, []) = (s1, i1) ∧
        runCalls (fun c s st => E.buildInstructionsForPortingRequest c s
            E.types.PortalUserRegisterMeta st beaconHeight)
          (stageCalls porting) (s1, []) = (s2, i2) ∧
        runCalls (fun c s st => E.buildInstructionsForReqPTokens c s
            E.types.PortalUserRequestPTokenMeta st beaconHeight)
          (stageCalls ptokens) (s2, []) = (s3, i3) ∧
        runCalls (fun c s st => E.buildInstructionsForExchangeRates c s
            E.types.PortalExchangeRatesMeta st beaconHeight)
          (stageCalls rates) (s3, []) = (final, i4) ∧
        instructions = i1 ++ i2 ++ i3 ++ i4) ∧
    (WellFormed deposits → WellFormed porting → WellFormed ptokens → WellFormed rates →
      ∃ result, handlePortalInsts E beaconHeight currentPortalState deposits porting ptokens
        rates = some result) := by
  constructor
  · intro instructions err final h
    unfold handlePortalInsts at h
    cases h1 : runStage (fun c s st => E.buildInstructionsForCustodianDeposit c s
        E.types.PortalCustodianDepositMeta st beaconHeight) deposits (currentPortalState, []) with
    | none => simp [h1] at h
    | some r1 =>
      simp only [h1] at h
      cases h2 : runStage (fun c s st => E.buildInstructionsForPortingRequest c s
          E.types.PortalUserRegisterMeta st beaconHeight) porting r1 with
      | none => simp [h2] at h
      | some r2 =>
        simp only [h2] at h
        cases h3 : runStage (fun c s st => E.buildInstructionsForReqPTokens c s
            E.types.PortalUserRequestPTokenMeta st beaconHeight) ptokens r2 with
        | none => simp [h3] at h
        | some r3 =>
          simp only [h3] at h
          cases h4 : runStage (fun c s st => E.buildInstructionsForExchangeRates c s
              E.types.PortalExchangeRatesMeta st beaconHeight) rates r3 with
          | none => simp [h4] at h
          | some r4 =>
            simp only [h4, Option.some.injEq, Prod.mk.injEq] at h
            obtain ⟨hi, he, hf⟩ := h
            have e1 := runStage_eq _ _ _ _ h1
            have e2 := runStage_eq _ _ _ _ h2
            have e3 := runStage_eq _ _ _ _ h3
            have e4 := runStage_eq _ _ _ _ h4
            refine ⟨he.symm, r1.1, r2.1, r3.1, r1.2, ?_⟩
            refine ⟨(runCalls (fun c s st => E.buildInstructionsForPortingRequest c s
              E.types.PortalUserRegisterMeta st beaconHeight) (stageCalls porting) (r1.1, [])).2,
              (runCalls (fun c s st => E.buildInstructionsForReqPTokens c s
              E.types.PortalUserRequestPTokenMeta st beaconHeight) (stageCalls ptokens)
                (r2.1, [])).2,
              (runCalls (fun c s st => E.buildInstructionsForExchangeRates c s
              E.types.PortalExchangeRatesMeta st beaconHeight) (stageCalls rates) (r3.1, [])).2,
              ?_, ?_, ?_, ?_, ?_⟩
            · rw [← e1]
            · rw [e2, runCalls_acc _ _ r1.1 r1.2]
            · rw [e3, runCalls_acc _ _ r2.1 r2.2]
            · rw [← hf, e4, runCalls_acc _ _ r3.1 r3.2]
            · rw [← hi, e4, runCalls_acc _ _ r3.1 r3.2]
              simp only
              rw [e3, runCalls_acc _ _ r2.1 r2.2]
              simp only
              rw [e2, runCalls_acc _ _ r1.1 r1.2]
  · intro w1 w2 w3 w4
    unfold handlePortalInsts
    obtain ⟨r1, h1⟩ := runStage_isSome (fun c s st => E.buildInstructionsForCustodianDeposit c s
        E.types.PortalCustodianDepositMeta st beaconHeight) deposits (currentPortalState, []) w1
    obtain ⟨r2, h2⟩ := runStage_isSome (fun c s st => E.buildInstructionsForPortingRequest c s
          E.types.PortalUserRegisterMeta st beaconHeight) porting r1 w2
    obtain ⟨r3, h3⟩ := runStage_isSome (fun c s st => E.buildInstructionsForReqPTokens c s
            E.types.PortalUserRequestPTokenMeta st beaconHeight) ptokens r2 w3
    obtain ⟨r4, h4⟩ := runStage_isSome (fun c s st => E.buildInstructionsForExchangeRates c s
              E.types.PortalExchangeRatesMeta st beaconHeight) rates r3 w4
    simp only [h1, h2, h3, h4]
    exact ⟨_, rfl⟩


/-! ## C8: the AMM stages -/

theorem tradeLoop_eq {σ : Type} (proc : String → Nat → σ → Option (List Inst) × σ)
    (encodeTrade : PDETradeRequestAction → String) (trades : List PDETradeRequestAction)
    (acc : σ × List Inst) :
    tradeLoop proc encodeTrade trades acc
      = runCalls proc (trades.map (fun t => (t.ShardID, encodeTrade t))) acc := by
  induction trades generalizing acc with
  | nil => rfl
  | cons t rest ih =>
    obtain ⟨state, insts⟩ := acc
    simp only [tradeLoop, List.map_cons, runCalls]
    cases h2 : proc (encodeTrade t) t.ShardID state with
    | mk o state' =>
      cases o with
      | none => exact ih _
      | some newInst => exact ih _

/-- C8. Whenever `handlePDEInsts` returns, its error is nil and its
instructions are those of three runs, one after the other on the same working
AMM state: the trade processor over the trades in the order
`sortPDETradeInstsByFee` gives for the state at entry, each with its own shard
ID; then the withdrawal processor over the withdrawal actions; then the
contribution processor over the contribution actions, the last two by ascending
shard ID and in input order within a shard. A run skips the calls that return an
error and nothing else. It returns whenever every action has at least two
fields. -/
theorem handlePDEInsts_order {acc ρ ψ χ η : Type} (E : Env acc ρ ψ χ η)
    (sortSlice : (PDETradeRequestAction → PDETradeRequestAction → Bool) →
      List PDETradeRequestAction → List PDETradeRequestAction)
    (beaconHeight : Nat) (currentPDEState : CurrentPDEState ρ)
    (contributions trades withdrawals : List (Nat × List Inst)) :
    (∀ instructions err final,
      handlePDEInsts E sortSlice beaconHeight currentPDEState contributions trades withdrawals
        = some (instructions, err, final) →
      err = none ∧
      ∃ sortedTrades s1 s2 i1 i2 i3,
        sortPDETradeInstsByFee sortSlice E.decodeTrade
          (fun t => E.BuildPDEPoolForPairKey beaconHeight t.Meta.TokenIDToBuyStr
            t.Meta.TokenIDToSellStr) currentPDEState trades = some sortedTrades ∧
        runCalls (fun c s st => E.buildInstructionsForPDETrade c s
            E.types.PDETradeRequestMeta st beaconHeight)
          (sortedTrades.map (fun t => (t.ShardID, E.encodeTrade t)))
          (currentPDEState, []) = (s1, i1) ∧
        runCalls (fun c s st => E.buildInstructionsForPDEWithdrawal c s
            E.types.PDEWithdrawalRequestMeta st beaconHeight)
          (stageCalls withdrawals) (s1, []) = (s2, i2) ∧
        runCalls (fun c s st => E.buildInstructionsForPDEContribution c s
            E.types.PDEContributionMeta st beaconHeight)
          (stageCalls contributions) (s2, []) = (final, i3) ∧
        instructions = i1 ++ i2 ++ i3) ∧
    (WellFormed contributions → WellFormed trades → WellFormed withdrawals →
      ∃ result, handlePDEInsts E sortSlice beaconHeight currentPDEState contributions trades
        withdrawals = some result) := by
  constructor
  · intro instructions err final h
    unfold handlePDEInsts at h
    cases h0 : sortPDETradeInstsByFee sortSlice E.decodeTrade
        (fun t => E.BuildPDEPoolForPairKey beaconHeight t.Meta.TokenIDToBuyStr
          t.Meta.TokenIDToSellStr) currentPDEState trades with
    | none => simp [h0] at h
    | some sorted =>
      simp only [h0] at h
      rw [tradeLoop_eq] at h
      generalize hT : runCalls (fun c s st => E.buildInstructionsForPDETrade c s
            E.types.PDETradeRequestMeta st beaconHeight)
            (sorted.map (fun t => (t.ShardID, E.encodeTrade t))) (currentPDEState, []) = rT at h
      obtain ⟨s1, i1⟩ := rT
      cases h2 : runStage (fun c s st => E.buildInstructionsForPDEWithdrawal c s
          E.types.PDEWithdrawalRequestMeta st beaconHeight) withdrawals (s1, i1) with
      | none => simp [h2] at h
      | some r2 =>
        simp only [h2] at h
        cases h3 : runStage (fun c s st => E.buildInstructionsForPDEContribution c s
            E.types.PDEContributionMeta st beaconHeight) contributions r2 with
        | none => simp [h3] at h
        | some r3 =>
          simp only [h3, Option.some.injEq, Prod.mk.injEq] at h
          obtain ⟨hi, he, hf⟩ := h
          have e2 := runStage_eq _ _ _ _ h2
          have e3 := runStage_eq _ _ _ _ h3
          rw [runCalls_acc] at e2
          rw [runCalls_acc _ _ r2.1 r2.2] at e3
          refine ⟨he.symm, sorted, s1, r2.1, i1,
            (runCalls (fun c s st => E.buildInstructionsForPDEWithdrawal c s
              E.types.PDEWithdrawalRequestMeta st beaconHeight) (stageCalls withdrawals)
                (s1, [])).2,
            (runCalls (fun c s st => E.buildInstructionsForPDEContribution c s
              E.types.PDEContributionMeta st beaconHeight) (stageCalls contributions)
                (r2.1, [])).2, rfl, hT, ?_, ?_, ?_⟩
          · rw [e2]
          · rw [← hf, e3]
          · rw [← hi, e3]
            simp only
            rw [e2]
  · intro w1 w2 w3
    unfold handlePDEInsts
    obtain ⟨sorted, h0⟩ := sortPDETradeInstsByFee_isSome sortSlice E.decodeTrade
      (fun t => E.BuildPDEPoolForPairKey beaconHeight t.Meta.TokenIDToBuyStr
        t.Meta.TokenIDToSellStr) currentPDEState trades w2
    simp only [h0]
    obtain ⟨r2, h2⟩ := runStage_isSome (fun c s st => E.buildInstructionsForPDEWithdrawal c s
        E.types.PDEWithdrawalRequestMeta st beaconHeight) withdrawals
        (tradeLoop (fun c s st => E.buildInstructionsForPDETrade c s
          E.types.PDETradeRequestMeta st beaconHeight) E.encodeTrade sorted
          (currentPDEState, [])) w3
    obtain ⟨r3, h3⟩ := runStage_isSome (fun c s st => E.buildInstructionsForPDEContribution c s
          E.types.PDEContributionMeta st beaconHeight) contributions r2 w1
    simp only [h2, h3]
    exact ⟨_, rfl⟩


/-! ## C10: relaying actions by declared height -/

theorem groupRelayingActions_eq {acc ρ ψ χ η : Type} (E : Env acc ρ ψ χ η)
    (actions : List Inst) (g g' : List (Nat × List RelayingHeaderAction) × List Nat)
    (h : groupRelayingActions E actions g = some g') :
    g' = (decodedRelaying E actions).foldl
      (fun s a => (mapAppend s.1 a.Meta.BlockHeight a,
        if E.SliceExists s.2 a.Meta.BlockHeight = true then s.2
        else s.2 ++ [a.Meta.BlockHeight])) g := by
  induction actions generalizing g with
  | nil => simp [groupRelayingActions] at h; simp [decodedRelaying, h]
  | cons a rest ih =>
    obtain ⟨groups, arr⟩ := g
    unfold groupRelayingActions at h
    cases h1 : a[1]? with
    | none => simp [h1] at h
    | some c =>
      cases h2 : E.decodeRelayingAction c with
      | none =>
        simp only [h1, h2] at h
        have := ih _ h
        simpa [decodedRelaying, List.filterMap_cons, h1, h2] using this
      | some t =>
        simp only [h1, h2] at h
        have := ih _ h
        simpa [decodedRelaying, List.filterMap_cons, h1, h2] using this

theorem groupRelayingActions_isSome {acc ρ ψ χ η : Type} (E : Env acc ρ ψ χ η)
    (actions : List Inst) (g : List (Nat × List RelayingHeaderAction) × List Nat)
    (h : ∀ a ∈ actions, 2 ≤ a.length) :
    ∃ g', groupRelayingActions E actions g = some g' := by
  induction actions generalizing g with
  | nil => exact ⟨g, rfl⟩
  | cons a rest ih =>
    obtain ⟨groups, arr⟩ := g
    have ha : 2 ≤ a.length := h a (List.mem_cons_self _ _)
    have hrest : ∀ a ∈ rest, 2 ≤ a.length := fun x hx => h x (List.mem_cons_of_mem _ hx)
    have h1 : a[1]? = some a[1] := List.getElem?_eq_getElem (by omega)
    unfold groupRelayingActions
    rw [h1]
    cases h2 : E.decodeRelayingAction a[1] with
    | none => simpa [h2] using ih _ hrest
    | some t => simpa [h2] using ih _ hrest

theorem foldl_groups_fst {acc ρ ψ χ η : Type} (E : Env acc ρ ψ χ η)
    (ds : List RelayingHeaderAction) (g : List (Nat × List RelayingHeaderAction) × List Nat) :
    (ds.foldl (fun s a => (mapAppend s.1 a.Meta.BlockHeight a,
        if E.SliceExists s.2 a.Meta.BlockHeight = true then s.2
        else s.2 ++ [a.Meta.BlockHeight])) g).1
      = ds.foldl (fun m a => mapAppend m a.Meta.BlockHeight a) g.1 := by
  induction ds generalizing g with
  | nil => rfl
  | cons a rest ih => simp only [List.foldl_cons]; rw [ih]

theorem foldl_heights {acc ρ ψ χ η : Type} (E : Env acc ρ ψ χ η)
    (hexists : ∀ slice item, E.SliceExists slice item = decide (item ∈ slice))
    (ds : List RelayingHeaderAction) (g : List (Nat × List RelayingHeaderAction) × List Nat)
    (hnd : g.2.Nodup) :
    (ds.foldl (fun s a => (mapAppend s.1 a.Meta.BlockHeight a,
        if E.SliceExists s.2 a.Meta.BlockHeight = true then s.2
        else s.2 ++ [a.Meta.BlockHeight])) g).2.Nodup ∧
    ∀ x, x ∈ (ds.foldl (fun s a => (mapAppend s.1 a.Meta.BlockHeight a,
        if E.SliceExists s.2 a.Meta.BlockHeight = true then s.2
        else s.2 ++ [a.Meta.BlockHeight])) g).2
      ↔ x ∈ g.2 ∨ ∃ a ∈ ds, a.Meta.BlockHeight = x := by
  induction ds generalizing g with
  | nil => simp [hnd]
  | cons a rest ih =>
    simp only [List.foldl_cons]
    have hnd' : (if E.SliceExists g.2 a.Meta.BlockHeight = true then g.2
        else g.2 ++ [a.Meta.BlockHeight]).Nodup := by
      rw [hexists]
      by_cases hm : a.Meta.BlockHeight ∈ g.2
      · simp [hm, hnd]
      · simp only [decide_eq_true_eq, hm, if_false]
        exact List.Nodup.append hnd (List.nodup_singleton _) (by simpa using hm)
    obtain ⟨h1, h2⟩ := ih (mapAppend g.1 a.Meta.BlockHeight a,
      if E.SliceExists g.2 a.Meta.BlockHeight = true then g.2
        else g.2 ++ [a.Meta.BlockHeight]) hnd'
    refine ⟨h1, ?_⟩
    intro x
    rw [h2 x]
    simp only [hexists, decide_eq_true_eq, List.mem_cons]
    by_cases hm : a.Meta.BlockHeight ∈ g.2
    · simp only [hm, if_true]
      constructor
      · rintro (h | ⟨b, hb, e⟩)
        · exact Or.inl h
        · exact Or.inr ⟨b, Or.inr hb, e⟩
      · rintro (h | ⟨b, hb | hb, e⟩)
        · exact Or.inl h
        · subst hb; subst e; exact Or.inl hm
        · exact Or.inr ⟨b, hb, e⟩
    · simp only [hm, if_false, List.mem_append, List.mem_singleton]
      constructor
      · rintro ((h | h) | ⟨b, hb, e⟩)
        · exact Or.inl h
        · exact Or.inr ⟨a, Or.inl rfl, h.symm⟩
        · exact Or.inr ⟨b, Or.inr hb, e⟩
      · rintro (h | ⟨b, hb | hb, e⟩)
        · exact Or.inl (Or.inl h)
        · subst hb; exact Or.inl (Or.inr e.symm)
        · exact Or.inr ⟨b, hb, e⟩

theorem relayHeights_eq {acc ρ ψ χ η : Type} (E : Env acc ρ ψ χ η) (beaconHeight : Nat)
    (groups : List (Nat × List RelayingHeaderAction)) (heights : List Nat)
    (done : Option χ × List Inst) :
    relayHeights E beaconHeight groups heights done
      = relayActions E beaconHeight (heights.flatMap (mapGet groups)) done := by
  have happ : ∀ (l1 l2 : List RelayingHeaderAction) (d : Option χ × List Inst),
      relayActions E beaconHeight (l1 ++ l2) d
        = relayActions E beaconHeight l2 (relayActions E beaconHeight l1 d) := by
    intro l1
    induction l1 with
    | nil => intro l2 d; rfl
    | cons a rest ih =>
      intro l2 d
      obtain ⟨chain, insts⟩ := d
      simp only [List.cons_append, relayActions]
      split <;> exact ih _ _
  induction heights generalizing done with
  | nil => rfl
  | cons hgt rest ih =>
    simp only [relayHeights, List.flatMap_cons]
    rw [happ, ih]


theorem sortRelayingInstsByBlockHeight_spec {acc ρ ψ χ η : Type} (E : Env acc ρ ψ χ η)
    (hexists : ∀ slice item, E.SliceExists slice item = decide (item ∈ slice))
    (actions : List Inst) (groups : List (Nat × List RelayingHeaderAction))
    (heights : List Nat) (err : Option String)
    (h : sortRelayingInstsByBlockHeight E actions = some (groups, heights, err)) :
    err = none ∧ heights.Pairwise (· < ·) ∧
    (∀ x, x ∈ heights ↔ ∃ a ∈ decodedRelaying E actions, a.Meta.BlockHeight = x) ∧
    (∀ x, mapGet groups x
      = (decodedRelaying E actions).filter (fun a => decide (a.Meta.BlockHeight = x))) := by
  unfold sortRelayingInstsByBlockHeight at h
  cases hg : groupRelayingActions E actions ([], []) with
  | none => simp [hg] at h
  | some g =>
    simp only [hg, Option.some.injEq, Prod.mk.injEq] at h
    obtain ⟨h1, h2, h3⟩ := h
    have e := groupRelayingActions_eq E actions _ _ hg
    have hfst := foldl_groups_fst E (decodedRelaying E actions) ([], [])
    have hsnd := foldl_heights E hexists (decodedRelaying E actions) ([], []) List.nodup_nil
    rw [← e] at hfst hsnd
    refine ⟨h3.symm, ?_, ?_, ?_⟩
    · rw [← h2]
      unfold sort_Heights
      have hs : List.Sorted (· ≤ ·) (g.2.insertionSort (· ≤ ·)) := List.sorted_insertionSort _ _
      have hn : (g.2.insertionSort (· ≤ ·)).Nodup :=
        (List.perm_insertionSort _ _).nodup_iff.mpr hsnd.1
      exact List.Sorted.lt_of_le hs hn
    · intro x
      rw [← h2]
      unfold sort_Heights
      rw [(List.perm_insertionSort _ _).mem_iff, hsnd.2 x]
      simp
    · intro x
      rw [← h1, hfst, mapGet_foldl_mapAppend]
      simp [mapGet, mapFind]

/-- C10. With `common.SliceExists` reporting whether the slice holds the item:
`sortRelayingInstsByBlockHeight` returns the distinct declared heights of the
decodable actions in strictly ascending order, with for each height the group of
exactly the decodable actions that declare it, in input order; and whenever
`handleRelayingInsts` returns, it has processed the decodable actions group by
group in this ascending order of heights, hence in non-decreasing order of the
height they declare. Both return whenever every action has at least two
fields. -/
theorem handleRelayingInsts_height_order {acc ρ ψ χ η : Type} (E : Env acc ρ ψ χ η)
    (hexists : ∀ slice item, E.SliceExists slice item = decide (item ∈ slice))
    (beaconHeight : Nat) (headerChain : Option χ) (relayingHeaderActions : List Inst) :
    (∀ groups heights err,
      sortRelayingInstsByBlockHeight E relayingHeaderActions = some (groups, heights, err) →
      heights.Pairwise (· < ·) ∧
      (∀ x, x ∈ heights ↔
        ∃ a ∈ decodedRelaying E relayingHeaderActions, a.Meta.BlockHeight = x) ∧
      (∀ x, mapGet groups x = (decodedRelaying E relayingHeaderActions).filter
        (fun a => decide (a.Meta.BlockHeight = x)))) ∧
    (∀ instructions err final,
      handleRelayingInsts E beaconHeight headerChain relayingHeaderActions
        = some (instructions, err, final) →
      ∃ groups heights,
        sortRelayingInstsByBlockHeight E relayingHeaderActions = some (groups, heights, none) ∧
        (final, instructions) = relayActions E beaconHeight
          (heights.flatMap (fun x => (decodedRelaying E relayingHeaderActions).filter
            (fun a => decide (a.Meta.BlockHeight = x)))) (headerChain, []) ∧
        (heights.flatMap (fun x => (decodedRelaying E relayingHeaderActions).filter
            (fun a => decide (a.Meta.BlockHeight = x)))).Pairwise
          (fun a b => a.Meta.BlockHeight ≤ b.Meta.BlockHeight)) ∧
    ((∀ a ∈ relayingHeaderActions, 2 ≤ a.length) →
      ∃ result, handleRelayingInsts E beaconHeight headerChain relayingHeaderActions
        = some result) := by
  refine ⟨?_, ?_, ?_⟩
  · intro groups heights err h
    exact (sortRelayingInstsByBlockHeight_spec E hexists _ _ _ _ h).2
  · intro instructions err final h
    unfold handleRelayingInsts at h
    cases hs : sortRelayingInstsByBlockHeight E relayingHeaderActions with
    | none => simp [hs] at h
    | some r =>
      obtain ⟨groups, heights, e⟩ := r
      simp only [hs, Option.some.injEq, Prod.mk.injEq] at h
      obtain ⟨hi, _, hf⟩ := h
      obtain ⟨he, hsorted, _, hgroups⟩ :=
        sortRelayingInstsByBlockHeight_spec E hexists _ _ _ _ hs
      subst he
      refine ⟨groups, heights, rfl, ?_, ?_⟩
      · rw [relayHeights_eq] at hi hf
        have hfun : (fun x => (decodedRelaying E relayingHeaderActions).filter
            (fun a => decide (a.Meta.BlockHeight = x))) = mapGet groups := by
          funext x; exact (hgroups x).symm
        rw [hfun, ← hi, ← hf]
      · rw [List.pairwise_flatMap]
        constructor
        · intro x _
          rw [List.pairwise_iff_forall_sublist]
          intro a b hab
          have ha : a ∈ _ := hab.subset (List.mem_cons_self _ _)
          have hb : b ∈ _ := hab.subset (List.mem_cons_of_mem _ (List.mem_cons_self _ _))
          have hka : a.Meta.BlockHeight = x := by simpa using (List.mem_filter.mp ha).2
          have hkb : b.Meta.BlockHeight = x := by simpa using (List.mem_filter.mp hb).2
          rw [hka, hkb]
        · refine hsorted.imp ?_
          intro x y hxy a ha b hb
          have hka : a.Meta.BlockHeight = x := by simpa using (List.mem_filter.mp ha).2
          have hkb : b.Meta.BlockHeight = y := by simpa using (List.mem_filter.mp hb).2
          rw [hka, hkb]; exact le_of_lt hxy
  · intro hw
    obtain ⟨g, hg⟩ := groupRelayingActions_isSome E relayingHeaderActions ([], []) hw
    unfold handleRelayingInsts sortRelayingInstsByBlockHeight
    simp only [hg]
    exact ⟨_, rfl⟩


/-! ## C9: the status of a relayed header -/

theorem int64Wrap_of_range (z : Int) (h1 : -(2 ^ 63) ≤ z) (h2 : z < 2 ^ 63) :
    int64Wrap z = z := by
  unfold int64Wrap
  have : (z + 2 ^ 63) % 2 ^ 64 = z + 2 ^ 63 := Int.emod_eq_of_lt (by omega) (by omega)
  omega

theorem relayingInst_length {acc ρ ψ χ η : Type} (E : Env acc ρ ψ χ η)
    (actionData : RelayingHeaderAction) (shardID : Nat) (status : String) :
    (relayingInst E actionData shardID status).length = 4 ∧
    (relayingInst E actionData shardID status)[2]? = some status := by
  constructor <;> rfl

/-- C9 (as amended). For every relaying action whose payload decodes, whose
declared height is below `2 ^ 63` and with a `LatestHeader` height that is an
`int64` value below `2 ^ 63 - 1`, `buildInstructionsForHeaderRelaying` returns
exactly one instruction, of four fields, and a nil error, and the status of the
instruction is the specified one: rejected when the chain state is nil, the
header does not decode, the declared height differs from the height in the
header, or `ReceiveNewHeader` returns an error or false; confirmed when the
`LatestHeader` height after verification is the height before it plus 1;
unconfirmed in every other verified case. -/
theorem buildInstructionsForHeaderRelaying_status {acc ρ ψ χ η : Type} (E : Env acc ρ ψ χ η)
    (contentStr : String) (shardID : Nat) (metaType : Int) (relayingHeaderChain : Option χ)
    (beaconHeight : Nat) (actionData : RelayingHeaderAction)
    (hdecodes : E.decodeRelayingAction contentStr = some actionData)
    (hdeclared : actionData.Meta.BlockHeight < 2 ^ 63)
    (hlatest : ∀ chain, relayingHeaderChain = some chain →
      -(2 ^ 63) ≤ E.LatestHeaderHeight chain ∧ E.LatestHeaderHeight chain < 2 ^ 63 - 1) :
    (buildInstructionsForHeaderRelaying E contentStr shardID metaType relayingHeaderChain
        beaconHeight).1
      = [relayingInst E actionData shardID
          (specRelayingStatus E relayingHeaderChain actionData)] ∧
    (buildInstructionsForHeaderRelaying E contentStr shardID metaType relayingHeaderChain
        beaconHeight).2.1 = none ∧
    (relayingInst E actionData shardID
      (specRelayingStatus E relayingHeaderChain actionData)).length = 4 ∧
    (relayingInst E actionData shardID
      (specRelayingStatus E relayingHeaderChain actionData))[2]?
        = some (specRelayingStatus E relayingHeaderChain actionData) := by
  refine ⟨?_, ?_, (relayingInst_length E _ _ _).1, (relayingInst_length E _ _ _).2⟩
  · unfold buildInstructionsForHeaderRelaying specRelayingStatus
    rw [hdecodes]
    cases relayingHeaderChain with
    | none => rfl
    | some chain =>
      simp only
      cases hh : E.decodeBNBHeader actionData.Meta.Header with
      | none => rfl
      | some newHeader =>
        simp only
        rw [int64_of_lt _ hdeclared]
        have hl := hlatest chain rfl
        rw [int64Wrap_of_range _ (by omega) (by omega)]
        split_ifs <;> rfl
  · unfold buildInstructionsForHeaderRelaying
    rw [hdecodes]
    cases relayingHeaderChain with
    | none => rfl
    | some chain =>
      simp only
      cases hh : E.decodeBNBHeader actionData.Meta.Header with
      | none => rfl
      | some newHeader =>
        simp only
        split_ifs <;> rfl

/-- Witness of C9 as amended: the sample action declaring height 6, on a chain
whose `LatestHeader` is at height 5, is confirmed. -/
theorem buildInstructionsForHeaderRelaying_status_witness :
    (buildInstructionsForHeaderRelaying sampleEnv "R6" 0 200 (some 5) 10).1
      = [["200", "0", "confirmed", "H6"]] ∧
    (buildInstructionsForHeaderRelaying sampleEnv "R6" 0 200 (some 5) 10).1
      = [relayingInst sampleEnv (sampleRelaying "H6" 6 0) 0
          (specRelayingStatus sampleEnv (some 5) (sampleRelaying "H6" 6 0))] :=
  ⟨by decide,
   (buildInstructionsForHeaderRelaying_status sampleEnv "R6" 0 200 (some 5) 10
     (sampleRelaying "H6" 6 0) (by decide) (by decide)
     (by intro chain h; cases h; decide)).1⟩

/-- C9, counterexample. With the sample verifier: an action that declares
height `2 ^ 64 - 1` over a header of height `-1` is not rejected but confirmed,
although the two heights differ; and on a chain whose `LatestHeader` is at
height `2 ^ 63 - 1` and moves to `-2 ^ 63`, an action is confirmed although the
new height is not the old one plus 1. -/
theorem buildInstructionsForHeaderRelaying_status_counterexample :
    sampleEnv.decodeRelayingAction "Rmax" = some (sampleRelaying "Hneg" (2 ^ 64 - 1) 0) ∧
    sampleEnv.decodeBNBHeader "Hneg" = some { Height := -1, body := (true, 6) } ∧
    (buildInstructionsForHeaderRelaying sampleEnv "Rmax" 0 200 (some 5) 10).1
      = [["200", "0", "confirmed", "Hneg"]] ∧
    specRelayingStatus sampleEnv (some 5) (sampleRelaying "Hneg" (2 ^ 64 - 1) 0) = "rejected" ∧
    sampleEnv.decodeRelayingAction "R7" = some (sampleRelaying "Hmin" 7 0) ∧
    (buildInstructionsForHeaderRelaying sampleEnv "R7" 0 200 (some (2 ^ 63 - 1)) 10).1
      = [["200", "0", "confirmed", "Hmin"]] ∧
    (buildInstructionsForHeaderRelaying sampleEnv "R7" 0 200 (some (2 ^ 63 - 1)) 10).2.2
      = some (-(2 ^ 63)) ∧
    specRelayingStatus sampleEnv (some (2 ^ 63 - 1)) (sampleRelaying "Hmin" 7 0)
      = "unconfirmed" := by
  decide


/-! ## C6: the sequencer -/

theorem groupedOf_append_other {acc ρ ψ χ η : Type} (E : Env acc ρ ψ χ η)
    (calls : List (Nat × Inst)) (call : Nat × Inst) (family : Family) (k : Nat)
    (h : ¬ (call.1 = k ∧ familyOf E call.2 = family)) :
    groupedOf E (calls ++ [call]) family k = groupedOf E calls family k := by
  unfold groupedOf
  rw [List.filter_append]
  simp [List.filter_cons, h]

theorem groupedOf_append_same {acc ρ ψ χ η : Type} (E : Env acc ρ ψ χ η)
    (calls : List (Nat × Inst)) (k : Nat) (action : Inst) (family : Family)
    (h : familyOf E action = family) :
    groupedOf E (calls ++ [(k, action)]) family k = groupedOf E calls family k ++ [action] := by
  unfold groupedOf
  rw [List.filter_append]
  simp [List.filter_cons, h]

theorem mapGet_mapAppend_grouped {acc ρ ψ χ η : Type} (E : Env acc ρ ψ χ η)
    (calls : List (Nat × Inst)) (m : List (Nat × List Inst)) (family : Family)
    (hm : ∀ k, mapGet m k = groupedOf E calls family k)
    (shardID : Nat) (action : Inst) (h : familyOf E action = family) (k : Nat) :
    mapGet (mapAppend m shardID action) k
      = groupedOf E (calls ++ [(shardID, action)]) family k := by
  rw [mapGet_mapAppend]
  by_cases hk : k = shardID
  · subst hk
    rw [if_pos rfl, groupedOf_append_same E calls k action family h, hm]
  · rw [if_neg hk, groupedOf_append_other E calls _ family k, hm]
    rintro ⟨h1, _⟩
    exact hk h1.symm

theorem groupedOf_keep {acc ρ ψ χ η : Type} (E : Env acc ρ ψ χ η)
    (calls : List (Nat × Inst)) (m : List (Nat × List Inst)) (family : Family)
    (hm : ∀ k, mapGet m k = groupedOf E calls family k)
    (shardID : Nat) (action : Inst) (h : familyOf E action ≠ family) (k : Nat) :
    mapGet m k = groupedOf E (calls ++ [(shardID, action)]) family k := by
  rw [groupedOf_append_other E calls _ family k, hm]
  rintro ⟨_, h2⟩
  exact h h2

theorem relaying_keep {acc ρ ψ χ η : Type} (E : Env acc ρ ψ χ η)
    (calls : List (Nat × Inst)) (l : List Inst)
    (hl : l = (calls.filter
      (fun call => decide (familyOf E call.2 = Family.relaying))).map Prod.snd)
    (shardID : Nat) (action : Inst) (h : familyOf E action ≠ Family.relaying) :
    l = ((calls ++ [(shardID, action)]).filter
      (fun call => decide (familyOf E call.2 = Family.relaying))).map Prod.snd := by
  rw [List.filter_append, hl]
  simp [List.filter_cons, h]

theorem issuing_keep {acc ρ ψ χ η : Type} (E : Env acc ρ ψ χ η)
    (calls : List (Nat × Inst)) (av0 : acc) (s : acc × List Inst)
    (hs : s = calls.foldl (issuingStep E) (av0, []))
    (call : Nat × Inst) (h : issuingStep E s call = s) :
    s = (calls ++ [call]).foldl (issuingStep E) (av0, []) := by
  rw [List.foldl_append, ← hs]
  simp [h]


theorem collectedOf_keep {acc ρ ψ χ η : Type} (E : Env acc ρ ψ χ η) (av0 : acc)
    (calls : List (Nat × Inst)) (c : Collected acc) (hc : CollectedOf E av0 calls c)
    (shardID : Nat) (action : Inst)
    (hfam : familyOf E action = Family.unlisted)
    (hstep : ∀ s, issuingStep E s (shardID, action) = s) :
    CollectedOf E av0 (calls ++ [(shardID, action)]) c where
  issuing := issuing_keep E calls av0 _ hc.issuing _ (hstep _)
  contribution := groupedOf_keep E calls _ _ hc.contribution shardID action (by rw [hfam]; decide)
  trade := groupedOf_keep E calls _ _ hc.trade shardID action (by rw [hfam]; decide)
  withdrawal := groupedOf_keep E calls _ _ hc.withdrawal shardID action (by rw [hfam]; decide)
  deposit := groupedOf_keep E calls _ _ hc.deposit shardID action (by rw [hfam]; decide)
  porting := groupedOf_keep E calls _ _ hc.porting shardID action (by rw [hfam]; decide)
  ptoken := groupedOf_keep E calls _ _ hc.ptoken shardID action (by rw [hfam]; decide)
  rates := groupedOf_keep E calls _ _ hc.rates shardID action (by rw [hfam]; decide)
  relaying := relaying_keep E calls _ hc.relaying shardID action (by rw [hfam]; decide)

theorem collectAction_step {acc ρ ψ χ η : Type} (E : Env acc ρ ψ χ η) (av0 : acc)
    (calls : List (Nat × Inst)) (c c' : Collected acc) (hc : CollectedOf E av0 calls c)
    (shardID : Nat) (action : Inst)
    (h : collectAction E shardID action c = some c') :
    CollectedOf E av0 (calls ++ [(shardID, action)]) c' := by
  unfold collectAction at h
  cases h0 : action[0]? with
  | none => simp [h0] at h
  | some first =>
    simp only [h0] at h
    cases hA : E.Atoi first with
    | none =>
      simp only [hA, Option.some.injEq] at h
      subst h
      apply collectedOf_keep E av0 calls c hc
      · simp [familyOf, h0, hA]
      · intro s; simp [issuingStep, h0, hA]
    | some mt =>
      simp only [hA] at h
      cases h1 : action[1]? with
      | none => simp [h1] at h
      | some contentStr =>
        simp only [h1] at h
        have hfam : familyOf E action = familyOfType E.types mt := by
          simp [familyOf, h0, hA]
        have hbind : (action[0]?).bind E.Atoi = some mt := by simp [h0, hA]
        by_cases n0 : mt = E.types.IssuingRequestMeta
        · rw [if_pos n0] at h
          have hf : familyOf E action = Family.issuing := by
            rw [hfam]; unfold familyOfType; rw [if_pos n0]
          have hs : ∀ s : acc × List Inst, issuingStep E s (shardID, action) =
              ((E.buildInstructionsForIssuingReq contentStr shardID mt s.1).2,
               s.2 ++ ((E.buildInstructionsForIssuingReq contentStr shardID mt s.1).1).getD []) := by
            intro s
            unfold issuingStep
            simp only [hbind, h1, if_pos n0]
            cases hp : E.buildInstructionsForIssuingReq contentStr shardID mt s.1 with
            | mk o v =>
              cases o with
              | none => simp
              | some ni => simp
          have hiss : ∀ d : Collected acc, (d.accumulatedValues, d.instructions)
              = ((E.buildInstructionsForIssuingReq contentStr shardID mt c.accumulatedValues).2,
                 c.instructions ++
                  ((E.buildInstructionsForIssuingReq contentStr shardID mt c.accumulatedValues).1).getD []) →
              (d.accumulatedValues, d.instructions)
                = (calls ++ [(shardID, action)]).foldl (issuingStep E) (av0, []) := by
            intro d hd
            rw [List.foldl_append, ← hc.issuing]
            simp only [List.foldl_cons, List.foldl_nil]
            rw [hs, hd]
          cases hp : E.buildInstructionsForIssuingReq contentStr shardID mt c.accumulatedValues with
          | mk o v =>
            cases o with
            | none =>
              simp only [hp, Option.some.injEq] at h
              subst h
              exact {
                issuing := hiss _ (by simp [hp])
                contribution := groupedOf_keep E calls _ _ hc.contribution shardID action (by rw [hf]; decide)
                trade := groupedOf_keep E calls _ _ hc.trade shardID action (by rw [hf]; decide)
                withdrawal := groupedOf_keep E calls _ _ hc.withdrawal shardID action (by rw [hf]; decide)
                deposit := groupedOf_keep E calls _ _ hc.deposit shardID action (by rw [hf]; decide)
                porting := groupedOf_keep E calls _ _ hc.porting shardID action (by rw [hf]; decide)
                ptoken := groupedOf_keep E calls _ _ hc.ptoken shardID action (by rw [hf]; decide)
                rates := groupedOf_keep E calls _ _ hc.rates shardID action (by rw [hf]; decide)
                relaying := relaying_keep E calls _ hc.relaying shardID action (by rw [hf]; decide) }
            | some ni =>
              simp only [hp, Option.some.injEq] at h
              subst h
              exact {
                issuing := hiss _ (by simp [hp])
                contribution := groupedOf_keep E calls _ _ hc.contribution shardID action (by rw [hf]; decide)
                trade := groupedOf_keep E calls _ _ hc.trade shardID action (by rw [hf]; decide)
                withdrawal := groupedOf_keep E calls _ _ hc.withdrawal shardID action (by rw [hf]; decide)
                deposit := groupedOf_keep E calls _ _ hc.deposit shardID action (by rw [hf]; decide)
                porting := groupedOf_keep E calls _ _ hc.porting shardID action (by rw [hf]; decide)
                ptoken := groupedOf_keep E calls _ _ hc.ptoken shardID action (by rw [hf]; decide)
                rates := groupedOf_keep E calls _ _ hc.rates shardID action (by rw [hf]; decide)
                relaying := relaying_keep E calls _ hc.relaying shardID action (by rw [hf]; decide) }
        by_cases n1 : mt = E.types.IssuingETHRequestMeta
        · rw [if_neg n0, if_pos n1] at h
          have hf : familyOf E action = Family.issuingETH := by
            rw [hfam]; unfold familyOfType; rw [if_neg n0, if_pos n1]
          have hs : ∀ s : acc × List Inst, issuingStep E s (shardID, action) =
              ((E.buildInstructionsForIssuingETHReq contentStr shardID mt s.1).2,
               s.2 ++ ((E.buildInstructionsForIssuingETHReq contentStr shardID mt s.1).1).getD []) := by
            intro s
            unfold issuingStep
            simp only [hbind, h1, if_neg n0, if_pos n1]
            cases hp : E.buildInstructionsForIssuingETHReq contentStr shardID mt s.1 with
            | mk o v =>
              cases o with
              | none => simp
              | some ni => simp
          have hiss : ∀ d : Collected acc, (d.accumulatedValues, d.instructions)
              = ((E.buildInstructionsForIssuingETHReq contentStr shardID mt c.accumulatedValues).2,
                 c.instructions ++
                  ((E.buildInstructionsForIssuingETHReq contentStr shardID mt c.accumulatedValues).1).getD []) →
              (d.accumulatedValues, d.instructions)
                = (calls ++ [(shardID, action)]).foldl (issuingStep E) (av0, []) := by
            intro d hd
            rw [List.foldl_append, ← hc.issuing]
            simp only [List.foldl_cons, List.foldl_nil]
            rw [hs, hd]
          cases hp : E.buildInstructionsForIssuingETHReq contentStr shardID mt c.accumulatedValues with
          | mk o v =>
            cases o with
            | none =>
              simp only [hp, Option.some.injEq] at h
              subst h
              exact {
                issuing := hiss _ (by simp [hp])
                contribution := groupedOf_keep E calls _ _ hc.contribution shardID action (by rw [hf]; decide)
                trade := groupedOf_keep E calls _ _ hc.trade shardID action (by rw [hf]; decide)
                withdrawal := groupedOf_keep E calls _ _ hc.withdrawal shardID action (by rw [hf]; decide)
                deposit := groupedOf_keep E calls _ _ hc.deposit shardID action (by rw [hf]; decide)
                porting := groupedOf_keep E calls _ _ hc.porting shardID action (by rw [hf]; decide)
                ptoken := groupedOf_keep E calls _ _ hc.ptoken shardID action (by rw [hf]; decide)
                rates := groupedOf_keep E calls _ _ hc.rates shardID action (by rw [hf]; decide)
                relaying := relaying_keep E calls _ hc.relaying shardID action (by rw [hf]; decide) }
            | some ni =>
              simp only [hp, Option.some.injEq] at h
              subst h
              exact {
                issuing := hiss _ (by simp [hp])
                contribution := groupedOf_keep E calls _ _ hc.contribution shardID action (by rw [hf]; decide)
                trade := groupedOf_keep E calls _ _ hc.trade shardID action (by rw [hf]; decide)
                withdrawal := groupedOf_keep E calls _ _ hc.withdrawal shardID action (by rw [hf]; decide)
                deposit := groupedOf_keep E calls _ _ hc.deposit shardID action (by rw [hf]; decide)
                porting := groupedOf_keep E calls _ _ hc.porting shardID action (by rw [hf]; decide)
                ptoken := groupedOf_keep E calls _ _ hc.ptoken shardID action (by rw [hf]; decide)
                rates := groupedOf_keep E calls _ _ hc.rates shardID action (by rw [hf]; decide)
                relaying := relaying_keep E calls _ hc.relaying shardID action (by rw [hf]; decide) }
        by_cases n2 : mt = E.types.PDEContributionMeta
        · rw [if_neg n0, if_neg n1, if_pos n2] at h
          simp only [Option.some.injEq] at h
          subst h
          have hf : familyOf E action = Family.pdeContribution := by
            rw [hfam]; unfold familyOfType; rw [if_neg n0, if_neg n1, if_pos n2]
          have hs : ∀ s : acc × List Inst, issuingStep E s (shardID, action) = s := by
            intro s
            unfold issuingStep
            simp only [hbind, h1, if_neg n0, if_neg n1]
          exact {
            issuing := issuing_keep E calls av0 _ hc.issuing _ (hs _)
            contribution := mapGet_mapAppend_grouped E calls _ _ hc.contribution shardID action hf
            trade := groupedOf_keep E calls _ _ hc.trade shardID action (by rw [hf]; decide)
            withdrawal := groupedOf_keep E calls _ _ hc.withdrawal shardID action (by rw [hf]; decide)
            deposit := groupedOf_keep E calls _ _ hc.deposit shardID action (by rw [hf]; decide)
            porting := groupedOf_keep E calls _ _ hc.porting shardID action (by rw [hf]; decide)
            ptoken := groupedOf_keep E calls _ _ hc.ptoken shardID action (by rw [hf]; decide)
            rates := groupedOf_keep E calls _ _ hc.rates shardID action (by rw [hf]; decide)
            relaying := relaying_keep E calls _ hc.relaying shardID action (by rw [hf]; decide) }
        by_cases n3 : mt = E.types.PDETradeRequestMeta
        · rw [if_neg n0, if_neg n1, if_neg n2, if_pos n3] at h
          simp only [Option.some.injEq] at h
          subst h
          have hf : familyOf E action = Family.pdeTrade := by
            rw [hfam]; unfold familyOfType; rw [if_neg n0, if_neg n1, if_neg n2, if_pos n3]
          have hs : ∀ s : acc × List Inst, issuingStep E s (shardID, action) = s := by
            intro s
            unfold issuingStep
            simp only [hbind, h1, if_neg n0, if_neg n1]
          exact {
            issuing := issuing_keep E calls av0 _ hc.issuing _ (hs _)
            contribution := groupedOf_keep E calls _ _ hc.contribution shardID action (by rw [hf]; decide)
            trade := mapGet_mapAppend_grouped E calls _ _ hc.trade shardID action hf
            withdrawal := groupedOf_keep E calls _ _ hc.withdrawal shardID action (by rw [hf]; decide)
            deposit := groupedOf_keep E calls _ _ hc.deposit shardID action (by rw [hf]; decide)
            porting := groupedOf_keep E calls _ _ hc.porting shardID action (by rw [hf]; decide)
            ptoken := groupedOf_keep E calls _ _ hc.ptoken shardID action (by rw [hf]; decide)
            rates := groupedOf_keep E calls _ _ hc.rates shardID action (by rw [hf]; decide)
            relaying := relaying_keep E calls _ hc.relaying shardID action (by rw [hf]; decide) }
        by_cases n4 : mt = E.types.PDEWithdrawalRequestMeta
        · rw [if_neg n0, if_neg n1, if_neg n2, if_neg n3, if_pos n4] at h
          simp only [Option.some.injEq] at h
          subst h
          have hf : familyOf E action = Family.pdeWithdrawal := by
            rw [hfam]; unfold familyOfType; rw [if_neg n0, if_neg n1, if_neg n2, if_neg n3, if_pos n4]
          have hs : ∀ s : acc × List Inst, issuingStep E s (shardID, action) = s := by
            intro s
            unfold issuingStep
            simp only [hbind, h1, if_neg n0, if_neg n1]
          exact {
            issuing := issuing_keep E calls av0 _ hc.issuing _ (hs _)
            contribution := groupedOf_keep E calls _ _ hc.contribution shardID action (by rw [hf]; decide)
            trade := groupedOf_keep E calls _ _ hc.trade shardID action (by rw [hf]; decide)
            withdrawal := mapGet_mapAppend_grouped E calls _ _ hc.withdrawal shardID action hf
            deposit := groupedOf_keep E calls _ _ hc.deposit shardID action (by rw [hf]; decide)
            porting := groupedOf_keep E calls _ _ hc.porting shardID action (by rw [hf]; decide)
            ptoken := groupedOf_keep E calls _ _ hc.ptoken shardID action (by rw [hf]; decide)
            rates := groupedOf_keep E calls _ _ hc.rates shardID action (by rw [hf]; decide)
            relaying := relaying_keep E calls _ hc.relaying shardID action (by rw [hf]; decide) }
        by_cases n5 : mt = E.types.PortalCustodianDepositMeta
        · rw [if_neg n0, if_neg n1, if_neg n2, if_neg n3, if_neg n4, if_pos n5] at h
          simp only [Option.some.injEq] at h
          subst h
          have hf : familyOf E action = Family.custodianDeposit := by
            rw [hfam]; unfold familyOfType; rw [if_neg n0, if_neg n1, if_neg n2, if_neg n3, if_neg n4, if_pos n5]
          have hs : ∀ s : acc × List Inst, issuingStep E s (shardID, action) = s := by
            intro s
            unfold issuingStep
            simp only [hbind, h1, if_neg n0, if_neg n1]
          exact {
            issuing := issuing_keep E calls av0 _ hc.issuing _ (hs _)
            contribution := groupedOf_keep E calls _ _ hc.contribution shardID action (by rw [hf]; decide)
            trade := groupedOf_keep E calls _ _ hc.trade shardID action (by rw [hf]; decide)
            withdrawal := groupedOf_keep E calls _ _ hc.withdrawal shardID action (by rw [hf]; decide)
            deposit := mapGet_mapAppend_grouped E calls _ _ hc.deposit shardID action hf
            porting := groupedOf_keep E calls _ _ hc.porting shardID action (by rw [hf]; decide)
            ptoken := groupedOf_keep E calls _ _ hc.ptoken shardID action (by rw [hf]; decide)
            rates := groupedOf_keep E calls _ _ hc.rates shardID action (by rw [hf]; decide)
            relaying := relaying_keep E calls _ hc.relaying shardID action (by rw [hf]; decide) }
        by_cases n6 : mt = E.types.PortalUserRegisterMeta
        · rw [if_neg n0, if_neg n1, if_neg n2, if_neg n3, if_neg n4, if_neg n5, if_pos n6] at h
          simp only [Option.some.injEq] at h
          subst h
          have hf : familyOf E action = Family.porting := by
            rw [hfam]; unfold familyOfType; rw [if_neg n0, if_neg n1, if_neg n2, if_neg n3, if_neg n4, if_neg n5, if_pos n6]
          have hs : ∀ s : acc × List Inst, issuingStep E s (shardID, action) = s := by
            intro s
            unfold issuingStep
            simp only [hbind, h1, if_neg n0, if_neg n1]
          exact {
            issuing := issuing_keep E calls av0 _ hc.issuing _ (hs _)
            contribution := groupedOf_keep E calls _ _ hc.contribution shardID action (by rw [hf]; decide)
            trade := groupedOf_keep E calls _ _ hc.trade shardID action (by rw [hf]; decide)
            withdrawal := groupedOf_keep E calls _ _ hc.withdrawal shardID action (by rw [hf]; decide)
            deposit := groupedOf_keep E calls _ _ hc.deposit shardID action (by rw [hf]; decide)
            porting := mapGet_mapAppend_grouped E calls _ _ hc.porting shardID action hf
            ptoken := groupedOf_keep E calls _ _ hc.ptoken shardID action (by rw [hf]; decide)
            rates := groupedOf_keep E calls _ _ hc.rates shardID action (by rw [hf]; decide)
            relaying := relaying_keep E calls _ hc.relaying shardID action (by rw [hf]; decide) }
        by_cases n7 : mt = E.types.PortalUserRequestPTokenMeta
        · rw [if_neg n0, if_neg n1, if_neg n2, if_neg n3, if_neg n4, if_neg n5, if_neg n6, if_pos n7] at h
          simp only [Option.some.injEq] at h
          subst h
          have hf : familyOf E action = Family.ptoken := by
            rw [hfam]; unfold familyOfType; rw [if_neg n0, if_neg n1, if_neg n2, if_neg n3, if_neg n4, if_neg n5, if_neg n6, if_pos n7]
          have hs : ∀ s : acc × List Inst, issuingStep E s (shardID, action) = s := by
            intro s
            unfold issuingStep
            simp only [hbind, h1, if_neg n0, if_neg n1]
          exact {
            issuing := issuing_keep E calls av0 _ hc.issuing _ (hs _)
            contribution := groupedOf_keep E calls _ _ hc.contribution shardID action (by rw [hf]; decide)
            trade := groupedOf_keep E calls _ _ hc.trade shardID action (by rw [hf]; decide)
            withdrawal := groupedOf_keep E calls _ _ hc.withdrawal shardID action (by rw [hf]; decide)
            deposit := groupedOf_keep E calls _ _ hc.deposit shardID action (by rw [hf]; decide)
            porting := groupedOf_keep E calls _ _ hc.porting shardID action (by rw [hf]; decide)
            ptoken := mapGet_mapAppend_grouped E calls _ _ hc.ptoken shardID action hf
            rates := groupedOf_keep E calls _ _ hc.rates shardID action (by rw [hf]; decide)
            relaying := relaying_keep E calls _ hc.relaying shardID action (by rw [hf]; decide) }
        by_cases n8 : mt = E.types.PortalExchangeRatesMeta
        · rw [if_neg n0, if_neg n1, if_neg n2, if_neg n3, if_neg n4, if_neg n5, if_neg n6, if_neg n7, if_pos n8] at h
          simp only [Option.some.injEq] at h
          subst h
          have hf : familyOf E action = Family.exchangeRates := by
            rw [hfam]; unfold familyOfType; rw [if_neg n0, if_neg n1, if_neg n2, if_neg n3, if_neg n4, if_neg n5, if_neg n6, if_neg n7, if_pos n8]
          have hs : ∀ s : acc × List Inst, issuingStep E s (shardID, action) = s := by
            intro s
            unfold issuingStep
            simp only [hbind, h1, if_neg n0, if_neg n1]
          exact {
            issuing := issuing_keep E calls av0 _ hc.issuing _ (hs _)
            contribution := groupedOf_keep E calls _ _ hc.contribution shardID action (by rw [hf]; decide)
            trade := groupedOf_keep E calls _ _ hc.trade shardID action (by rw [hf]; decide)
            withdrawal := groupedOf_keep E calls _ _ hc.withdrawal shardID action (by rw [hf]; decide)
            deposit := groupedOf_keep E calls _ _ hc.deposit shardID action (by rw [hf]; decide)
            porting := groupedOf_keep E calls _ _ hc.porting shardID action (by rw [hf]; decide)
            ptoken := groupedOf_keep E calls _ _ hc.ptoken shardID action (by rw [hf]; decide)
            rates := mapGet_mapAppend_grouped E calls _ _ hc.rates shardID action hf
            relaying := relaying_keep E calls _ hc.relaying shardID action (by rw [hf]; decide) }
        by_cases n9 : mt = E.types.RelayingHeaderMeta
        · rw [if_neg n0, if_neg n1, if_neg n2, if_neg n3, if_neg n4, if_neg n5, if_neg n6, if_neg n7, if_neg n8, if_pos n9] at h
          simp only [Option.some.injEq] at h
          subst h
          have hf : familyOf E action = Family.relaying := by
            rw [hfam]; unfold familyOfType; rw [if_neg n0, if_neg n1, if_neg n2, if_neg n3, if_neg n4, if_neg n5, if_neg n6, if_neg n7, if_neg n8, if_pos n9]
          have hs : ∀ s : acc × List Inst, issuingStep E s (shardID, action) = s := by
            intro s
            unfold issuingStep
            simp only [hbind, h1, if_neg n0, if_neg n1]
          exact {
            issuing := issuing_keep E calls av0 _ hc.issuing _ (hs _)
            contribution := groupedOf_keep E calls _ _ hc.contribution shardID action (by rw [hf]; decide)
            trade := groupedOf_keep E calls _ _ hc.trade shardID action (by rw [hf]; decide)
            withdrawal := groupedOf_keep E calls _ _ hc.withdrawal shardID action (by rw [hf]; decide)
            deposit := groupedOf_keep E calls _ _ hc.deposit shardID action (by rw [hf]; decide)
            porting := groupedOf_keep E calls _ _ hc.porting shardID action (by rw [hf]; decide)
            ptoken := groupedOf_keep E calls _ _ hc.ptoken shardID action (by rw [hf]; decide)
            rates := groupedOf_keep E calls _ _ hc.rates shardID action (by rw [hf]; decide)
            relaying := by
              show c.relayingActions ++ [action] = _
              rw [List.filter_append, hc.relaying]
              simp [List.filter_cons, hf] }
        · rw [if_neg n0, if_neg n1, if_neg n2, if_neg n3, if_neg n4, if_neg n5, if_neg n6, if_neg n7, if_neg n8, if_neg n9] at h
          simp only [Option.some.injEq] at h
          subst h
          apply collectedOf_keep E av0 calls c hc
          · rw [hfam]; unfold familyOfType; rw [if_neg n0, if_neg n1, if_neg n2, if_neg n3, if_neg n4, if_neg n5, if_neg n6, if_neg n7, if_neg n8, if_neg n9]
          · intro s
            unfold issuingStep
            simp only [hbind, h1, if_neg n0, if_neg n1]


theorem collectedOf_empty {acc ρ ψ χ η : Type} (E : Env acc ρ ψ χ η) (av0 : acc) :
    CollectedOf E av0 [] (emptyCollected av0) where
  issuing := rfl
  contribution := fun _ => rfl
  trade := fun _ => rfl
  withdrawal := fun _ => rfl
  deposit := fun _ => rfl
  porting := fun _ => rfl
  ptoken := fun _ => rfl
  rates := fun _ => rfl
  relaying := rfl

theorem collectActions_inv {acc ρ ψ χ η : Type} (E : Env acc ρ ψ χ η) (av0 : acc)
    (shardID : Nat) (actions : List Inst) (calls : List (Nat × Inst)) (c c' : Collected acc)
    (hc : CollectedOf E av0 calls c) (h : collectActions E shardID actions c = some c') :
    CollectedOf E av0 (calls ++ actions.map (fun a => (shardID, a))) c' := by
  induction actions generalizing calls c with
  | nil =>
    simp only [collectActions, Option.some.injEq] at h
    subst h; simpa using hc
  | cons a rest ih =>
    unfold collectActions at h
    cases h1 : collectAction E shardID a c with
    | none => simp [h1] at h
    | some c1 =>
      simp only [h1] at h
      have := ih _ _ (collectAction_step E av0 calls c c1 hc shardID a h1) h
      simpa using this

theorem collectShards_inv {acc ρ ψ χ η : Type} (E : Env acc ρ ψ χ η) (av0 : acc)
    (m : List (Nat × List Inst)) (keys : List Nat) (calls : List (Nat × Inst))
    (c c' : Collected acc)
    (hc : CollectedOf E av0 calls c) (h : collectShards E m keys c = some c') :
    CollectedOf E av0
      (calls ++ keys.flatMap (fun k => (mapGet m k).map (fun a => (k, a)))) c' := by
  induction keys generalizing calls c with
  | nil =>
    simp only [collectShards, Option.some.injEq] at h
    subst h; simpa using hc
  | cons k rest ih =>
    unfold collectShards at h
    cases h1 : collectActions E k (mapGet m k) c with
    | none => simp [h1] at h
    | some c1 =>
      simp only [h1] at h
      have := ih _ _ (collectActions_inv E av0 k _ calls c c1 hc h1) h
      simpa [List.flatMap_cons] using this

theorem collectAction_isSome {acc ρ ψ χ η : Type} (E : Env acc ρ ψ χ η) (shardID : Nat)
    (action : Inst) (c : Collected acc) (h : 2 ≤ action.length) :
    ∃ c', collectAction E shardID action c = some c' := by
  obtain ⟨first, h0⟩ : ∃ f, action[0]? = some f :=
    ⟨action[0], List.getElem?_eq_getElem (by omega)⟩
  obtain ⟨contentStr, h1⟩ : ∃ f, action[1]? = some f :=
    ⟨action[1], List.getElem?_eq_getElem (by omega)⟩
  unfold collectAction
  simp only [h0]
  cases hA : E.Atoi first with
  | none => exact ⟨c, rfl⟩
  | some mt =>
    simp only [h1]
    by_cases n0 : mt = E.types.IssuingRequestMeta
    · rw [if_pos n0]
      cases hp : E.buildInstructionsForIssuingReq contentStr shardID mt c.accumulatedValues with
      | mk o v => cases o <;> exact ⟨_, rfl⟩
    by_cases n1 : mt = E.types.IssuingETHRequestMeta
    · rw [if_neg n0, if_pos n1]
      cases hp : E.buildInstructionsForIssuingETHReq contentStr shardID mt
          c.accumulatedValues with
      | mk o v => cases o <;> exact ⟨_, rfl⟩
    by_cases n2 : mt = E.types.PDEContributionMeta
    · rw [if_neg n0, if_neg n1, if_pos n2]
      exact ⟨_, rfl⟩
    by_cases n3 : mt = E.types.PDETradeRequestMeta
    · rw [if_neg n0, if_neg n1, if_neg n2, if_pos n3]
      exact ⟨_, rfl⟩
    by_cases n4 : mt = E.types.PDEWithdrawalRequestMeta
    · rw [if_neg n0, if_neg n1, if_neg n2, if_neg n3, if_pos n4]
      exact ⟨_, rfl⟩
    by_cases n5 : mt = E.types.PortalCustodianDepositMeta
    · rw [if_neg n0, if_neg n1, if_neg n2, if_neg n3, if_neg n4, if_pos n5]
      exact ⟨_, rfl⟩
    by_cases n6 : mt = E.types.PortalUserRegisterMeta
    · rw [if_neg n0, if_neg n1, if_neg n2, if_neg n3, if_neg n4, if_neg n5, if_pos n6]
      exact ⟨_, rfl⟩
    by_cases n7 : mt = E.types.PortalUserRequestPTokenMeta
    · rw [if_neg n0, if_neg n1, if_neg n2, if_neg n3, if_neg n4, if_neg n5, if_neg n6, if_pos n7]
      exact ⟨_, rfl⟩
    by_cases n8 : mt = E.types.PortalExchangeRatesMeta
    · rw [if_neg n0, if_neg n1, if_neg n2, if_neg n3, if_neg n4, if_neg n5, if_neg n6, if_neg n7, if_pos n8]
      exact ⟨_, rfl⟩
    by_cases n9 : mt = E.types.RelayingHeaderMeta
    · rw [if_neg n0, if_neg n1, if_neg n2, if_neg n3, if_neg n4, if_neg n5, if_neg n6, if_neg n7, if_neg n8, if_pos n9]
      exact ⟨_, rfl⟩
    rw [if_neg n0, if_neg n1, if_neg n2, if_neg n3, if_neg n4, if_neg n5, if_neg n6, if_neg n7, if_neg n8, if_neg n9]
    exact ⟨_, rfl⟩

theorem collectActions_isSome {acc ρ ψ χ η : Type} (E : Env acc ρ ψ χ η) (shardID : Nat)
    (actions : List Inst) (c : Collected acc) (h : ∀ a ∈ actions, 2 ≤ a.length) :
    ∃ c', collectActions E shardID actions c = some c' := by
  induction actions generalizing c with
  | nil => exact ⟨c, rfl⟩
  | cons a rest ih =>
    obtain ⟨c1, h1⟩ := collectAction_isSome E shardID a c (h a (List.mem_cons_self _ _))
    unfold collectActions
    rw [h1]
    exact ih c1 (fun x hx => h x (List.mem_cons_of_mem _ hx))

theorem collectShards_isSome {acc ρ ψ χ η : Type} (E : Env acc ρ ψ χ η)
    (m : List (Nat × List Inst)) (keys : List Nat) (c : Collected acc)
    (h : ∀ k ∈ keys, ∀ a ∈ mapGet m k, 2 ≤ a.length) :
    ∃ c', collectShards E m keys c = some c' := by
  induction keys generalizing c with
  | nil => exact ⟨c, rfl⟩
  | cons k rest ih =>
    obtain ⟨c1, h1⟩ := collectActions_isSome E k (mapGet m k) c (h k (List.mem_cons_self _ _))
    unfold collectShards
    rw [h1]
    exact ih c1 (fun k' hk' => h k' (List.mem_cons_of_mem _ hk'))

theorem nodup_shardKeys {β : Type} (m : List (Nat × List β)) : (shardKeys m).Nodup := by
  unfold shardKeys sort_Ints
  exact (List.perm_insertionSort _ _).nodup_iff.mpr (nodup_mapKeys m)

theorem mem_shardKeys {β : Type} (m : List (Nat × List β)) (k : Nat) :
    k ∈ shardKeys m ↔ (mapFind m k).isSome = true := by
  unfold shardKeys sort_Ints
  rw [(List.perm_insertionSort _ _).mem_iff, mem_mapKeys]

theorem mem_shardKeys_of_mem_mapGet {β : Type} (m : List (Nat × List β)) (k : Nat) (a : β)
    (h : a ∈ mapGet m k) : k ∈ shardKeys m := by
  rw [mem_shardKeys]
  unfold mapGet at h
  cases hf : mapFind m k with
  | none => simp [hf] at h
  | some v => rfl

theorem groupedOf_flatMap {acc ρ ψ χ η : Type} (E : Env acc ρ ψ χ η)
    (m : List (Nat × List Inst)) (keys : List Nat) (hn : keys.Nodup) (family : Family)
    (k : Nat) :
    groupedOf E (keys.flatMap (fun k' => (mapGet m k').map (fun a => (k', a)))) family k
      = if k ∈ keys then (mapGet m k).filter (fun a => familyOf E a = family) else [] := by
  unfold groupedOf
  induction keys with
  | nil => simp
  | cons k0 rest ih =>
    have hn' := List.nodup_cons.mp hn
    rw [List.flatMap_cons, List.filter_append, List.map_append, ih hn'.2]
    by_cases hk : k = k0
    · subst hk
      have e1 : ((mapGet m k).map (fun a => (k, a))).filter
          (fun call => decide (call.1 = k ∧ familyOf E call.2 = family))
          = ((mapGet m k).filter (fun a => familyOf E a = family)).map (fun a => (k, a)) := by
        rw [List.filter_map]
        congr 1
        apply List.filter_congr
        intro a _
        simp
      rw [e1]
      simp [hn'.1]
    · have e1 : ((mapGet m k0).map (fun a => (k0, a))).filter
          (fun call => decide (call.1 = k ∧ familyOf E call.2 = family)) = [] := by
        rw [List.filter_eq_nil_iff]
        intro p hp
        obtain ⟨a, _, rfl⟩ := List.mem_map.mp hp
        simp only [decide_eq_true_eq, not_and]
        intro hk0; exact absurd hk0.symm hk
      rw [e1]
      simp [hk]

theorem groupedOf_tagged {acc ρ ψ χ η : Type} (E : Env acc ρ ψ χ η)
    (m : List (Nat × List Inst)) (family : Family) (k : Nat) :
    groupedOf E (taggedInShardOrder m) family k = familyActions E m family k := by
  unfold taggedInShardOrder familyActions
  rw [groupedOf_flatMap E m _ (nodup_shardKeys m)]
  by_cases hk : k ∈ shardKeys m
  · rw [if_pos hk]
  · rw [if_neg hk]
    have : mapGet m k = [] := by
      cases hl : mapGet m k with
      | nil => rfl
      | cons a rest =>
        exact absurd (mem_shardKeys_of_mem_mapGet m k a (by rw [hl]; simp)) hk
    rw [this]; rfl

theorem map_snd_tagged (m : List (Nat × List Inst)) :
    (taggedInShardOrder m).map Prod.snd = inShardOrder m := by
  unfold taggedInShardOrder inShardOrder
  rw [List.map_flatMap]
  congr 1
  funext k
  simp [List.map_map, Function.comp_def]

theorem relaying_tagged {acc ρ ψ χ η : Type} (E : Env acc ρ ψ χ η)
    (m : List (Nat × List Inst)) :
    ((taggedInShardOrder m).filter
        (fun call => decide (familyOf E call.2 = Family.relaying))).map Prod.snd
      = (inShardOrder m).filter (fun a => familyOf E a = Family.relaying) := by
  rw [← map_snd_tagged, List.filter_map]
  congr 1


theorem handlePDEInsts_err {acc ρ ψ χ η : Type} (E : Env acc ρ ψ χ η)
    (sortSlice : (PDETradeRequestAction → PDETradeRequestAction → Bool) →
      List PDETradeRequestAction → List PDETradeRequestAction)
    (beaconHeight : Nat) (currentPDEState : CurrentPDEState ρ)
    (contributions trades withdrawals : List (Nat × List Inst))
    (result : List Inst × Option String × CurrentPDEState ρ)
    (h : handlePDEInsts E sortSlice beaconHeight currentPDEState contributions trades
      withdrawals = some result) : result.2.1 = none := by
  unfold handlePDEInsts at h
  split at h
  · simp at h
  · simp only at h
    split at h
    · simp at h
    · split at h
      · simp at h
      · simp only [Option.some.injEq] at h
        rw [← h]

theorem handlePortalInsts_err {acc ρ ψ χ η : Type} (E : Env acc ρ ψ χ η)
    (beaconHeight : Nat) (currentPortalState : ψ)
    (deposits porting ptokens rates : List (Nat × List Inst))
    (result : List Inst × Option String × ψ)
    (h : handlePortalInsts E beaconHeight currentPortalState deposits porting ptokens rates
      = some result) : result.2.1 = none := by
  unfold handlePortalInsts at h
  split at h
  · simp at h
  · split at h
    · simp at h
    · split at h
      · simp at h
      · split at h
        · simp at h
        · simp only [Option.some.injEq] at h
          rw [← h]

theorem handleRelayingInsts_err {acc ρ ψ χ η : Type} (E : Env acc ρ ψ χ η)
    (beaconHeight : Nat) (headerChain : Option χ) (relayingHeaderActions : List Inst)
    (result : List Inst × Option String × Option χ)
    (h : handleRelayingInsts E beaconHeight headerChain relayingHeaderActions = some result) :
    result.2.1 = none := by
  unfold handleRelayingInsts at h
  split at h
  · simp at h
  · simp only [Option.some.injEq] at h
    rw [← h]

theorem handlePDEInsts_isSome {acc ρ ψ χ η : Type} (E : Env acc ρ ψ χ η)
    (sortSlice : (PDETradeRequestAction → PDETradeRequestAction → Bool) →
      List PDETradeRequestAction → List PDETradeRequestAction)
    (beaconHeight : Nat) (currentPDEState : CurrentPDEState ρ)
    (contributions trades withdrawals : List (Nat × List Inst))
    (w1 : WellFormed contributions) (w2 : WellFormed trades) (w3 : WellFormed withdrawals) :
    ∃ result, handlePDEInsts E sortSlice beaconHeight currentPDEState contributions trades
      withdrawals = some result := by
  unfold handlePDEInsts
  obtain ⟨sorted, h0⟩ := sortPDETradeInstsByFee_isSome sortSlice E.decodeTrade
    (fun t => E.BuildPDEPoolForPairKey beaconHeight t.Meta.TokenIDToBuyStr
      t.Meta.TokenIDToSellStr) currentPDEState trades w2
  simp only [h0]
  obtain ⟨r2, h2⟩ := runStage_isSome (fun c s st => E.buildInstructionsForPDEWithdrawal c s
      E.types.PDEWithdrawalRequestMeta st beaconHeight) withdrawals
      (tradeLoop (fun c s st => E.buildInstructionsForPDETrade c s
        E.types.PDETradeRequestMeta st beaconHeight) E.encodeTrade sorted
        (currentPDEState, [])) w3
  obtain ⟨r3, h3⟩ := runStage_isSome (fun c s st => E.buildInstructionsForPDEContribution c s
        E.types.PDEContributionMeta st beaconHeight) contributions r2 w1
  simp only [h2, h3]
  exact ⟨_, rfl⟩

theorem handlePortalInsts_isSome {acc ρ ψ χ η : Type} (E : Env acc ρ ψ χ η)
    (beaconHeight : Nat) (currentPortalState : ψ)
    (deposits porting ptokens rates : List (Nat × List Inst))
    (w1 : WellFormed deposits) (w2 : WellFormed porting) (w3 : WellFormed ptokens)
    (w4 : WellFormed rates) :
    ∃ result, handlePortalInsts E beaconHeight currentPortalState deposits porting ptokens
      rates = some result := by
  unfold handlePortalInsts
  obtain ⟨r1, h1⟩ := runStage_isSome (fun c s st => E.buildInstructionsForCustodianDeposit c s
      E.types.PortalCustodianDepositMeta st beaconHeight) deposits (currentPortalState, []) w1
  obtain ⟨r2, h2⟩ := runStage_isSome (fun c s st => E.buildInstructionsForPortingRequest c s
        E.types.PortalUserRegisterMeta st beaconHeight) porting r1 w2
  obtain ⟨r3, h3⟩ := runStage_isSome (fun c s st => E.buildInstructionsForReqPTokens c s
          E.types.PortalUserRequestPTokenMeta st beaconHeight) ptokens r2 w3
  obtain ⟨r4, h4⟩ := runStage_isSome (fun c s st => E.buildInstructionsForExchangeRates c s
            E.types.PortalExchangeRatesMeta st beaconHeight) rates r3 w4
  simp only [h1, h2, h3, h4]
  exact ⟨_, rfl⟩

theorem handleRelayingInsts_isSome {acc ρ ψ χ η : Type} (E : Env acc ρ ψ χ η)
    (beaconHeight : Nat) (headerChain : Option χ) (relayingHeaderActions : List Inst)
    (hw : ∀ a ∈ relayingHeaderActions, 2 ≤ a.length) :
    ∃ result, handleRelayingInsts E beaconHeight headerChain relayingHeaderActions
      = some result := by
  obtain ⟨g, hg⟩ := groupRelayingActions_isSome E relayingHeaderActions ([], []) hw
  unfold handleRelayingInsts sortRelayingInstsByBlockHeight
  simp only [hg]
  exact ⟨_, rfl⟩

theorem wellFormed_of_familyActions {acc ρ ψ χ η : Type} (E : Env acc ρ ψ χ η)
    (m g : List (Nat × List Inst)) (family : Family) (hm : WellFormed m)
    (hg : ∀ k, mapGet g k = familyActions E m family k) : WellFormed g := by
  intro k _ a ha
  rw [hg k] at ha
  have ha' : a ∈ mapGet m k := (List.mem_filter.mp ha).1
  exact hm k (mem_shardKeys_of_mem_mapGet m k a ha') a ha'


/-- C6. Whenever `buildStatefulInstructions` returns, its result is, in this
order: the bridge-issuance instructions (issuance actions by ascending shard ID
and in input order within a shard), then the instructions of `handlePDEInsts`,
then those of `handlePortalInsts`, then those of `handleRelayingInsts`, each
handler being given exactly the actions of its families, shard by shard in input
order (the relaying actions in discovery order); the three handlers return a nil
error whenever they return, so no family is left out. It returns whenever every
action has at least two fields. -/
theorem buildStatefulInstructions_order {acc ρ ψ χ η : Type} (E : Env acc ρ ψ χ η)
    (sortSlice : (PDETradeRequestAction → PDETradeRequestAction → Bool) →
      List PDETradeRequestAction → List PDETradeRequestAction)
    (statefulActionsByShardID : List (Nat × List Inst)) (beaconHeight : Nat)
    (currentPDEState : CurrentPDEState ρ) (currentPortalState : ψ)
    (relayingHeaderState : Option χ) (accumulatedValues : acc) :
    (∀ out, buildStatefulInstructions E sortSlice statefulActionsByShardID beaconHeight
        currentPDEState currentPortalState relayingHeaderState accumulatedValues = some out →
      ∃ contributions trades withdrawals deposits porting ptokens rates relayingActions
          pdeInsts portalInsts relayingInsts s1 s2 s3,
        (∀ k, mapGet contributions k
          = familyActions E statefulActionsByShardID Family.pdeContribution k) ∧
        (∀ k, mapGet trades k = familyActions E statefulActionsByShardID Family.pdeTrade k) ∧
        (∀ k, mapGet withdrawals k
          = familyActions E statefulActionsByShardID Family.pdeWithdrawal k) ∧
        (∀ k, mapGet deposits k
          = familyActions E statefulActionsByShardID Family.custodianDeposit k) ∧
        (∀ k, mapGet porting k = familyActions E statefulActionsByShardID Family.porting k) ∧
        (∀ k, mapGet ptokens k = familyActions E statefulActionsByShardID Family.ptoken k) ∧
        (∀ k, mapGet rates k
          = familyActions E statefulActionsByShardID Family.exchangeRates k) ∧
        relayingActions = (inShardOrder statefulActionsByShardID).filter
          (fun a => familyOf E a = Family.relaying) ∧
        handlePDEInsts E sortSlice (previousHeight beaconHeight) currentPDEState
          contributions trades withdrawals = some (pdeInsts, none, s1) ∧
        handlePortalInsts E (previousHeight beaconHeight) currentPortalState
          deposits porting ptokens rates = some (portalInsts, none, s2) ∧
        handleRelayingInsts E (previousHeight beaconHeight) relayingHeaderState
          relayingActions = some (relayingInsts, none, s3) ∧
        out = bridgeInstructions E statefulActionsByShardID accumulatedValues
          ++ pdeInsts ++ portalInsts ++ relayingInsts) ∧
    (∀ height (state : CurrentPDEState ρ) contributions trades withdrawals result,
      handlePDEInsts E sortSlice height state contributions trades withdrawals = some result →
      result.2.1 = none) ∧
    (∀ height (state : ψ) deposits porting ptokens rates result,
      handlePortalInsts E height state deposits porting ptokens rates = some result →
      result.2.1 = none) ∧
    (∀ height (chain : Option χ) actions result,
      handleRelayingInsts E height chain actions = some result → result.2.1 = none) ∧
    (WellFormed statefulActionsByShardID →
      ∃ out, buildStatefulInstructions E sortSlice statefulActionsByShardID beaconHeight
        currentPDEState currentPortalState relayingHeaderState accumulatedValues
          = some out) := by
  refine ⟨?_, ?_, ?_, ?_, ?_⟩
  · intro out h
    unfold buildStatefulInstructions at h
    cases hc : collectShards E statefulActionsByShardID (shardKeys statefulActionsByShardID)
        (emptyCollected accumulatedValues) with
    | none => simp [hc] at h
    | some c =>
      simp only [hc] at h
      have hinv := collectShards_inv E accumulatedValues statefulActionsByShardID _ [] _ c
        (collectedOf_empty E accumulatedValues) hc
      simp only [List.nil_append] at hinv
      have hT : (shardKeys statefulActionsByShardID).flatMap
          (fun k => (mapGet statefulActionsByShardID k).map (fun a => (k, a)))
          = taggedInShardOrder statefulActionsByShardID := rfl
      rw [hT] at hinv
      have hbridge : c.instructions
          = bridgeInstructions E statefulActionsByShardID accumulatedValues := by
        unfold bridgeInstructions
        rw [← hinv.issuing]
      cases hp : handlePDEInsts E sortSlice (previousHeight beaconHeight) currentPDEState
          c.pdeContributionActionsByShardID c.pdeTradeActionsByShardID
          c.pdeWithdrawalActionsByShardID with
      | none => simp [hp] at h
      | some rp =>
        obtain ⟨pdeInsts, e1, s1⟩ := rp
        have he1 : e1 = none := handlePDEInsts_err E sortSlice _ _ _ _ _ _ hp
        subst he1
        simp only [hp] at h
        cases hq : handlePortalInsts E (previousHeight beaconHeight) currentPortalState
            c.portalCustodianDepositActionsByShardID c.portalUserReqPortingActionsByShardID
            c.portalUserReqPTokenActionsByShardID c.portalExchangeRatesActionsByShardID with
        | none => simp [hq] at h
        | some rq =>
          obtain ⟨portalInsts, e2, s2⟩ := rq
          have he2 : e2 = none := handlePortalInsts_err E _ _ _ _ _ _ _ hq
          subst he2
          simp only [hq] at h
          cases hr : handleRelayingInsts E (previousHeight beaconHeight) relayingHeaderState
              c.relayingActions with
          | none => simp [hr] at h
          | some rr =>
            obtain ⟨relayingInsts, e3, s3⟩ := rr
            have he3 : e3 = none := handleRelayingInsts_err E _ _ _ _ hr
            subst he3
            simp only [hr, Option.some.injEq] at h
            refine ⟨c.pdeContributionActionsByShardID, c.pdeTradeActionsByShardID,
              c.pdeWithdrawalActionsByShardID, c.portalCustodianDepositActionsByShardID,
              c.portalUserReqPortingActionsByShardID, c.portalUserReqPTokenActionsByShardID,
              c.portalExchangeRatesActionsByShardID, c.relayingActions,
              pdeInsts, portalInsts, relayingInsts, s1, s2, s3, ?_, ?_, ?_, ?_, ?_, ?_, ?_, ?_,
              hp, hq, hr, ?_⟩
            · intro k; rw [hinv.contribution, groupedOf_tagged]
            · intro k; rw [hinv.trade, groupedOf_tagged]
            · intro k; rw [hinv.withdrawal, groupedOf_tagged]
            · intro k; rw [hinv.deposit, groupedOf_tagged]
            · intro k; rw [hinv.porting, groupedOf_tagged]
            · intro k; rw [hinv.ptoken, groupedOf_tagged]
            · intro k; rw [hinv.rates, groupedOf_tagged]
            · rw [hinv.relaying, relaying_tagged]
            · rw [← h, hbridge]
  · intro height state contributions trades withdrawals result h
    exact handlePDEInsts_err E sortSlice _ _ _ _ _ _ h
  · intro height state deposits porting ptokens rates result h
    exact handlePortalInsts_err E _ _ _ _ _ _ _ h
  · intro height chain actions result h
    exact handleRelayingInsts_err E _ _ _ _ h
  · intro hw
    obtain ⟨c, hc⟩ := collectShards_isSome E statefulActionsByShardID
      (shardKeys statefulActionsByShardID) (emptyCollected accumulatedValues) hw
    have hinv := collectShards_inv E accumulatedValues statefulActionsByShardID _ [] _ c
      (collectedOf_empty E accumulatedValues) hc
    simp only [List.nil_append] at hinv
    have hT : (shardKeys statefulActionsByShardID).flatMap
        (fun k => (mapGet statefulActionsByShardID k).map (fun a => (k, a)))
        = taggedInShardOrder statefulActionsByShardID := rfl
    rw [hT] at hinv
    have wf : ∀ (g : List (Nat × List Inst)) (family : Family),
        (∀ k, mapGet g k = groupedOf E (taggedInShardOrder statefulActionsByShardID) family k) →
        WellFormed g := by
      intro g family hg
      apply wellFormed_of_familyActions E statefulActionsByShardID g family hw
      intro k; rw [hg k, groupedOf_tagged]
    obtain ⟨rp, hp⟩ := handlePDEInsts_isSome E sortSlice (previousHeight beaconHeight)
      currentPDEState c.pdeContributionActionsByShardID c.pdeTradeActionsByShardID
      c.pdeWithdrawalActionsByShardID (wf _ _ hinv.contribution) (wf _ _ hinv.trade)
      (wf _ _ hinv.withdrawal)
    obtain ⟨rq, hq⟩ := handlePortalInsts_isSome E (previousHeight beaconHeight)
      currentPortalState c.portalCustodianDepositActionsByShardID
      c.portalUserReqPortingActionsByShardID c.portalUserReqPTokenActionsByShardID
      c.portalExchangeRatesActionsByShardID (wf _ _ hinv.deposit) (wf _ _ hinv.porting)
      (wf _ _ hinv.ptoken) (wf _ _ hinv.rates)
    have hrel : ∀ a ∈ c.relayingActions, 2 ≤ a.length := by
      intro a ha
      rw [hinv.relaying, relaying_tagged] at ha
      have ha' := (List.mem_filter.mp ha).1
      unfold inShardOrder at ha'
      obtain ⟨k, hk, hak⟩ := List.mem_flatMap.mp ha'
      exact hw k hk a hak
    obtain ⟨rr, hr⟩ := handleRelayingInsts_isSome E (previousHeight beaconHeight)
      relayingHeaderState c.relayingActions hrel
    obtain ⟨pdeInsts, e1, s1⟩ := rp
    obtain ⟨portalInsts, e2, s2⟩ := rq
    obtain ⟨relayingInsts, e3, s3⟩ := rr
    have he1 : e1 = none := handlePDEInsts_err E sortSlice _ _ _ _ _ _ hp
    have he2 : e2 = none := handlePortalInsts_err E _ _ _ _ _ _ _ hq
    have he3 : e3 = none := handleRelayingInsts_err E _ _ _ _ hr
    subst he1; subst he2; subst he3
    unfold buildStatefulInstructions
    simp only [hc, hp, hq, hr]
    exact ⟨_, rfl⟩


/-! ## Sample runs of the handlers -/

set_option maxRecDepth 100000 in
/-- Witness of C7: a sample run of `handlePortalInsts` over three shards; the
deposit payload `bad` is skipped. -/
theorem handlePortalInsts_stage_order_witness :
    handlePortalInsts sampleEnv 10 []
        [(1, [["100", "d1"]]), (0, [["100", "d0"], ["100", "bad"]])] [(0, [["101", "p0"]])]
        [(2, [["102", "t2"]]), (0, [["102", "t0"]])] [(0, [["103", "r0"]])]
      = some ([["deposit", "d0"], ["deposit", "d1"], ["porting", "p0"], ["ptoken", "t0"],
          ["ptoken", "t2"], ["rates", "r0"]], none, ["d0", "d1", "p0", "t0", "t2", "r0"]) ∧
    (none : Option String) = none :=
  ⟨by decide,
   ((handlePortalInsts_stage_order sampleEnv 10 []
      [(1, [["100", "d1"]]), (0, [["100", "d0"], ["100", "bad"]])] [(0, [["101", "p0"]])]
      [(2, [["102", "t2"]]), (0, [["102", "t0"]])] [(0, [["103", "r0"]])]).1
      [["deposit", "d0"], ["deposit", "d1"], ["porting", "p0"], ["ptoken", "t0"],
        ["ptoken", "t2"], ["rates", "r0"]] none ["d0", "d1", "p0", "t0", "t2", "r0"]
      (by decide)).1⟩

set_option maxRecDepth 100000 in
/-- Witness of C8: a sample run of `handlePDEInsts`; the two trades of the funded
pool come first, by fee, then the trade of an absent pool, then the withdrawals
by shard, the payload `bad` being skipped, then the contribution. -/
theorem handlePDEInsts_order_witness :
    handlePDEInsts sampleEnv sort_Slice 10 sampleState [(0, [["90", "c0"]])]
        [(1, [["91", "C"], ["91", "M"]]), (0, [["91", "D"]])]
        [(1, [["93", "w1"]]), (0, [["93", "bad"], ["93", "w0"]])]
      = some ([["trade", "D"], ["trade", "C"], ["trade", "M"], ["withdrawal", "w0"],
          ["withdrawal", "w1"], ["contribution", "c0"]], none, sampleState) ∧
    (none : Option String) = none :=
  ⟨by decide,
   ((handlePDEInsts_order sampleEnv sort_Slice 10 sampleState [(0, [["90", "c0"]])]
      [(1, [["91", "C"], ["91", "M"]]), (0, [["91", "D"]])]
      [(1, [["93", "w1"]]), (0, [["93", "bad"], ["93", "w0"]])]).1
      [["trade", "D"], ["trade", "C"], ["trade", "M"], ["withdrawal", "w0"],
        ["withdrawal", "w1"], ["contribution", "c0"]] none sampleState (by decide)).1⟩

set_option maxRecDepth 100000 in
/-- Witness of C10: the sample relaying actions, submitted at heights 10, 6, 3
and 6, are grouped under the heights 3, 6, 10. -/
theorem handleRelayingInsts_height_order_witness :
    sortRelayingInstsByBlockHeight sampleEnv sampleRelayingBatch
      = some ([(10, [sampleRelaying "H10" 10 1]),
               (6, [sampleRelaying "H6" 6 0, sampleRelaying "H6b" 6 2]),
               (3, [sampleRelaying "H3" 3 1])], [3, 6, 10], none) ∧
    List.Pairwise (· < ·) [3, 6, 10] :=
  ⟨by decide,
   ((handleRelayingInsts_height_order sampleEnv (fun _ _ => rfl) 10 (some 5)
      sampleRelayingBatch).1
      [(10, [sampleRelaying "H10" 10 1]),
       (6, [sampleRelaying "H6" 6 0, sampleRelaying "H6b" 6 2]),
       (3, [sampleRelaying "H3" 3 1])] [3, 6, 10] none (by decide)).1⟩

set_option maxRecDepth 100000 in
/-- Witness of C6: the sample batch; every action of it has two fields, and the
sequencer returns the issuance instructions, then those of the AMM, of the
portal and of the header relaying. -/
theorem buildStatefulInstructions_order_witness :
    buildStatefulInstructions sampleEnv sort_Slice sampleBatch 11 sampleState [] (some 5) []
      = some [["issuingETH", "e0"], ["issuing", "i1"], ["trade", "D"], ["trade", "C"],
          ["withdrawal", "w1"], ["contribution", "c0"], ["deposit", "d0"], ["deposit", "d1"],
          ["porting", "p0"], ["ptoken", "t0"], ["rates", "r0"],
          ["200", "0", "confirmed", "H6"], ["200", "1", "unconfirmed", "H10"]] ∧
    ∃ out, buildStatefulInstructions sampleEnv sort_Slice sampleBatch 11 sampleState []
      (some 5) [] = some out :=
  ⟨by decide,
   (buildStatefulInstructions_order sampleEnv sort_Slice sampleBatch 11 sampleState []
      (some 5) []).2.2.2.2 (by unfold WellFormed; decide)⟩

/-! ## C11: one instruction for each decodable relaying action -/

theorem buildInstructionsForHeaderRelaying_one {acc ρ ψ χ η : Type} (E : Env acc ρ ψ χ η)
    (contentStr : String) (shardID : Nat) (metaType : Int) (relayingHeaderChain : Option χ)
    (beaconHeight : Nat)
    (h : (E.decodeRelayingAction contentStr).isSome = true) :
    (buildInstructionsForHeaderRelaying E contentStr shardID metaType relayingHeaderChain
        beaconHeight).1.length = 1 ∧
    (buildInstructionsForHeaderRelaying E contentStr shardID metaType relayingHeaderChain
        beaconHeight).2.1 = none := by
  obtain ⟨actionData, hd⟩ := Option.isSome_iff_exists.mp h
  unfold buildInstructionsForHeaderRelaying
  rw [hd]
  cases relayingHeaderChain with
  | none => exact ⟨rfl, rfl⟩
  | some chain =>
    simp only
    cases hh : E.decodeBNBHeader actionData.Meta.Header with
    | none => exact ⟨rfl, rfl⟩
    | some newHeader =>
      simp only
      split_ifs <;> exact ⟨rfl, rfl⟩

theorem relayActions_length {acc ρ ψ χ η : Type} (E : Env acc ρ ψ χ η) (beaconHeight : Nat)
    (actions : List RelayingHeaderAction) (done : Option χ × List Inst)
    (hround : ∀ a ∈ actions, (E.decodeRelayingAction (E.encodeRelayingAction a)).isSome = true) :
    (relayActions E beaconHeight actions done).2.length = done.2.length + actions.length := by
  induction actions generalizing done with
  | nil => rfl
  | cons a rest ih =>
    obtain ⟨chain, insts⟩ := done
    have h1 := buildInstructionsForHeaderRelaying_one E (E.encodeRelayingAction a) a.ShardID
      E.types.RelayingHeaderMeta chain beaconHeight (hround a (List.mem_cons_self _ _))
    have hrest : ∀ a ∈ rest,
        (E.decodeRelayingAction (E.encodeRelayingAction a)).isSome = true :=
      fun x hx => hround x (List.mem_cons_of_mem _ hx)
    unfold relayActions
    generalize buildInstructionsForHeaderRelaying E (E.encodeRelayingAction a) a.ShardID
      E.types.RelayingHeaderMeta chain beaconHeight = r at h1
    obtain ⟨newInst, err, chain'⟩ := r
    simp only at h1
    obtain ⟨hl, he⟩ := h1
    subst he
    simp only
    rw [ih _ hrest]
    simp [hl]
    omega

theorem length_flatMap_filter_heights (ds : List RelayingHeaderAction) (heights : List Nat)
    (hnd : heights.Nodup) (hall : ∀ a ∈ ds, a.Meta.BlockHeight ∈ heights) :
    (heights.flatMap (fun x => ds.filter (fun a => decide (a.Meta.BlockHeight = x)))).length
      = ds.length := by
  induction heights generalizing ds with
  | nil =>
    cases ds with
    | nil => rfl
    | cons a rest => exact absurd (hall a (List.mem_cons_self _ _)) (List.not_mem_nil _)
  | cons x hs ih =>
    obtain ⟨hx, hnd'⟩ := List.nodup_cons.mp hnd
    have hrest : ∀ a ∈ ds.filter (fun a => !decide (a.Meta.BlockHeight = x)),
        a.Meta.BlockHeight ∈ hs := by
      intro a ha
      obtain ⟨hm, hp⟩ := List.mem_filter.mp ha
      have hne : a.Meta.BlockHeight ≠ x := by simpa using hp
      rcases List.mem_cons.mp (hall a hm) with h | h
      · exact absurd h hne
      · exact h
    have hsame : hs.flatMap (fun y => ds.filter (fun a => decide (a.Meta.BlockHeight = y)))
        = hs.flatMap (fun y => (ds.filter (fun a => !decide (a.Meta.BlockHeight = x))).filter
            (fun a => decide (a.Meta.BlockHeight = y))) := by
      apply List.flatMap_congr
      intro y hy
      rw [List.filter_filter]
      apply List.filter_congr
      intro a _
      have hyx : y ≠ x := fun e => hx (e ▸ hy)
      by_cases hay : a.Meta.BlockHeight = y
      · have : a.Meta.BlockHeight ≠ x := fun e => hyx (hay.symm.trans e)
        simp [hay, this, hyx]
      · simp [hay]
    rw [List.flatMap_cons, List.length_append, hsame, ih _ hnd' hrest]
    have := List.length_eq_length_filter_add (l := ds) (fun a => decide (a.Meta.BlockHeight = x))
    omega

theorem handleRelayingInsts_filter_eq {acc ρ ψ χ η : Type} (E : Env acc ρ ψ χ η)
    (actions : List Inst) :
    decodedRelaying E (actions.filter
        (fun a => ((a[1]?).bind E.decodeRelayingAction).isSome)) = decodedRelaying E actions := by
  unfold decodedRelaying
  induction actions with
  | nil => rfl
  | cons a rest ih =>
    cases h : (a[1]?).bind E.decodeRelayingAction with
    | none => simp [List.filter_cons, List.filterMap_cons, h, ih]
    | some t => simp [List.filter_cons, List.filterMap_cons, h, ih]

/-- C11. With `common.SliceExists` reporting whether the slice holds the item
and a codec under which an action that was decoded, once encoded again, still
decodes: whenever `handleRelayingInsts` returns, its error is nil and it returns
as many instructions as there are actions whose payload decodes, one for each
and none for an action whose payload does not decode. It returns whenever every
action has at least two fields, and then deleting the actions whose payload
does not decode changes nothing of what it returns: they do not keep their
siblings from being processed. -/
theorem handleRelayingInsts_one_each {acc ρ ψ χ η : Type} (E : Env acc ρ ψ χ η)
    (hexists : ∀ slice item, E.SliceExists slice item = decide (item ∈ slice))
    (beaconHeight : Nat) (headerChain : Option χ) (relayingHeaderActions : List Inst)
    (hround : ∀ a ∈ decodedRelaying E relayingHeaderActions,
      (E.decodeRelayingAction (E.encodeRelayingAction a)).isSome = true) :
    (∀ instructions err final,
      handleRelayingInsts E beaconHeight headerChain relayingHeaderActions
        = some (instructions, err, final) →
      err = none ∧ instructions.length = (decodedRelaying E relayingHeaderActions).length) ∧
    ((∀ a ∈ relayingHeaderActions, 2 ≤ a.length) →
      (∃ result, handleRelayingInsts E beaconHeight headerChain relayingHeaderActions
        = some result) ∧
      handleRelayingInsts E beaconHeight headerChain
          (relayingHeaderActions.filter
            (fun a => ((a[1]?).bind E.decodeRelayingAction).isSome))
        = handleRelayingInsts E beaconHeight headerChain relayingHeaderActions) := by
  refine ⟨?_, ?_⟩
  · intro instructions err final h
    unfold handleRelayingInsts at h
    cases hs : sortRelayingInstsByBlockHeight E relayingHeaderActions with
    | none => simp [hs] at h
    | some r =>
      obtain ⟨groups, heights, e⟩ := r
      simp only [hs, Option.some.injEq, Prod.mk.injEq] at h
      obtain ⟨hi, herr, _⟩ := h
      obtain ⟨_, hsorted, hmem, hgroups⟩ :=
        sortRelayingInstsByBlockHeight_spec E hexists _ _ _ _ hs
      refine ⟨herr.symm, ?_⟩
      rw [← hi, relayHeights_eq]
      have hfun : mapGet groups = (fun x => (decodedRelaying E relayingHeaderActions).filter
          (fun a => decide (a.Meta.BlockHeight = x))) := by
        funext x; exact hgroups x
      rw [hfun, relayActions_length]
      · simp only [List.length_nil, Nat.zero_add]
        apply length_flatMap_filter_heights
        · exact hsorted.imp (fun h => ne_of_lt h)
        · intro a ha
          exact (hmem _).mpr ⟨a, ha, rfl⟩
      · intro a ha
        obtain ⟨x, _, hx⟩ := List.mem_flatMap.mp ha
        exact hround a (List.mem_filter.mp hx).1
  · intro hw
    obtain ⟨g, hg⟩ := groupRelayingActions_isSome E relayingHeaderActions ([], []) hw
    have hw' : ∀ a ∈ relayingHeaderActions.filter
        (fun a => ((a[1]?).bind E.decodeRelayingAction).isSome), 2 ≤ a.length :=
      fun a ha => hw a (List.mem_filter.mp ha).1
    obtain ⟨g', hg'⟩ := groupRelayingActions_isSome E _ ([], []) hw'
    have e := groupRelayingActions_eq E _ _ _ hg
    have e' := groupRelayingActions_eq E _ _ _ hg'
    rw [handleRelayingInsts_filter_eq] at e'
    have hgg : g' = g := e'.trans e.symm
    subst hgg
    refine ⟨?_, ?_⟩
    · unfold handleRelayingInsts sortRelayingInstsByBlockHeight
      simp only [hg]
      exact ⟨_, rfl⟩
    · unfold handleRelayingInsts sortRelayingInstsByBlockHeight
      simp only [hg, hg']

set_option maxRecDepth 100000 in
/-- Witness of C11: of the five sample relaying actions four decode, and
`handleRelayingInsts` returns four instructions. -/
theorem handleRelayingInsts_one_each_witness :
    handleRelayingInsts sampleEnv 10 (some 5) sampleRelayingBatch
      = some ([["200", "1", "rejected", "H3"], ["200", "0", "confirmed", "H6"],
          ["200", "2", "rejected", "H6b"], ["200", "1", "unconfirmed", "H10"]], none, some 6) ∧
    (decodedRelaying sampleEnv sampleRelayingBatch).length = 4 ∧
    ([["200", "1", "rejected", "H3"], ["200", "0", "confirmed", "H6"],
          ["200", "2", "rejected", "H6b"], ["200", "1", "unconfirmed", "H10"]] : List Inst).length
      = (decodedRelaying sampleEnv sampleRelayingBatch).length :=
  ⟨by decide, by decide,
   ((handleRelayingInsts_one_each sampleEnv (fun _ _ => rfl) 10 (some 5) sampleRelayingBatch
      (by decide)).1 _ none (some 6) (by decide)).2⟩

/-! ## C12: the action collector -/

theorem collectStatefulAction_eq {acc ρ ψ χ η : Type} (E : Env acc ρ ψ χ η)
    (K : CommitteeActions) (hnames : ∀ name ∈ committeeNames K, E.Atoi name = none)
    (statefulInsts : List Inst) (inst : Inst) :
    collectStatefulAction E K statefulInsts inst
      = statefulInsts ++ [inst].filter (isStatefulAction E) := by
  match inst with
  | [] => simp [collectStatefulAction, isStatefulAction]
  | [x] => simp [collectStatefulAction, isStatefulAction]
  | first :: second :: rest =>
    have hs : isStatefulAction E (first :: second :: rest)
        = (match E.Atoi first with
          | some metaType => decide (metaType ∈ allowList E.types)
          | none => false) := by
      simp [isStatefulAction]
    rw [List.filter_cons, List.filter_nil, hs]
    unfold collectStatefulAction
    simp only
    by_cases hc : first = K.SetAction ∨ first = K.StakeAction ∨ first = K.SwapAction
        ∨ first = K.RandomAction ∨ first = K.AssignAction
    · have hn : E.Atoi first = none := by
        apply hnames
        simp only [committeeNames, List.mem_cons, List.mem_singleton, List.not_mem_nil, or_false]
        exact hc
      rw [if_pos hc, hn]
      simp
    · rw [if_neg hc]
      cases ha : E.Atoi first with
      | none => simp
      | some metaType =>
        simp only [allowList, List.mem_cons, List.mem_singleton, List.not_mem_nil, or_false]
        by_cases hm : metaType = E.types.IssuingRequestMeta
            ∨ metaType = E.types.IssuingETHRequestMeta
            ∨ metaType = E.types.PDEContributionMeta ∨ metaType = E.types.PDETradeRequestMeta
            ∨ metaType = E.types.PDEWithdrawalRequestMeta
            ∨ metaType = E.types.PortalCustodianDepositMeta
            ∨ metaType = E.types.PortalUserRegisterMeta
            ∨ metaType = E.types.PortalUserRequestPTokenMeta
            ∨ metaType = E.types.PortalExchangeRatesMeta
            ∨ metaType = E.types.RelayingHeaderMeta
        · rw [if_pos hm]; simp [hm]
        · rw [if_neg hm]; simp [hm]

theorem foldl_collectStatefulAction {acc ρ ψ χ η : Type} (E : Env acc ρ ψ χ η)
    (K : CommitteeActions) (hnames : ∀ name ∈ committeeNames K, E.Atoi name = none)
    (insts : List Inst) (statefulInsts : List Inst) :
    insts.foldl (collectStatefulAction E K) statefulInsts
      = statefulInsts ++ insts.filter (isStatefulAction E) := by
  induction insts generalizing statefulInsts with
  | nil => simp
  | cons inst rest ih =>
    rw [List.foldl_cons, ih, collectStatefulAction_eq E K hnames]
    by_cases h : isStatefulAction E inst = true
    · simp [List.filter_cons, h]
    · simp [List.filter_cons, h]

/-- C12. With `strconv.Atoi` failing on the five committee action names:
`collectStatefulActions` returns exactly the sub-list, in input order, of the
entries that have at least two fields and whose first field parses as an
integer of the allow-list of ten metadata types. Every entry it returns has at
least two fields, is no committee action, and has a first field that parses as
an allow-listed type; every other entry is dropped, and since the function
returns nothing but the list, no error is raised. -/
theorem collectStatefulActions_allow_list {acc ρ ψ χ η : Type} (E : Env acc ρ ψ χ η)
    (K : CommitteeActions) (hnames : ∀ name ∈ committeeNames K, E.Atoi name = none)
    (shardBlockInstructions : List Inst) :
    collectStatefulActions E K shardBlockInstructions
      = shardBlockInstructions.filter (isStatefulAction E) ∧
    (∀ inst ∈ collectStatefulActions E K shardBlockInstructions,
      2 ≤ inst.length ∧ (∀ name ∈ committeeNames K, inst[0]? ≠ some name) ∧
      ∃ metaType, (inst[0]?).bind E.Atoi = some metaType ∧ metaType ∈ allowList E.types) := by
  have heq : collectStatefulActions E K shardBlockInstructions
      = shardBlockInstructions.filter (isStatefulAction E) := by
    unfold collectStatefulActions
    rw [foldl_collectStatefulAction E K hnames]
    simp
  refine ⟨heq, ?_⟩
  intro inst hin
  rw [heq] at hin
  obtain ⟨_, hp⟩ := List.mem_filter.mp hin
  unfold isStatefulAction at hp
  rw [Bool.and_eq_true] at hp
  obtain ⟨hlen, hm⟩ := hp
  have hlen' : 2 ≤ inst.length := by simpa using hlen
  cases hb : (inst[0]?).bind E.Atoi with
  | none => simp [hb] at hm
  | some metaType =>
    refine ⟨hlen', ?_, metaType, rfl, ?_⟩
    · intro name hname he
      rw [he, Option.some_bind, hnames name hname] at hb
      exact Option.noConfusion hb
    · simpa [hb] using hm

set_option maxRecDepth 100000 in
/-- Witness of C12: of the nine entries of the sample bag, the collector keeps
the three stateful actions. -/
theorem collectStatefulActions_allow_list_witness :
    collectStatefulActions sampleEnv sampleCommittee sampleBag
      = [["24", "i1"], ["200", "R6"], ["91", "C", "extra"]] ∧
    collectStatefulActions sampleEnv sampleCommittee sampleBag
      = sampleBag.filter (isStatefulAction sampleEnv) :=
  ⟨by decide,
   (collectStatefulActions_allow_list sampleEnv sampleCommittee (by decide) sampleBag).1⟩

/-! ## Lemmas on the aggregates of the bridge -/

theorem mapFind_mapSet {κ β : Type} [DecidableEq κ] (m : List (κ × β)) (k : κ) (v : β) (k' : κ) :
    mapFind (mapSet m k v) k' = if k' = k then some v else mapFind m k' := by
  induction m with
  | nil =>
    by_cases h : k' = k
    · simp [mapSet, mapFind, h]
    · have h' : ¬ k = k' := fun e => h e.symm
      simp [mapSet, mapFind, h, h']
  | cons p rest ih =>
    obtain ⟨k0, v0⟩ := p
    by_cases h0 : k0 = k
    · subst h0
      by_cases h : k' = k0
      · subst h; simp [mapSet, mapFind]
      · have h' : ¬ k0 = k' := fun e => h e.symm
        simp [mapSet, mapFind, h, h']
    · by_cases h : k' = k
      · subst h
        simp [mapSet, mapFind, h0, ih]
      · by_cases h1 : k0 = k'
        · simp [mapSet, mapFind, h0, h, h1]
        · simp [mapSet, mapFind, h0, h, h1, ih]

theorem mapFind_addIssuance_some (m : Aggregate) (tok : Hash) (ext : List Nat) (c : Bool)
    (a : Nat) (t : Hash) (found : UpdatingInfo) (h : mapFind m tok = some found) :
    mapFind (addIssuance m tok ext c a) t =
      if t = tok then some { found with countUpAmt := uint64Add found.countUpAmt a }
      else mapFind m t := by
  unfold addIssuance
  rw [mapFind_mapSet]
  simp only [h]

theorem mapFind_addIssuance_none (m : Aggregate) (tok : Hash) (ext : List Nat) (c : Bool)
    (a : Nat) (t : Hash) (h : mapFind m tok = none) :
    mapFind (addIssuance m tok ext c a) t =
      if t = tok then
        some { countUpAmt := a, deductAmt := 0, tokenID := tok, externalTokenID := ext,
               isCentralized := c }
      else mapFind m t := by
  unfold addIssuance
  rw [mapFind_mapSet]
  simp only [h]

theorem mapFind_addDeduction_some (m : Aggregate) (tok : Hash) (ext : List Nat) (c : Bool)
    (a : Nat) (t : Hash) (found : UpdatingInfo) (h : mapFind m tok = some found) :
    mapFind (addDeduction m tok ext c a) t =
      if t = tok then some { found with deductAmt := uint64Add found.deductAmt a }
      else mapFind m t := by
  unfold addDeduction
  rw [mapFind_mapSet]
  simp only [h]

theorem mapFind_addDeduction_none (m : Aggregate) (tok : Hash) (ext : List Nat) (c : Bool)
    (a : Nat) (t : Hash) (h : mapFind m tok = none) :
    mapFind (addDeduction m tok ext c a) t =
      if t = tok then
        some { countUpAmt := 0, deductAmt := a, tokenID := tok, externalTokenID := ext,
               isCentralized := c }
      else mapFind m t := by
  unfold addDeduction
  rw [mapFind_mapSet]
  simp only [h]

theorem countUpOf_lt (m : Aggregate) (hb : AmountsBounded m) (t : Hash) :
    countUpOf m t < 2 ^ 64 := by
  unfold countUpOf
  cases h : mapFind m t with
  | none => simp
  | some info => simpa using (hb t info h).1

theorem deductOf_lt (m : Aggregate) (hb : AmountsBounded m) (t : Hash) :
    deductOf m t < 2 ^ 64 := by
  unfold deductOf
  cases h : mapFind m t with
  | none => simp
  | some info => simpa using (hb t info h).2

theorem addsTo_of_find (m m' : Aggregate) (tok : Hash) (up down : Nat) (info' : UpdatingInfo)
    (hb : AmountsBounded m) (hk : KeyedByToken m)
    (hfind : ∀ t, mapFind m' t = if t = tok then some info' else mapFind m t)
    (hup : info'.countUpAmt = (countUpOf m tok + up) % 2 ^ 64)
    (hdown : info'.deductAmt = (deductOf m tok + down) % 2 ^ 64)
    (htok : info'.tokenID = tok) :
    AddsTo m m' tok up down := by
  have hcu := countUpOf_lt m hb
  have hde := deductOf_lt m hb
  refine ⟨?_, ?_, ?_, ?_, ?_⟩
  · intro t
    by_cases ht : t = tok
    · subst ht
      rw [if_pos rfl, ← hup]
      simp [countUpOf, hfind]
    · have ht' : ¬ tok = t := fun e => ht e.symm
      rw [if_neg ht', Nat.add_zero, Nat.mod_eq_of_lt (hcu t)]
      simp [countUpOf, hfind, ht]
  · intro t
    by_cases ht : t = tok
    · subst ht
      rw [if_pos rfl, ← hdown]
      simp [deductOf, hfind]
    · have ht' : ¬ tok = t := fun e => ht e.symm
      rw [if_neg ht', Nat.add_zero, Nat.mod_eq_of_lt (hde t)]
      simp [deductOf, hfind, ht]
  · intro t info h
    rw [hfind] at h
    by_cases ht : t = tok
    · rw [if_pos ht] at h
      simp only [Option.some.injEq] at h
      subst h
      rw [hup, hdown]
      exact ⟨Nat.mod_lt _ (by norm_num), Nat.mod_lt _ (by norm_num)⟩
    · rw [if_neg ht] at h
      exact hb t info h
  · intro t info h
    rw [hfind] at h
    by_cases ht : t = tok
    · rw [if_pos ht] at h
      simp only [Option.some.injEq] at h
      subst h
      rw [htok, ht]
    · rw [if_neg ht] at h
      exact hk t info h
  · intro t
    rw [hfind]
    by_cases ht : t = tok
    · subst ht; simp
    · have ht' : ¬ tok = t := fun e => ht e.symm
      simp [ht, ht']

theorem addIssuance_addsTo (m : Aggregate) (tok : Hash) (ext : List Nat) (c : Bool) (a : Nat)
    (hb : AmountsBounded m) (hk : KeyedByToken m) (ha : a < 2 ^ 64) :
    AddsTo m (addIssuance m tok ext c a) tok a 0 := by
  cases hf : mapFind m tok with
  | none =>
    refine addsTo_of_find m _ tok a 0 _ hb hk
      (fun t => mapFind_addIssuance_none m tok ext c a t hf) ?_ ?_ rfl
    · simp only [countUpOf, hf, Option.map_none', Option.getD_none, Nat.zero_add]
      exact (Nat.mod_eq_of_lt ha).symm
    · simp [deductOf, hf]
  | some found =>
    refine addsTo_of_find m _ tok a 0 _ hb hk
      (fun t => mapFind_addIssuance_some m tok ext c a t found hf) ?_ ?_ (hk tok found hf)
    · simp [countUpOf, hf, uint64Add]
    · simp only [deductOf, hf, Option.map_some', Option.getD_some, Nat.add_zero]
      exact (Nat.mod_eq_of_lt (hb tok found hf).2).symm

theorem addDeduction_addsTo (m : Aggregate) (tok : Hash) (ext : List Nat) (c : Bool) (a : Nat)
    (hb : AmountsBounded m) (hk : KeyedByToken m) (ha : a < 2 ^ 64) :
    AddsTo m (addDeduction m tok ext c a) tok 0 a := by
  cases hf : mapFind m tok with
  | none =>
    refine addsTo_of_find m _ tok 0 a _ hb hk
      (fun t => mapFind_addDeduction_none m tok ext c a t hf) ?_ ?_ rfl
    · simp [countUpOf, hf]
    · simp only [deductOf, hf, Option.map_none', Option.getD_none, Nat.zero_add]
      exact (Nat.mod_eq_of_lt ha).symm
  | some found =>
    refine addsTo_of_find m _ tok 0 a _ hb hk
      (fun t => mapFind_addDeduction_some m tok ext c a t found hf) ?_ ?_ (hk tok found hf)
    · simp only [countUpOf, hf, Option.map_some', Option.getD_some, Nat.add_zero]
      exact (Nat.mod_eq_of_lt (hb tok found hf).1).symm
    · simp [deductOf, hf, uint64Add]

theorem amounts_add_zero (m : Aggregate) (hb : AmountsBounded m) (t : Hash) :
    countUpOf m t = (countUpOf m t + 0) % 2 ^ 64 ∧
      deductOf m t = (deductOf m t + 0) % 2 ^ 64 := by
  rw [Nat.add_zero, Nat.add_zero, Nat.mod_eq_of_lt (countUpOf_lt m hb t),
    Nat.mod_eq_of_lt (deductOf_lt m hb t)]
  exact ⟨rfl, rfl⟩

theorem processIssuingETHReq_eq {δ : Type} (B : BridgeEnv δ) (db : δ) (inst : Inst)
    (m : Aggregate) :
    processIssuingETHReq B db inst m =
      (match acceptedIssuingETH B db inst with
        | some x => addIssuance m x.IncTokenID x.ExternalTokenID false x.IssuingAmount
        | none => m,
       none, (processIssuingETHReq B db inst []).2.2) := by
  rcases inst with _ | ⟨a, _ | ⟨b, _ | ⟨s, _ | ⟨c, _ | ⟨d, r⟩⟩⟩⟩⟩
  · rfl
  · rfl
  · rfl
  · rfl
  · simp only [processIssuingETHReq, acceptedIssuingETH]
    by_cases hs : s = "rejected"
    · simp [hs]
    · simp only [hs, if_false]
      cases hd : B.decodeIssuingETHAcceptedInst c with
      | none => simp
      | some x =>
        simp only
        generalize B.InsertETHTxHashIssued db x.UniqETHTx = ins
        obtain ⟨e, db1⟩ := ins
        cases e <;> simp
  · rfl

theorem processIssuingReq_eq {δ : Type} (B : BridgeEnv δ) (db : δ) (inst : Inst)
    (m : Aggregate) :
    processIssuingReq B db inst m =
      (match acceptedIssuing B inst with
        | some x => addIssuance m x.IncTokenID [] true x.DepositedAmount
        | none => m,
       none, (processIssuingReq B db inst []).2.2) := by
  rcases inst with _ | ⟨a, _ | ⟨b, _ | ⟨s, _ | ⟨c, _ | ⟨d, r⟩⟩⟩⟩⟩
  · rfl
  · rfl
  · rfl
  · rfl
  · simp only [processIssuingReq, acceptedIssuing]
    by_cases hs : s = "rejected"
    · simp [hs]
    · simp only [hs, if_false]
      cases hd : B.decodeIssuingAcceptedInst c with
      | none => simp
      | some x => simp
  · rfl

theorem processContractingReq_eq {δ : Type} (B : BridgeEnv δ) (db : δ) (inst : Inst)
    (m : Aggregate) :
    processContractingReq B db inst m =
      (match acceptedContracting B db inst with
        | some md => addDeduction m md.TokenID [] true md.BurnedAmount
        | none => m,
       none, (processContractingReq B db inst []).2.2) := by
  rcases inst with _ | ⟨a, _ | ⟨b, _ | ⟨s, _ | ⟨c, _ | ⟨d, r⟩⟩⟩⟩⟩
  · rfl
  · rfl
  · rfl
  · rfl
  · simp only [processContractingReq, acceptedContracting]
    by_cases hs : s = "rejected"
    · simp [hs]
    · simp only [hs, if_false]
      cases hd : B.decodeContractingReqAction c with
      | none => simp
      | some x =>
        simp only
        generalize B.IsBridgeTokenExistedByType db x.Meta.TokenID true = ex
        obtain ⟨existed, e, db1⟩ := ex
        cases e <;> cases existed <;> simp
  · rfl

theorem processBurningReq_eq {δ : Type} (B : BridgeEnv δ) (db : δ) (inst : Inst)
    (m : Aggregate) (r : Aggregate × Option String × δ)
    (h : processBurningReq B db inst m = some r) :
    r.1 = (match acceptedBurning B db inst with
        | some b => addDeduction m b.1 b.2.1 false (burnedAmount B b.2.1 b.2.2)
        | none => m) ∧
    r.2.1 = none ∧
    ∃ r0, processBurningReq B db inst [] = some r0 ∧ r0.2.2 = r.2.2 := by
  unfold processBurningReq at h ⊢
  unfold acceptedBurning
  by_cases hl : inst.length < 8
  · simp only [hl, if_true, Option.some.injEq] at h ⊢
    subst h
    exact ⟨rfl, rfl, _, rfl, rfl⟩
  · simp only [hl, if_false] at h ⊢
    have h2 : inst[2]? = some inst[2] := List.getElem?_eq_getElem (by omega)
    have h6 : inst[6]? = some inst[6] := List.getElem?_eq_getElem (by omega)
    have h4 : inst[4]? = some inst[4] := List.getElem?_eq_getElem (by omega)
    rw [h2, h6, h4] at h ⊢
    simp only [Option.some_bind] at h ⊢
    cases hd2 : B.Base58CheckDecode inst[2] with
    | none =>
      simp only [hd2, Option.some.injEq] at h ⊢
      subst h
      exact ⟨rfl, rfl, _, rfl, rfl⟩
    | some ext =>
      cases hd6 : B.Base58CheckDecode inst[6] with
      | none =>
        simp only [hd2, hd6, Option.some.injEq] at h ⊢
        subst h
        exact ⟨rfl, rfl, _, rfl, rfl⟩
      | some incBytes =>
        cases hd4 : B.Base58CheckDecode inst[4] with
        | none =>
          simp only [hd2, hd6, hd4, Option.some.injEq] at h ⊢
          subst h
          exact ⟨rfl, rfl, _, rfl, rfl⟩
        | some amountBytes =>
          simp only [hd2, hd6, hd4] at h ⊢
          cases hn : B.NewHash incBytes with
          | none => simp [hn] at h
          | some tok =>
            simp only [hn] at h ⊢
            generalize B.IsBridgeTokenExistedByType db tok false = ex at h ⊢
            obtain ⟨existed, e, db1⟩ := ex
            cases e <;> cases existed <;>
              (simp only [Option.some.injEq] at h; subst h; exact ⟨rfl, rfl, _, rfl, rfl⟩)

theorem stepAdds_same (m : Aggregate) (hb : AmountsBounded m) (hk : KeyedByToken m) :
    StepAdds m m none none := by
  refine ⟨?_, ?_, hb, hk, ?_⟩
  · intro t; exact (amounts_add_zero m hb t).1
  · intro t; exact (amounts_add_zero m hb t).2
  · intro t; simp [namesToken]

theorem stepAdds_up (m m' : Aggregate) (tok : Hash) (a : Nat) (h : AddsTo m m' tok a 0) :
    StepAdds m m' (some (tok, a)) none := by
  refine ⟨?_, ?_, h.bound, h.keyed, ?_⟩
  · intro t; simpa [amountFor] using h.countUp t
  · intro t; simpa [amountFor] using h.deduct t
  · intro t; rw [h.keys t]; simp [namesToken, Bool.or_comm]

theorem stepAdds_down (m m' : Aggregate) (tok : Hash) (a : Nat) (h : AddsTo m m' tok 0 a) :
    StepAdds m m' none (some (tok, a)) := by
  refine ⟨?_, ?_, h.bound, h.keyed, ?_⟩
  · intro t; simpa [amountFor] using h.countUp t
  · intro t; simpa [amountFor] using h.deduct t
  · intro t; rw [h.keys t]; simp [namesToken, Bool.or_comm]

theorem acceptedIssuingETH_range {δ : Type} (B : BridgeEnv δ) (hr : AmountsInRange B) (db : δ)
    (inst : Inst) (x : IssuingETHAcceptedInst) (h : acceptedIssuingETH B db inst = some x) :
    x.IssuingAmount < 2 ^ 64 := by
  rcases inst with _ | ⟨a, _ | ⟨b, _ | ⟨s, _ | ⟨c, _ | ⟨d, r⟩⟩⟩⟩⟩ <;>
    simp only [acceptedIssuingETH] at h <;> try exact Option.noConfusion h
  by_cases hs : s = "rejected"
  · simp [hs] at h
  · simp only [hs, if_false] at h
    cases hd : B.decodeIssuingETHAcceptedInst c with
    | none => simp [hd] at h
    | some y =>
      simp only [hd] at h
      split_ifs at h
      · rw [← Option.some.inj h]; exact hr.1 c y hd

theorem acceptedIssuing_range {δ : Type} (B : BridgeEnv δ) (hr : AmountsInRange B)
    (inst : Inst) (x : IssuingAcceptedInst) (h : acceptedIssuing B inst = some x) :
    x.DepositedAmount < 2 ^ 64 := by
  rcases inst with _ | ⟨a, _ | ⟨b, _ | ⟨s, _ | ⟨c, _ | ⟨d, r⟩⟩⟩⟩⟩ <;>
    simp only [acceptedIssuing] at h <;> try exact Option.noConfusion h
  by_cases hs : s = "rejected"
  · simp [hs] at h
  · simp only [hs, if_false] at h
    exact hr.2.1 c x h

theorem acceptedContracting_range {δ : Type} (B : BridgeEnv δ) (hr : AmountsInRange B) (db : δ)
    (inst : Inst) (md : ContractingRequest) (h : acceptedContracting B db inst = some md) :
    md.BurnedAmount < 2 ^ 64 := by
  rcases inst with _ | ⟨a, _ | ⟨b, _ | ⟨s, _ | ⟨c, _ | ⟨d, r⟩⟩⟩⟩⟩ <;>
    simp only [acceptedContracting] at h <;> try exact Option.noConfusion h
  by_cases hs : s = "rejected"
  · simp [hs] at h
  · simp only [hs, if_false] at h
    cases hd : B.decodeContractingReqAction c with
    | none => simp [hd] at h
    | some y =>
      simp only [hd] at h
      generalize B.IsBridgeTokenExistedByType db y.Meta.TokenID true = ex at h
      obtain ⟨existed, e, db1⟩ := ex
      cases e <;> cases existed <;> simp at h
      subst h
      exact hr.2.2 c y hd

theorem burnedAmount_lt {δ : Type} (B : BridgeEnv δ) (ext bytes : List Nat) :
    burnedAmount B ext bytes < 2 ^ 64 := by
  unfold burnedAmount bigUint64
  split_ifs <;> exact Nat.mod_lt _ (by norm_num)

theorem bridgeStep_spec {δ : Type} (B : BridgeEnv δ) (hr : AmountsInRange B) (m : Aggregate)
    (db : δ) (inst : Inst) (r : Aggregate × Option String × δ)
    (hb : AmountsBounded m) (hk : KeyedByToken m) (h : bridgeStep B m db inst = some r) :
    r.2.1 = none ∧ r.2.2 = stateAfter B db inst ∧
    StepAdds m r.1 (acceptedIssuance B db inst) (acceptedDeduction B db inst) := by
  unfold stateAfter
  rcases inst with _ | ⟨first, _ | ⟨second, rest⟩⟩
  · simp only [bridgeStep, Option.some.injEq] at h ⊢
    subst h
    exact ⟨rfl, rfl, stepAdds_same m hb hk⟩
  · simp only [bridgeStep, Option.some.injEq] at h ⊢
    subst h
    exact ⟨rfl, rfl, stepAdds_same m hb hk⟩
  · simp only [bridgeStep, acceptedIssuance, acceptedDeduction] at h ⊢
    cases hkind : bridgeKind B first with
    | issuingETH =>
      simp only [hkind, Option.some.injEq] at h ⊢
      subst h
      rw [processIssuingETHReq_eq]
      refine ⟨rfl, rfl, ?_⟩
      cases ha : acceptedIssuingETH B db (first :: second :: rest) with
      | none => exact stepAdds_same m hb hk
      | some x =>
        exact stepAdds_up _ _ _ _ (addIssuance_addsTo m _ _ _ _ hb hk
          (acceptedIssuingETH_range B hr db _ x ha))
    | issuing =>
      simp only [hkind, Option.some.injEq] at h ⊢
      subst h
      rw [processIssuingReq_eq]
      refine ⟨rfl, rfl, ?_⟩
      cases ha : acceptedIssuing B (first :: second :: rest) with
      | none => exact stepAdds_same m hb hk
      | some x =>
        exact stepAdds_up _ _ _ _ (addIssuance_addsTo m _ _ _ _ hb hk
          (acceptedIssuing_range B hr _ x ha))
    | contracting =>
      simp only [hkind, Option.some.injEq] at h ⊢
      subst h
      rw [processContractingReq_eq]
      refine ⟨rfl, rfl, ?_⟩
      cases ha : acceptedContracting B db (first :: second :: rest) with
      | none => exact stepAdds_same m hb hk
      | some x =>
        exact stepAdds_down _ _ _ _ (addDeduction_addsTo m _ _ _ _ hb hk
          (acceptedContracting_range B hr db _ x ha))
    | burning =>
      simp only [hkind] at h ⊢
      obtain ⟨h1, h2, r0, h3, h4⟩ := processBurningReq_eq B db _ m r h
      rw [h3]
      refine ⟨h2, h4.symm, ?_⟩
      rw [h1]
      cases ha : acceptedBurning B db (first :: second :: rest) with
      | none => exact stepAdds_same m hb hk
      | some x =>
        exact stepAdds_down _ _ _ _ (addDeduction_addsTo m _ _ _ _ hb hk
          (burnedAmount_lt B _ _))
    | other =>
      simp only [hkind, Option.some.injEq] at h ⊢
      subst h
      exact ⟨rfl, rfl, stepAdds_same m hb hk⟩

/-! ## C13: the aggregates are the sums of the accepted amounts -/

theorem bridgeStep_err {δ : Type} (B : BridgeEnv δ) (m : Aggregate) (db : δ) (inst : Inst)
    (r : Aggregate × Option String × δ) (h : bridgeStep B m db inst = some r) :
    r.2.1 = none := by
  rcases inst with _ | ⟨first, _ | ⟨second, rest⟩⟩
  · simp only [bridgeStep, Option.some.injEq] at h; subst h; rfl
  · simp only [bridgeStep, Option.some.injEq] at h; subst h; rfl
  · simp only [bridgeStep] at h
    cases hkind : bridgeKind B first with
    | issuingETH =>
      simp only [hkind, Option.some.injEq] at h; subst h; rw [processIssuingETHReq_eq]
    | issuing =>
      simp only [hkind, Option.some.injEq] at h; subst h; rw [processIssuingReq_eq]
    | contracting =>
      simp only [hkind, Option.some.injEq] at h; subst h; rw [processContractingReq_eq]
    | burning =>
      simp only [hkind] at h
      exact (processBurningReq_eq B db _ m r h).2.1
    | other =>
      simp only [hkind, Option.some.injEq] at h; subst h; rfl

theorem processBurningReq_isSome {δ : Type} (B : BridgeEnv δ) (m : Aggregate) (db : δ)
    (inst : Inst)
    (hv : ∀ bytes, (inst[6]?).bind B.Base58CheckDecode = some bytes →
      (B.NewHash bytes).isSome = true) :
    ∃ r, processBurningReq B db inst m = some r := by
  unfold processBurningReq
  by_cases hl : inst.length < 8
  · simp only [hl, if_true]; exact ⟨_, rfl⟩
  · simp only [hl, if_false]
    have h2 : inst[2]? = some inst[2] := List.getElem?_eq_getElem (by omega)
    have h6 : inst[6]? = some inst[6] := List.getElem?_eq_getElem (by omega)
    have h4 : inst[4]? = some inst[4] := List.getElem?_eq_getElem (by omega)
    rw [h6] at hv
    rw [h2, h6, h4]
    simp only [Option.some_bind] at hv ⊢
    cases hd2 : B.Base58CheckDecode inst[2] with
    | none => exact ⟨_, rfl⟩
    | some ext =>
      cases hd6 : B.Base58CheckDecode inst[6] with
      | none => exact ⟨_, rfl⟩
      | some incBytes =>
        cases hd4 : B.Base58CheckDecode inst[4] with
        | none => exact ⟨_, rfl⟩
        | some amountBytes =>
          simp only
          obtain ⟨tok, hn⟩ := Option.isSome_iff_exists.mp (hv incBytes hd6)
          rw [hn]
          simp only
          generalize B.IsBridgeTokenExistedByType db tok false = ex
          obtain ⟨existed, e, db1⟩ := ex
          cases e <;> cases existed <;> exact ⟨_, rfl⟩

theorem bridgeStep_isSome {δ : Type} (B : BridgeEnv δ) (m : Aggregate) (db : δ) (inst : Inst)
    (hv : ∀ bytes, (inst[6]?).bind B.Base58CheckDecode = some bytes →
      (B.NewHash bytes).isSome = true) :
    ∃ r, bridgeStep B m db inst = some r := by
  rcases inst with _ | ⟨first, _ | ⟨second, rest⟩⟩
  · exact ⟨_, rfl⟩
  · exact ⟨_, rfl⟩
  · simp only [bridgeStep]
    cases hkind : bridgeKind B first with
    | burning => exact processBurningReq_isSome B m db _ hv
    | issuingETH => exact ⟨_, rfl⟩
    | issuing => exact ⟨_, rfl⟩
    | contracting => exact ⟨_, rfl⟩
    | other => exact ⟨_, rfl⟩

theorem bridgeScan_isSome {δ : Type} (B : BridgeEnv δ) (instructions : List Inst)
    (m : Aggregate) (db : δ) (hv : HashesValid B instructions) :
    ∃ r, bridgeScan B instructions m db = some r := by
  induction instructions generalizing m db with
  | nil => exact ⟨_, rfl⟩
  | cons inst rest ih =>
    obtain ⟨r1, h1⟩ := bridgeStep_isSome B m db inst (hv inst (List.mem_cons_self _ _))
    have he := bridgeStep_err B m db inst r1 h1
    obtain ⟨m1, e1, db1⟩ := r1
    simp only at he
    subst he
    unfold bridgeScan
    rw [h1]
    exact ih m1 db1 (fun i hi => hv i (List.mem_cons_of_mem _ hi))

theorem bridgeScan_spec {δ : Type} (B : BridgeEnv δ) (hr : AmountsInRange B)
    (instructions : List Inst) (m : Aggregate) (db : δ) (r : Aggregate × Option String × δ)
    (hb : AmountsBounded m) (hk : KeyedByToken m)
    (h : bridgeScan B instructions m db = some r) :
    r.2.1 = none ∧ AmountsBounded r.1 ∧ KeyedByToken r.1 ∧
    (∀ t, countUpOf r.1 t = (countUpOf m t + issuedSum B t instructions db) % 2 ^ 64) ∧
    (∀ t, deductOf r.1 t = (deductOf m t + deductedSum B t instructions db) % 2 ^ 64) ∧
    (∀ t, (mapFind r.1 t).isSome = ((mapFind m t).isSome || acceptedFor B t instructions db)) := by
  induction instructions generalizing m db with
  | nil =>
    simp only [bridgeScan, Option.some.injEq] at h
    subst h
    refine ⟨rfl, hb, hk, ?_, ?_, ?_⟩
    · intro t; exact (amounts_add_zero m hb t).1
    · intro t; exact (amounts_add_zero m hb t).2
    · intro t; simp [acceptedFor]
  | cons inst rest ih =>
    unfold bridgeScan at h
    cases h1 : bridgeStep B m db inst with
    | none => simp [h1] at h
    | some r1 =>
      obtain ⟨he, hs, hadds⟩ := bridgeStep_spec B hr m db inst r1 hb hk h1
      obtain ⟨m1, e1, db1⟩ := r1
      simp only at he hs hadds
      subst he
      subst hs
      simp only [h1] at h
      obtain ⟨i1, i2, i3, i4, i5, i6⟩ := ih m1 _ hadds.bound hadds.keyed h
      refine ⟨i1, i2, i3, ?_, ?_, ?_⟩
      · intro t
        rw [i4 t, hadds.countUp t]
        simp only [issuedSum]
        omega
      · intro t
        rw [i5 t, hadds.deduct t]
        simp only [deductedSum]
        omega
      · intro t
        rw [i6 t, hadds.keys t]
        simp only [acceptedFor, Bool.or_assoc]

theorem amountsBounded_nil : AmountsBounded [] := by
  intro t info h
  simp [mapFind] at h

theorem keyedByToken_nil : KeyedByToken [] := by
  intro t info h
  simp [mapFind] at h

/-- C13 (as amended). With payloads that decode to `uint64` amounts: whenever
the scan of `processBridgeInstructions` completes, it has met no error and the
aggregate it keeps for each token has as `countUpAmt` the sum of the amounts of
all accepted issuance instructions for that token and as `deductAmt` the sum of
the amounts of all accepted contracting and burning instructions for it, both
sums over the whole list and taken modulo `2 ^ 64`: they are the exact sums
whenever these stay below `2 ^ 64`. An aggregate is kept for exactly the tokens
that an accepted instruction names. The scan completes whenever `NewHash`
returns a hash for the internal token bytes of every instruction. -/
theorem processBridgeInstructions_sums {δ : Type} (B : BridgeEnv δ) (hr : AmountsInRange B)
    (db : δ) (instructions : List Inst) :
    (∀ m err db', bridgeScan B instructions [] db = some (m, err, db') →
      err = none ∧ ∀ t,
        countUpOf m t = issuedSum B t instructions db % 2 ^ 64 ∧
        deductOf m t = deductedSum B t instructions db % 2 ^ 64 ∧
        (issuedSum B t instructions db < 2 ^ 64 →
          countUpOf m t = issuedSum B t instructions db) ∧
        (deductedSum B t instructions db < 2 ^ 64 →
          deductOf m t = deductedSum B t instructions db) ∧
        (mapFind m t).isSome = acceptedFor B t instructions db) ∧
    (HashesValid B instructions → ∃ r, bridgeScan B instructions [] db = some r) := by
  refine ⟨?_, fun hv => bridgeScan_isSome B instructions [] db hv⟩
  intro m err db' h
  obtain ⟨h1, _, _, h4, h5, h6⟩ :=
    bridgeScan_spec B hr instructions [] db _ amountsBounded_nil keyedByToken_nil h
  refine ⟨h1, ?_⟩
  intro t
  have e4 := h4 t
  have e5 := h5 t
  have e6 := h6 t
  have z4 : countUpOf [] t = 0 := rfl
  have z5 : deductOf [] t = 0 := rfl
  have z6 : (mapFind ([] : Aggregate) t).isSome = false := rfl
  rw [z4, Nat.zero_add] at e4
  rw [z5, Nat.zero_add] at e5
  rw [z6, Bool.false_or] at e6
  refine ⟨e4, e5, ?_, ?_, e6⟩
  · intro hlt; rw [e4, Nat.mod_eq_of_lt hlt]
  · intro hlt; rw [e5, Nat.mod_eq_of_lt hlt]

theorem sampleBridge_inRange : AmountsInRange sampleBridge := by
  refine ⟨?_, ?_, ?_⟩
  · intro content x h
    simp only [sampleBridge, mapFind] at h
    split_ifs at h <;> (rw [← Option.some.inj h]; norm_num)
  · intro content x h
    simp only [sampleBridge, mapFind] at h
    split_ifs at h
    rw [← Option.some.inj h]; norm_num
  · intro content x h
    simp only [sampleBridge, mapFind] at h
    split_ifs at h <;> (rw [← Option.some.inj h]; norm_num)

set_option maxRecDepth 100000 in
/-- Witness of C13 as amended: the scan of the sample block keeps 14 issued and
5 deducted units for token 2 and 7 deducted units for token 3, which are the
sums of the accepted amounts. -/
theorem processBridgeInstructions_sums_witness :
    scanAmounts sampleBridge sampleBlock [] (sampleHash 2) = some (14, 5, none) ∧
    scanAmounts sampleBridge sampleBlock [] (sampleHash 3) = some (0, 7, none) ∧
    issuedSum sampleBridge (sampleHash 2) sampleBlock [] = 14 ∧
    deductedSum sampleBridge (sampleHash 2) sampleBlock [] = 5 ∧
    deductedSum sampleBridge (sampleHash 3) sampleBlock [] = 7 ∧
    ∃ r, bridgeScan sampleBridge sampleBlock [] [] = some r :=
  ⟨by decide, by decide, by decide, by decide, by decide,
   (processBridgeInstructions_sums sampleBridge sampleBridge_inRange [] sampleBlock).2
     (by unfold HashesValid; decide)⟩

set_option maxRecDepth 100000 in
/-- C13, counterexample. Two accepted ETH issuances of `2 ^ 63` units each for
token 3: the sum of their amounts is `2 ^ 64`, the `countUpAmt` kept is `0`. -/
theorem processBridgeInstructions_sums_counterexample :
    acceptedIssuance sampleBridge [] ["80", "0", "accepted", "eHalf"]
      = some (sampleHash 3, 2 ^ 63) ∧
    acceptedIssuance sampleBridge [BridgeWrite.ethTx [2]] ["80", "0", "accepted", "eHalf2"]
      = some (sampleHash 3, 2 ^ 63) ∧
    issuedSum sampleBridge (sampleHash 3)
      [["80", "0", "accepted", "eHalf"], ["80", "0", "accepted", "eHalf2"]] [] = 2 ^ 64 ∧
    scanAmounts sampleBridge
      [["80", "0", "accepted", "eHalf"], ["80", "0", "accepted", "eHalf2"]] [] (sampleHash 3)
      = some (0, 0, none) := by
  decide

/-! ## C14 and C15: the update calls, and rejected issuances -/

theorem map_filterMap_of_inverse {κ β : Type} (f : κ → Option β) (g : β → κ) (l : List κ)
    (h : ∀ k ∈ l, ∃ v, f k = some v ∧ g v = k) : (l.filterMap f).map g = l := by
  induction l with
  | nil => rfl
  | cons k rest ih =>
    obtain ⟨v, hv, hg⟩ := h k (List.mem_cons_self _ _)
    rw [List.filterMap_cons, hv]
    simp only [List.map_cons, hg]
    rw [ih (fun k' hk' => h k' (List.mem_cons_of_mem _ hk'))]

theorem tokens_mapValues (m : Aggregate) (hk : KeyedByToken m) :
    (mapValues m).map (fun info => info.tokenID) = mapKeys m := by
  unfold mapValues
  apply map_filterMap_of_inverse
  intro k hmem
  obtain ⟨info, hinfo⟩ := Option.isSome_iff_exists.mp ((mem_mapKeys m k).mp hmem)
  exact ⟨info, hinfo, hk k info hinfo⟩

theorem updatingCall_spec (info : UpdatingInfo) :
    (updatingCall info).tokenID = info.tokenID ∧
    (updatingCall info).externalTokenID = info.externalTokenID ∧
    (updatingCall info).isCentralized = info.isCentralized ∧
    ((updatingCall info).updatingAmt : Int)
      = |(info.countUpAmt : Int) - (info.deductAmt : Int)| ∧
    (info.deductAmt < info.countUpAmt → (updatingCall info).updatingType = "+") ∧
    (info.countUpAmt < info.deductAmt → (updatingCall info).updatingType = "-") ∧
    (info.countUpAmt = info.deductAmt →
      (updatingCall info).updatingType = "" ∧ (updatingCall info).updatingAmt = 0) := by
  refine ⟨rfl, rfl, rfl, ?_, ?_, ?_, ?_⟩
  · unfold updatingCall
    rcases Nat.lt_trichotomy info.countUpAmt info.deductAmt with h | h | h
    · have h' : ¬ info.countUpAmt > info.deductAmt := by omega
      simp only [h, h', if_true, if_false]
      rw [abs_of_nonpos (by omega)]
      omega
    · have h1 : ¬ info.countUpAmt > info.deductAmt := by omega
      have h2 : ¬ info.countUpAmt < info.deductAmt := by omega
      simp only [h1, h2, if_false]
      rw [h]; simp
    · have h' : ¬ info.countUpAmt < info.deductAmt := by omega
      have h'' : info.countUpAmt > info.deductAmt := h
      simp only [h', h'', if_true, if_false]
      rw [abs_of_nonneg (by omega)]
      omega
  · intro h
    have h' : ¬ info.countUpAmt < info.deductAmt := by omega
    have h'' : info.countUpAmt > info.deductAmt := h
    simp only [updatingCall, h', h'', if_true, if_false]
  · intro h
    simp only [updatingCall, h, if_true]
  · intro h
    have h1 : ¬ info.countUpAmt > info.deductAmt := by omega
    have h2 : ¬ info.countUpAmt < info.deductAmt := by omega
    simp [updatingCall, h1, h2]

theorem updateLoop_of_no_error {δ : Type} (B : BridgeEnv δ)
    (hok : ∀ s a b c d e, (B.UpdateBridgeTokenInfo s a b c d e).1 = none)
    (infos : List UpdatingInfo) (db : δ) :
    updateLoop B infos db = (none, infos.foldl (fun s info =>
      (B.UpdateBridgeTokenInfo s (updatingCall info).tokenID (updatingCall info).externalTokenID
        (updatingCall info).isCentralized (updatingCall info).updatingAmt
        (updatingCall info).updatingType).2) db) := by
  induction infos generalizing db with
  | nil => rfl
  | cons info rest ih =>
    have h := hok db (updatingCall info).tokenID (updatingCall info).externalTokenID
        (updatingCall info).isCentralized (updatingCall info).updatingAmt
        (updatingCall info).updatingType
    unfold updateLoop
    simp only [List.foldl_cons]
    generalize B.UpdateBridgeTokenInfo db (updatingCall info).tokenID
      (updatingCall info).externalTokenID (updatingCall info).isCentralized
      (updatingCall info).updatingAmt (updatingCall info).updatingType = res at h ⊢
    obtain ⟨e, db1⟩ := res
    simp only at h
    subst h
    exact ih db1

/-- C14 (as amended). With `range` visiting each aggregate of the map once and
payloads that decode to `uint64` amounts: after a scan that completes,
`processBridgeInstructions` runs its update loop over the aggregates, one call
of `UpdateBridgeTokenInfo` for each. The tokens of the calls are pairwise
distinct and are exactly the tokens an accepted instruction names, and when no
call fails all of them are issued. Each call carries the amount
`|countUpAmt - deductAmt|`, with the marker `+` when `countUpAmt` is the larger,
the marker `-` when `deductAmt` is the larger, and the empty marker with the
amount `0` when the two are equal. -/
theorem processBridgeInstructions_calls {δ : Type} (B : BridgeEnv δ)
    (mapRange : Aggregate → List UpdatingInfo)
    (hrange : ∀ m, (mapRange m).Perm (mapValues m)) (hr : AmountsInRange B)
    (db : δ) (instructions : List Inst) (m : Aggregate) (err : Option String) (db' : δ)
    (hscan : bridgeScan B instructions [] db = some (m, err, db')) :
    processBridgeInstructions B mapRange db instructions
      = some (updateLoop B (mapRange m) db') ∧
    ((mapRange m).map (fun info => (updatingCall info).tokenID)).Nodup ∧
    (∀ t, t ∈ (mapRange m).map (fun info => (updatingCall info).tokenID)
      ↔ acceptedFor B t instructions db = true) ∧
    (∀ info ∈ mapRange m,
      ((updatingCall info).updatingAmt : Int)
        = |(info.countUpAmt : Int) - (info.deductAmt : Int)| ∧
      (info.deductAmt < info.countUpAmt → (updatingCall info).updatingType = "+") ∧
      (info.countUpAmt < info.deductAmt → (updatingCall info).updatingType = "-") ∧
      (info.countUpAmt = info.deductAmt →
        (updatingCall info).updatingType = "" ∧ (updatingCall info).updatingAmt = 0)) ∧
    ((∀ s a b c d e, (B.UpdateBridgeTokenInfo s a b c d e).1 = none) →
      updateLoop B (mapRange m) db' = (none, (mapRange m).foldl (fun s info =>
        (B.UpdateBridgeTokenInfo s (updatingCall info).tokenID
          (updatingCall info).externalTokenID (updatingCall info).isCentralized
          (updatingCall info).updatingAmt (updatingCall info).updatingType).2) db')) := by
  obtain ⟨h1, _, hk, _, _, h6⟩ :=
    bridgeScan_spec B hr instructions [] db _ amountsBounded_nil keyedByToken_nil hscan
  simp only at h1 hk h6
  subst h1
  have htok : ((mapRange m).map (fun info => (updatingCall info).tokenID)).Perm (mapKeys m) := by
    have : (fun info : UpdatingInfo => (updatingCall info).tokenID)
        = (fun info => info.tokenID) := rfl
    rw [this, ← tokens_mapValues m hk]
    exact (hrange m).map _
  refine ⟨?_, ?_, ?_, ?_, ?_⟩
  · unfold processBridgeInstructions
    rw [hscan]
  · exact htok.nodup_iff.mpr (nodup_mapKeys m)
  · intro t
    rw [htok.mem_iff, mem_mapKeys, h6 t]
    simp [mapFind]
  · intro info _
    exact (updatingCall_spec info).2.2.2
  · intro hok
    exact updateLoop_of_no_error B hok _ _

set_option maxRecDepth 100000 in
/-- Witness of C14 as amended: on the sample block the database receives three
update calls, one for each of the tokens 2, 1 and 3. -/
theorem processBridgeInstructions_calls_witness :
    processBridgeInstructions sampleBridge mapValues [] sampleBlock
      = some (none,
          [BridgeWrite.ethTx [1], BridgeWrite.track (sampleHash 17) 1, BridgeWrite.ethTx [4],
           BridgeWrite.update
             { tokenID := sampleHash 2, externalTokenID := List.replicate 19 0 ++ [1],
               isCentralized := false, updatingAmt := 9, updatingType := "+" },
           BridgeWrite.update
             { tokenID := sampleHash 1, externalTokenID := [],
               isCentralized := true, updatingAmt := 4, updatingType := "+" },
           BridgeWrite.update
             { tokenID := sampleHash 3, externalTokenID := List.replicate 20 0,
               isCentralized := false, updatingAmt := 7, updatingType := "-" }]) ∧
    processBridgeInstructions sampleBridge mapValues [] sampleBlock
      = some (updateLoop sampleBridge (mapValues sampleAggregate)
          [BridgeWrite.ethTx [1], BridgeWrite.track (sampleHash 17) 1, BridgeWrite.ethTx [4]]) :=
  ⟨by decide,
   (processBridgeInstructions_calls sampleBridge mapValues (fun _ => List.Perm.refl _)
     sampleBridge_inRange [] sampleBlock sampleAggregate none _ (by decide)).1⟩

set_option maxRecDepth 100000 in
/-- C14, counterexample. A block that issues 5 units of token 2 and burns 5:
the one update call carries the amount 0 and the empty marker, which is neither
`+` nor `-`. -/
theorem processBridgeInstructions_calls_counterexample :
    processBridgeInstructions sampleBridge mapValues []
        [["80", "0", "accepted", "e5"], sampleBurning "erc" "a5" "tx2" "T2"]
      = some (none,
          [BridgeWrite.ethTx [1],
           BridgeWrite.update
             { tokenID := sampleHash 2, externalTokenID := List.replicate 19 0 ++ [1],
               isCentralized := false, updatingAmt := 0, updatingType := "" }]) ∧
    scanAmounts sampleBridge [["80", "0", "accepted", "e5"], sampleBurning "erc" "a5" "tx2" "T2"]
      [] (sampleHash 2) = some (5, 5, none) ∧
    ("" : String) ≠ "+" ∧ ("" : String) ≠ "-" := by
  decide

/-- C15. For every four-field instruction whose status field is `rejected` and
every aggregate map, `processIssuingReq` and `processIssuingETHReq` return the
map unchanged and a nil error. The database they leave behind is the one the
tracking write `TrackBridgeReqWithStatus` of the rejected status leaves for the
request ID, when the last field parses as a request ID, and the database as it
was when it does not: the tracking write is their only effect. -/
theorem processIssuingReq_rejected {δ : Type} (B : BridgeEnv δ) (db : δ)
    (field0 field1 content : String) (updatingInfoByTokenID : Aggregate) :
    processIssuingReq B db [field0, field1, "rejected", content] updatingInfoByTokenID
      = (updatingInfoByTokenID, none, trackRejected B db content) ∧
    processIssuingETHReq B db [field0, field1, "rejected", content] updatingInfoByTokenID
      = (updatingInfoByTokenID, none, trackRejected B db content) ∧
    (B.NewHashFromStr content = none → trackRejected B db content = db) ∧
    (∀ txReqID, B.NewHashFromStr content = some txReqID →
      trackRejected B db content
        = (B.TrackBridgeReqWithStatus db txReqID B.BridgeRequestRejectedStatus).2) := by
  refine ⟨?_, ?_, ?_, ?_⟩
  · simp [processIssuingReq]
  · simp [processIssuingETHReq]
  · intro h; simp [trackRejected, h]
  · intro txReqID h; simp [trackRejected, h]

/-! ## C16 and C17: burning -/

/-- C16 (as amended). For every burning-confirm instruction with at least 8
fields whose external token, amount and internal token fields decode and whose
internal token is a hash registered as a decentralized bridge token,
`processBurningReq` returns a nil error and adds to that token's `deductAmt`, in
`uint64` arithmetic, the low 64 bits of `floor(a / 10 ^ 9)` when the external
token ID is the ETH address and of `a` for every other external token, `a`
being the unsigned big-endian integer of the amount field. When the sum stays
below `2 ^ 64`, the new `deductAmt` is the old one plus `floor(a / 10 ^ 9)`,
respectively plus `a`. The `countUpAmt` of the token and the aggregates of the
other tokens stay as they were. -/
theorem processBurningReq_amount {δ : Type} (B : BridgeEnv δ) (db : δ) (instruction : Inst)
    (updatingInfoByTokenID : Aggregate) (externalTokenID incTokenIDBytes amountBytes : List Nat)
    (incTokenID : Hash) (db' : δ)
    (hlen : 8 ≤ instruction.length)
    (hext : (instruction[2]?).bind B.Base58CheckDecode = some externalTokenID)
    (hinc : (instruction[6]?).bind B.Base58CheckDecode = some incTokenIDBytes)
    (hamt : (instruction[4]?).bind B.Base58CheckDecode = some amountBytes)
    (hhash : B.NewHash incTokenIDBytes = some incTokenID)
    (hreg : B.IsBridgeTokenExistedByType db incTokenID false = (true, none, db')) :
    ∃ updated, processBurningReq B db instruction updatingInfoByTokenID
        = some (updated, none, db') ∧
      deductOf updated incTokenID
        = (deductOf updatingInfoByTokenID incTokenID
            + (if externalTokenID = B.EthAddr then bigSetBytes amountBytes / 10 ^ 9
               else bigSetBytes amountBytes) % 2 ^ 64) % 2 ^ 64 ∧
      (deductOf updatingInfoByTokenID incTokenID
          + (if externalTokenID = B.EthAddr then bigSetBytes amountBytes / 10 ^ 9
             else bigSetBytes amountBytes) < 2 ^ 64 →
        deductOf updated incTokenID
          = deductOf updatingInfoByTokenID incTokenID
            + (if externalTokenID = B.EthAddr then bigSetBytes amountBytes / 10 ^ 9
               else bigSetBytes amountBytes)) ∧
      countUpOf updated incTokenID = countUpOf updatingInfoByTokenID incTokenID ∧
      ∀ t, t ≠ incTokenID → mapFind updated t = mapFind updatingInfoByTokenID t := by
  have hl : ¬ instruction.length < 8 := by omega
  have h2 : instruction[2]? = some instruction[2] := List.getElem?_eq_getElem (by omega)
  have h6 : instruction[6]? = some instruction[6] := List.getElem?_eq_getElem (by omega)
  have h4 : instruction[4]? = some instruction[4] := List.getElem?_eq_getElem (by omega)
  rw [h2, Option.some_bind] at hext
  rw [h6, Option.some_bind] at hinc
  rw [h4, Option.some_bind] at hamt
  have hval : burnedAmount B externalTokenID amountBytes
      = (if externalTokenID = B.EthAddr then bigSetBytes amountBytes / 10 ^ 9
         else bigSetBytes amountBytes) % 2 ^ 64 := by
    unfold burnedAmount bigUint64
    split_ifs <;> norm_num
  refine ⟨addDeduction updatingInfoByTokenID incTokenID externalTokenID false
    (burnedAmount B externalTokenID amountBytes), ?_, ?_, ?_, ?_, ?_⟩
  · unfold processBurningReq
    simp only [hl, if_false, h2, h6, h4, hext, hinc, hamt, hhash, hreg]
  · rw [← hval]
    cases hf : mapFind updatingInfoByTokenID incTokenID with
    | none =>
      simp only [deductOf, mapFind_addDeduction_none _ _ _ _ _ _ hf, hf, if_true,
        Option.map_some', Option.getD_some, Option.map_none', Option.getD_none, Nat.zero_add]
      rw [hval, Nat.mod_mod]
    | some found =>
      simp only [deductOf, mapFind_addDeduction_some _ _ _ _ _ _ found hf, hf, if_true,
        Option.map_some', Option.getD_some, uint64Add]
  · intro hlt
    have hv : (if externalTokenID = B.EthAddr then bigSetBytes amountBytes / 10 ^ 9
        else bigSetBytes amountBytes) < 2 ^ 64 := by omega
    rw [← Nat.mod_eq_of_lt hv, ← hval] at hlt ⊢
    cases hf : mapFind updatingInfoByTokenID incTokenID with
    | none =>
      simp only [deductOf, mapFind_addDeduction_none _ _ _ _ _ _ hf, hf, if_true,
        Option.map_some', Option.getD_some, Option.map_none', Option.getD_none, Nat.zero_add]
    | some found =>
      simp only [deductOf, hf, Option.map_some', Option.getD_some] at hlt
      simp only [deductOf, mapFind_addDeduction_some _ _ _ _ _ _ found hf, hf, if_true,
        Option.map_some', Option.getD_some, uint64Add]
      exact Nat.mod_eq_of_lt hlt
  · cases hf : mapFind updatingInfoByTokenID incTokenID with
    | none =>
      simp only [countUpOf, mapFind_addDeduction_none _ _ _ _ _ _ hf, hf, if_true,
        Option.map_some', Option.getD_some, Option.map_none', Option.getD_none]
    | some found =>
      simp only [countUpOf, mapFind_addDeduction_some _ _ _ _ _ _ found hf, hf, if_true,
        Option.map_some', Option.getD_some]
  · intro t ht
    cases hf : mapFind updatingInfoByTokenID incTokenID with
    | none => rw [mapFind_addDeduction_none _ _ _ _ _ _ hf, if_neg ht]
    | some found => rw [mapFind_addDeduction_some _ _ _ _ _ _ found hf, if_neg ht]

set_option maxRecDepth 100000 in
/-- Witness of C16 as amended: a burning of `7 * 10 ^ 9 + 123` units of ETH for
token 3, on an empty aggregate map. -/
theorem processBurningReq_amount_witness :
    bigSetBytes [1, 161, 59, 134, 123] = 7 * 10 ^ 9 + 123 ∧
    ∃ updated, processBurningReq sampleBridge [] (sampleBurning "eth" "a7e9" "tx1" "T3") []
        = some (updated, none, []) ∧
      deductOf updated (sampleHash 3)
        = (deductOf [] (sampleHash 3)
            + (if List.replicate 20 0 = sampleBridge.EthAddr
                then bigSetBytes [1, 161, 59, 134, 123] / 10 ^ 9
               else bigSetBytes [1, 161, 59, 134, 123]) % 2 ^ 64) % 2 ^ 64 :=
  ⟨by decide,
   (processBurningReq_amount sampleBridge [] (sampleBurning "eth" "a7e9" "tx1" "T3") []
      (List.replicate 20 0) (sampleHash 3) [1, 161, 59, 134, 123] (sampleHash 3) []
      (by decide) (by decide) (by decide) (by decide) (by decide) (by decide)).imp
     (fun _ h => ⟨h.1, h.2.1⟩)⟩

set_option maxRecDepth 100000 in
/-- C16, counterexample. A burning of `2 ^ 64` units of a token other than ETH
leaves the `deductAmt` 0; and after a burning of `2 ^ 64 - 1` units, a burning
of 1 unit brings the `deductAmt` to 0. -/
theorem processBurningReq_amount_counterexample :
    bigSetBytes [1, 0, 0, 0, 0, 0, 0, 0, 0] = 2 ^ 64 ∧
    (processBurningReq sampleBridge [] (sampleBurning "erc" "a64" "tx1" "T2") []).map
        (fun r => deductOf r.1 (sampleHash 2)) = some 0 ∧
    bigSetBytes (List.replicate 8 255) = 2 ^ 64 - 1 ∧
    (processBurningReq sampleBridge [] (sampleBurning "erc" "aMax" "tx1" "T2") []).map
        (fun r => deductOf r.1 (sampleHash 2)) = some (2 ^ 64 - 1) ∧
    scanAmounts sampleBridge
        [sampleBurning "erc" "aMax" "tx1" "T2", sampleBurning "erc" "a1" "tx2" "T2"] []
        (sampleHash 2) = some (0, 0, none) := by
  decide

/-- C17. A burning instruction of at least eight fields whose external token,
internal token and amount fields decode, but whose internal token bytes make
`NewHash` return the nil pointer: `processBurningReq` does not return, the nil
pointer being dereferenced, and `processBridgeInstructions` does not return on a
block that starts with such an instruction. -/
theorem processBurningReq_nil_hash {δ : Type} (B : BridgeEnv δ) (db : δ) (instruction : Inst)
    (updatingInfoByTokenID : Aggregate) (externalTokenID incTokenIDBytes amountBytes : List Nat)
    (hlen : 8 ≤ instruction.length)
    (hext : (instruction[2]?).bind B.Base58CheckDecode = some externalTokenID)
    (hinc : (instruction[6]?).bind B.Base58CheckDecode = some incTokenIDBytes)
    (hamt : (instruction[4]?).bind B.Base58CheckDecode = some amountBytes)
    (hnil : B.NewHash incTokenIDBytes = none) :
    processBurningReq B db instruction updatingInfoByTokenID = none ∧
    ∀ first, instruction[0]? = some first → bridgeKind B first = BridgeKind.burning →
      ∀ (mapRange : Aggregate → List UpdatingInfo) (rest : List Inst),
        processBridgeInstructions B mapRange db (instruction :: rest) = none := by
  have hl : ¬ instruction.length < 8 := by omega
  have h2 : instruction[2]? = some instruction[2] := List.getElem?_eq_getElem (by omega)
  have h6 : instruction[6]? = some instruction[6] := List.getElem?_eq_getElem (by omega)
  have h4 : instruction[4]? = some instruction[4] := List.getElem?_eq_getElem (by omega)
  rw [h2, Option.some_bind] at hext
  rw [h6, Option.some_bind] at hinc
  rw [h4, Option.some_bind] at hamt
  have hp : ∀ m, processBurningReq B db instruction m = none := by
    intro m
    unfold processBurningReq
    simp only [hl, if_false, h2, h6, h4, hext, hinc, hamt, hnil]
  refine ⟨hp _, ?_⟩
  intro first hfirst hkind mapRange rest
  rcases instruction with _ | ⟨f0, _ | ⟨f1, tail⟩⟩
  · simp at hlen
  · simp at hlen
  · simp only [List.getElem?_cons_zero, Option.some.injEq] at hfirst
    subst hfirst
    unfold processBridgeInstructions bridgeScan
    simp only [bridgeStep, hkind, hp]

set_option maxRecDepth 100000 in
/-- Witness of C17: a sample burning instruction whose internal token field
decodes to three bytes; the block that holds it between two issuances is not
processed. -/
theorem processBurningReq_nil_hash_witness :
    sampleBridge.Base58CheckDecode "short" = some [1, 2, 3] ∧
    sampleBridge.NewHash [1, 2, 3] = none ∧
    processBridgeInstructions sampleBridge mapValues []
      [["80", "0", "accepted", "e5"], sampleBurning "erc" "a5" "tx1" "short",
       ["24", "0", "accepted", "i7"]] = none ∧
    processBurningReq sampleBridge [] (sampleBurning "erc" "a5" "tx1" "short") [] = none :=
  ⟨by decide, by decide, by decide,
   (processBurningReq_nil_hash sampleBridge [] (sampleBurning "erc" "a5" "tx1" "short") []
      (List.replicate 19 0 ++ [1]) [1, 2, 3] [5] (by decide) (by decide) (by decide)
      (by decide) (by decide)).1⟩

/-! ## C18: the errors of the bridge state appliers -/

theorem updateLoop_error {δ : Type} (B : BridgeEnv δ) (infos : List UpdatingInfo) (db : δ)
    (e : String) (h : (updateLoop B infos db).1 = some e) :
    ∃ info ∈ infos, ∃ s,
      (B.UpdateBridgeTokenInfo s (updatingCall info).tokenID (updatingCall info).externalTokenID
        (updatingCall info).isCentralized (updatingCall info).updatingAmt
        (updatingCall info).updatingType).1 = some e := by
  induction infos generalizing db with
  | nil => simp [updateLoop] at h
  | cons info rest ih =>
    unfold updateLoop at h
    simp only at h
    cases hres : B.UpdateBridgeTokenInfo db (updatingCall info).tokenID
      (updatingCall info).externalTokenID (updatingCall info).isCentralized
      (updatingCall info).updatingAmt (updatingCall info).updatingType with
    | mk err db1 =>
      rw [hres] at h
      cases err with
      | some e1 =>
        simp only [Option.some.injEq] at h
        subst h
        exact ⟨info, List.mem_cons_self _ _, db, by rw [hres]⟩
      | none =>
        simp only at h
        obtain ⟨i, hi, s, hs⟩ := ih db1 h
        exact ⟨i, List.mem_cons_of_mem _ hi, s, hs⟩

theorem bridgeScan_err {δ : Type} (B : BridgeEnv δ) (instructions : List Inst)
    (m : Aggregate) (db : δ) (r : Aggregate × Option String × δ)
    (h : bridgeScan B instructions m db = some r) : r.2.1 = none := by
  induction instructions generalizing m db with
  | nil => simp only [bridgeScan, Option.some.injEq] at h; subst h; rfl
  | cons inst rest ih =>
    unfold bridgeScan at h
    cases h1 : bridgeStep B m db inst with
    | none => simp [h1] at h
    | some r1 =>
      have he := bridgeStep_err B m db inst r1 h1
      obtain ⟨m1, e1, db1⟩ := r1
      simp only at he
      subst he
      simp only [h1] at h
      exact ih m1 db1 h

theorem storeBurningConfirm_append {δ : Type} (B : BridgeEnv δ) (blockHeight : Nat)
    (metas : List String) (pre post : List Inst) (db db1 : δ)
    (h : storeBurningConfirm B blockHeight metas pre db = some (none, db1)) :
    storeBurningConfirm B blockHeight metas (pre ++ post) db
      = storeBurningConfirm B blockHeight metas post db1 := by
  induction pre generalizing db with
  | nil =>
    simp only [storeBurningConfirm, Option.some.injEq, Prod.mk.injEq, true_and] at h
    subst h
    rfl
  | cons inst rest ih =>
    rw [List.cons_append]
    cases metas with
    | nil =>
      rw [storeBurningConfirm] at h ⊢
      exact ih db h
    | cons meta0 others =>
      cases h0 : inst[0]? with
      | none => simp [storeBurningConfirm, h0] at h
      | some first =>
        rw [storeBurningConfirm.eq_def] at h
        conv_lhs => rw [storeBurningConfirm.eq_def]
        simp only [h0] at h ⊢
        by_cases hm : first ∈ meta0 :: others
        · simp only [hm, if_true] at h ⊢
          cases h5 : inst[5]? with
          | none => simp [h5] at h
          | some field5 =>
            simp only [h5] at h ⊢
            cases hh : B.NewHashFromStr field5 with
            | none => simp [hh] at h
            | some txID =>
              simp only [hh] at h ⊢
              cases hs : B.StoreBurningConfirm db txID blockHeight with
              | mk err db2 =>
                rw [hs] at h
                cases err with
                | some e => simp at h
                | none => simp only at h ⊢; exact ih db2 h
        · simp only [hm, if_false] at h ⊢; exact ih db h

theorem storeBurningConfirm_error {δ : Type} (B : BridgeEnv δ) (blockHeight : Nat)
    (metas : List String) (instructions : List Inst) (db : δ) (e : String) (db' : δ)
    (h : storeBurningConfirm B blockHeight metas instructions db = some (some e, db')) :
    ∃ inst ∈ instructions, ∃ first field5, inst[0]? = some first ∧ first ∈ metas ∧
      inst[5]? = some field5 ∧
      ((e = "txid invalid" ∧ B.NewHashFromStr field5 = none) ∨
       (e = "store failed" ∧ ∃ txID s, B.NewHashFromStr field5 = some txID ∧
          (B.StoreBurningConfirm s txID blockHeight).1 ≠ none)) := by
  induction instructions generalizing db with
  | nil => simp [storeBurningConfirm] at h
  | cons inst rest ih =>
    have lift : (∃ inst ∈ rest, ∃ first field5, inst[0]? = some first ∧ first ∈ metas ∧
        inst[5]? = some field5 ∧
        ((e = "txid invalid" ∧ B.NewHashFromStr field5 = none) ∨
         (e = "store failed" ∧ ∃ txID s, B.NewHashFromStr field5 = some txID ∧
            (B.StoreBurningConfirm s txID blockHeight).1 ≠ none))) →
        ∃ i ∈ inst :: rest, ∃ first field5, i[0]? = some first ∧ first ∈ metas ∧
        i[5]? = some field5 ∧
        ((e = "txid invalid" ∧ B.NewHashFromStr field5 = none) ∨
         (e = "store failed" ∧ ∃ txID s, B.NewHashFromStr field5 = some txID ∧
            (B.StoreBurningConfirm s txID blockHeight).1 ≠ none)) := by
      rintro ⟨i, hi, rest'⟩
      exact ⟨i, List.mem_cons_of_mem _ hi, rest'⟩
    unfold storeBurningConfirm at h
    cases metas with
    | nil => simp only at h; exact lift (ih db h)
    | cons meta0 others =>
      cases h0 : inst[0]? with
      | none => simp [h0] at h
      | some first =>
        simp only [h0] at h
        by_cases hm : first ∈ meta0 :: others
        · simp only [hm, if_true] at h
          cases h5 : inst[5]? with
          | none => simp [h5] at h
          | some field5 =>
            simp only [h5] at h
            cases hh : B.NewHashFromStr field5 with
            | none =>
              simp only [hh, Option.some.injEq, Prod.mk.injEq] at h
              exact ⟨inst, List.mem_cons_self _ _, first, field5, h0, hm, h5,
                Or.inl ⟨h.1.symm, hh⟩⟩
            | some txID =>
              simp only [hh] at h
              cases hs : B.StoreBurningConfirm db txID blockHeight with
              | mk err db1 =>
                rw [hs] at h
                cases err with
                | some e1 =>
                  simp only [Option.some.injEq, Prod.mk.injEq] at h
                  exact ⟨inst, List.mem_cons_self _ _, first, field5, h0, hm, h5,
                    Or.inr ⟨h.1.symm, txID, db, hh, by rw [hs]; simp⟩⟩
                | none =>
                  simp only at h
                  exact lift (ih db1 h)
        · simp only [hm, if_false] at h
          exact lift (ih db h)

theorem storeBurningConfirm_isSome {δ : Type} (B : BridgeEnv δ) (blockHeight : Nat)
    (metas : List String) (instructions : List Inst) (db : δ)
    (hfields : ∀ inst ∈ instructions, 6 ≤ inst.length) :
    ∃ r, storeBurningConfirm B blockHeight metas instructions db = some r := by
  induction instructions generalizing db with
  | nil => exact ⟨_, rfl⟩
  | cons inst rest ih =>
    have hrest : ∀ i ∈ rest, 6 ≤ i.length := fun i hi => hfields i (List.mem_cons_of_mem _ hi)
    have hlen := hfields inst (List.mem_cons_self _ _)
    have h0 : inst[0]? = some inst[0] := List.getElem?_eq_getElem (by omega)
    have h5 : inst[5]? = some inst[5] := List.getElem?_eq_getElem (by omega)
    unfold storeBurningConfirm
    cases metas with
    | nil => simp only; exact ih db hrest
    | cons meta0 others =>
      rw [h0]
      simp only
      by_cases hm : inst[0] ∈ meta0 :: others
      · simp only [hm, if_true, h5]
        cases hh : B.NewHashFromStr inst[5] with
        | none => exact ⟨_, rfl⟩
        | some txID =>
          simp only
          cases hs : B.StoreBurningConfirm db txID blockHeight with
          | mk err db1 =>
            cases err with
            | some e => exact ⟨_, rfl⟩
            | none => simp only; exact ih db1 hrest
      · simp only [hm, if_false]; exact ih db hrest

/-- C18 (as amended). `processBridgeInstructions` returns a non-nil error only
when a call of `UpdateBridgeTokenInfo` fails. `storeBurningConfirm` returns a
non-nil error only for a matching instruction whose transaction ID field does
not parse (error `txid invalid`) or whose `StoreBurningConfirm` write fails
(error `store failed`); and a matching instruction whose transaction ID does
not parse, once the instructions before it are stored, is not skipped: the call
returns `txid invalid` there and leaves the instructions after it unprocessed.
`storeBurningConfirm` returns whenever every instruction has at least six
fields. -/
theorem storeBurningConfirm_errors {δ : Type} (B : BridgeEnv δ)
    (mapRange : Aggregate → List UpdatingInfo) (db : δ) (instructions : List Inst)
    (blockHeight : Nat) (metas : List String) :
    (∀ e db', processBridgeInstructions B mapRange db instructions = some (some e, db') →
      ∃ info s,
        (B.UpdateBridgeTokenInfo s (updatingCall info).tokenID
          (updatingCall info).externalTokenID (updatingCall info).isCentralized
          (updatingCall info).updatingAmt (updatingCall info).updatingType).1 = some e) ∧
    (∀ e db', storeBurningConfirm B blockHeight metas instructions db = some (some e, db') →
      ∃ inst ∈ instructions, ∃ first field5, inst[0]? = some first ∧ first ∈ metas ∧
        inst[5]? = some field5 ∧
        ((e = "txid invalid" ∧ B.NewHashFromStr field5 = none) ∨
         (e = "store failed" ∧ ∃ txID s, B.NewHashFromStr field5 = some txID ∧
            (B.StoreBurningConfirm s txID blockHeight).1 ≠ none))) ∧
    (∀ pre inst post db1 first field5, instructions = pre ++ inst :: post →
      storeBurningConfirm B blockHeight metas pre db = some (none, db1) →
      inst[0]? = some first → first ∈ metas → inst[5]? = some field5 →
      B.NewHashFromStr field5 = none →
      storeBurningConfirm B blockHeight metas instructions db
        = some (some "txid invalid", db1)) ∧
    ((∀ inst ∈ instructions, 6 ≤ inst.length) →
      ∃ r, storeBurningConfirm B blockHeight metas instructions db = some r) := by
  refine ⟨?_, ?_, ?_, ?_⟩
  · intro e db' h
    unfold processBridgeInstructions at h
    cases hs : bridgeScan B instructions [] db with
    | none => simp [hs] at h
    | some r =>
      have he := bridgeScan_err B instructions [] db r hs
      obtain ⟨m, err, db1⟩ := r
      simp only at he
      subst he
      simp only [hs, Option.some.injEq] at h
      have h1 : (updateLoop B (mapRange m) db1).1 = some e := by rw [h]
      obtain ⟨info, _, s, hs'⟩ := updateLoop_error B _ _ e h1
      exact ⟨info, s, hs'⟩
  · intro e db' h
    exact storeBurningConfirm_error B blockHeight metas instructions db e db' h
  · intro pre inst post db1 first field5 hsplit hpre h0 hm h5 hh
    rw [hsplit, storeBurningConfirm_append B blockHeight metas pre (inst :: post) db db1 hpre]
    cases metas with
    | nil => simp at hm
    | cons meta0 others =>
      rw [storeBurningConfirm.eq_def]
      simp only [h0, hm, if_true, h5, hh]
  · intro hfields
    exact storeBurningConfirm_isSome B blockHeight metas instructions db hfields

set_option maxRecDepth 100000 in
/-- C18, counterexample. With every store write succeeding, a matching
instruction whose transaction ID does not parse makes `storeBurningConfirm`
return the error `txid invalid`: the instruction before it is stored, the one
after it is not. A matching instruction of three fields is not skipped
either: the call does not return. -/
theorem storeBurningConfirm_errors_counterexample :
    sampleBridge.NewHashFromStr "zz" = none ∧
    storeBurningConfirm sampleBridge 7 ["72", "240"]
        [["24", "0", "accepted", "i7"], sampleBurning "erc" "a5" "tx1" "T2",
         sampleBurning "erc" "a5" "zz" "T2", sampleBurning "erc" "a5" "tx2" "T2"] []
      = some (some "txid invalid", [BridgeWrite.burningConfirm (sampleHash 17) 7]) ∧
    storeBurningConfirm sampleBridge 7 ["72", "240"]
        [["72", "1", "erc"], sampleBurning "erc" "a5" "tx2" "T2"] [] = none := by
  decide

set_option maxRecDepth 100000 in
/-- Witness of C18 as amended: two matching instructions are stored; with an
instruction whose transaction ID does not parse between them, the call returns
`txid invalid` after the first. -/
theorem storeBurningConfirm_errors_witness :
    storeBurningConfirm sampleBridge 7 ["72", "240"]
        [["24", "0", "accepted", "i7"], sampleBurning "erc" "a5" "tx1" "T2",
         sampleBurning "erc" "a5" "tx2" "T2"] []
      = some (none, [BridgeWrite.burningConfirm (sampleHash 17) 7,
          BridgeWrite.burningConfirm (sampleHash 18) 7]) ∧
    storeBurningConfirm sampleBridge 7 ["72", "240"]
        [sampleBurning "erc" "a5" "tx1" "T2", sampleBurning "erc" "a5" "zz" "T2",
         sampleBurning "erc" "a5" "tx2" "T2"] []
      = some (some "txid invalid", [BridgeWrite.burningConfirm (sampleHash 17) 7]) :=
  ⟨by decide,
   (storeBurningConfirm_errors sampleBridge mapValues []
      [sampleBurning "erc" "a5" "tx1" "T2", sampleBurning "erc" "a5" "zz" "T2",
       sampleBurning "erc" "a5" "tx2" "T2"] 7 ["72", "240"]).2.2.1
      [sampleBurning "erc" "a5" "tx1" "T2"] (sampleBurning "erc" "a5" "zz" "T2")
      [sampleBurning "erc" "a5" "tx2" "T2"] [BridgeWrite.burningConfirm (sampleHash 17) 7]
      "72" "zz" (by decide) (by decide) (by decide) (by decide) (by decide) (by decide)⟩

/-! ## C20: trade actions that do not decode -/

theorem mapFind_map_snd {κ β γ : Type} [DecidableEq κ] (f : β → γ) (m : List (κ × β)) (k : κ) :
    mapFind (m.map (fun entry => (entry.1, f entry.2))) k = (mapFind m k).map f := by
  induction m with
  | nil => rfl
  | cons p rest ih =>
    obtain ⟨k0, v⟩ := p
    by_cases h : k0 = k
    · simp [mapFind, h]
    · simp [mapFind, h, ih]

theorem sort_Ints_of_perm (l₁ l₂ : List Nat) (hp : l₁.Perm l₂) : sort_Ints l₁ = sort_Ints l₂ := by
  unfold sort_Ints
  apply List.eq_of_perm_of_sorted (r := (· ≤ ·))
  · exact ((List.perm_insertionSort _ l₁).trans hp).trans (List.perm_insertionSort _ l₂).symm
  · exact List.sorted_insertionSort _ _
  · exact List.sorted_insertionSort _ _

theorem sort_Strings_of_perm (l₁ l₂ : List Key) (hp : l₁.Perm l₂) :
    sort_Strings l₁ = sort_Strings l₂ := by
  unfold sort_Strings
  apply List.eq_of_perm_of_sorted (r := (· ≤ ·))
  · exact ((List.perm_insertionSort _ l₁).trans hp).trans (List.perm_insertionSort _ l₂).symm
  · exact List.sorted_insertionSort _ _
  · exact List.sorted_insertionSort _ _

theorem shardKeys_of_same {β : Type} (m m' : List (Nat × List β))
    (h : ∀ k, mapFind m k = mapFind m' k) : shardKeys m = shardKeys m' := by
  unfold shardKeys
  apply sort_Ints_of_perm
  rw [List.perm_ext_iff_of_nodup (nodup_mapKeys m) (nodup_mapKeys m')]
  intro k
  rw [mem_mapKeys, mem_mapKeys, h k]

theorem mapGet_of_same {β : Type} (m m' : List (Nat × List β))
    (h : ∀ k, mapFind m k = mapFind m' k) (k : Nat) : mapGet m k = mapGet m' k := by
  unfold mapGet
  rw [h k]

theorem decodedTrades_filter (dec : String → Option PDETradeRequestAction)
    (actions : List Inst) :
    decodedTrades dec (actions.filter (fun a => ((a[1]?).bind dec).isSome))
      = decodedTrades dec actions := by
  unfold decodedTrades
  induction actions with
  | nil => rfl
  | cons a rest ih =>
    cases h : (a[1]?).bind dec with
    | none => simp [List.filter_cons, List.filterMap_cons, h, ih]
    | some t => simp [List.filter_cons, List.filterMap_cons, h, ih]

theorem decodedTrades_flatMap (dec : String → Option PDETradeRequestAction)
    (keys : List Nat) (f : Nat → List Inst) :
    decodedTrades dec (keys.flatMap f) = keys.flatMap (fun k => decodedTrades dec (f k)) := by
  induction keys with
  | nil => rfl
  | cons k rest ih =>
    simp only [List.flatMap_cons]
    rw [← ih]
    simp [decodedTrades, List.filterMap_append]

theorem discoveredTrades_deleteMalformed (dec : String → Option PDETradeRequestAction)
    (m : List (Nat × List Inst)) :
    discoveredTrades dec (deleteMalformed dec m) = discoveredTrades dec m := by
  have hfind : ∀ k, mapFind (deleteMalformed dec m) k
      = (mapFind m k).map (fun v => v.filter (fun a => ((a[1]?).bind dec).isSome)) :=
    fun k => mapFind_map_snd _ m k
  have hkeys : shardKeys (deleteMalformed dec m) = shardKeys m := by
    unfold shardKeys
    apply sort_Ints_of_perm
    rw [List.perm_ext_iff_of_nodup (nodup_mapKeys _) (nodup_mapKeys m)]
    intro k
    rw [mem_mapKeys, mem_mapKeys, hfind k]
    simp
  have hget : ∀ k, mapGet (deleteMalformed dec m) k
      = (mapGet m k).filter (fun a => ((a[1]?).bind dec).isSome) := by
    intro k
    unfold mapGet
    rw [hfind k]
    cases mapFind m k <;> simp
  unfold discoveredTrades inShardOrder
  rw [hkeys, decodedTrades_flatMap, decodedTrades_flatMap]
  apply List.flatMap_congr
  intro k _
  rw [hget k, decodedTrades_filter]

theorem wellFormed_deleteMalformed (dec : String → Option PDETradeRequestAction)
    (m : List (Nat × List Inst)) (hw : WellFormed m) : WellFormed (deleteMalformed dec m) := by
  intro k hk a ha
  have hfind : mapFind (deleteMalformed dec m) k
      = (mapFind m k).map (fun v => v.filter (fun a => ((a[1]?).bind dec).isSome)) :=
    mapFind_map_snd _ m k
  have hget : mapGet (deleteMalformed dec m) k
      = (mapGet m k).filter (fun a => ((a[1]?).bind dec).isSome) := by
    unfold mapGet
    rw [hfind]
    cases mapFind m k <;> simp
  rw [hget] at ha
  have ha' := (List.mem_filter.mp ha).1
  exact hw k (mem_shardKeys_of_mem_mapGet m k a ha') a ha'

/-- C20. For every batch of trade actions that have at least two fields each:
`sortPDETradeInstsByFee` returns, and returns the same list as on the batch
from which the actions whose payload does not decode have been deleted; and,
`sort.Slice` rearranging the slice it is given, every trade of the output is
the decoding of the payload of an action of the batch, so that no trade stems
from an action whose payload does not decode. -/
theorem sortPDETradeInstsByFee_malformed {ρ : Type}
    (sortSlice : (PDETradeRequestAction → PDETradeRequestAction → Bool) →
      List PDETradeRequestAction → List PDETradeRequestAction)
    (decodeTrade : String → Option PDETradeRequestAction)
    (poolKey : PDETradeRequestAction → Key) (currentPDEState : CurrentPDEState ρ)
    (pdeTradeActionsByShardID : List (Nat × List Inst))
    (hw : WellFormed pdeTradeActionsByShardID) :
    sortPDETradeInstsByFee sortSlice decodeTrade poolKey currentPDEState
        (deleteMalformed decodeTrade pdeTradeActionsByShardID)
      = sortPDETradeInstsByFee sortSlice decodeTrade poolKey currentPDEState
          pdeTradeActionsByShardID ∧
    (∃ out, sortPDETradeInstsByFee sortSlice decodeTrade poolKey currentPDEState
      pdeTradeActionsByShardID = some out) ∧
    ((∀ less data, (sortSlice less data).Perm data) →
      ∀ out, sortPDETradeInstsByFee sortSlice decodeTrade poolKey currentPDEState
          pdeTradeActionsByShardID = some out →
        ∀ trade ∈ out, ∃ action ∈ inShardOrder pdeTradeActionsByShardID,
          (action[1]?).bind decodeTrade = some trade) := by
  obtain ⟨out, hout⟩ := sortPDETradeInstsByFee_isSome sortSlice decodeTrade poolKey
    currentPDEState pdeTradeActionsByShardID hw
  obtain ⟨out', hout'⟩ := sortPDETradeInstsByFee_isSome sortSlice decodeTrade poolKey
    currentPDEState (deleteMalformed decodeTrade pdeTradeActionsByShardID)
    (wellFormed_deleteMalformed decodeTrade _ hw)
  refine ⟨?_, ⟨out, hout⟩, ?_⟩
  · have e := sortPDETradeInstsByFee_eq sortSlice decodeTrade poolKey currentPDEState _ out hout
    have e' := sortPDETradeInstsByFee_eq sortSlice decodeTrade poolKey currentPDEState _ out'
      hout'
    rw [discoveredTrades_deleteMalformed] at e'
    rw [hout, hout', e, e']
  · intro hperm o ho trade htrade
    have hmem : trade ∈ discoveredTrades decodeTrade pdeTradeActionsByShardID := by
      have hfilter := filter_key_sortPDETradeInstsByFee sortSlice hperm decodeTrade poolKey
        currentPDEState pdeTradeActionsByShardID o ho (poolKey trade)
      have h1 : trade ∈ o.filter (fun t => decide (poolKey t = poolKey trade)) :=
        List.mem_filter.mpr ⟨htrade, by simp⟩
      rw [hfilter] at h1
      split_ifs at h1
      · exact (List.mem_filter.mp h1).1
      · exact (List.mem_filter.mp ((hperm _ _).mem_iff.mp h1)).1
    unfold discoveredTrades decodedTrades at hmem
    obtain ⟨action, ha, hd⟩ := List.mem_filterMap.mp hmem
    exact ⟨action, ha, hd⟩

set_option maxRecDepth 100000 in
/-- Witness of C20: a batch of five actions over two shards, two of them with a
payload that does not decode. -/
theorem sortPDETradeInstsByFee_malformed_witness :
    sortPDETradeInstsByFee sort_Slice sampleDecode samplePoolKey sampleState
        [(1, [["91", "C"], ["91", "??"], ["91", "M"]]), (0, [["91", "!"], ["91", "D"]])]
      = some [sampleTrade "Y" 3 10 "D", sampleTrade "Y" 10 100 "C", sampleTrade "M" 5 1 "M"] ∧
    deleteMalformed sampleDecode
        [(1, [["91", "C"], ["91", "??"], ["91", "M"]]), (0, [["91", "!"], ["91", "D"]])]
      = [(1, [["91", "C"], ["91", "M"]]), (0, [["91", "D"]])] ∧
    sortPDETradeInstsByFee sort_Slice sampleDecode samplePoolKey sampleState
        (deleteMalformed sampleDecode
          [(1, [["91", "C"], ["91", "??"], ["91", "M"]]), (0, [["91", "!"], ["91", "D"]])])
      = sortPDETradeInstsByFee sort_Slice sampleDecode samplePoolKey sampleState
        [(1, [["91", "C"], ["91", "??"], ["91", "M"]]), (0, [["91", "!"], ["91", "D"]])] :=
  ⟨by decide, by decide,
   (sortPDETradeInstsByFee_malformed sort_Slice sampleDecode samplePoolKey sampleState
      [(1, [["91", "C"], ["91", "??"], ["91", "M"]]), (0, [["91", "!"], ["91", "D"]])]
      (by unfold WellFormed; decide)).1⟩

/-! ## C19: determinism -/

theorem collectShards_of_same {acc ρ ψ χ η : Type} (E : Env acc ρ ψ χ η)
    (m m' : List (Nat × List Inst)) (h : ∀ k, mapFind m k = mapFind m' k)
    (keys : List Nat) (c : Collected acc) :
    collectShards E m keys c = collectShards E m' keys c := by
  induction keys generalizing c with
  | nil => rfl
  | cons k rest ih =>
    unfold collectShards
    rw [mapGet_of_same m m' h k]
    cases collectActions E k (mapGet m' k) c with
    | none => rfl
    | some c' => exact ih c'

theorem groupTradeShards_of_same (dec : String → Option PDETradeRequestAction)
    (key : PDETradeRequestAction → Key) (m m' : List (Nat × List Inst))
    (h : ∀ k, mapFind m k = mapFind m' k) (keys : List Nat)
    (tb : List (Key × List PDETradeRequestAction)) :
    groupTradeShards dec key m keys tb = groupTradeShards dec key m' keys tb := by
  induction keys generalizing tb with
  | nil => rfl
  | cons k rest ih =>
    unfold groupTradeShards
    rw [mapGet_of_same m m' h k]
    cases groupTradeActions dec key (mapGet m' k) tb with
    | none => rfl
    | some g => exact ih g

theorem splitTradesByPool_of_same
    (sortSlice : (PDETradeRequestAction → PDETradeRequestAction → Bool) →
      List PDETradeRequestAction → List PDETradeRequestAction)
    (pools pools' : List (Key × Option PDEPoolPair))
    (h : ∀ k, mapFind pools k = mapFind pools' k)
    (tb : List (Key × List PDETradeRequestAction)) (keys : List Key)
    (s : List PDETradeRequestAction × List PDETradeRequestAction) :
    splitTradesByPool sortSlice pools tb keys s = splitTradesByPool sortSlice pools' tb keys s := by
  obtain ⟨s1, s2⟩ := s
  rw [splitTradesByPool_eq, splitTradesByPool_eq]
  have hb : poolBypassed pools = poolBypassed pools' := by
    funext k
    unfold poolBypassed
    rw [h k]
  rw [hb]

/-- C19. Two per-shard action maps with the same contents, that is the same
actions under every shard ID, however they were filled, make
`buildStatefulInstructions` return the same instruction list on the same
states; the order in which the shard IDs of a map are collected does not
matter, since every enumeration of them sorts to the same sequence. The same
holds for `sortPDETradeInstsByFee`, for the per-shard map of trades, for the
map of pool pairs of the state and for the pool-pair keys it collects. -/
theorem buildStatefulInstructions_deterministic {acc ρ ψ χ η : Type} (E : Env acc ρ ψ χ η)
    (sortSlice : (PDETradeRequestAction → PDETradeRequestAction → Bool) →
      List PDETradeRequestAction → List PDETradeRequestAction)
    (statefulActionsByShardID filledOtherwise : List (Nat × List Inst))
    (hsame : ∀ shardID, mapFind statefulActionsByShardID shardID
      = mapFind filledOtherwise shardID)
    (beaconHeight : Nat) (currentPDEState : CurrentPDEState ρ) (currentPortalState : ψ)
    (relayingHeaderState : Option χ) (accumulatedValues : acc) :
    buildStatefulInstructions E sortSlice statefulActionsByShardID beaconHeight currentPDEState
        currentPortalState relayingHeaderState accumulatedValues
      = buildStatefulInstructions E sortSlice filledOtherwise beaconHeight currentPDEState
        currentPortalState relayingHeaderState accumulatedValues ∧
    (∀ iterated : List Nat, iterated.Perm (mapKeys statefulActionsByShardID) →
      sort_Ints iterated = shardKeys statefulActionsByShardID) ∧
    (∀ (poolsOtherwise : CurrentPDEState ρ),
      (∀ k, mapFind currentPDEState.PDEPoolPairs k = mapFind poolsOtherwise.PDEPoolPairs k) →
      sortPDETradeInstsByFee sortSlice E.decodeTrade
          (fun t => E.BuildPDEPoolForPairKey beaconHeight t.Meta.TokenIDToBuyStr
            t.Meta.TokenIDToSellStr) currentPDEState statefulActionsByShardID
        = sortPDETradeInstsByFee sortSlice E.decodeTrade
          (fun t => E.BuildPDEPoolForPairKey beaconHeight t.Meta.TokenIDToBuyStr
            t.Meta.TokenIDToSellStr) poolsOtherwise filledOtherwise) ∧
    (∀ (tradesByPairs : List (Key × List PDETradeRequestAction)) (iterated : List Key),
      iterated.Perm (mapKeys tradesByPairs) →
      sort_Strings iterated = sort_Strings (mapKeys tradesByPairs)) := by
  refine ⟨?_, ?_, ?_, ?_⟩
  · unfold buildStatefulInstructions
    rw [shardKeys_of_same _ _ hsame, collectShards_of_same E _ _ hsame]
  · intro iterated hp
    exact sort_Ints_of_perm _ _ hp
  · intro poolsOtherwise hpools
    unfold sortPDETradeInstsByFee
    rw [shardKeys_of_same _ _ hsame, groupTradeShards_of_same _ _ _ _ hsame]
    cases groupTradeShards E.decodeTrade
      (fun t => E.BuildPDEPoolForPairKey beaconHeight t.Meta.TokenIDToBuyStr
        t.Meta.TokenIDToSellStr) filledOtherwise (shardKeys filledOtherwise) [] with
    | none => rfl
    | some tb =>
      simp only
      rw [splitTradesByPool_of_same sortSlice _ _ hpools]
  · intro tradesByPairs iterated hp
    exact sort_Strings_of_perm _ _ hp

set_option maxRecDepth 100000 in
/-- Witness of C19: the sample batch and the same batch filled in the reverse
order of shards. -/
theorem buildStatefulInstructions_deterministic_witness :
    buildStatefulInstructions sampleEnv sort_Slice sampleBatch 11 sampleState [] (some 5) []
      = buildStatefulInstructions sampleEnv sort_Slice sampleBatch.reverse 11 sampleState []
          (some 5) [] ∧
    sampleBatch.reverse ≠ sampleBatch :=
  ⟨(buildStatefulInstructions_deterministic sampleEnv sort_Slice sampleBatch
      sampleBatch.reverse (by
        intro shardID
        by_cases h0 : shardID = 0
        · subst h0; decide
        · by_cases h1 : shardID = 1
          · subst h1; decide
          · have h0' : ¬ 0 = shardID := fun e => h0 e.symm
            have h1' : ¬ 1 = shardID := fun e => h1 e.symm
            simp [sampleBatch, mapFind, h0', h1'])
      11 sampleState [] (some 5) []).1,
   by decide⟩

/-! ## C21: the worked example of the fee ordering -/

/-- A list without duplicates whose only member is `k` is `[k]`. -/
theorem eq_singleton_of_nodup {α : Type} (l : List α) (k : α) (hn : l.Nodup)
    (h : ∀ x, x ∈ l ↔ x = k) : l = [k] := by
  rcases l with _ | ⟨u, _ | ⟨v, rest⟩⟩
  · exact absurd ((h k).mpr rfl) (List.not_mem_nil _)
  · rw [(h u).mp (List.mem_cons_self _ _)]
  · have hu := (h u).mp (List.mem_cons_self _ _)
    have hv := (h v).mp (List.mem_cons_of_mem _ (List.mem_cons_self _ _))
    rw [hu, hv] at hn
    simp at hn

/-- A permutation of two different elements is one of the two orders. -/
theorem perm_pair {α : Type} (r : List α) (x y : α) (hxy : x ≠ y) (hp : r.Perm [x, y]) :
    r = [x, y] ∨ r = [y, x] := by
  have hlen := hp.length_eq
  rcases r with _ | ⟨u, _ | ⟨v, _ | ⟨w, rest⟩⟩⟩
  · simp at hlen
  · simp at hlen
  · have hu : u ∈ [x, y] := hp.mem_iff.mp (List.mem_cons_self _ _)
    have hv : v ∈ [x, y] := hp.mem_iff.mp (List.mem_cons_of_mem _ (List.mem_cons_self _ _))
    have hx : x ∈ [u, v] := hp.mem_iff.mpr (List.mem_cons_self _ _)
    have hy : y ∈ [u, v] := hp.mem_iff.mpr (List.mem_cons_of_mem _ (List.mem_cons_self _ _))
    simp only [List.mem_cons, List.mem_singleton, List.not_mem_nil, or_false] at hu hv hx hy
    rcases hu with hu | hu <;> rcases hv with hv | hv
    · subst hu; subst hv
      rcases hy with hy | hy <;> exact absurd hy.symm hxy
    · subst hu; subst hv; exact Or.inl rfl
    · subst hu; subst hv; exact Or.inr rfl
    · subst hu; subst hv
      rcases hx with hx | hx <;> exact absurd hx hxy
  · simp at hlen

/-- The comparator on the two trades of the worked example: only `B` before
`A` holds, since `10 * 10 < 3 * 100`. -/
theorem tradeLess_example (a b : PDETradeRequestAction)
    (ha : a.Meta.TradingFee = 10 ∧ a.Meta.SellAmount = 100)
    (hb : b.Meta.TradingFee = 3 ∧ b.Meta.SellAmount = 10) :
    tradeLess a a = false ∧ tradeLess b b = false ∧ tradeLess a b = false ∧
      tradeLess b a = true := by
  have h10 : int64 10 = 10 := by decide
  have h100 : int64 100 = 100 := by decide
  have h3 : int64 3 = 3 := by decide
  simp [tradeLess, ha.1, ha.2, hb.1, hb.2, h10, h100, h3]

/-- Every sort that meets the contract of `sort.Slice` puts the two trades of
the worked example in the order `B`, `A`. -/
theorem sortSlice_example
    (sortSlice : (PDETradeRequestAction → PDETradeRequestAction → Bool) →
      List PDETradeRequestAction → List PDETradeRequestAction)
    (hsort : SortSliceSpec sortSlice) (a b : PDETradeRequestAction)
    (ha : a.Meta.TradingFee = 10 ∧ a.Meta.SellAmount = 100)
    (hb : b.Meta.TradingFee = 3 ∧ b.Meta.SellAmount = 10) :
    sortSlice tradeLess [a, b] = [b, a] ∧ sortSlice tradeLess [b, a] = [b, a] := by
  obtain ⟨haa, hbb, hab, hba⟩ := tradeLess_example a b ha hb
  have hne : a ≠ b := by
    intro e; rw [e] at ha; have := ha.1; rw [hb.1] at this; omega
  have key : ∀ data : List PDETradeRequestAction, data.Perm [a, b] →
      sortSlice tradeLess data = [b, a] := by
    intro data hd
    have hmem : ∀ x ∈ data, x = a ∨ x = b := by
      intro x hx
      simpa using hd.mem_iff.mp hx
    have hsorted := hsort.sorted tradeLess data
      (by intro x hx; rcases hmem x hx with h | h <;> subst h <;> assumption)
      (by
        intro x hx y hy z hz
        rcases hmem x hx with h | h <;> rcases hmem y hy with h' | h' <;>
          rcases hmem z hz with h'' | h'' <;> subst h <;> subst h' <;> subst h'' <;>
          simp [haa, hbb, hab, hba])
      (by
        intro x hx y hy z hz
        rcases hmem x hx with h | h <;> rcases hmem y hy with h' | h' <;>
          rcases hmem z hz with h'' | h'' <;> subst h <;> subst h' <;> subst h'' <;>
          simp [haa, hbb, hab, hba])
    rcases perm_pair _ a b hne ((hsort.perm tradeLess data).trans hd) with h | h
    · rw [h] at hsorted
      simp [hba] at hsorted
    · exact h
  exact ⟨key _ (List.Perm.refl _), key _ (List.Perm.swap a b [])⟩

/-- C21. Worked example: for the two trades `A` (TradingFee 10, SellAmount 100)
and `B` (TradingFee 3, SellAmount 10) on the same existing pool with non-zero
reserves, `sortPDETradeInstsByFee` returns `B` before `A`, whichever of the two
comes first in the input. -/
theorem sortPDETradeInstsByFee_worked_example {ρ : Type}
    (sortSlice : (PDETradeRequestAction → PDETradeRequestAction → Bool) →
      List PDETradeRequestAction → List PDETradeRequestAction)
    (hsort : SortSliceSpec sortSlice)
    (decodeTrade : String → Option PDETradeRequestAction)
    (poolKey : PDETradeRequestAction → Key)
    (currentPDEState : CurrentPDEState ρ)
    (pdeTradeActionsByShardID : List (Nat × List Inst))
    (tradeA tradeB : PDETradeRequestAction)
    (hA : tradeA.Meta.TradingFee = 10 ∧ tradeA.Meta.SellAmount = 100)
    (hB : tradeB.Meta.TradingFee = 3 ∧ tradeB.Meta.SellAmount = 10)
    (hsame : poolKey tradeA = poolKey tradeB)
    (poolPair : PDEPoolPair)
    (hfound : mapFind currentPDEState.PDEPoolPairs (poolKey tradeA) = some (some poolPair))
    (hres1 : poolPair.Token1PoolValue ≠ 0) (hres2 : poolPair.Token2PoolValue ≠ 0)
    (hw : WellFormed pdeTradeActionsByShardID)
    (hbatch : discoveredTrades decodeTrade pdeTradeActionsByShardID = [tradeA, tradeB] ∨
      discoveredTrades decodeTrade pdeTradeActionsByShardID = [tradeB, tradeA]) :
    sortPDETradeInstsByFee sortSlice decodeTrade poolKey currentPDEState
      pdeTradeActionsByShardID = some [tradeB, tradeA] := by
  obtain ⟨out, hout⟩ := sortPDETradeInstsByFee_isSome sortSlice decodeTrade poolKey
    currentPDEState pdeTradeActionsByShardID hw
  have hbyp : poolBypassed currentPDEState.PDEPoolPairs (poolKey tradeA) = false :=
    (poolBypassed_eq_false_iff _ _).mpr ⟨poolPair, hfound, hres1, hres2⟩
  have e := sortPDETradeInstsByFee_eq sortSlice decodeTrade poolKey currentPDEState _ out hout
  obtain ⟨s1, s2⟩ := sortSlice_example sortSlice hsort tradeA tradeB hA hB
  have hkeys : poolKeysOf poolKey (discoveredTrades decodeTrade pdeTradeActionsByShardID)
      = [poolKey tradeA] := by
    apply eq_singleton_of_nodup _ _ (nodup_poolKeysOf _ _)
    intro k
    rw [mem_poolKeysOf]
    rcases hbatch with h | h <;> rw [h] <;> simp [← hsame] <;>
      exact ⟨fun h => h.symm, fun h => h.symm⟩
  rw [hout, e, hkeys]
  rcases hbatch with h | h
  · rw [h]
    simp [hbyp, ← hsame, s1]
  · rw [h]
    simp [hbyp, ← hsame, s2]

set_option maxRecDepth 100000 in
/-- Witness of C21: the sample payloads `C` (fee 10 for 100 sold) and `D` (fee 3
for 10 sold) on the funded sample pool, with the insertion sort and with the
sort of the Go library, from one shard and from two shards in the other order. -/
theorem sortPDETradeInstsByFee_worked_example_witness :
    sortPDETradeInstsByFee insertionSlice sampleDecode samplePoolKey sampleState
        [(0, [["91", "C"], ["91", "D"]])]
      = some [sampleTrade "Y" 3 10 "D", sampleTrade "Y" 10 100 "C"] ∧
    sortPDETradeInstsByFee sort_Slice sampleDecode samplePoolKey sampleState
        [(0, [["91", "C"], ["91", "D"]])]
      = some [sampleTrade "Y" 3 10 "D", sampleTrade "Y" 10 100 "C"] ∧
    sortPDETradeInstsByFee sort_Slice sampleDecode samplePoolKey sampleState
        [(1, [["91", "C"]]), (0, [["91", "D"]])]
      = some [sampleTrade "Y" 3 10 "D", sampleTrade "Y" 10 100 "C"] :=
  ⟨sortPDETradeInstsByFee_worked_example insertionSlice insertionSlice_spec sampleDecode
      samplePoolKey sampleState [(0, [["91", "C"], ["91", "D"]])]
      (sampleTrade "Y" 10 100 "C") (sampleTrade "Y" 3 10 "D") (by decide) (by decide)
      (by decide) { Token1IDStr := "X", Token1PoolValue := 1000, Token2IDStr := "Y",
                    Token2PoolValue := 2000 }
      (by decide) (by decide) (by decide) (by unfold WellFormed; decide)
      (Or.inl (by decide)),
   by decide, by decide⟩

/-! ## C22: the height comparison of a relayed header -/

/-- C22 (what the code does). The comparison of the two heights is made after
the declared `BlockHeight` is cast to a signed 64-bit integer: for a decodable
relaying action with a non-nil chain state and a decodable header whose
`Height` differs from the declared `BlockHeight` as an integer but equals its
cast, `buildInstructionsForHeaderRelaying` passes the header to
`ReceiveNewHeader`, returns the chain state that call leaves, and emits the
status the verification gives, which is an accepted one when the header is
found valid. -/
theorem buildInstructionsForHeaderRelaying_height_cast {acc ρ ψ χ η : Type}
    (E : Env acc ρ ψ χ η) (contentStr : String) (shardID : Nat) (metaType : Int) (chain : χ)
    (beaconHeight : Nat) (actionData : RelayingHeaderAction) (newHeader : BNBHeader η)
    (hdecodes : E.decodeRelayingAction contentStr = some actionData)
    (hheader : E.decodeBNBHeader actionData.Meta.Header = some newHeader)
    (hdiffer : newHeader.Height ≠ (actionData.Meta.BlockHeight : Int))
    (hcast : newHeader.Height = int64 actionData.Meta.BlockHeight) :
    buildInstructionsForHeaderRelaying E contentStr shardID metaType (some chain) beaconHeight
      = ([relayingInst E actionData shardID
            (if (E.ReceiveNewHeader chain newHeader).2.1 = true ∨
                (E.ReceiveNewHeader chain newHeader).1 = false then
              E.RelayingHeaderRejectedChainStatus
            else if E.LatestHeaderHeight (E.ReceiveNewHeader chain newHeader).2.2
                = int64Wrap (E.LatestHeaderHeight chain + 1) then
              E.RelayingHeaderConfirmedAcceptedChainStatus
            else E.RelayingHeaderUnconfirmedAcceptedChainStatus)],
          none, some (E.ReceiveNewHeader chain newHeader).2.2) := by
  have _ := hdiffer
  unfold buildInstructionsForHeaderRelaying
  simp only [hdecodes, hheader, hcast, ne_eq, not_true_eq_false, if_false]
  split_ifs <;> rfl

set_option maxRecDepth 100000 in
/-- Witness of C22: the sample action that declares the height `2 ^ 64 - 1`
with a header of height `-1` is accepted as confirmed, and the chain moves from
height 5 to height 6. -/
theorem buildInstructionsForHeaderRelaying_height_cast_witness :
    sampleEnv.decodeRelayingAction "Rmax"
      = some (sampleRelaying "Hneg" 18446744073709551615 0) ∧
    sampleEnv.decodeBNBHeader "Hneg" = some { Height := -1, body := (true, 6) } ∧
    (-1 : Int) ≠ ((18446744073709551615 : Nat) : Int) ∧
    buildInstructionsForHeaderRelaying sampleEnv "Rmax" 0 200 (some 5) 10
      = ([relayingInst sampleEnv (sampleRelaying "Hneg" 18446744073709551615 0) 0
            "confirmed"], none, some 6) :=
  ⟨by decide, by decide, by decide,
   (buildInstructionsForHeaderRelaying_height_cast sampleEnv "Rmax" 0 200 5 10
      (sampleRelaying "Hneg" 18446744073709551615 0) { Height := -1, body := (true, 6) }
      (by decide) (by decide) (by decide) (by decide)).trans (by decide)⟩

/-! ## C25: the slashing step of the swap rule -/

/-- The elements of `append(s, xs...)` are those of `s` followed by `xs`. -/
theorem goAppend_elems (growCap : Nat → Nat → Nat) (s : GoSlice) (xs : List String)
    (h : s.len ≤ s.array.length) :
    (goAppend growCap s xs).elems = s.elems ++ xs ∧
      (goAppend growCap s xs).len = s.len + xs.length ∧
      (goAppend growCap s xs).len ≤ (goAppend growCap s xs).array.length := by
  have hl : (s.array.take s.len).length = s.len := by
    rw [List.length_take]; omega
  unfold goAppend
  split_ifs with hfit
  · refine ⟨?_, rfl, ?_⟩
    · simp only [GoSlice.elems, writeAt]
      rw [List.append_assoc, List.take_append_eq_append_take, hl]
      have e1 : List.take (s.len + xs.length) (List.take s.len s.array)
          = List.take s.len s.array := by
        apply List.take_of_length_le; omega
      have e2 : s.len + xs.length - s.len = xs.length := by omega
      rw [e1, e2, List.take_append_eq_append_take, List.take_of_length_le (le_refl _)]
      simp
    · simp only [writeAt, List.length_append, List.length_take, List.length_drop]
      omega
  · refine ⟨?_, rfl, ?_⟩
    · simp only [GoSlice.elems]
      rw [List.take_append_of_le_length (by simp [hl])]
      apply List.take_of_length_le
      simp [hl]
    · simp [GoSlice.elems, hl]

/-- Once the slashing offset is used up the loop keeps every member. -/
theorem slashingLoop_of_nonpos {π : Type} (penalty : List (String × π))
    (flex : List String) (slashingOffset : Int) (h : slashingOffset ≤ 0) :
    slashingLoop penalty flex slashingOffset = (flex, []) := by
  induction flex with
  | nil => rfl
  | cons x rest ih =>
    have hn : ¬ ((mapFind penalty x).isSome ∧ slashingOffset > 0) := by
      intro hc; omega
    rw [slashingLoop, if_neg hn, ih]

/-- The loop of the slashing step: the members are processed in order; of a
first part `pre` every penalised member is slashed and the others are kept,
the remaining part `post` is kept whole, and it is not empty only when the
offset is used up. -/
theorem slashingLoop_spec {π : Type} (penalty : List (String × π)) (flex : List String)
    (slashingOffset : Int) (h0 : 0 ≤ slashingOffset) :
    ∃ pre post, flex = pre ++ post ∧
      (slashingLoop penalty flex slashingOffset).2
        = pre.filter (fun x => (mapFind penalty x).isSome) ∧
      (slashingLoop penalty flex slashingOffset).1
        = pre.filter (fun x => !(mapFind penalty x).isSome) ++ post ∧
      ((slashingLoop penalty flex slashingOffset).2.length : Int) ≤ slashingOffset ∧
      (post = [] ∨ ((slashingLoop penalty flex slashingOffset).2.length : Int)
        = slashingOffset) := by
  induction flex generalizing slashingOffset with
  | nil => exact ⟨[], [], rfl, rfl, rfl, by simpa using h0, Or.inl rfl⟩
  | cons x rest ih =>
    by_cases hp : (mapFind penalty x).isSome = true
    · by_cases hpos : slashingOffset > 0
      · obtain ⟨pre, post, e, h2, h1, hle, hor⟩ := ih (slashingOffset - 1) (by omega)
        refine ⟨x :: pre, post, by rw [e]; rfl, ?_, ?_, ?_, ?_⟩
        · rw [slashingLoop, if_pos ⟨hp, hpos⟩]
          simp only [List.filter_cons, hp, if_true]
          rw [h2]
        · rw [slashingLoop, if_pos ⟨hp, hpos⟩]
          simp only [List.filter_cons, hp, Bool.not_true, Bool.false_eq_true, if_false]
          rw [h1]
        · rw [slashingLoop, if_pos ⟨hp, hpos⟩]
          simp only [List.length_cons, Nat.cast_add, Nat.cast_one]
          omega
        · rw [slashingLoop, if_pos ⟨hp, hpos⟩]
          simp only [List.length_cons, Nat.cast_add, Nat.cast_one]
          rcases hor with h | h
          · exact Or.inl h
          · right; omega
      · have hz : slashingOffset = 0 := by omega
        rw [slashingLoop_of_nonpos penalty (x :: rest) slashingOffset (by omega)]
        exact ⟨[], x :: rest, rfl, rfl, rfl, by simp [hz], Or.inr (by simp [hz])⟩
    · obtain ⟨pre, post, e, h2, h1, hle, hor⟩ := ih slashingOffset h0
      have hn : ¬ ((mapFind penalty x).isSome ∧ slashingOffset > 0) := fun hc => hp hc.1
      refine ⟨x :: pre, post, by rw [e]; rfl, ?_, ?_, ?_, ?_⟩
      · rw [slashingLoop, if_neg hn]
        simp only [List.filter_cons, hp, Bool.false_eq_true, if_false]
        rw [h2]
      · rw [slashingLoop, if_neg hn]
        simp only [List.filter_cons, hp, Bool.not_false, if_true]
        rw [h1]; rfl
      · rw [slashingLoop, if_neg hn]
        exact hle
      · rw [slashingLoop, if_neg hn]
        exact hor

/-- The slashing offset when the number of fixed validators is at most the
length of the committee and the percent is positive: 0 when the length is the
minimum size or the number of fixed validators, and else the smaller of
`floor(len / percent)` and `len - fixed`. -/
theorem getSlashingOffset_eq (len fixed percent : Nat) (minCommitteeSize : Int)
    (hfixed : fixed ≤ len) (hpercent : 0 < percent) :
    getSlashingOffset len minCommitteeSize fixed percent
      = some (((if (len : Int) = minCommitteeSize ∨ len = fixed then 0
          else min (len / percent) (len - fixed) : Nat) : Nat) : Int) := by
  unfold getSlashingOffset goDiv
  by_cases h1 : (len : Int) = minCommitteeSize
  · simp [h1]
  · rw [if_neg h1]
    by_cases h2 : len = fixed
    · simp [h2]
    · have h2' : ¬ ((len : Int) = (fixed : Int)) := by omega
      have hp : ¬ ((percent : Int) = 0) := by omega
      rw [if_neg h2', if_neg hp, if_neg (by tauto)]
      simp only [← Int.ofNat_tdiv]
      have hq : ((len / percent : Nat) : Int) = ((len : Int) / (percent : Int)) := by simp
      by_cases h3 : (fixed : Int) + ((len / percent : Nat) : Int) > (len : Int)
      · rw [if_pos h3]
        have : min (len / percent) (len - fixed) = len - fixed := by
          apply min_eq_right; omega
        rw [this]
        congr 1
        omega
      · rw [if_neg h3]
        have : min (len / percent) (len - fixed) = len / percent := by
          apply min_eq_left; omega
        rw [this]

/-- C25. For every committee list with `numberOfFixedValidators` at most its
length, every penalty map and every positive `maxSlashOutPercent`, the slashing
step returns, and it removes only members outside the first
`numberOfFixedValidators` positions that have an entry in the penalty map,
taking the earliest such members in committee order: of a first part `pre` of
the flexible members all the penalised ones are slashed, and the rest `post` is
kept whole and is non-empty only when the bound is reached. The slashed members
are at most `min(floor(len / maxSlashOutPercent), len - numberOfFixedValidators)`,
and none when the length equals `minCommitteeSize` or `numberOfFixedValidators`;
the fixed validators stay a prefix of the new committee and the other
survivors keep their order. -/
theorem slashingSwapOut_spec {π : Type} (growCap : Nat → Nat → Nat)
    (committees : List String) (penalty : List (String × π)) (minCommitteeSize : Int)
    (numberOfFixedValidators maxSlashOutPercent : Nat)
    (hfixed : numberOfFixedValidators ≤ committees.length)
    (hpercent : 0 < maxSlashOutPercent) :
    ∃ newCommittees slashingCommittees pre post,
      slashingSwapOut growCap committees penalty minCommitteeSize numberOfFixedValidators
        maxSlashOutPercent = some (newCommittees, slashingCommittees) ∧
      committees.drop numberOfFixedValidators = pre ++ post ∧
      slashingCommittees = pre.filter (fun x => (mapFind penalty x).isSome) ∧
      newCommittees.elems = committees.take numberOfFixedValidators ++
        (pre.filter (fun x => !(mapFind penalty x).isSome) ++ post) ∧
      (post = [] ∨ slashingCommittees.length
        = if (committees.length : Int) = minCommitteeSize ∨
            committees.length = numberOfFixedValidators then 0
          else min (committees.length / maxSlashOutPercent)
            (committees.length - numberOfFixedValidators)) ∧
      slashingCommittees.length ≤ min (committees.length / maxSlashOutPercent)
        (committees.length - numberOfFixedValidators) ∧
      (((committees.length : Int) = minCommitteeSize ∨
          committees.length = numberOfFixedValidators) → slashingCommittees = []) ∧
      (∀ x ∈ slashingCommittees, (mapFind penalty x).isSome = true ∧
        x ∈ committees.drop numberOfFixedValidators) ∧
      committees.take numberOfFixedValidators <+: newCommittees.elems ∧
      (newCommittees.elems.drop numberOfFixedValidators).Sublist
        (committees.drop numberOfFixedValidators) := by
  obtain ⟨bound, hb, hoff⟩ : ∃ bound : Nat,
      bound = (if (committees.length : Int) = minCommitteeSize ∨
          committees.length = numberOfFixedValidators then 0
        else min (committees.length / maxSlashOutPercent)
          (committees.length - numberOfFixedValidators)) ∧
      getSlashingOffset committees.length minCommitteeSize numberOfFixedValidators
        maxSlashOutPercent = some (bound : Int) :=
    ⟨_, rfl, getSlashingOffset_eq committees.length numberOfFixedValidators
      maxSlashOutPercent minCommitteeSize hfixed hpercent⟩
  obtain ⟨pre, post, e, h2, h1, hle, hor⟩ := slashingLoop_spec penalty
    (committees.drop numberOfFixedValidators) (bound : Int) (Int.natCast_nonneg _)
  have hrange : (0 : Int) ≤ (numberOfFixedValidators : Int) ∧
      (numberOfFixedValidators : Int) ≤ (committees.length : Int) := by omega
  have hlt : (committees.take numberOfFixedValidators).length = numberOfFixedValidators := by
    rw [List.length_take]; omega
  obtain ⟨ha1, _, _⟩ := goAppend_elems growCap
    (GoSlice.mk (committees.take numberOfFixedValidators)
      (committees.take numberOfFixedValidators).length)
    (pre.filter (fun x => !(mapFind penalty x).isSome) ++ post) (le_refl _)
  have helems : (GoSlice.mk (committees.take numberOfFixedValidators)
      (committees.take numberOfFixedValidators).length).elems
      = committees.take numberOfFixedValidators := by
    simp [GoSlice.elems]
  rw [helems] at ha1
  have hle' : (slashingLoop penalty (committees.drop numberOfFixedValidators)
      (bound : Int)).2.length ≤ bound := by exact_mod_cast hle
  refine ⟨goAppend growCap (GoSlice.mk (committees.take numberOfFixedValidators)
      (committees.take numberOfFixedValidators).length)
      (pre.filter (fun x => !(mapFind penalty x).isSome) ++ post),
    (slashingLoop penalty (committees.drop numberOfFixedValidators) (bound : Int)).2,
    pre, post, ?_, e, h2, ha1, ?_, ?_, ?_, ?_, ?_, ?_⟩
  · unfold slashingSwapOut
    rw [if_pos hrange, hoff]
    simp only [Int.toNat_ofNat]
    rw [h1]
  · rcases hor with h | h
    · exact Or.inl h
    · right
      rw [← hb]
      exact_mod_cast h
  · refine le_trans hle' ?_
    rw [hb]
    split_ifs
    · exact Nat.zero_le _
    · exact le_refl _
  · intro hsp
    have hz : bound = 0 := by rw [hb, if_pos hsp]
    rw [hz] at hle'
    rw [hz]
    exact List.length_eq_zero.mp (Nat.le_zero.mp hle')
  · intro x hx
    rw [h2, List.mem_filter] at hx
    refine ⟨hx.2, ?_⟩
    rw [e]
    exact List.mem_append_left _ hx.1
  · rw [ha1]
    exact List.prefix_append _ _
  · rw [ha1, List.drop_append_of_le_length (by omega), List.drop_of_length_le (by omega),
      List.nil_append, e]
    exact List.Sublist.append (List.filter_sublist _) (List.Sublist.refl _)

set_option maxRecDepth 100000 in
/-- Witness of C25: of the seventeen sample members with two fixed ones and
the percent 3, the penalised `c5`, `c9` and `c12` are slashed, the penalised
fixed member `c1` is not; with the percent 9 the bound is 1 and only `c5` is
slashed. -/
theorem slashingSwapOut_spec_witness :
    (slashingSwapOut sampleGrowCap sampleCommittee17
        [("c9", ()), ("c1", ()), ("c5", ()), ("c12", ())] 4 2 3).map
          (fun r => (r.1.elems, r.2))
      = some (["c0", "c1", "c2", "c3", "c4", "c6", "c7", "c8", "c10", "c11", "c13", "c14",
          "c15", "c16"], ["c5", "c9", "c12"]) ∧
    (slashingSwapOut sampleGrowCap sampleCommittee17
        [("c9", ()), ("c1", ()), ("c5", ()), ("c12", ())] 4 2 9).map
          (fun r => (r.1.elems, r.2))
      = some (["c0", "c1", "c2", "c3", "c4", "c6", "c7", "c8", "c9", "c10", "c11", "c12",
          "c13", "c14", "c15", "c16"], ["c5"]) ∧
    ∃ newCommittees slashingCommittees,
      slashingSwapOut sampleGrowCap sampleCommittee17
        [("c9", ()), ("c1", ()), ("c5", ()), ("c12", ())] 4 (2 : Nat) (3 : Nat)
          = some (newCommittees, slashingCommittees) ∧
      slashingCommittees.length ≤ min (17 / 3) (17 - 2) :=
  ⟨by decide, by decide,
   (slashingSwapOut_spec sampleGrowCap sampleCommittee17
      [("c9", ()), ("c1", ()), ("c5", ()), ("c12", ())] 4 2 3 (by decide) (by decide)).imp
    (fun _ h => h.imp (fun _ h => by
      obtain ⟨pre, post, h1, _, _, _, _, h6, _⟩ := h
      exact ⟨h1, h6⟩))⟩

/-! ## C23: the members reported as normally swapped out -/

/-- The elements of a slice that ends where the padding of its array starts. -/
theorem elems_mk_append (a pad : List String) :
    (GoSlice.mk (a ++ pad) a.length).elems = a := by
  simp [GoSlice.elems]

/-- C23 (what the code does). When the normal swap out removes `k` members
behind the `fixed` first ones of a committee of `len` members, the new
committee is the old one without the members at the positions `fixed` to
`fixed + k - 1`, but the reported list is read from the backing array after
the members behind them were moved forward in it: its entry `j` is the member
that stood at the position `fixed + k + j`, which stays in the new committee,
as long as such a member exists, and not the removed member of the position
`fixed + j`. -/
theorem normalSwapOut_reported (growCap : Nat → Nat → Nat) (committees : GoSlice)
    (substitutes : List String)
    (lenBeforeSlashedCommittees lenSlashedCommittees maxSwapOutPercent
      minCommitteeSize : Int) (fixed k : Nat)
    (hlen : committees.len ≤ committees.array.length)
    (hoffset : getNormalSwapOutOffset lenBeforeSlashedCommittees substitutes.length
      lenSlashedCommittees maxSwapOutPercent fixed minCommitteeSize = some (k : Int))
    (hk : fixed + k ≤ committees.len) :
    ∃ resCommittees,
      normalSwapOut growCap committees substitutes lenBeforeSlashedCommittees
        lenSlashedCommittees maxSwapOutPercent fixed minCommitteeSize
          = some (resCommittees, fixed, fixed + k) ∧
      resCommittees.elems
        = committees.elems.take fixed ++ committees.elems.drop (fixed + k) ∧
      window resCommittees.array fixed (fixed + k)
        = (committees.elems.drop (fixed + k) ++
            committees.elems.drop (committees.len - k)).take k ∧
      ∀ j, j < k → fixed + k + j < committees.len →
        (window resCommittees.array fixed (fixed + k))[j]?
          = committees.elems[fixed + k + j]? ∧
        (window resCommittees.array fixed (fixed + k))[j]?
          = resCommittees.elems[fixed + j]? := by
  have hel : committees.elems.length = committees.len := by
    simp only [GoSlice.elems, List.length_take]; omega
  have harr : committees.array = committees.elems ++ committees.array.drop committees.len := by
    simp only [GoSlice.elems]; rw [List.take_append_drop]
  have hcond : 0 ≤ (fixed : Int) ∧ (fixed : Int) ≤ committees.array.length ∧
      0 ≤ (fixed : Int) + (k : Int) ∧ (fixed : Int) + (k : Int) ≤ committees.len ∧
      (fixed : Int) ≤ (fixed : Int) + (k : Int) ∧
      (fixed : Int) + (k : Int) ≤ committees.array.length := by
    refine ⟨?_, ?_, ?_, ?_, ?_, ?_⟩ <;> omega
  have ht1 : ((fixed : Int)).toNat = fixed := Int.toNat_ofNat _
  have ht2 : ((fixed : Int) + (k : Int)).toNat = fixed + k := by omega
  have hfit : fixed + (committees.elems.drop (fixed + k)).length ≤ committees.array.length := by
    rw [List.length_drop, hel]; omega
  have htake : committees.array.take fixed = committees.elems.take fixed := by
    simp only [GoSlice.elems, List.take_take]
    congr 1
    omega
  have hres : goAppend growCap (GoSlice.mk committees.array fixed)
      (committees.elems.drop (fixed + k))
      = GoSlice.mk (committees.elems.take fixed ++ committees.elems.drop (fixed + k) ++
          committees.array.drop (committees.len - k))
        (fixed + (committees.elems.drop (fixed + k)).length) := by
    unfold goAppend
    rw [if_pos hfit]
    simp only [writeAt, htake]
    congr 3
    rw [List.length_drop, hel]
    omega
  have hdropk : committees.array.drop (committees.len - k)
      = committees.elems.drop (committees.len - k) ++ committees.array.drop committees.len := by
    conv_lhs => rw [harr]
    rw [List.drop_append_of_le_length (by rw [hel]; omega)]
  have hA : (committees.elems.take fixed).length = fixed := by
    rw [List.length_take, hel]; omega
  have hwin : window (committees.elems.take fixed ++ committees.elems.drop (fixed + k) ++
        committees.array.drop (committees.len - k)) fixed (fixed + k)
      = (committees.elems.drop (fixed + k) ++
          committees.elems.drop (committees.len - k)).take k := by
    unfold window
    rw [List.append_assoc, List.take_append_eq_append_take, hA,
      List.take_of_length_le (by omega), List.drop_append_of_le_length (by omega),
      List.drop_of_length_le (by omega), List.nil_append]
    have : fixed + k - fixed = k := by omega
    rw [this, hdropk, ← List.append_assoc]
    apply List.take_append_of_le_length
    rw [List.length_append, List.length_drop, List.length_drop, hel]
    omega
  have helems : (GoSlice.mk (committees.elems.take fixed ++
        committees.elems.drop (fixed + k) ++ committees.array.drop (committees.len - k))
        (fixed + (committees.elems.drop (fixed + k)).length)).elems
      = committees.elems.take fixed ++ committees.elems.drop (fixed + k) := by
    have hlen2 : fixed + (committees.elems.drop (fixed + k)).length
        = (committees.elems.take fixed ++ committees.elems.drop (fixed + k)).length := by
      rw [List.length_append, hA]
    rw [hlen2]
    exact elems_mk_append _ _
  refine ⟨_, ?_, helems, hwin, ?_⟩
  · unfold normalSwapOut
    rw [hoffset]
    simp only [if_pos hcond, ht1, ht2, hres]
  · intro j hj hjl
    rw [hwin, helems]
    have h1 : ((committees.elems.drop (fixed + k) ++
        committees.elems.drop (committees.len - k)).take k)[j]?
        = committees.elems[fixed + k + j]? := by
      rw [List.getElem?_take_of_lt hj, List.getElem?_append_left (by
        rw [List.length_drop, hel]; omega), List.getElem?_drop]
    refine ⟨h1, ?_⟩
    rw [h1, List.getElem?_append_right (by rw [hA]; omega), hA, List.getElem?_drop]
    congr 1
    omega

set_option maxRecDepth 100000 in
/-- Witness of C23: seventeen members of which two are fixed, one substitute
and no penalty. The member `c2` is removed from the committee, the reported
member is `c3`, which stays in the committee; this for every growth of the
capacity. -/
theorem normalSwapOut_reported_witness :
    (∀ growCap : Nat → Nat → Nat,
      ∃ resCommittees,
        normalSwapOut growCap
          { array := sampleCommittee17, len := 17 } ["s0"] 17 0 8 (2 : Nat) 4
            = some (resCommittees, 2, 2 + 1) ∧
        resCommittees.elems = ["c0", "c1", "c3", "c4", "c5", "c6", "c7", "c8", "c9", "c10",
          "c11", "c12", "c13", "c14", "c15", "c16"] ∧
        window resCommittees.array 2 (2 + 1) = ["c3"]) ∧
    GenInstructions sampleSwapConstants sampleGrowCap ([], [], 0, 0) sampleSwapInstruction 0
        sampleCommittee17 ["s0"] 4 20 1 2 ([] : List (String × Unit))
      = some { swapShardInstruction := (["s0"], ["c3"], 0, 1),
               newCommittees := ["c0", "c1", "c3", "c4", "c5", "c6", "c7", "c8", "c9", "c10",
                 "c11", "c12", "c13", "c14", "c15", "c16", "s0"],
               newSubstitutes := [],
               slashingCommittees := [],
               normalSwapOutCommittees := ["c3"] } :=
  ⟨fun growCap =>
    (normalSwapOut_reported growCap { array := sampleCommittee17, len := 17 } ["s0"] 17 0 8 4
      2 1 (by decide) (by decide) (by decide)).imp
      (fun _ h => ⟨h.1, h.2.1.trans (by decide), h.2.2.1.trans (by decide)⟩),
   by decide⟩

/-! ## C24: the swap in after the swap out -/

/-- C24 (what the code does). The call of `swapInAfterSwapOut` in
`GenInstructions` passes `maxCommitteeSize` where the method takes
`numberOfFixedValidators` and the reverse, so that the swap-in offset is
bounded by `numberOfFixedValidators - len` instead of `maxCommitteeSize - len`.
Whenever the committee left by the swap out has a member beyond the fixed ones
and the substitutes are not fewer than `floor(len / MAX_SWAP_IN_PERCENT)`, the
offset is negative, the slice expression on the substitutes is out of range
and `GenInstructions` panics. -/
theorem GenInstructions_swapIn_out_of_range {π ι : Type} (K : SwapRuleConstants)
    (growCap : Nat → Nat → Nat) (NewSwapShardInstruction : ι)
    (NewSwapShardInstructionWithValue : List String → List String → Int → Int → ι)
    (shardID : Nat) (committees substitutes : List String)
    (minCommitteeSize maxCommitteeSize typeIns numberOfFixedValidators : Int)
    (penalty : List (String × π))
    (newCommittees : GoSlice) (slashingCommittees : List String)
    (committeesAfterSwapOut : GoSlice) (lo hi : Nat)
    (hslash : slashingSwapOut growCap committees penalty minCommitteeSize
      numberOfFixedValidators K.MAX_SLASH_PERCENT = some (newCommittees, slashingCommittees))
    (hout : normalSwapOut growCap newCommittees substitutes committees.length
      slashingCommittees.length K.MAX_SWAP_OUT_PERCENT numberOfFixedValidators
      minCommitteeSize = some (committeesAfterSwapOut, lo, hi))
    (hflex : numberOfFixedValidators < committeesAfterSwapOut.len)
    (hpercent : 0 < K.MAX_SWAP_IN_PERCENT)
    (hsubs : (committeesAfterSwapOut.len : Int).tdiv K.MAX_SWAP_IN_PERCENT
      ≤ substitutes.length) :
    GenInstructions K growCap NewSwapShardInstruction NewSwapShardInstructionWithValue shardID
      committees substitutes minCommitteeSize maxCommitteeSize typeIns
      numberOfFixedValidators penalty = none := by
  have hq : 0 ≤ (committeesAfterSwapOut.len : Int).tdiv K.MAX_SWAP_IN_PERCENT :=
    Int.tdiv_nonneg (Int.natCast_nonneg _) (le_of_lt hpercent)
  have hoff : getSwapInOffset committeesAfterSwapOut.len substitutes.length
      K.MAX_SWAP_IN_PERCENT numberOfFixedValidators
      = some (numberOfFixedValidators - committeesAfterSwapOut.len) := by
    unfold getSwapInOffset goDiv
    rw [if_neg (ne_of_gt hpercent)]
    simp only
    rw [if_neg (by omega), if_pos (by omega)]
  have hin : swapInAfterSwapOut growCap committeesAfterSwapOut substitutes
      K.MAX_SWAP_IN_PERCENT maxCommitteeSize numberOfFixedValidators = none := by
    unfold swapInAfterSwapOut
    rw [hoff]
    simp only
    rw [if_neg (by omega)]
  unfold GenInstructions
  rw [hslash]
  simp only
  rw [hout]
  simp only
  rw [hin]

set_option maxRecDepth 100000 in
/-- Witness of C24: a committee of four members at its minimum size with two
fixed validators, four substitutes and room for eight members: nothing is
swapped out, and the swap in panics. The second part is another slice
expression out of range: with sixteen of seventeen members fixed and three
substitutes the swap-out offset is 2, and `normalSwapOut` slices the committee
from the position 18 on. -/
theorem GenInstructions_swapIn_out_of_range_witness :
    GenInstructions sampleSwapConstants sampleGrowCap ([], [], 0, 0) sampleSwapInstruction 0
        ["c0", "c1", "c2", "c3"] ["s0", "s1", "s2", "s3"] 4 8 1 2 ([] : List (String × Unit))
      = none ∧
    (slashingSwapOut sampleGrowCap sampleCommittee17 ([] : List (String × Unit)) 4 16 3).map
        (fun r => (r.1.elems, r.2)) = some (sampleCommittee17, []) ∧
    getNormalSwapOutOffset 17 3 0 8 16 4 = some 2 ∧
    normalSwapOut sampleGrowCap { array := sampleCommittee17, len := 17 } ["s0", "s1", "s2"]
        17 0 8 16 4 = none ∧
    GenInstructions sampleSwapConstants sampleGrowCap ([], [], 0, 0) sampleSwapInstruction 0
        sampleCommittee17 ["s0", "s1", "s2"] 4 20 1 16 ([] : List (String × Unit)) = none :=
  ⟨GenInstructions_swapIn_out_of_range sampleSwapConstants sampleGrowCap ([], [], 0, 0)
      sampleSwapInstruction 0 ["c0", "c1", "c2", "c3"] ["s0", "s1", "s2", "s3"] 4 8 1 2
      ([] : List (String × Unit))
      { array := ["c0", "c1", "c2", "c3"], len := 4 } []
      { array := ["c0", "c1", "c2", "c3"], len := 4 } 2 2
      (by decide) (by decide) (by decide) (by decide) (by decide),
   by decide, by decide, by decide, by decide⟩

/-! ## C26: what a passed check of the validation data says -/

/-- The loop over the neighbouring pairs passes exactly on the strictly
increasing lists. -/
theorem checkValidatorsIdxOrder_iff (l : List Int) :
    checkValidatorsIdxOrder l = true ↔ l.Chain' (· < ·) := by
  induction l with
  | nil => simp [checkValidatorsIdxOrder]
  | cons a t ih =>
    cases t with
    | nil => simp [checkValidatorsIdxOrder]
    | cons b rest =>
      rw [checkValidatorsIdxOrder, List.chain'_cons, ← ih]
      by_cases h : a ≥ b
      · simp [h, not_lt.mpr h]
      · simp [h, not_le.mp h]

/-- C26 (as amended). For every validation data and committee, whenever
`CheckValidationDataWithCommittee` returns true the committee is non-empty, the
list `ValidatiorsIdx` has at least `floor(2 * len(committee) / 3) + 1` entries
and its entries are strictly increasing, hence pairwise distinct; and these
three conditions are all the check asks: whether an entry is a position of the
committee is not examined. -/
theorem CheckValidationDataWithCommittee_true {κ : Type} (valData : ValidationData)
    (committee : List κ)
    (hcheck : CheckValidationDataWithCommittee valData committee = true) :
    committee ≠ [] ∧
    2 * committee.length / 3 + 1 ≤ valData.ValidatiorsIdx.length ∧
    valData.ValidatiorsIdx.Pairwise (· < ·) ∧
    valData.ValidatiorsIdx.Nodup ∧
    ∀ (other : ValidationData),
      other.ValidatiorsIdx.length = valData.ValidatiorsIdx.length →
      other.ValidatiorsIdx.Pairwise (· < ·) →
      CheckValidationDataWithCommittee other committee = true := by
  unfold CheckValidationDataWithCommittee at hcheck
  split_ifs at hcheck with h1 h2
  have hc := (checkValidatorsIdxOrder_iff _).mp hcheck
  have hp : valData.ValidatiorsIdx.Pairwise (· < ·) := List.chain'_iff_pairwise.mp hc
  refine ⟨?_, ?_, hp, ?_, ?_⟩
  · intro e; rw [e] at h1; simp at h1
  · rw [Nat.mul_comm]; omega
  · exact hp.imp (fun h => ne_of_lt h)
  · intro other hlen ho
    unfold CheckValidationDataWithCommittee
    rw [if_neg h1, hlen, if_neg h2]
    exact (checkValidatorsIdxOrder_iff _).mpr (List.chain'_iff_pairwise.mpr ho)

/-- Witness of C26 as amended: three increasing positions pass for a committee
of four. -/
theorem CheckValidationDataWithCommittee_true_witness :
    (["k0", "k1", "k2", "k3"] : List String) ≠ [] ∧
    2 * 4 / 3 + 1 ≤ [(0 : Int), 2, 3].length ∧
    [(0 : Int), 2, 3].Pairwise (· < ·) :=
  have h := CheckValidationDataWithCommittee_true
    { ProducerBLSSig := [], ProducerBriSig := [], ValidatiorsIdx := [0, 2, 3], AggSig := [],
      BridgeSig := [] } ["k0", "k1", "k2", "k3"] (by decide)
  ⟨h.1, h.2.1, h.2.2.1⟩

/-- C26, counterexample. For a committee of one member the check passes with
the single entry 5, and with the single entry -1: neither is a position of the
committee. -/
theorem CheckValidationDataWithCommittee_true_counterexample :
    CheckValidationDataWithCommittee
      { ProducerBLSSig := [], ProducerBriSig := [], ValidatiorsIdx := [5], AggSig := [],
        BridgeSig := [] } ["k0"] = true ∧
    ¬ (∀ entry ∈ [(5 : Int)], 0 ≤ entry ∧ entry < ((["k0"] : List String).length : Int)) ∧
    CheckValidationDataWithCommittee
      { ProducerBLSSig := [], ProducerBriSig := [], ValidatiorsIdx := [-1], AggSig := [],
        BridgeSig := [] } ["k0"] = true ∧
    ¬ (∀ entry ∈ [(-1 : Int)], 0 ≤ entry ∧ entry < ((["k0"] : List String).length : Int)) := by
  decide

/-! ## C29: one instruction justifies one response -/

/-- The body of the loop reaches `idx = i` exactly under the conditions of
`Justifies` on the fields, the use mark and the content. -/
theorem withdrawRewardInstMatches_iff (E : WithdrawRewardEnv)
    (iRes : PortalWithdrawRewardResponse) (shardID : Nat) (tx : TransferTx) (used : Int)
    (instMetaType instDepositStatus content : String) :
    withdrawRewardInstMatches E iRes shardID tx used instMetaType instDepositStatus content
        = true ↔
      used ≤ 0 ∧ instMetaType = E.Itoa E.PortalRequestWithdrawRewardMeta ∧
      instDepositStatus = E.PortalRequestAcceptedChainStatus ∧
      ∃ reqContent, E.unmarshalContent content = some reqContent ∧
        reqContent.TxReqID = iRes.TxReqID ∧ reqContent.ShardID = shardID ∧
        E.Base58CheckDeserialize reqContent.CustodianAddressStr = some tx.pk ∧
        reqContent.RewardAmount = tx.paidAmount ∧
        E.hashString reqContent.TokenID = E.hashString tx.assetID := by
  unfold withdrawRewardInstMatches
  by_cases h1 : used > 0 ∨ instMetaType ≠ E.Itoa E.PortalRequestWithdrawRewardMeta
  · rw [if_pos h1]
    constructor
    · intro h; cases h
    · rintro ⟨hu, hm, _⟩
      rcases h1 with h | h
      · omega
      · exact absurd hm h
  rw [if_neg h1]
  rw [not_or, not_lt, not_not] at h1
  by_cases h2 : instDepositStatus ≠ E.PortalRequestAcceptedChainStatus
  · rw [if_pos h2]
    constructor
    · intro h; cases h
    · rintro ⟨_, _, hs, _⟩
      exact absurd hs h2
  rw [if_neg h2]
  rw [not_not] at h2
  cases hc : E.unmarshalContent content with
  | none => simp
  | some c =>
    simp only [Option.some.injEq, exists_eq_left']
    by_cases h3 : ¬ (iRes.TxReqID = c.TxReqID) ∨ shardID ≠ c.ShardID
    · rw [if_pos h3]
      constructor
      · intro h; cases h
      · rintro ⟨_, _, _, ht, hs, _⟩
        rcases h3 with h | h
        · exact absurd ht.symm h
        · exact absurd hs.symm h
    rw [if_neg h3]
    rw [not_or, not_not, not_not] at h3
    cases hk : E.Base58CheckDeserialize c.CustodianAddressStr with
    | none => simp
    | some key =>
      simp only [Option.some.injEq]
      by_cases h4 : ¬ (key = tx.pk) ∨ c.RewardAmount ≠ tx.paidAmount ∨
          E.hashString c.TokenID ≠ E.hashString tx.assetID
      · rw [if_pos h4]
        constructor
        · intro h; cases h
        · rintro ⟨_, _, _, _, _, hk', ha, ht⟩
          rcases h4 with h | h | h
          · exact absurd hk' h
          · exact absurd ha h
          · exact absurd ht h
      · rw [if_neg h4]
        rw [not_or, not_or, not_not, not_not, not_not] at h4
        simp [h1.1, h1.2, h2, h3.1.symm, h3.2.symm, h4.1, h4.2.1, h4.2.2]

/-- The loop from the index `i` on, when every instruction has a use mark: it
ends without a panic; a found index is the first one from `i` on that
justifies the response, and `-1` says that none does. The list `pre` is the
part of the instruction list before `i`. -/
theorem findWithdrawRewardInst_spec (E : WithdrawRewardEnv)
    (iRes : PortalWithdrawRewardResponse) (shardID : Nat) (tx : TransferTx)
    (instUsed : List Int) (post pre : List Inst)
    (hlen : (pre ++ post).length ≤ instUsed.length) :
    (∃ idx, findWithdrawRewardInst E iRes shardID tx instUsed pre.length post
          = some (some idx) ∧ pre.length ≤ idx ∧
        Justifies E iRes shardID tx (pre ++ post) instUsed idx ∧
        ∀ j, pre.length ≤ j → j < idx →
          ¬ Justifies E iRes shardID tx (pre ++ post) instUsed j) ∨
    (findWithdrawRewardInst E iRes shardID tx instUsed pre.length post = some none ∧
      ∀ j, pre.length ≤ j → ¬ Justifies E iRes shardID tx (pre ++ post) instUsed j) := by
  induction post generalizing pre with
  | nil =>
    right
    refine ⟨rfl, ?_⟩
    rintro j hj ⟨a, b, c, d, r, u, q, hget, _⟩
    rw [List.append_nil] at hget
    have := (List.getElem?_eq_some_iff.mp hget).1
    omega
  | cons inst rest ih =>
    have hpre : (pre ++ [inst]).length = pre.length + 1 := by simp
    have happ : pre ++ [inst] ++ rest = pre ++ inst :: rest := by simp
    have ih' := ih (pre ++ [inst]) (by rw [happ]; exact hlen)
    rw [hpre, happ] at ih'
    have hat : (pre ++ inst :: rest)[pre.length]? = some inst := by
      rw [List.getElem?_append_right (le_refl _)]
      simp
    -- the step when the body does not reach `idx = i`
    have skip : (¬ Justifies E iRes shardID tx (pre ++ inst :: rest) instUsed pre.length) →
        findWithdrawRewardInst E iRes shardID tx instUsed pre.length (inst :: rest)
          = findWithdrawRewardInst E iRes shardID tx instUsed (pre.length + 1) rest →
        (∃ idx, findWithdrawRewardInst E iRes shardID tx instUsed pre.length (inst :: rest)
              = some (some idx) ∧ pre.length ≤ idx ∧
            Justifies E iRes shardID tx (pre ++ inst :: rest) instUsed idx ∧
            ∀ j, pre.length ≤ j → j < idx →
              ¬ Justifies E iRes shardID tx (pre ++ inst :: rest) instUsed j) ∨
        (findWithdrawRewardInst E iRes shardID tx instUsed pre.length (inst :: rest)
            = some none ∧
          ∀ j, pre.length ≤ j →
            ¬ Justifies E iRes shardID tx (pre ++ inst :: rest) instUsed j) := by
      intro hnot heq
      rw [heq]
      rcases ih' with ⟨idx, h1, h2, h3, h4⟩ | ⟨h1, h2⟩
      · left
        refine ⟨idx, h1, by omega, h3, ?_⟩
        intro j hj hji
        rcases Nat.eq_or_lt_of_le hj with e | l
        · rw [← e]; exact hnot
        · exact h4 j l hji
      · right
        refine ⟨h1, ?_⟩
        intro j hj
        rcases Nat.eq_or_lt_of_le hj with e | l
        · rw [← e]; exact hnot
        · exact h2 j l
    have hshort : ∀ l : List String, l.length < 4 → inst = l →
        ¬ Justifies E iRes shardID tx (pre ++ inst :: rest) instUsed pre.length := by
      rintro l hl he ⟨a, b, c, d, r, u, q, hget, _⟩
      rw [hat, he] at hget
      have := Option.some.inj hget
      rw [this] at hl
      simp only [List.length_cons] at hl
      omega
    rcases inst with _ | ⟨f0, _ | ⟨f1, _ | ⟨f2, _ | ⟨f3, more⟩⟩⟩⟩
    · exact skip (hshort [] (by simp) rfl)
        (by rw [findWithdrawRewardInst]; simp)
    · exact skip (hshort [f0] (by simp) rfl)
        (by rw [findWithdrawRewardInst]; simp)
    · exact skip (hshort [f0, f1] (by simp) rfl)
        (by rw [findWithdrawRewardInst]; simp)
    · exact skip (hshort [f0, f1, f2] (by simp) rfl)
        (by rw [findWithdrawRewardInst]; simp)
    · have hlt : pre.length < instUsed.length := by
        have : (pre ++ (f0 :: f1 :: f2 :: f3 :: more) :: rest).length
            = pre.length + rest.length + 1 := by simp; omega
        omega
      obtain ⟨used, hused⟩ : ∃ used, instUsed[pre.length]? = some used :=
        ⟨instUsed[pre.length], List.getElem?_eq_getElem hlt⟩
      have hiff : Justifies E iRes shardID tx (pre ++ (f0 :: f1 :: f2 :: f3 :: more) :: rest)
          instUsed pre.length ↔
          withdrawRewardInstMatches E iRes shardID tx used f0 f2 f3 = true := by
        rw [withdrawRewardInstMatches_iff]
        constructor
        · rintro ⟨a, b, c, d, r, u, q, hget, hu, hle, hm, hs, hc, h5, h6, h7, h8, h9⟩
          rw [hat] at hget
          have e := Option.some.inj hget
          injection e with e0 e
          injection e with e1 e
          injection e with e2 e
          injection e with e3 e
          rw [hused] at hu
          have eu := Option.some.inj hu
          subst e0; subst e2; subst e3; subst eu
          exact ⟨hle, hm, hs, q, hc, h5, h6, h7, h8, h9⟩
        · rintro ⟨hle, hm, hs, q, hc, h5, h6, h7, h8, h9⟩
          exact ⟨f0, f1, f2, f3, more, used, q, hat, hused, hle, hm, hs, hc, h5, h6, h7, h8,
            h9⟩
      by_cases hm : withdrawRewardInstMatches E iRes shardID tx used f0 f2 f3 = true
      · left
        refine ⟨pre.length, ?_, le_refl _, hiff.mpr hm, ?_⟩
        · rw [findWithdrawRewardInst]
          simp only [hused, hm, if_true]
        · intro j hj hlt'; omega
      · apply skip (fun h => hm (hiff.mp h))
        rw [findWithdrawRewardInst]
        simp only [hused, hm]
        rfl

/-- A use mark above 0 keeps the body of the loop from reaching `idx = i`,
whatever the response and the transaction are. -/
theorem not_justifies_of_marked (E : WithdrawRewardEnv) (iRes : PortalWithdrawRewardResponse)
    (shardID : Nat) (tx : TransferTx) (insts : List Inst) (instUsed : List Int) (i : Nat)
    (h : instUsed[i]? = some 1) : ¬ Justifies E iRes shardID tx insts instUsed i := by
  rintro ⟨a, b, c, d, r, u, q, _, hu, hle, _⟩
  rw [h] at hu
  have := Option.some.inj hu
  omega

/-- C29. For every instruction list and `instUsed` array of the same length,
the marks of the array being 0 for an instruction not yet used and 1 for a used
one, `VerifyMinerCreatedTxBeforeGettingInBlock` returns, and it returns true
exactly when some not-yet-used instruction of the withdraw-reward request type
with accepted status matches the request ID of the response, the shard, the
receiver key, the paid amount and the token; it then returns no error and
marks only the first such instruction as used: `instUsed` changes at that
single index, from 0 to 1, and that instruction then justifies no response any
more. When none matches it returns false with an error and leaves `instUsed`
unchanged. -/
theorem VerifyMinerCreatedTxBeforeGettingInBlock_spec (E : WithdrawRewardEnv)
    (iRes : PortalWithdrawRewardResponse) (insts : List Inst) (instUsed : List Int)
    (shardID : Nat) (tx : TransferTx) (hlen : insts.length = instUsed.length)
    (hmarks : ∀ mark ∈ instUsed, mark = 0 ∨ mark = 1) :
    ∃ ok err instUsedAfter,
      VerifyMinerCreatedTxBeforeGettingInBlock E iRes insts instUsed shardID tx
        = some (ok, err, instUsedAfter) ∧
      (ok = true ↔
        ∃ i, instUsed[i]? = some 0 ∧ Justifies E iRes shardID tx insts instUsed i) ∧
      (ok = true →
        ∃ idx, Justifies E iRes shardID tx insts instUsed idx ∧
          (∀ j, j < idx → ¬ Justifies E iRes shardID tx insts instUsed j) ∧
          err = none ∧
          instUsedAfter.length = instUsed.length ∧
          instUsed[idx]? = some 0 ∧
          instUsedAfter[idx]? = some 1 ∧
          (∀ j, j ≠ idx → instUsedAfter[j]? = instUsed[j]?) ∧
          ∀ (iRes2 : PortalWithdrawRewardResponse) (shardID2 : Nat) (tx2 : TransferTx),
            ¬ Justifies E iRes2 shardID2 tx2 insts instUsedAfter idx) ∧
      (ok = false → err ≠ none ∧ instUsedAfter = instUsed) := by
  have hzero : ∀ i, Justifies E iRes shardID tx insts instUsed i → instUsed[i]? = some 0 := by
    rintro i ⟨a, b, c, d, r, u, q, _, hu, hle, _⟩
    rcases hmarks u (List.getElem?_mem hu) with h | h
    · rw [hu, h]
    · omega
  have hspec := findWithdrawRewardInst_spec E iRes shardID tx instUsed insts []
    (by simp [hlen])
  simp only [List.length_nil, List.nil_append, Nat.zero_le, true_and, forall_true_left]
    at hspec
  rcases hspec with ⟨idx, hfind, hj, hfirst⟩ | ⟨hfind, hnone⟩
  · have hu := hzero idx hj
    have hlt : idx < instUsed.length := (List.getElem?_eq_some_iff.mp hu).1
    have hset : (instUsed.set idx 1)[idx]? = some 1 := by
      rw [List.getElem?_set_self hlt]
    refine ⟨true, none, instUsed.set idx 1, ?_, ?_, ?_, ?_⟩
    · unfold VerifyMinerCreatedTxBeforeGettingInBlock
      rw [hfind]
    · exact ⟨fun _ => ⟨idx, hu, hj⟩, fun _ => rfl⟩
    · intro _
      refine ⟨idx, hj, hfirst, rfl, List.length_set _ _ _, hu, hset, ?_, ?_⟩
      · intro j hne
        exact List.getElem?_set_ne (Ne.symm hne)
      · intro iRes2 shardID2 tx2
        exact not_justifies_of_marked E iRes2 shardID2 tx2 insts _ idx hset
    · intro h; cases h
  · refine ⟨false,
      some ("no PortalWithdrawReward instruction found for PortalWithdrawRewardResponse tx "
        ++ E.hashString tx.hash), instUsed, ?_, ?_, ?_, ?_⟩
    · unfold VerifyMinerCreatedTxBeforeGettingInBlock
      rw [hfind]
    · constructor
      · intro h; cases h
      · rintro ⟨i, _, hi⟩
        exact absurd hi (hnone i)
    · intro h; cases h
    · intro _
      exact ⟨by simp, rfl⟩

set_option maxRecDepth 100000 in
/-- Witness of C29: of the sample instructions the fourth and the fifth justify
the sample response; the call marks the fourth, a second call marks the fifth,
and a third call finds none. -/
theorem VerifyMinerCreatedTxBeforeGettingInBlock_spec_witness :
    sampleWithdrawInsts.length = [(0 : Int), 0, 0, 0, 0].length ∧
    VerifyMinerCreatedTxBeforeGettingInBlock sampleWithdrawEnv sampleResponse
        sampleWithdrawInsts [0, 0, 0, 0, 0] 0 sampleTransferTx
      = some (true, none, [0, 0, 0, 1, 0]) ∧
    VerifyMinerCreatedTxBeforeGettingInBlock sampleWithdrawEnv sampleResponse
        sampleWithdrawInsts [0, 0, 0, 1, 0] 0 sampleTransferTx
      = some (true, none, [0, 0, 0, 1, 1]) ∧
    (VerifyMinerCreatedTxBeforeGettingInBlock sampleWithdrawEnv sampleResponse
        sampleWithdrawInsts [0, 0, 0, 1, 1] 0 sampleTransferTx).map (fun res => res.1)
      = some false ∧
    ∃ ok err instUsedAfter,
      VerifyMinerCreatedTxBeforeGettingInBlock sampleWithdrawEnv sampleResponse
        sampleWithdrawInsts [0, 0, 0, 1, 0] 0 sampleTransferTx
          = some (ok, err, instUsedAfter) ∧
      (ok = false → err ≠ none ∧ instUsedAfter = [0, 0, 0, 1, 0]) :=
  ⟨by decide, by decide, by decide, by decide,
   (VerifyMinerCreatedTxBeforeGettingInBlock_spec sampleWithdrawEnv sampleResponse
      sampleWithdrawInsts [0, 0, 0, 1, 0] 0 sampleTransferTx (by decide) (by decide)).imp
    (fun _ h => h.imp (fun _ h => h.imp (fun _ h => ⟨h.1, h.2.2.2⟩)))⟩

/-! ## C30: the conversion between exchange rates -/

/-- A value below `2 ^ 53` is a `float64`. -/
theorem float64_of_lt (x : Nat) (h : x < 2 ^ 53) : float64 x = x := by
  have he : float64DroppedBits x = 0 := by
    unfold float64DroppedBits
    rw [List.length_eq_zero, List.filter_eq_nil_iff]
    intro k _
    have : 2 ^ 53 ≤ 2 ^ (53 + k) := Nat.pow_le_pow_right (by decide) (Nat.le_add_right _ _)
    simp only [decide_eq_true_eq, not_le]
    omega
  unfold float64
  simp [he, Nat.mod_one]

/-- When `RatesTo` is not 0 and the float of the quotient fits `uint64`,
`convert` returns that float, whatever an out-of-range float is converted to. -/
theorem convert_of_fits (outOfRange value ratesFrom RatesTo : Nat) (h0 : RatesTo ≠ 0)
    (hfit : float64 (((value * ratesFrom % 2 ^ 64) / 10 ^ 9 * 10 ^ 9 % 2 ^ 64) / RatesTo)
      < 2 ^ 64) :
    convert outOfRange value ratesFrom RatesTo
      = (float64 (((value * ratesFrom % 2 ^ 64) / 10 ^ 9 * 10 ^ 9 % 2 ^ 64) / RatesTo),
          none) := by
  have hn : ¬ RatesTo ≤ 0 := by omega
  unfold convert
  simp only [if_neg hn, uint64OfFloat, if_pos hfit]

/-- C30 (as amended). For every `value`, `ratesFrom` and `RatesTo`,
`FinalExchangeRates.convert` returns an error exactly when `RatesTo` is 0; when
`RatesTo` is not 0, the product `value * ratesFrom` is below `2 ^ 64` and the
quotient `floor(floor(value * ratesFrom / 10^9) * 10^9 / RatesTo)` over exact
integers is below `2 ^ 53`, it returns that quotient; and
`ExchangePToken2PRVByTokenId` and `ExchangePRV2PTokenByTokenId` return an error
for every token ID other than the BTC and BNB portal tokens. -/
theorem convert_spec (C : PortalTokenIDs) (outOfRange : Nat)
    (finalExchangeRates : FinalExchangeRates) (pTokenId : String)
    (value ratesFrom RatesTo : Nat) :
    ((convert outOfRange value ratesFrom RatesTo).2 ≠ none ↔ RatesTo = 0) ∧
    (RatesTo ≠ 0 → value * ratesFrom < 2 ^ 64 →
      value * ratesFrom / 10 ^ 9 * 10 ^ 9 / RatesTo < 2 ^ 53 →
      convert outOfRange value ratesFrom RatesTo
        = (value * ratesFrom / 10 ^ 9 * 10 ^ 9 / RatesTo, none)) ∧
    (pTokenId ≠ C.PortalBTCIDStr → pTokenId ≠ C.PortalBNBIDStr →
      (ExchangePToken2PRVByTokenId C outOfRange finalExchangeRates pTokenId value).2 ≠ none ∧
      (ExchangePRV2PTokenByTokenId C outOfRange finalExchangeRates pTokenId value).2
        ≠ none) := by
  refine ⟨?_, ?_, ?_⟩
  · unfold convert
    by_cases h : RatesTo = 0
    · simp [h]
    · have : ¬ RatesTo ≤ 0 := by omega
      simp [this, h]
  · intro h0 hprod hq
    have hle : value * ratesFrom / 10 ^ 9 * 10 ^ 9 ≤ value * ratesFrom :=
      Nat.div_mul_le_self _ _
    have h1 : value * ratesFrom % 2 ^ 64 = value * ratesFrom := Nat.mod_eq_of_lt hprod
    have h2 : value * ratesFrom / 10 ^ 9 * 10 ^ 9 % 2 ^ 64
        = value * ratesFrom / 10 ^ 9 * 10 ^ 9 := Nat.mod_eq_of_lt (lt_of_le_of_lt hle hprod)
    have hn : ¬ RatesTo ≤ 0 := by omega
    have hlt : value * ratesFrom / 10 ^ 9 * 10 ^ 9 / RatesTo < 2 ^ 64 :=
      lt_trans hq (by decide)
    unfold convert
    simp only [h1, h2, if_neg hn, float64_of_lt _ hq, uint64OfFloat, if_pos hlt]
  · intro hb hn
    unfold ExchangePToken2PRVByTokenId ExchangePRV2PTokenByTokenId
    simp [hb, hn]

/-- Witness of C30 as amended: 3 BTC units at the sample rates are converted
to PRV without an error, and a token that is neither BTC nor BNB is refused. -/
theorem convert_spec_witness :
    convert 0 3 8000000000000 500000000 = (48000, none) ∧
    (ExchangePToken2PRVByTokenId sampleTokenIDs 0 sampleRates "eth" 3).2 ≠ none ∧
    (ExchangePRV2PTokenByTokenId sampleTokenIDs 0 sampleRates "eth" 3).2 ≠ none :=
  have h := convert_spec sampleTokenIDs 0 sampleRates "eth" 3 8000000000000 500000000
  ⟨h.2.1 (by decide) (by decide) (by decide), h.2.2 (by decide) (by decide)⟩

set_option maxRecDepth 100000 in
/-- C30, counterexample. With `value = 2 ^ 63` and `ratesFrom = 2` the product
wraps to 0, so `convert` returns 0 where the exact quotient is
18446744073000000000; and with `value = 4611686019`, `ratesFrom = 10 ^ 9` and
`RatesTo = 1`, where no product wraps, the exact quotient 4611686019000000000
is not a `float64` and `convert` returns 4611686019000000512. Neither result
depends on the conversion of an out-of-range float. -/
theorem convert_spec_counterexample :
    (∀ outOfRange : Nat, convert outOfRange (2 ^ 63) 2 1 = (0, none)) ∧
    2 ^ 63 * 2 / 10 ^ 9 * 10 ^ 9 / 1 = 18446744073000000000 ∧
    (∀ outOfRange : Nat,
      convert outOfRange 4611686019 (10 ^ 9) 1 = (4611686019000000512, none)) ∧
    4611686019 * 10 ^ 9 < 2 ^ 64 ∧
    4611686019 * 10 ^ 9 / 10 ^ 9 * 10 ^ 9 / 1 = 4611686019000000000 := by
  refine ⟨fun o => ?_, by decide, fun o => ?_, by decide, by decide⟩
  · exact (convert_of_fits o _ _ _ (by decide) (by decide)).trans (by decide)
  · exact (convert_of_fits o _ _ _ (by decide) (by decide)).trans (by decide)

/-! ## C27: the instruction of a shielding request -/

/-- A refused shielding action yields the rejected instruction and leaves the
portal state as it is. -/
theorem BuildNewInsts_refused {β υ σ δ : Type} (E : ShieldEnv υ σ δ) (bc : β)
    (contentStr : String) (shardID : Nat) (currentPortalState : Option σ)
    (portalParams : PortalParams β υ) (optionalData : Option (List (String × OptionalValue)))
    (actionData : PortalShieldingRequestAction)
    (hdecodes : E.decodeAction contentStr = some actionData)
    (hrefused : ShieldingRefused E bc currentPortalState portalParams optionalData actionData) :
    BuildNewInsts E bc contentStr shardID currentPortalState portalParams optionalData
      = some ([rejectInst E actionData shardID], none, currentPortalState) := by
  unfold BuildNewInsts
  rw [hdecodes]
  simp only
  cases hs : currentPortalState with
  | none => rfl
  | some state =>
    simp only
    cases hp : portalParams.PortalTokens actionData.Meta.TokenID with
    | none => rfl
    | some proc =>
      simp only
      cases ho : optionalData with
      | none => rfl
      | some data =>
        simp only
        cases hf : mapFind data "isExistProofTxHash" with
        | none => rfl
        | some v =>
          cases v with
          | other d => rfl
          | boolean b =>
            simp only
            by_cases hex : E.IsExistsProofInPortalState state actionData.Meta.TokenID
                (E.hashProof actionData.Meta.ShieldingProof) = true ∨ b = true
            · rw [if_pos hex]
            · rw [if_neg hex]
              by_cases hv : (proc.ParseAndVerifyProof actionData.Meta.ShieldingProof bc
                  (proc.GetExpectedMemoForShielding actionData.Meta.IncogAddressStr)
                  (portalParams.MultiSigAddresses actionData.Meta.TokenID)).1 = false ∨
                (proc.ParseAndVerifyProof actionData.Meta.ShieldingProof bc
                  (proc.GetExpectedMemoForShielding actionData.Meta.IncogAddressStr)
                  (portalParams.MultiSigAddresses actionData.Meta.TokenID)).2.2 ≠ none
              · rw [if_pos hv]
              · exfalso
                rw [not_or] at hex
                rcases hrefused with h | h | h | ⟨d, h, h'⟩ | ⟨st, h, h'⟩ | ⟨d, h, h'⟩ |
                  ⟨q, h, h'⟩
                · rw [hs] at h; cases h
                · rw [hp] at h; cases h
                · rw [ho] at h; cases h
                · rw [ho] at h
                  cases h
                  exact h' b hf
                · rw [hs] at h
                  cases h
                  exact hex.1 h'
                · rw [ho] at h
                  cases h
                  rw [hf] at h'
                  cases h'
                  exact hex.2 rfl
                · rw [hp] at h
                  cases h
                  exact hv h'

/-- A shielding action that is not refused yields the accepted instruction,
and the portal state records the UTXOs and the proof. -/
theorem BuildNewInsts_accepted {β υ σ δ : Type} (E : ShieldEnv υ σ δ) (bc : β)
    (contentStr : String) (shardID : Nat) (currentPortalState : Option σ)
    (portalParams : PortalParams β υ) (optionalData : Option (List (String × OptionalValue)))
    (actionData : PortalShieldingRequestAction)
    (hdecodes : E.decodeAction contentStr = some actionData)
    (haccepted :
      ¬ ShieldingRefused E bc currentPortalState portalParams optionalData actionData) :
    ∃ state portalTokenProcessor,
      currentPortalState = some state ∧
      portalParams.PortalTokens actionData.Meta.TokenID = some portalTokenProcessor ∧
      ((portalTokenProcessor.ParseAndVerifyProof actionData.Meta.ShieldingProof bc
          (portalTokenProcessor.GetExpectedMemoForShielding actionData.Meta.IncogAddressStr)
          (portalParams.MultiSigAddresses actionData.Meta.TokenID)).2.1 = [] →
        BuildNewInsts E bc contentStr shardID currentPortalState portalParams optionalData
          = none) ∧
      ∀ first rest,
        (portalTokenProcessor.ParseAndVerifyProof actionData.Meta.ShieldingProof bc
          (portalTokenProcessor.GetExpectedMemoForShielding actionData.Meta.IncogAddressStr)
          (portalParams.MultiSigAddresses actionData.Meta.TokenID)).2.1 = first :: rest →
        BuildNewInsts E bc contentStr shardID currentPortalState portalParams optionalData
          = some ([buildReqPTokensInstV4 E actionData.Meta.TokenID
                actionData.Meta.IncogAddressStr (E.hashProof actionData.Meta.ShieldingProof)
                (first :: rest)
                (portalTokenProcessor.ConvertExternalToIncAmount
                  (shieldingAmountOf E (first :: rest)))
                actionData.Meta.Type_ shardID actionData.TxReqID
                E.PortalRequestAcceptedChainStatus],
              none,
              some (E.UpdatePortalStateShieldingExternalTx
                (E.UpdatePortalStateUTXOs state actionData.Meta.TokenID (first :: rest))
                actionData.Meta.TokenID (E.hashProof actionData.Meta.ShieldingProof)
                (E.GetTxHash first) actionData.Meta.IncogAddressStr
                (shieldingAmountOf E (first :: rest)))) := by
  unfold ShieldingRefused at haccepted
  simp only [not_or] at haccepted
  obtain ⟨h1, h2, h3, h4, h5, h6, h7⟩ := haccepted
  cases hs : currentPortalState with
  | none => exact absurd hs h1
  | some state =>
    cases hp : portalParams.PortalTokens actionData.Meta.TokenID with
    | none => exact absurd hp h2
    | some proc =>
      cases ho : optionalData with
      | none => exact absurd ho h3
      | some data =>
        have hb : mapFind data "isExistProofTxHash" = some (OptionalValue.boolean false) := by
          by_contra hne
          apply h4
          refine ⟨data, ho, ?_⟩
          intro b hb'
          cases b with
          | false => exact hne hb'
          | true => exact h6 ⟨data, ho, hb'⟩
        have hex : ¬ (E.IsExistsProofInPortalState state actionData.Meta.TokenID
            (E.hashProof actionData.Meta.ShieldingProof) = true ∨ false = true) := by
          rintro (h | h)
          · exact h5 ⟨state, hs, h⟩
          · cases h
        have hv : ¬ ((proc.ParseAndVerifyProof actionData.Meta.ShieldingProof bc
              (proc.GetExpectedMemoForShielding actionData.Meta.IncogAddressStr)
              (portalParams.MultiSigAddresses actionData.Meta.TokenID)).1 = false ∨
            (proc.ParseAndVerifyProof actionData.Meta.ShieldingProof bc
              (proc.GetExpectedMemoForShielding actionData.Meta.IncogAddressStr)
              (portalParams.MultiSigAddresses actionData.Meta.TokenID)).2.2 ≠ none) :=
          fun h => h7 ⟨proc, hp, h⟩
        refine ⟨state, proc, rfl, rfl, ?_, ?_⟩
        · intro hl
          unfold BuildNewInsts
          rw [hdecodes]
          simp only [hp, hb, if_neg hex, if_neg hv, hl]
        · intro first rest hl
          unfold BuildNewInsts
          rw [hdecodes]
          simp only [hp, hb, if_neg hex, if_neg hv, hl]

/-- C27 (as amended). For every shielding action whose payload decodes,
`BuildNewInsts` returns exactly one instruction and a nil error whenever it
returns, and zero instructions and a nil error when the payload does not
decode. The instruction is the rejected one, with minting amount 0, empty
proof hash and no UTXOs, and the portal state is left unchanged, whenever the
portal state is nil, the token is unsupported, `optionalData` is missing or
lacks a boolean `isExistProofTxHash`, the proof hash is already recorded in
the portal state or the state DB, or the verification of the proof fails. Only
otherwise, and when the verified proof carries at least one UTXO, is it
accepted, and then the UTXOs and the proof are recorded in the portal state;
when the proof is found valid without any UTXO the method does not return: the
expression `listUTXO[0]` panics. -/
theorem BuildNewInsts_spec {β υ σ δ : Type} (E : ShieldEnv υ σ δ) (bc : β)
    (contentStr : String) (shardID : Nat) (currentPortalState : Option σ)
    (portalParams : PortalParams β υ)
    (optionalData : Option (List (String × OptionalValue))) :
    (E.decodeAction contentStr = none →
      BuildNewInsts E bc contentStr shardID currentPortalState portalParams optionalData
        = some ([], none, currentPortalState)) ∧
    ∀ actionData, E.decodeAction contentStr = some actionData →
      (∀ r,
        BuildNewInsts E bc contentStr shardID currentPortalState portalParams optionalData
          = some r → ∃ inst, r.1 = [inst] ∧ r.2.1 = none) ∧
      (ShieldingRefused E bc currentPortalState portalParams optionalData actionData →
        BuildNewInsts E bc contentStr shardID currentPortalState portalParams optionalData
          = some ([[E.Itoa actionData.Meta.Type_, E.Itoa shardID,
                E.PortalRequestRejectedChainStatus,
                E.marshalContent
                  { TokenID := actionData.Meta.TokenID,
                    IncogAddressStr := actionData.Meta.IncogAddressStr,
                    ProofHash := "", ShieldingUTXO := [], MintingAmount := 0,
                    TxReqID := actionData.TxReqID, ShardID := shardID }]],
              none, currentPortalState)) ∧
      (¬ ShieldingRefused E bc currentPortalState portalParams optionalData actionData →
        ∃ state portalTokenProcessor listUTXO,
          currentPortalState = some state ∧
          portalParams.PortalTokens actionData.Meta.TokenID = some portalTokenProcessor ∧
          portalTokenProcessor.ParseAndVerifyProof actionData.Meta.ShieldingProof bc
            (portalTokenProcessor.GetExpectedMemoForShielding
              actionData.Meta.IncogAddressStr)
            (portalParams.MultiSigAddresses actionData.Meta.TokenID)
              = (true, listUTXO, none) ∧
          (listUTXO = [] →
            BuildNewInsts E bc contentStr shardID currentPortalState portalParams
              optionalData = none) ∧
          (∀ first, listUTXO.head? = some first →
            BuildNewInsts E bc contentStr shardID currentPortalState portalParams
              optionalData
              = some ([[E.Itoa actionData.Meta.Type_, E.Itoa shardID,
                    E.PortalRequestAcceptedChainStatus,
                    E.marshalContent
                      { TokenID := actionData.Meta.TokenID,
                        IncogAddressStr := actionData.Meta.IncogAddressStr,
                        ProofHash := E.hashProof actionData.Meta.ShieldingProof,
                        ShieldingUTXO := listUTXO,
                        MintingAmount := portalTokenProcessor.ConvertExternalToIncAmount
                          (shieldingAmountOf E listUTXO),
                        TxReqID := actionData.TxReqID, ShardID := shardID }]],
                  none,
                  some (E.UpdatePortalStateShieldingExternalTx
                    (E.UpdatePortalStateUTXOs state actionData.Meta.TokenID listUTXO)
                    actionData.Meta.TokenID (E.hashProof actionData.Meta.ShieldingProof)
                    (E.GetTxHash first) actionData.Meta.IncogAddressStr
                    (shieldingAmountOf E listUTXO))))) := by
  have hacc : ∀ actionData, E.decodeAction contentStr = some actionData →
      ¬ ShieldingRefused E bc currentPortalState portalParams optionalData actionData →
      ∃ state portalTokenProcessor listUTXO,
        currentPortalState = some state ∧
        portalParams.PortalTokens actionData.Meta.TokenID = some portalTokenProcessor ∧
        portalTokenProcessor.ParseAndVerifyProof actionData.Meta.ShieldingProof bc
          (portalTokenProcessor.GetExpectedMemoForShielding
            actionData.Meta.IncogAddressStr)
          (portalParams.MultiSigAddresses actionData.Meta.TokenID)
            = (true, listUTXO, none) ∧
        (listUTXO = [] →
          BuildNewInsts E bc contentStr shardID currentPortalState portalParams
            optionalData = none) ∧
        (∀ first, listUTXO.head? = some first →
          BuildNewInsts E bc contentStr shardID currentPortalState portalParams
            optionalData
            = some ([buildReqPTokensInstV4 E actionData.Meta.TokenID
                  actionData.Meta.IncogAddressStr
                  (E.hashProof actionData.Meta.ShieldingProof) listUTXO
                  (portalTokenProcessor.ConvertExternalToIncAmount
                    (shieldingAmountOf E listUTXO))
                  actionData.Meta.Type_ shardID actionData.TxReqID
                  E.PortalRequestAcceptedChainStatus],
                none,
                some (E.UpdatePortalStateShieldingExternalTx
                  (E.UpdatePortalStateUTXOs state actionData.Meta.TokenID listUTXO)
                  actionData.Meta.TokenID (E.hashProof actionData.Meta.ShieldingProof)
                  (E.GetTxHash first) actionData.Meta.IncogAddressStr
                  (shieldingAmountOf E listUTXO)))) := by
    intro actionData hdec hnot
    obtain ⟨state, proc, hs, hp, hnil, hcons⟩ := BuildNewInsts_accepted E bc contentStr
      shardID currentPortalState portalParams optionalData actionData hdec hnot
    have h7 : ¬ ((proc.ParseAndVerifyProof actionData.Meta.ShieldingProof bc
          (proc.GetExpectedMemoForShielding actionData.Meta.IncogAddressStr)
          (portalParams.MultiSigAddresses actionData.Meta.TokenID)).1 = false ∨
        (proc.ParseAndVerifyProof actionData.Meta.ShieldingProof bc
          (proc.GetExpectedMemoForShielding actionData.Meta.IncogAddressStr)
          (portalParams.MultiSigAddresses actionData.Meta.TokenID)).2.2 ≠ none) := by
      intro h
      exact hnot (Or.inr (Or.inr (Or.inr (Or.inr (Or.inr (Or.inr ⟨proc, hp, h⟩))))))
    rw [not_or, Bool.not_eq_false, not_not] at h7
    obtain ⟨listUTXO, hl⟩ : ∃ listUTXO,
        (proc.ParseAndVerifyProof actionData.Meta.ShieldingProof bc
          (proc.GetExpectedMemoForShielding actionData.Meta.IncogAddressStr)
          (portalParams.MultiSigAddresses actionData.Meta.TokenID)).2.1 = listUTXO :=
      ⟨_, rfl⟩
    refine ⟨state, proc, listUTXO, hs, hp, ?_, ?_, ?_⟩
    · apply Prod.ext
      · exact h7.1
      · apply Prod.ext
        · exact hl
        · exact h7.2
    · intro he
      exact hnil (hl.trans he)
    · intro first hfirst
      cases listUTXO with
      | nil => cases hfirst
      | cons head rest =>
        cases hfirst
        exact hcons first rest hl
  refine ⟨?_, ?_⟩
  · intro hnone
    unfold BuildNewInsts
    rw [hnone]
  · intro actionData hdec
    refine ⟨?_, ?_, ?_⟩
    · intro r hr
      by_cases href : ShieldingRefused E bc currentPortalState portalParams optionalData
          actionData
      · rw [BuildNewInsts_refused E bc contentStr shardID currentPortalState portalParams
          optionalData actionData hdec href] at hr
        rw [← Option.some.inj hr]
        exact ⟨_, rfl, rfl⟩
      · obtain ⟨state, proc, listUTXO, _, _, _, hnil, hcons⟩ := hacc actionData hdec href
        cases listUTXO with
        | nil =>
          rw [hnil rfl] at hr
          cases hr
        | cons first rest =>
          rw [hcons first rfl] at hr
          rw [← Option.some.inj hr]
          exact ⟨_, rfl, rfl⟩
    · intro href
      exact BuildNewInsts_refused E bc contentStr shardID currentPortalState portalParams
        optionalData actionData hdec href
    · intro hnot
      exact hacc actionData hdec hnot

set_option maxRecDepth 100000 in
/-- Witness of C27 as amended: with the sample processor the proof `good` is
accepted and recorded, the proof `seen`, whose hash the portal state holds, and
the proof `forged` are rejected with the state unchanged, as are a token
without a processor, a missing `optionalData` and a nil portal state; a payload
that does not decode yields no instruction. -/
theorem BuildNewInsts_spec_witness :
    BuildNewInsts sampleShieldEnv () "good" 0 (some ["#seen"]) samplePortalParams
        (some [("isExistProofTxHash", OptionalValue.boolean false)])
      = some ([["260", "0", "accepted", "#good/btc"]], none,
          some ["#seen", "tx1", "tx2", "#good"]) ∧
    BuildNewInsts sampleShieldEnv () "seen" 0 (some ["#seen"]) samplePortalParams
        (some [("isExistProofTxHash", OptionalValue.boolean false)])
      = some ([["260", "0", "rejected", "/btc"]], none, some ["#seen"]) ∧
    BuildNewInsts sampleShieldEnv () "good" 0 (some ["#seen"]) samplePortalParams
        (some [("isExistProofTxHash", OptionalValue.boolean true)])
      = some ([["260", "0", "rejected", "/btc"]], none, some ["#seen"]) ∧
    BuildNewInsts sampleShieldEnv () "good" 0 (some ["#seen"]) samplePortalParams
        (some [("isExistProofTxHash", OptionalValue.other "1")])
      = some ([["260", "0", "rejected", "/btc"]], none, some ["#seen"]) ∧
    BuildNewInsts sampleShieldEnv () "good" 0 (some ["#seen"]) samplePortalParams none
      = some ([["260", "0", "rejected", "/btc"]], none, some ["#seen"]) ∧
    BuildNewInsts sampleShieldEnv () "doge" 0 (some ["#seen"]) samplePortalParams
        (some [("isExistProofTxHash", OptionalValue.boolean false)])
      = some ([["260", "0", "rejected", "/doge"]], none, some ["#seen"]) ∧
    BuildNewInsts sampleShieldEnv () "good" 0 none samplePortalParams
        (some [("isExistProofTxHash", OptionalValue.boolean false)])
      = some ([["260", "0", "rejected", "/btc"]], none, none) ∧
    BuildNewInsts sampleShieldEnv () "??" 0 (some ["#seen"]) samplePortalParams
        (some [("isExistProofTxHash", OptionalValue.boolean false)])
      = some ([], none, some ["#seen"]) ∧
    (∀ r, BuildNewInsts sampleShieldEnv () "good" 0 (some ["#seen"]) samplePortalParams
        (some [("isExistProofTxHash", OptionalValue.boolean false)]) = some r →
      ∃ inst, r.1 = [inst] ∧ r.2.1 = none) ∧
    BuildNewInsts sampleShieldEnv () "forged" 0 (some ["#seen"]) samplePortalParams
        (some [("isExistProofTxHash", OptionalValue.boolean false)])
      = some ([["260", "0", "rejected", "/btc"]], none, some ["#seen"]) :=
  ⟨by decide, by decide, by decide, by decide, by decide, by decide, by decide, by decide,
   ((BuildNewInsts_spec sampleShieldEnv () "good" 0 (some ["#seen"]) samplePortalParams
      (some [("isExistProofTxHash", OptionalValue.boolean false)])).2
      { Meta := { Type_ := 260, TokenID := "btc", IncogAddressStr := "addr",
                  ShieldingProof := "good" }, TxReqID := [21], ShardID := 0 }
      (by decide)).1,
   (((BuildNewInsts_spec sampleShieldEnv () "forged" 0 (some ["#seen"]) samplePortalParams
      (some [("isExistProofTxHash", OptionalValue.boolean false)])).2
      { Meta := { Type_ := 260, TokenID := "btc", IncogAddressStr := "addr",
                  ShieldingProof := "forged" }, TxReqID := [22], ShardID := 0 }
      (by decide)).2.1
      (Or.inr (Or.inr (Or.inr (Or.inr (Or.inr (Or.inr
        ⟨sampleProcessor_btc, by simp [samplePortalParams], Or.inl (by decide)⟩))))))).trans
      (by decide)⟩

set_option maxRecDepth 100000 in
/-- C27, counterexample. The sample action with the proof `hollow` decodes,
its token is supported, `optionalData` holds the boolean false, the proof hash
is not recorded and the sample processor finds the proof valid, with a nil
error and an empty list of UTXOs: `BuildNewInsts` does not return, where the
claim has it return one instruction. -/
theorem BuildNewInsts_spec_counterexample :
    sampleShieldEnv.decodeAction "hollow"
      = some { Meta := { Type_ := 260, TokenID := "btc", IncogAddressStr := "addr",
                         ShieldingProof := "hollow" }, TxReqID := [27], ShardID := 0 } ∧
    sampleProcessor_btc.ParseAndVerifyProof "hollow" () "memo:addr" "multisig"
      = (true, [], none) ∧
    BuildNewInsts sampleShieldEnv () "hollow" 0 (some ["#seen"]) samplePortalParams
        (some [("isExistProofTxHash", OptionalValue.boolean false)]) = none :=
  ⟨by decide, by decide, by decide⟩

/-! ## C28: the aggregate of the shielded amounts -/

/-- The loop of the shielding amount from a start value below `2 ^ 64`: the sum
modulo `2 ^ 64`. -/
theorem foldl_uint64Add {υ : Type} (amount : υ → Nat) (listUTXO : List υ) (start : Nat) :
    listUTXO.foldl (fun acc utxo => uint64Add acc (amount utxo)) start % 2 ^ 64
      = (start + (listUTXO.map amount).sum) % 2 ^ 64 := by
  induction listUTXO generalizing start with
  | nil => simp
  | cons u rest ih =>
    rw [List.foldl_cons, ih, List.map_cons, List.sum_cons]
    unfold uint64Add
    rw [Nat.add_mod, Nat.mod_mod, ← Nat.add_mod, Nat.add_assoc]

/-- The shielding amount is the sum of the output amounts modulo `2 ^ 64`. -/
theorem shieldingAmountOf_eq {υ σ δ : Type} (E : ShieldEnv υ σ δ) (listUTXO : List υ) :
    shieldingAmountOf E listUTXO = (listUTXO.map E.GetOutputAmount).sum % 2 ^ 64 := by
  have h := foldl_uint64Add E.GetOutputAmount listUTXO 0
  rw [Nat.zero_add] at h
  rw [← h]
  unfold shieldingAmountOf
  cases listUTXO using List.reverseRecOn with
  | nil => rfl
  | append_singleton l u _ =>
    rw [List.foldl_append]
    simp only [List.foldl_cons, List.foldl_nil, uint64Add, Nat.mod_mod]

/-- The run of `ProcessInsts` on an instruction that is counted. -/
theorem ProcessInsts_counted {υ σ δ : Type} (E : ShieldEnv υ σ δ) (stateDB : δ)
    (instructions : List String) (currentPortalState : Option σ)
    (updatingInfoByTokenID : List (Hash × PortalUpdatingInfo))
    (actionData : PortalShieldingRequestContent υ) (incTokenID : Hash)
    (hcounted : ShieldingCounted E stateDB instructions currentPortalState actionData
      incTokenID) :
    (actionData.ShieldingUTXO = [] →
      ProcessInsts E stateDB instructions currentPortalState updatingInfoByTokenID = none) ∧
    (∀ state first rest, currentPortalState = some state →
      actionData.ShieldingUTXO = first :: rest →
      ProcessInsts E stateDB instructions currentPortalState updatingInfoByTokenID
        = some (none,
            (E.StoreShieldingRequestStatus stateDB (E.hashString actionData.TxReqID)
              (shieldingReqTrackData E E.PortalRequestAcceptedStatus actionData)).2,
            some (E.UpdatePortalStateShieldingExternalTx
              (E.UpdatePortalStateUTXOs state actionData.TokenID actionData.ShieldingUTXO)
              actionData.TokenID actionData.ProofHash (E.GetTxHash first)
              actionData.IncogAddressStr (shieldingAmountOf E actionData.ShieldingUTXO)),
            mapSet updatingInfoByTokenID incTokenID
              (countedUp updatingInfoByTokenID incTokenID
                (shieldingAmountOf E actionData.ShieldingUTXO)))) := by
  obtain ⟨hs, ⟨f0, f1, content, hi, hc⟩, hstore, hhash⟩ := hcounted
  cases hst : currentPortalState with
  | none => exact absurd hst hs
  | some state =>
    constructor
    · intro hl
      unfold ProcessInsts
      simp only [hi, hc, if_true, hl]
    · intro state2 first rest hs2 hu
      cases hs2
      unfold ProcessInsts
      simp only [hi, hc, if_true, hu]
      rw [← hu]
      simp only [hstore, hhash]

/-- The frame of `ProcessInsts`: the error is always nil, and the map
`updatingInfoByTokenID` is left as it is unless the instruction is counted;
the only panic is that of an accepted instruction without a UTXO. -/
theorem ProcessInsts_frame {υ σ δ : Type} (E : ShieldEnv υ σ δ) (stateDB : δ)
    (instructions : List String) (currentPortalState : Option σ)
    (updatingInfoByTokenID : List (Hash × PortalUpdatingInfo)) :
    (∀ r, ProcessInsts E stateDB instructions currentPortalState updatingInfoByTokenID
        = some r → r.1 = none) ∧
    ((¬ ∃ actionData incTokenID, ShieldingCounted E stateDB instructions currentPortalState
        actionData incTokenID) →
      ∀ r, ProcessInsts E stateDB instructions currentPortalState updatingInfoByTokenID
        = some r → r.2.2.2 = updatingInfoByTokenID) ∧
    (ProcessInsts E stateDB instructions currentPortalState updatingInfoByTokenID = none →
      ∃ first second content actionData,
        instructions = [first, second, E.PortalRequestAcceptedChainStatus, content] ∧
        E.unmarshalContent content = some actionData ∧ actionData.ShieldingUTXO = []) := by
  cases hst : currentPortalState with
  | none =>
    refine ⟨?_, ?_, ?_⟩
    · intro r hr
      simp only [ProcessInsts, Option.some.injEq] at hr
      rw [← hr]
    · intro _ r hr
      simp only [ProcessInsts, Option.some.injEq] at hr
      rw [← hr]
    · intro h
      simp [ProcessInsts] at h
  | some state =>
    have hshort : ∀ l : List String, (∀ a b c d, l ≠ [a, b, c, d]) →
        ProcessInsts E stateDB l (some state) updatingInfoByTokenID
          = some (none, stateDB, some state, updatingInfoByTokenID) := by
      intro l hl
      rcases l with _ | ⟨a, _ | ⟨b, _ | ⟨c, _ | ⟨d, _ | ⟨e, rest⟩⟩⟩⟩⟩
      · rfl
      · rfl
      · rfl
      · rfl
      · exact absurd rfl (hl a b c d)
      · rfl
    by_cases hfour : ∃ a b c d, instructions = [a, b, c, d]
    · obtain ⟨a, b, c, d, hi⟩ := hfour
      subst hi
      cases hc : E.unmarshalContent d with
      | none =>
        have hval : ProcessInsts E stateDB [a, b, c, d] (some state) updatingInfoByTokenID
            = some (none, stateDB, some state, updatingInfoByTokenID) := by
          simp only [ProcessInsts, hc]
        rw [hval]
        refine ⟨?_, ?_, ?_⟩
        · intro r hr; rw [← Option.some.inj hr]
        · intro _ r hr; rw [← Option.some.inj hr]
        · intro h; cases h
      | some actionData =>
        by_cases hacc : c = E.PortalRequestAcceptedChainStatus
        · subst hacc
          cases hu : actionData.ShieldingUTXO with
          | nil =>
            have hval : ProcessInsts E stateDB
                [a, b, E.PortalRequestAcceptedChainStatus, d] (some state)
                updatingInfoByTokenID = none := by
              simp only [ProcessInsts, hc, if_true, hu]
            rw [hval]
            refine ⟨?_, ?_, ?_⟩
            · intro r hr; cases hr
            · intro _ r hr; cases hr
            · intro _
              exact ⟨a, b, d, actionData, rfl, hc, hu⟩
          | cons first rest =>
            cases hstore : (E.StoreShieldingRequestStatus stateDB
                (E.hashString actionData.TxReqID)
                (shieldingReqTrackData E E.PortalRequestAcceptedStatus actionData)).1 with
            | some err =>
              have hval : ProcessInsts E stateDB
                  [a, b, E.PortalRequestAcceptedChainStatus, d] (some state)
                  updatingInfoByTokenID
                    = some (none,
                        (E.StoreShieldingRequestStatus stateDB
                          (E.hashString actionData.TxReqID)
                          (shieldingReqTrackData E E.PortalRequestAcceptedStatus
                            actionData)).2,
                        some (E.UpdatePortalStateShieldingExternalTx
                          (E.UpdatePortalStateUTXOs state actionData.TokenID
                            actionData.ShieldingUTXO)
                          actionData.TokenID actionData.ProofHash (E.GetTxHash first)
                          actionData.IncogAddressStr
                          (shieldingAmountOf E actionData.ShieldingUTXO)),
                        updatingInfoByTokenID) := by
                simp only [ProcessInsts, hc, if_true, hu]
                rw [← hu]
                simp only [hstore]
              rw [hval]
              refine ⟨?_, ?_, ?_⟩
              · intro r hr; rw [← Option.some.inj hr]
              · intro _ r hr; rw [← Option.some.inj hr]
              · intro h; cases h
            | none =>
              cases hhash : E.NewHashFromStr actionData.TokenID with
              | none =>
                have hval : ProcessInsts E stateDB
                    [a, b, E.PortalRequestAcceptedChainStatus, d] (some state)
                    updatingInfoByTokenID
                      = some (none,
                          (E.StoreShieldingRequestStatus stateDB
                            (E.hashString actionData.TxReqID)
                            (shieldingReqTrackData E E.PortalRequestAcceptedStatus
                              actionData)).2,
                          some (E.UpdatePortalStateShieldingExternalTx
                            (E.UpdatePortalStateUTXOs state actionData.TokenID
                              actionData.ShieldingUTXO)
                            actionData.TokenID actionData.ProofHash (E.GetTxHash first)
                            actionData.IncogAddressStr
                            (shieldingAmountOf E actionData.ShieldingUTXO)),
                          updatingInfoByTokenID) := by
                  simp only [ProcessInsts, hc, if_true, hu]
                  rw [← hu]
                  simp only [hstore, hhash]
                rw [hval]
                refine ⟨?_, ?_, ?_⟩
                · intro r hr; rw [← Option.some.inj hr]
                · intro _ r hr; rw [← Option.some.inj hr]
                · intro h; cases h
              | some incTokenID =>
                have hcounted : ShieldingCounted E stateDB
                    [a, b, E.PortalRequestAcceptedChainStatus, d] (some state) actionData
                    incTokenID :=
                  ⟨by simp, ⟨a, b, d, rfl, hc⟩, hstore, hhash⟩
                have hval :=
                  (ProcessInsts_counted E stateDB _ (some state) updatingInfoByTokenID
                    actionData incTokenID hcounted).2 state first rest rfl hu
                rw [hval]
                refine ⟨?_, ?_, ?_⟩
                · intro r hr; rw [← Option.some.inj hr]
                · intro hno
                  exact absurd ⟨actionData, incTokenID, hcounted⟩ hno
                · intro h; cases h
        · have hval : ∃ dbAfter, ProcessInsts E stateDB [a, b, c, d] (some state)
              updatingInfoByTokenID
                = some (none, dbAfter, some state, updatingInfoByTokenID) := by
            by_cases hrej : c = E.PortalRequestRejectedChainStatus
            · refine ⟨(E.StoreShieldingRequestStatus stateDB
                (E.hashString actionData.TxReqID)
                (shieldingReqTrackData E E.PortalRequestRejectedStatus actionData)).2, ?_⟩
              simp only [ProcessInsts, hc, if_neg hacc, if_pos hrej]
            · refine ⟨stateDB, ?_⟩
              simp only [ProcessInsts, hc, if_neg hacc, if_neg hrej]
          obtain ⟨dbAfter, hval⟩ := hval
          rw [hval]
          refine ⟨?_, ?_, ?_⟩
          · intro r hr; rw [← Option.some.inj hr]
          · intro _ r hr; rw [← Option.some.inj hr]
          · intro h; cases h
    · have hval := hshort instructions (fun a b c d h => hfour ⟨a, b, c, d, h⟩)
      rw [hval]
      refine ⟨?_, ?_, ?_⟩
      · intro r hr; rw [← Option.some.inj hr]
      · intro _ r hr; rw [← Option.some.inj hr]
      · intro h; cases h

/-- C28 (as amended). For every shielding instruction, `ProcessInsts` returns a
nil error whenever it returns, and it returns unless the instruction is an
accepted one with decodable content and no UTXO. When the portal state is not
nil, the instruction has four fields, the accepted status, decodable content
and a non-empty UTXO list, the write of the status succeeds and the token ID of
the content parses as a hash, the `CountUpAmt` of that token in
`updatingInfoByTokenID` becomes its old value plus the sum of the output
amounts of the UTXOs, taken modulo `2 ^ 64`, the entry being created with
`DeductAmt` 0 when absent, and every other token keeps its entry. In every
other case in which it returns, `updatingInfoByTokenID` is unchanged. -/
theorem ProcessInsts_spec {υ σ δ : Type} (E : ShieldEnv υ σ δ) (stateDB : δ)
    (instructions : List String) (currentPortalState : Option σ)
    (updatingInfoByTokenID : List (Hash × PortalUpdatingInfo)) :
    (∀ r, ProcessInsts E stateDB instructions currentPortalState updatingInfoByTokenID
        = some r → r.1 = none) ∧
    (∀ actionData incTokenID,
      ShieldingCounted E stateDB instructions currentPortalState actionData incTokenID →
      actionData.ShieldingUTXO ≠ [] →
      ∃ dbAfter stateAfter after,
        ProcessInsts E stateDB instructions currentPortalState updatingInfoByTokenID
          = some (none, dbAfter, stateAfter, after) ∧
        (∀ found, mapFind updatingInfoByTokenID incTokenID = some found →
          mapFind after incTokenID = some
            { found with CountUpAmt := (found.CountUpAmt +
                (actionData.ShieldingUTXO.map E.GetOutputAmount).sum) % 2 ^ 64 }) ∧
        (mapFind updatingInfoByTokenID incTokenID = none →
          mapFind after incTokenID = some
            { CountUpAmt := (actionData.ShieldingUTXO.map E.GetOutputAmount).sum % 2 ^ 64,
              DeductAmt := 0, TokenID := incTokenID, ExternalTokenID := [],
              IsCentralized := false }) ∧
        (∀ other, other ≠ incTokenID →
          mapFind after other = mapFind updatingInfoByTokenID other)) ∧
    ((¬ ∃ actionData incTokenID, ShieldingCounted E stateDB instructions currentPortalState
        actionData incTokenID) →
      ∀ r, ProcessInsts E stateDB instructions currentPortalState updatingInfoByTokenID
        = some r → r.2.2.2 = updatingInfoByTokenID) ∧
    (ProcessInsts E stateDB instructions currentPortalState updatingInfoByTokenID = none →
      ∃ first second content actionData,
        instructions = [first, second, E.PortalRequestAcceptedChainStatus, content] ∧
        E.unmarshalContent content = some actionData ∧ actionData.ShieldingUTXO = []) := by
  obtain ⟨herr, hframe, hpanic⟩ := ProcessInsts_frame E stateDB instructions
    currentPortalState updatingInfoByTokenID
  refine ⟨herr, ?_, hframe, hpanic⟩
  intro actionData incTokenID hcounted hne
  obtain ⟨state, hs⟩ : ∃ state, currentPortalState = some state := by
    cases h : currentPortalState with
    | none => exact absurd h hcounted.1
    | some state => exact ⟨state, rfl⟩
  cases hu : actionData.ShieldingUTXO with
  | nil => exact absurd hu hne
  | cons first rest =>
    have hval := (ProcessInsts_counted E stateDB instructions currentPortalState
      updatingInfoByTokenID actionData incTokenID hcounted).2 state first rest hs hu
    rw [hu] at hval
    refine ⟨_, _, _, hval, ?_, ?_, ?_⟩
    · intro found hfound
      rw [mapFind_mapSet, if_pos rfl]
      simp only [countedUp, hfound, uint64Add, shieldingAmountOf_eq]
      rw [Nat.add_mod_mod]
    · intro hnone
      rw [mapFind_mapSet, if_pos rfl]
      simp only [countedUp, hnone, shieldingAmountOf_eq]
    · intro other hother
      rw [mapFind_mapSet, if_neg hother]

set_option maxRecDepth 100000 in
/-- Witness of C28 as amended: the sample instruction with two UTXOs of 30 and
12 creates the entry of its token with `CountUpAmt` 42, and adds 42 to an
entry that is there; the entry of another token is kept. -/
theorem ProcessInsts_spec_witness :
    (ProcessInsts sampleShieldEnv [] ["260", "0", "accepted", "c-good"] (some []) []).map
        (fun r => r.2.2.2)
      = some [([98, 116, 99], { CountUpAmt := 42, DeductAmt := 0, TokenID := [98, 116, 99],
                                ExternalTokenID := [], IsCentralized := false })] ∧
    (ProcessInsts sampleShieldEnv [] ["260", "0", "accepted", "c-good"] (some [])
        [([1], { CountUpAmt := 5, DeductAmt := 2, TokenID := [1], ExternalTokenID := [],
                 IsCentralized := true }),
         ([98, 116, 99], { CountUpAmt := 8, DeductAmt := 3, TokenID := [98, 116, 99],
                           ExternalTokenID := [], IsCentralized := false })]).map
        (fun r => r.2.2.2)
      = some [([1], { CountUpAmt := 5, DeductAmt := 2, TokenID := [1], ExternalTokenID := [],
                      IsCentralized := true }),
              ([98, 116, 99], { CountUpAmt := 50, DeductAmt := 3, TokenID := [98, 116, 99],
                                ExternalTokenID := [], IsCentralized := false })] ∧
    ∃ dbAfter stateAfter after,
      ProcessInsts sampleShieldEnv [] ["260", "0", "accepted", "c-good"] (some []) []
        = some (none, dbAfter, stateAfter, after) ∧
      (∀ other, other ≠ [98, 116, 99] → mapFind after other = mapFind [] other) :=
  ⟨by decide, by decide,
   ((ProcessInsts_spec sampleShieldEnv [] ["260", "0", "accepted", "c-good"] (some [])
      []).2.1
      { TokenID := "btc", IncogAddressStr := "addr", ProofHash := "#good",
        ShieldingUTXO := [("tx1", 30), ("tx2", 12)], MintingAmount := 42,
        TxReqID := [21], ShardID := 0 } [98, 116, 99]
      ⟨by decide, ⟨"260", "0", "c-good", by decide, by decide⟩, by decide, by decide⟩
      (by decide)).imp
    (fun _ h => h.imp (fun _ h => h.imp (fun _ h => ⟨h.1, h.2.2.2⟩)))⟩

set_option maxRecDepth 100000 in
/-- C28, counterexample. Four accepted four-field instructions with decodable
content and a non-empty UTXO list. With a nil portal state, with a content
whose token ID does not parse as a hash, and with a status write that fails,
the map `updatingInfoByTokenID` is left empty; with the two output amounts
`2 ^ 64 - 1` and 2 the `CountUpAmt` of the token becomes 1, not their sum. -/
theorem ProcessInsts_spec_counterexample :
    (ProcessInsts sampleShieldEnv [] ["260", "0", "accepted", "c-good"] none []).map
        (fun r => (r.1, r.2.2.2)) = some (none, []) ∧
    (sampleShieldEnv.unmarshalContent "c-odd").map (fun c => c.ShieldingUTXO)
      = some [("tx1", 30)] ∧
    (ProcessInsts sampleShieldEnv [] ["260", "0", "accepted", "c-odd"] (some []) []).map
        (fun r => (r.1, r.2.2.2)) = some (none, []) ∧
    (sampleShieldEnv.unmarshalContent "c-fail").map (fun c => c.ShieldingUTXO)
      = some [("tx1", 30)] ∧
    (ProcessInsts sampleShieldEnv [] ["260", "0", "accepted", "c-fail"] (some []) []).map
        (fun r => (r.1, r.2.2.2)) = some (none, []) ∧
    (sampleShieldEnv.unmarshalContent "c-huge").map (fun c => c.ShieldingUTXO)
      = some [("tx1", 18446744073709551615), ("tx2", 2)] ∧
    (ProcessInsts sampleShieldEnv [] ["260", "0", "accepted", "c-huge"] (some []) []).map
        (fun r => r.2.2.2)
      = some [([98, 116, 99], { CountUpAmt := 1, DeductAmt := 0, TokenID := [98, 116, 99],
                                ExternalTokenID := [], IsCentralized := false })] :=
  ⟨by decide, by decide, by decide, by decide, by decide, by decide, by decide⟩


end Incognito
